import Mathlib

/-!
# MIME header tokenizer of rspamd (`src/libmime/mime_headers.c`)

A shallow embedding of the header tokenizer `rspamd_mime_headers_process`, of the
special-field recogniser `rspamd_mime_header_check_special`, of the table insertion
`rspamd_mime_header_add`, of the encoded-word decoder `rspamd_mime_header_decode` and of
the `Received:` trace parser `rspamd_smtp_received_parse`.

Conventions of the embedding.

* A byte is a natural number below 256 and a buffer is a list of bytes.  A C pointer into
  the input buffer is the offset from its start.  A C string is the list of its bytes
  before the terminating NUL.
* Collaborators whose code is not part of `mime_headers.c` (charset conversion, RFC 2047
  token grammar, base64 / quoted-printable payload decoders, address parsers) are fields
  of the record `Env`.  The collaborators of the trace parser (address and date parsers,
  host name characters) are the fields of the record `received_env`, which `Env` holds.
* An assertion that fails aborts the process: a function that can meet one returns an
  `Option`, `none` standing for the abort, and the tokenizer records it in `aborted`.
* The `while (p < end)` loops are iterated a fixed number of times that is proved to be
  enough for the loop to leave (`hdr_loop_exits`, `decode_loop_exits`, `part_loop_exits`).
-/

namespace Rspamd

/-- A buffer of bytes. -/
abbrev Bytes := List Nat

/-- The bytes of an ASCII string literal. -/
def ascii (s : String) : Bytes := s.toList.map Char.toNat

/-! ## Character classes (glib) -/

/-- The glib predicate `g_ascii_isalpha`: an ASCII letter. -/
def g_ascii_isalpha (c : Nat) : Bool := (65 ≤ c && c ≤ 90) || (97 ≤ c && c ≤ 122)

/-- The glib predicate `g_ascii_isspace`: space, TAB, LF, FF or CR.  The vertical tab
(byte 11) is no white space for glib. -/
def g_ascii_isspace (c : Nat) : Bool := c == 32 || c == 9 || c == 10 || c == 12 || c == 13

/-- The glib predicate `g_ascii_isgraph`: a printing ASCII byte other than space. -/
def g_ascii_isgraph (c : Nat) : Bool := 33 ≤ c && c ≤ 126

/-- The glib function `g_ascii_tolower`. -/
def g_ascii_tolower (c : Nat) : Nat := if 65 ≤ c && c ≤ 90 then c + 32 else c

/-- Read of the byte at offset `i`; the byte just past the buffer reads as the NUL that
terminates the C buffer. -/
def peek (inp : Bytes) (i : Nat) : Nat := inp.getD i 0

/-- The bytes `[c, p)` of the buffer. -/
def slice (inp : Bytes) (c p : Nat) : Bytes := (inp.drop c).take (p - c)

/-- Modelled from the spec: `rspamd_null_safe_copy` is not part of the sources given; it
copies the source bytes into a NUL-terminated destination, so the C string obtained holds
the source bytes other than NUL (section 4.2, NUL bytes are elided). -/
def rspamd_null_safe_copy (src : Bytes) : Bytes := src.filter (fun b => b != 0)

/-! ## Data model -/

/-- Modelled from the spec: the enumeration of header type bits is declared in the absent
`mime_headers.h`; the bits are distinct single bits (section 3, type-mask). -/
def RSPAMD_HEADER_RECEIVED : Nat := 1

/-- Type bit of `To`. -/
def RSPAMD_HEADER_TO : Nat := 4

/-- Type bit of `Cc`. -/
def RSPAMD_HEADER_CC : Nat := 8

/-- Type bit of `Bcc`. -/
def RSPAMD_HEADER_BCC : Nat := 16

/-- Type bit of `From`. -/
def RSPAMD_HEADER_FROM : Nat := 32

/-- Type bit of `Message-ID`. -/
def RSPAMD_HEADER_MESSAGE_ID : Nat := 64

/-- Type bit of `Subject`. -/
def RSPAMD_HEADER_SUBJECT : Nat := 128

/-- Type bit of `Return-Path`. -/
def RSPAMD_HEADER_RETURN_PATH : Nat := 256

/-- Type bit of `Delivered-To`. -/
def RSPAMD_HEADER_DELIVERED_TO : Nat := 512

/-- Type bit of a sender field. -/
def RSPAMD_HEADER_SENDER : Nat := 1024

/-- Type bit of a recipient field. -/
def RSPAMD_HEADER_RCPT : Nat := 2048

/-- Type bit of a field that RFC 5322 allows once. -/
def RSPAMD_HEADER_UNIQUE : Nat := 4096

/-- Modelled from the spec: the task flag bits are declared in the absent `task.h`; two
distinct single bits (section 6, task flags). -/
def RSPAMD_TASK_FLAG_BROKEN_HEADERS : Nat := 524288

/-- Task flag raised when the decoder met invalid UTF-8. -/
def RSPAMD_TASK_FLAG_BAD_UNICODE : Nat := 1073741824

/-- Modelled from the spec: the newline styles are declared in the absent `task.h`, in
the order CR, LF, CRLF (section 4.2, dominant newline style). -/
def RSPAMD_TASK_NEWLINES_CR : Nat := 0

/-- Index of the LF counter. -/
def RSPAMD_TASK_NEWLINES_LF : Nat := 1

/-- Index of the CRLF counter. -/
def RSPAMD_TASK_NEWLINES_CRLF : Nat := 2

/-- The C structure `rspamd_mime_header`.  `raw_value` is the offset of the first byte of
the header in the input; a `separator` that was never assigned is `none`. -/
structure rspamd_mime_header where
  name : Bytes := []
  value : Bytes := []
  raw_value : Nat := 0
  raw_len : Nat := 0
  tab_separated : Bool := false
  empty_separator : Bool := false
  separator : Option Bytes := none
  decoded : Bytes := []
  type : Nat := 0
  order : Nat := 0
deriving DecidableEq, Repr

/-- The C structure `received_header` (section 3, ReceivedHeader); `hdr` is the order
index of the header it points back to. -/
structure received_header where
  hdr : Nat := 0
  type : Nat := 0
  flags : Nat := 0
  real_ip : Option Bytes := none
  from_ip : Option Bytes := none
  addr : Option Bytes := none
  real_hostname : Option Bytes := none
  from_hostname : Option Bytes := none
  by_hostname : Option Bytes := none
  for_mbox : Option Bytes := none
  timestamp : Int := 0
deriving DecidableEq, Repr

/-- The fields of the C structure `rspamd_task` that the header layer writes.
`headers_hash` holds the bytes absorbed by the hashing primitive, `none` until the
finalizer has run. -/
structure rspamd_task where
  flags : Nat := 0
  subject : Option Bytes := none
  message_id : Option Bytes := none
  deliver_to : Option Bytes := none
  from_envelope : Option Bytes := none
  rcpt_mime : List Bytes := []
  from_mime : List Bytes := []
  received : List received_header := []
  nlines_type : Nat := 0
  headers_hash : Option Bytes := none
deriving DecidableEq, Repr

/-- The encodings of an RFC 2047 token. -/
inductive rfc2047_encoding where
  | RSPAMD_RFC2047_QP
  | RSPAMD_RFC2047_BASE64
deriving DecidableEq, Repr

/-- The collaborators of the trace parser whose code lies outside `mime_headers.c`.

* `parse_inet_address t`: `rspamd_parse_inet_address_pool` on the text `t`, the address
  value or `none` for `NULL`.
* `inet_address_to_string a`: `rspamd_inet_address_to_string`.
* `url_is_domain c`: the character class `rspamd_url_is_domain`.
* `parse_smtp_date t`: `rspamd_parse_smtp_date`. -/
structure received_env where
  parse_inet_address : Bytes → Option Bytes
  inet_address_to_string : Bytes → Bytes
  url_is_domain : Nat → Bool
  parse_smtp_date : Bytes → Int

/-- The collaborators of the header layer whose code lies outside `mime_headers.c`.

* `rfc2047_parse s`: the token grammar applied to the candidate `=?...?=`; on success the
  encoding, the charset name and the payload bytes.
* `decode_qp2047`, `base64_decode`: the payload decoders, `none` on a decoding failure.
* `detect_charset`, `to_utf8_byte_array`: charset detection and conversion to UTF-8.
* `received`: the collaborators of the `Received:` trace parser.
* `email_address_from_mime d l`, `email_address_from_smtp d`: the address parsers. -/
structure Env where
  rfc2047_parse : Bytes → Option (rfc2047_encoding × Bytes × Bytes)
  decode_qp2047 : Bytes → Option Bytes
  base64_decode : Bytes → Option Bytes
  detect_charset : Bytes → Option Bytes
  to_utf8_byte_array : Bytes → Option Bytes → Option Bytes
  received : received_env
  email_address_from_mime : Bytes → List Bytes → List Bytes
  email_address_from_smtp : Bytes → Option Bytes

/-! ## Name index -/

/-- The lower-cased form of a name. -/
def lc_name (s : Bytes) : Bytes := s.map g_ascii_tolower

/-- Modelled from the spec: the key equality of the name index, `rspamd_strcase_equal`,
is chosen by the caller that creates the table and is not part of the sources given;
names are compared without regard to letter case (section 4.2, edge cases). -/
def rspamd_strcase_equal (a b : Bytes) : Bool := lc_name a == lc_name b

/-- The name index `GHashTable *target`: its keys, each with the array of the headers
stored under it. -/
abbrev HeaderTable := List (Bytes × List rspamd_mime_header)

/-- The glib function `g_hash_table_lookup` under the key equality
`rspamd_strcase_equal`. -/
def g_hash_table_lookup : HeaderTable → Bytes → Option (List rspamd_mime_header)
  | [], _ => none
  | (k, ar) :: rest, name =>
    if rspamd_strcase_equal k name then some ar else g_hash_table_lookup rest name

/-- The array found under a name receives one more header (`g_ptr_array_add` on the
array returned by the lookup). -/
def table_append : HeaderTable → Bytes → rspamd_mime_header → HeaderTable
  | [], _, _ => []
  | (k, ar) :: rest, name, rh =>
    if rspamd_strcase_equal k name then (k, ar ++ [rh]) :: rest
    else (k, ar) :: table_append rest name rh

/-! ## The `Received:` trace parser -/

/-- The glib predicate `g_ascii_isxdigit`: a hexadecimal digit. -/
def g_ascii_isxdigit (c : Nat) : Bool :=
  (48 ≤ c && c ≤ 57) || (65 ≤ c && c ≤ 70) || (97 ≤ c && c ≤ 102)

/-- Modelled from the spec: the table `lc_map` is not part of the sources given; it is the
constant mapping that sends an ASCII capital to its small letter and any other byte to
itself (section 9, global lowercase-map table). -/
def lc_map (c : Nat) : Nat := g_ascii_tolower c

/-- Modelled from the spec: `rspamd_str_lc` is not part of the sources given; it lower-cases
the bytes in place through `lc_map` (section 4.4, step 2). -/
def rspamd_str_lc (s : Bytes) : Bytes := s.map lc_map

/-- Modelled from the spec: `rspamd_string_len_strip` is not part of the sources given; it
strips the bytes of the given set from both ends (section 4.4, step 2: stripped of
leading and trailing space and TAB). -/
def rspamd_string_len_strip (s : Bytes) (chars : Bytes) : Bytes :=
  ((s.dropWhile (fun b => chars.contains b)).reverse.dropWhile (fun b => chars.contains b)).reverse

/-- The enumeration `rspamd_received_part_type`. -/
inductive rspamd_received_part_type where
  | RSPAMD_RECEIVED_PART_FROM
  | RSPAMD_RECEIVED_PART_BY
  | RSPAMD_RECEIVED_PART_FOR
  | RSPAMD_RECEIVED_PART_WITH
  | RSPAMD_RECEIVED_PART_UNKNOWN
deriving DecidableEq, Repr

/-- The C structure `rspamd_received_part`.  `data` is `none` while the pointer is `NULL`
and `dlen` is the length of the bytes it holds; `comments` is the chain of the comments in
the order in which they were met, so `head_comment` is its first and `tail_comment` its last
element, each comment being the bytes of its `data`. -/
structure rspamd_received_part where
  type : rspamd_received_part_type
  data : Option Bytes := none
  comments : List Bytes := []
deriving DecidableEq, Repr

/-- The field `dlen` of a part. -/
def rspamd_received_part.dlen (part : rspamd_received_part) : Nat := (part.data.getD []).length

/-- The function `rspamd_smtp_received_part_set_or_append` on the bytes `[begin, begin +
len)`: nothing for no bytes; bytes added to a destination are lower-cased; the first bytes
of a destination are lower-cased and stripped of spaces and TABs at both ends. -/
def rspamd_smtp_received_part_set_or_append (src : Bytes) (dest : Option Bytes) : Option Bytes :=
  if src.length = 0 then dest
  else
    match dest with
    | some d => some (d ++ rspamd_str_lc src)
    | none => some (rspamd_string_len_strip (rspamd_str_lc src) [32, 9])

/-- The states of `rspamd_smtp_received_process_part`. -/
inductive part_state where
  | skip_spaces
  | in_comment
  | read_data
  | read_tcpinfo
  | all_done
deriving DecidableEq, Repr

/-- The local variables of `rspamd_smtp_received_process_part`; offsets count from the
first byte given to the function; `last` is `some` once the function has returned from state
`all_done` with that value of `*last`. -/
structure part_vars where
  npart : rspamd_received_part
  p : Nat := 0
  c : Nat := 0
  obraces : Nat := 0
  ebraces : Nat := 0
  seen_tcpinfo : Bool := false
  state : part_state := part_state.skip_spaces
  next_state : part_state := part_state.read_data
  last : Option Nat := none
deriving DecidableEq, Repr

/-- The data of the part after `rspamd_smtp_received_part_set_or_append` was called on the
bytes `[c, e)` under the guards `p > c` and `type != RSPAMD_RECEIVED_PART_UNKNOWN`. -/
def part_add_data (data : Bytes) (type : rspamd_received_part_type) (s : part_vars) (e : Nat) :
    rspamd_received_part :=
  if e > s.c ∧ type ≠ rspamd_received_part_type.RSPAMD_RECEIVED_PART_UNKNOWN then
    { s.npart with data := rspamd_smtp_received_part_set_or_append (slice data s.c e) s.npart.data }
  else s.npart

/-- One pass through the body of the `while (p < end)` loop of
`rspamd_smtp_received_process_part`: the `switch (state)`. -/
def part_step (data : Bytes) (type : rspamd_received_part_type) (s : part_vars) : part_vars :=
  let b := peek data s.p
  match s.state with
  | part_state.skip_spaces =>
    if !g_ascii_isspace b then { s with c := s.p, state := s.next_state }
    else { s with p := s.p + 1 }
  | part_state.in_comment =>
    if b = 40 then { s with obraces := s.obraces + 1, p := s.p + 1 }
    else if b = 41 then
      if s.ebraces + 1 ≥ s.obraces then
        let npart1 :=
          if type ≠ rspamd_received_part_type.RSPAMD_RECEIVED_PART_UNKNOWN ∧ s.p > s.c then
            match rspamd_smtp_received_part_set_or_append (slice data s.c s.p) none with
            | some d => { s.npart with comments := s.npart.comments ++ [d] }
            | none => s.npart
          else s.npart
        { s with ebraces := s.ebraces + 1, npart := npart1, p := s.p + 1, c := s.p + 1,
                 state := part_state.skip_spaces, next_state := part_state.read_data }
      else { s with ebraces := s.ebraces + 1, p := s.p + 1 }
    else { s with p := s.p + 1 }
  | part_state.read_data =>
    if b = 40 then
      { s with npart := part_add_data data type s s.p, state := part_state.in_comment,
               obraces := 1, ebraces := 0, p := s.p + 1, c := s.p + 1 }
    else if g_ascii_isspace b then
      { s with npart := part_add_data data type s s.p, state := part_state.skip_spaces,
               next_state := part_state.read_data, c := s.p }
    else if b = 59 then
      { s with npart := part_add_data data type s s.p, state := part_state.all_done }
    else if s.npart.dlen > 0 then
      if !s.seen_tcpinfo ∧ type = rspamd_received_part_type.RSPAMD_RECEIVED_PART_FROM then
        if peek data s.c = 91 then { s with state := part_state.read_tcpinfo, p := s.p + 1 }
        else { s with state := part_state.all_done }
      else { s with state := part_state.all_done }
    else { s with p := s.p + 1 }
  | part_state.read_tcpinfo =>
    if b = 93 then
      { s with npart := { s.npart with
                 data := rspamd_smtp_received_part_set_or_append (slice data s.c (s.p + 1))
                   s.npart.data },
               seen_tcpinfo := true, state := part_state.skip_spaces,
               next_state := part_state.read_data, c := s.p, p := s.p + 1 }
    else { s with p := s.p + 1 }
  | part_state.all_done => { s with last := some s.p }

/-- The loop `while (p < end)` of `rspamd_smtp_received_process_part`, run for at most
`fuel` passes; it stops as well once the function has returned from state `all_done`. -/
def part_loop (data : Bytes) (type : rspamd_received_part_type) : Nat → part_vars → part_vars
  | 0, s => s
  | fuel + 1, s =>
    if s.p < data.length ∧ s.last = none then part_loop data type fuel (part_step data type s)
    else s

/-- The function `rspamd_smtp_received_process_part` on the bytes given to it: the part
and the value of `*last`, `none` for the result `NULL`.  At most three passes in a row leave
`p` in place, so three passes per byte and three more are enough. -/
def rspamd_smtp_received_process_part (data : Bytes) (type : rspamd_received_part_type) :
    Option (rspamd_received_part × Nat) :=
  let s := part_loop data type (3 * data.length + 3) { npart := { type := type } }
  match s.last with
  | some l => some (s.npart, l)
  | none =>
    match s.state with
    | part_state.read_data =>
      if s.p > s.c then some (part_add_data data type s s.p, s.p) else none
    | part_state.skip_spaces => some (s.npart, s.p)
    | _ => none

/-- The outcomes of `rspamd_smtp_received_spill`: the list of the parts with the offset
`date_pos` (`none` while it keeps the value -1 given by the caller), the result `NULL`, or
the failure of an assertion `g_assert (pos != 0)`, which aborts the process. -/
inductive spill_outcome where
  | head (parts : List rspamd_received_part) (date_pos : Option Nat)
  | null
  | assert_failed
deriving DecidableEq, Repr

/-- The loop `while (p < end)` of `rspamd_smtp_received_spill`, run for at most `fuel`
passes (every pass that goes on moves `p` forward, the assertion seeing to it). -/
def spill_loop (data : Bytes) : Nat → Nat → Nat → List rspamd_received_part → spill_outcome
  | 0, _, _, head => spill_outcome.head head none
  | fuel + 1, p, len, head =>
    if p < data.length then
      if peek data p = 59 then spill_outcome.head head (some (p + 1))
      else if len > 5 ∧ lc_map (peek data p) = 119 ∧ lc_map (peek data (p + 1)) = 105
          ∧ lc_map (peek data (p + 2)) = 116 ∧ lc_map (peek data (p + 3)) = 104 then
        match rspamd_smtp_received_process_part (data.drop (p + 4))
            rspamd_received_part_type.RSPAMD_RECEIVED_PART_WITH with
        | none => spill_outcome.null
        | some (cur_part, pos) =>
          if pos = 0 then spill_outcome.assert_failed
          else spill_loop data fuel (p + 4 + pos) (data.length - (p + 4 + pos)) (head ++ [cur_part])
      else if len > 4 ∧ lc_map (peek data p) = 102 ∧ lc_map (peek data (p + 1)) = 111
          ∧ lc_map (peek data (p + 2)) = 114 then
        match rspamd_smtp_received_process_part (data.drop (p + 3))
            rspamd_received_part_type.RSPAMD_RECEIVED_PART_FOR with
        | none => spill_outcome.null
        | some (cur_part, pos) =>
          if pos = 0 then spill_outcome.assert_failed
          else spill_loop data fuel (p + 3 + pos) (data.length - (p + 3 + pos)) (head ++ [cur_part])
      else
        let q := p + ((data.drop p).takeWhile
          (fun b => !(g_ascii_isspace b || b == 40 || b == 59))).length
        if q = data.length then spill_outcome.null
        else if peek data q = 59 then spill_outcome.head head (some (q + 1))
        else
          match rspamd_smtp_received_process_part (data.drop q)
              rspamd_received_part_type.RSPAMD_RECEIVED_PART_UNKNOWN with
          | none => spill_outcome.null
          | some (cur_part, pos) =>
            if pos = 0 then spill_outcome.assert_failed
            else spill_loop data fuel (q + pos) (data.length - (q + pos)) (head ++ [cur_part])
    else spill_outcome.head head none

/-- The function `rspamd_smtp_received_spill`. -/
def rspamd_smtp_received_spill (data : Bytes) : spill_outcome :=
  let p := (data.takeWhile g_ascii_isspace).length
  let len := data.length - p
  if len ≤ 4 ∨ (lc_map (peek data p) ≠ 102 ∧ lc_map (peek data (p + 1)) ≠ 114
      ∧ lc_map (peek data (p + 2)) ≠ 111 ∧ lc_map (peek data (p + 3)) ≠ 109) then
    spill_outcome.null
  else
    match rspamd_smtp_received_process_part (data.drop (p + 4))
        rspamd_received_part_type.RSPAMD_RECEIVED_PART_FROM with
    | none => spill_outcome.null
    | some (from_part, pos) =>
      if pos = 0 then spill_outcome.assert_failed
      else
        let p1 := p + 4 + pos
        let len1 := data.length - p1
        if len1 > 2 ∧ lc_map (peek data p1) = 98 ∧ lc_map (peek data (p1 + 1)) = 121 then
          match rspamd_smtp_received_process_part (data.drop (p1 + 2))
              rspamd_received_part_type.RSPAMD_RECEIVED_PART_BY with
          | none => spill_outcome.null
          | some (by_part, pos2) =>
            if pos2 = 0 then spill_outcome.assert_failed
            else
              spill_loop data (data.length + 1) (p1 + 2 + pos2) (data.length - (p1 + 2 + pos2))
                [from_part, by_part]
        else spill_loop data (data.length + 1) p1 len1 [from_part]

/-- Modelled from the spec: the enumeration of the transport types is declared in the
absent `mime_headers.h`; distinct values, the first of which is the value of a zeroed
structure (section 3, ReceivedHeader). -/
def RSPAMD_RECEIVED_SMTP : Nat := 0

/-- Transport type ESMTP. -/
def RSPAMD_RECEIVED_ESMTP : Nat := 1

/-- Transport type ESMTPA. -/
def RSPAMD_RECEIVED_ESMTPA : Nat := 2

/-- Transport type ESMTPS. -/
def RSPAMD_RECEIVED_ESMTPS : Nat := 3

/-- Transport type ESMTPSA. -/
def RSPAMD_RECEIVED_ESMTPSA : Nat := 4

/-- Transport type LMTP. -/
def RSPAMD_RECEIVED_LMTP : Nat := 5

/-- Transport type IMAP. -/
def RSPAMD_RECEIVED_IMAP : Nat := 6

/-- Transport type LOCAL. -/
def RSPAMD_RECEIVED_LOCAL : Nat := 7

/-- Transport type HTTP. -/
def RSPAMD_RECEIVED_HTTP : Nat := 8

/-- Transport type UNKNOWN. -/
def RSPAMD_RECEIVED_UNKNOWN : Nat := 10

/-- Modelled from the spec: the flag bits of a ReceivedHeader are declared in the absent
`mime_headers.h`; two distinct single bits (section 3, flags). -/
def RSPAMD_RECEIVED_FLAG_SSL : Nat := 2

/-- Flag bit of an authenticated hop. -/
def RSPAMD_RECEIVED_FLAG_AUTHENTICATED : Nat := 4

/-- The function `rspamd_smtp_received_process_rdns` on the bytes `[begin, begin + len)`:
the host name written to `*pdest` when the function returns `TRUE` (the C string that
`rspamd_strlcpy` makes of the first `hlen` bytes), `none` when it returns `FALSE`. -/
def rspamd_smtp_received_process_rdns (renv : received_env) (data : Bytes) : Option Bytes :=
  let host := data.takeWhile (fun b => !g_ascii_isspace b && renv.url_is_domain b)
  let hlen := host.length
  let seen_dot := host.contains 46
  let b := peek data hlen
  if hlen > 0 then
    if hlen = data.length then some (host.takeWhile (fun x => x != 0))
    else if seen_dot ∧ (g_ascii_isspace b ∨ b = 91 ∨ b = 40) then
      some (host.takeWhile (fun x => x != 0))
    else none
  else none

/-- The three assignments made once an address was parsed. -/
def received_set_addr (renv : received_env) (rh : received_header) (addr : Bytes) :
    received_header :=
  { rh with addr := some addr, real_ip := some (renv.inet_address_to_string addr),
            from_ip := some (renv.inet_address_to_string addr) }

/-- The offset of the first occurrence of a byte, the result of `memchr`. -/
def memchr (data : Bytes) (b : Nat) : Option Nat :=
  if data.contains b then some (data.takeWhile (fun x => x != b)).length else none

/-- The function `rspamd_smtp_received_process_host_tcpinfo` on bytes of length above 0:
the structure afterwards and the value returned. -/
def rspamd_smtp_received_process_host_tcpinfo (renv : received_env) (rh : received_header)
    (data : Bytes) : received_header × Bool :=
  if peek data 0 = 91 then
    match memchr data 93 with
    | some brace_pos =>
      match renv.parse_inet_address (slice data 1 brace_pos) with
      | some addr => (received_set_addr renv rh addr, false)
      | none => (rh, false)
    | none => (rh, false)
  else
    let first := if g_ascii_isxdigit (peek data 0) then renv.parse_inet_address data else none
    match first with
    | some addr => (received_set_addr renv rh addr, false)
    | none =>
      match memchr data 91 with
      | some obrace_pos =>
        match memchr (data.drop obrace_pos) 93 with
        | some off =>
          match renv.parse_inet_address (slice data (obrace_pos + 1) (obrace_pos + off)) with
          | some addr =>
            match rspamd_smtp_received_process_rdns renv (data.take obrace_pos) with
            | some h => ({ received_set_addr renv rh addr with real_hostname := some h }, true)
            | none => (received_set_addr renv rh addr, false)
          | none => (rh, false)
        | none => (rh, false)
      | none =>
        match rspamd_smtp_received_process_rdns renv data with
        | some h => ({ rh with real_hostname := some h }, true)
        | none => (rh, false)

/-- The function `rspamd_smtp_received_process_from`. -/
def rspamd_smtp_received_process_from (renv : received_env) (rpart : rspamd_received_part)
    (rh : received_header) : received_header :=
  let head_comment := rpart.comments.head?.getD []
  if rpart.dlen > 0 then
    let data := rpart.data.getD []
    let rh1 :=
      if head_comment.length > 0 then
        (rspamd_smtp_received_process_host_tcpinfo renv rh head_comment).1
      else rh
    let r2 : received_header × Bool :=
      if rh1.real_ip = none then
        if peek data 0 = 91 then
          match memchr data 93 with
          | some brace_pos =>
            match renv.parse_inet_address (slice data 1 brace_pos) with
            | some addr => (received_set_addr renv rh1 addr, true)
            | none => (rh1, false)
          | none => (rh1, false)
        else if g_ascii_isxdigit (peek data 0) then
          match renv.parse_inet_address data with
          | some addr => (received_set_addr renv rh1 addr, true)
          | none => (rh1, false)
        else (rh1, false)
      else (rh1, false)
    if !r2.2 then
      if r2.1.real_ip ≠ none then
        match rspamd_smtp_received_process_rdns renv data with
        | some h => { r2.1 with from_hostname := some h }
        | none => r2.1
      else (rspamd_smtp_received_process_host_tcpinfo renv r2.1 data).1
    else r2.1
  else
    if head_comment.length > 0 then
      (rspamd_smtp_received_process_host_tcpinfo renv rh head_comment).1
    else rh

/-- The `RSPAMD_RECEIVED_PART_WITH` case of `rspamd_smtp_received_parse` on the token `t1`
of the part. -/
def received_with (rh : received_header) (t1 : Bytes) : received_header :=
  if t1.length > 0 then
    let rh1 := if t1 = ascii "smtp" then { rh with type := RSPAMD_RECEIVED_SMTP } else rh
    if (ascii "esmtp").isPrefixOf t1 ∧ t1.length = 6 then
      if peek t1 5 = 97 then
        { rh1 with type := RSPAMD_RECEIVED_ESMTPA,
                   flags := rh1.flags ||| RSPAMD_RECEIVED_FLAG_AUTHENTICATED }
      else if peek t1 5 = 115 then
        { rh1 with type := RSPAMD_RECEIVED_ESMTPS, flags := rh1.flags ||| RSPAMD_RECEIVED_FLAG_SSL }
      else rh1
    else if (ascii "esmtp").isPrefixOf t1 ∧ t1.length = 7 then
      if peek t1 5 = 115 ∧ peek t1 6 = 97 then
        { rh1 with type := RSPAMD_RECEIVED_ESMTPSA,
                   flags := (rh1.flags ||| RSPAMD_RECEIVED_FLAG_AUTHENTICATED)
                     ||| RSPAMD_RECEIVED_FLAG_SSL }
      else rh1
    else if (ascii "esmtp").isPrefixOf t1 ∧ t1.length = 5 then
      { rh1 with type := RSPAMD_RECEIVED_ESMTP }
    else if t1 = ascii "lmtp" then { rh1 with type := RSPAMD_RECEIVED_LMTP }
    else if t1 = ascii "imap" then { rh1 with type := RSPAMD_RECEIVED_IMAP }
    else if t1 = ascii "local" then { rh1 with type := RSPAMD_RECEIVED_LOCAL }
    else if (ascii "http").isPrefixOf t1 then
      if t1.length = 5 then
        if peek t1 4 = 115 then
          { rh1 with type := RSPAMD_RECEIVED_HTTP, flags := rh1.flags ||| RSPAMD_RECEIVED_FLAG_SSL }
        else rh1
      else if t1.length = 4 then { rh1 with type := RSPAMD_RECEIVED_HTTP }
      else rh1
    else rh1
  else rh

/-- The body of the loop `DL_FOREACH (head, cur)` of `rspamd_smtp_received_parse`. -/
def received_part_effect (renv : received_env) (rh : received_header)
    (cur : rspamd_received_part) : received_header :=
  match cur.type with
  | rspamd_received_part_type.RSPAMD_RECEIVED_PART_FROM =>
    rspamd_smtp_received_process_from renv cur rh
  | rspamd_received_part_type.RSPAMD_RECEIVED_PART_BY =>
    match rspamd_smtp_received_process_rdns renv (cur.data.getD []) with
    | some h => { rh with by_hostname := some h }
    | none => rh
  | rspamd_received_part_type.RSPAMD_RECEIVED_PART_WITH => received_with rh (cur.data.getD [])
  | _ => rh

/-- The function `rspamd_smtp_received_parse`: the value returned and the structure
afterwards; `none` when an assertion of `rspamd_smtp_received_spill` aborts the process. -/
def rspamd_smtp_received_parse (renv : received_env) (data : Bytes) (rh : received_header) :
    Option (Int × received_header) :=
  match rspamd_smtp_received_spill data with
  | spill_outcome.assert_failed => none
  | spill_outcome.null => some (-1, rh)
  | spill_outcome.head parts date_pos =>
    let rh1 := parts.foldl (received_part_effect renv) { rh with type := RSPAMD_RECEIVED_UNKNOWN }
    let rh2 := if rh1.real_ip ≠ none ∧ rh1.from_ip = none then { rh1 with from_ip := rh1.real_ip }
               else rh1
    let rh3 :=
      if rh2.real_hostname ≠ none ∧ rh2.from_hostname = none then
        { rh2 with from_hostname := rh2.real_hostname }
      else rh2
    let rh4 :=
      match date_pos with
      | some d =>
        if d > 0 ∧ d < data.length then { rh3 with timestamp := renv.parse_smtp_date (data.drop d) }
        else rh3
      | none => rh3
    some (0, rh4)

/-! ## Special-field recogniser -/

/-- Modelled from the spec: `rspamd_icase_hash` is not part of the sources given.  The
dispatch is by a case-insensitive hash of the name (section 4.3); each of the fifteen
names written next to the constants of the source is sent to its constant and, the hash
being taken free of collisions (section 9), every other name to a value that is none of
them. -/
def rspamd_icase_hash (name : Bytes) : Nat :=
  let n := lc_name name
  if n == ascii "received" then 0x88705DC4D9D61AB
  else if n == ascii "to" then 0x76F31A09F4352521
  else if n == ascii "cc" then 0x7EB117C1480B76
  else if n == ascii "bcc" then 0xE4923E11C4989C8D
  else if n == ascii "from" then 0x41E1985EDC1CBDE4
  else if n == ascii "message-id" then 0x43A558FC7C240226
  else if n == ascii "subject" then 0xB91D3910358E8212
  else if n == ascii "return-path" then 0xEE4AA2EAAC61D6F4
  else if n == ascii "delivered-to" then 0xB9EEFAD2E93C2161
  else if n == ascii "date" then 0x2EC3BFF3C393FC10
  else if n == ascii "sender" then 0xAC0DDB1A1D214CA
  else if n == ascii "in-reply-to" then 0x54094572367AB695
  else if n == ascii "content-type" then 0x81CD9E9131AB6A9A
  else if n == ascii "content-transfer-encoding" then 0xC39BD9A75AA25B60
  else if n == ascii "references" then 0xB3F6704CB3AD6589
  else 0

/-- The copy loop of the `message-id` case: a graphic byte is kept, any other byte becomes
a question mark. -/
def message_id_copy (s : Bytes) : Bytes :=
  s.map (fun b => if g_ascii_isgraph b then b else 63)

/-- The `message-id` case of `rspamd_mime_header_check_special`: `p` skips one leading
`<`; when bytes remain, `end` gives up one trailing `>` and the bytes between are copied
into the identifier; when none remain the task keeps its identifier. -/
def message_id_of (decoded : Bytes) : Option Bytes :=
  let p := if peek decoded 0 == 60 then 1 else 0
  let e := decoded.length
  if e > p then
    let e1 := if peek decoded (e - 1) == 62 then e - 1 else e
    some (message_id_copy (slice decoded p e1))
  else none

/-- The function `rspamd_mime_header_check_special`: the task and the header after the
switch over the hash of the name; `none` when the trace parser called in the `received`
case meets an assertion that fails, which aborts the process. -/
def rspamd_mime_header_check_special (env : Env) (task : rspamd_task)
    (rh : rspamd_mime_header) : Option (rspamd_task × rspamd_mime_header) :=
  let h := rspamd_icase_hash rh.name
  if h = 0x88705DC4D9D61AB then
    let recv : received_header := { hdr := rh.order }
    match rspamd_smtp_received_parse env.received rh.decoded recv with
    | none => none
    | some (ret, recv1) =>
      let task1 :=
        if ret ≠ -1 then { task with received := task.received ++ [recv1] } else task
      some (task1, { rh with type := RSPAMD_HEADER_RECEIVED })
  else if h = 0x76F31A09F4352521 then
    some ({ task with rcpt_mime := env.email_address_from_mime rh.decoded task.rcpt_mime },
      { rh with type := RSPAMD_HEADER_TO ||| RSPAMD_HEADER_RCPT ||| RSPAMD_HEADER_UNIQUE })
  else if h = 0x7EB117C1480B76 then
    some ({ task with rcpt_mime := env.email_address_from_mime rh.decoded task.rcpt_mime },
      { rh with type := RSPAMD_HEADER_CC ||| RSPAMD_HEADER_RCPT ||| RSPAMD_HEADER_UNIQUE })
  else if h = 0xE4923E11C4989C8D then
    some ({ task with rcpt_mime := env.email_address_from_mime rh.decoded task.rcpt_mime },
      { rh with type := RSPAMD_HEADER_BCC ||| RSPAMD_HEADER_RCPT ||| RSPAMD_HEADER_UNIQUE })
  else if h = 0x41E1985EDC1CBDE4 then
    some ({ task with from_mime := env.email_address_from_mime rh.decoded task.from_mime },
      { rh with type := RSPAMD_HEADER_FROM ||| RSPAMD_HEADER_SENDER ||| RSPAMD_HEADER_UNIQUE })
  else if h = 0x43A558FC7C240226 then
    let task1 :=
      match message_id_of rh.decoded with
      | some id => { task with message_id := some id }
      | none => task
    some (task1, { rh with type := RSPAMD_HEADER_MESSAGE_ID ||| RSPAMD_HEADER_UNIQUE })
  else if h = 0xB91D3910358E8212 then
    let task1 :=
      if task.subject = none then { task with subject := some rh.decoded } else task
    some (task1, { rh with type := RSPAMD_HEADER_SUBJECT ||| RSPAMD_HEADER_UNIQUE })
  else if h = 0xEE4AA2EAAC61D6F4 then
    let task1 :=
      if task.from_envelope = none then
        { task with from_envelope := env.email_address_from_smtp rh.decoded }
      else task
    some (task1, { rh with type := RSPAMD_HEADER_RETURN_PATH ||| RSPAMD_HEADER_UNIQUE })
  else if h = 0xB9EEFAD2E93C2161 then
    let task1 :=
      if task.deliver_to = none then { task with deliver_to := some rh.decoded } else task
    some (task1, { rh with type := RSPAMD_HEADER_DELIVERED_TO })
  else if h = 0x2EC3BFF3C393FC10 ∨ h = 0xAC0DDB1A1D214CA ∨ h = 0x54094572367AB695
      ∨ h = 0x81CD9E9131AB6A9A ∨ h = 0xC39BD9A75AA25B60 ∨ h = 0xB3F6704CB3AD6589 then
    some (task, { rh with type := RSPAMD_HEADER_UNIQUE })
  else some (task, rh)

/-- The function `rspamd_mime_header_add`; `none` when the recogniser aborts the process.
The two views hold the same object by reference, so the type-mask that the recogniser
writes after the insertion is the one seen through both; the header is therefore stored
with the mask already written. -/
def rspamd_mime_header_add (env : Env) (task : rspamd_task) (target : HeaderTable)
    (order : List rspamd_mime_header) (rh : rspamd_mime_header) (check_special : Bool) :
    Option (rspamd_task × HeaderTable × List rspamd_mime_header) :=
  match (if check_special then rspamd_mime_header_check_special env task rh
         else some (task, rh)) with
  | none => none
  | some r =>
    let target1 :=
      match g_hash_table_lookup target rh.name with
      | some _ => table_append target rh.name r.2
      | none => target ++ [(rh.name, [r.2])]
    some (r.1, target1, order ++ [r.2])

/-! ## UTF-8 -/

/-- A UTF-8 trail byte. -/
def u8_trail (b : Nat) : Bool := 128 ≤ b && b ≤ 191

/-- The ICU macro `U8_NEXT (s, i, length, c)` read at offset `p` of a buffer that ends with
the list, for a lead byte that is not a single: the code point and the number of bytes
read when a well-formed sequence starts there (no overlong form, no surrogate, at most
U+10FFFF, every byte inside the buffer), `none` when the macro yields a negative code
point. -/
def U8_NEXT (s : Bytes) (p : Nat) : Option (Nat × Nat) :=
  let b0 := peek s p
  let b1 := peek s (p + 1)
  let b2 := peek s (p + 2)
  let b3 := peek s (p + 3)
  if 194 ≤ b0 && b0 ≤ 223 then
    if p + 1 < s.length && u8_trail b1 then some ((b0 - 192) * 64 + (b1 - 128), 2) else none
  else if 224 ≤ b0 && b0 ≤ 239 then
    if p + 2 < s.length && u8_trail b1 && u8_trail b2
        && (b0 != 224 || 160 ≤ b1) && (b0 != 237 || b1 ≤ 159) then
      some ((b0 - 224) * 4096 + (b1 - 128) * 64 + (b2 - 128), 3)
    else none
  else if 240 ≤ b0 && b0 ≤ 244 then
    if p + 3 < s.length && u8_trail b1 && u8_trail b2 && u8_trail b3
        && (b0 != 240 || 144 ≤ b1) && (b0 != 244 || b1 ≤ 143) then
      some ((b0 - 240) * 262144 + (b1 - 128) * 4096 + (b2 - 128) * 64 + (b3 - 128), 4)
    else none
  else none

/-- Scan of `rspamd_mime_charset_utf_enforce`; `skip` counts the trail bytes of the
sequence being kept. -/
def utf_enforce_scan : Nat → Bytes → Bytes
  | _, [] => []
  | skip + 1, b :: rest => b :: utf_enforce_scan skip rest
  | 0, b :: rest =>
    if b < 128 then b :: utf_enforce_scan 0 rest
    else
      match U8_NEXT (b :: rest) 0 with
      | some (_, off) => b :: utf_enforce_scan (off - 1) rest
      | none => 63 :: utf_enforce_scan 0 rest

/-- Modelled from the spec: `rspamd_mime_charset_utf_enforce` is not part of the sources
given; it enforces UTF-8 validity on the string in place (section 4.2, state 4): the bytes
of well-formed sequences are kept and every other byte is overwritten by a question
mark, the length being kept. -/
def rspamd_mime_charset_utf_enforce (s : Bytes) : Bytes := utf_enforce_scan 0 s

/-! ## Encoded-word decoder -/

/-- Modelled from the spec: `rspamd_ftok_casecmp` is not part of the sources given; it
compares two tokens without regard to letter case (section 4.1, charset handling); `true`
stands for the result 0. -/
def rspamd_ftok_casecmp_eq (a b : Bytes) : Bool := lc_name a == lc_name b

/-- The function `rspamd_mime_header_maybe_save_token`: the output string, the pending
token and the old charset afterwards; `none` when `g_assert_not_reached` aborts. -/
def rspamd_mime_header_maybe_save_token (env : Env) (out token old_charset new_charset : Bytes) :
    Option (Bytes × Bytes × Bytes) :=
  if new_charset.length = 0 then none
  else if old_charset.length > 0 && rspamd_ftok_casecmp_eq new_charset old_charset
      && !(rspamd_ftok_casecmp_eq new_charset (ascii "iso-2022-jp")) then
    some (out, token, old_charset)
  else
    let out1 :=
      match env.to_utf8_byte_array token (env.detect_charset new_charset) with
      | some d => out ++ d
      | none => out
    some (out1, [], new_charset)

/-- The function `rspamd_mime_header_sanity_check`. -/
def rspamd_mime_header_sanity_check (str : Bytes) : Bytes :=
  str.map (fun t =>
    if !(t ≥ 128 || g_ascii_isgraph t) then
      (if g_ascii_isspace t then 32 else 63)
    else t)

/-- State `parse_normal` of the decoder. -/
def parse_normal : Nat := 0

/-- State `got_eqsign` of the decoder. -/
def got_eqsign : Nat := 1

/-- State `got_encoded_start` of the decoder. -/
def got_encoded_start : Nat := 2

/-- State `got_more_qmark` of the decoder. -/
def got_more_qmark : Nat := 3

/-- State `skip_spaces` of the decoder. -/
def skip_spaces : Nat := 4

/-- The local variables of `rspamd_mime_header_decode`; a charset of length 0 is the
empty list; `aborted` records that `g_assert_not_reached` was met. -/
structure decode_state where
  c : Nat := 0
  p : Nat := 0
  out : Bytes := []
  token : Bytes := []
  cur_charset : Bytes := []
  old_charset : Bytes := []
  qmarks : Nat := 0
  state : Nat := 0
  invalid_utf : Bool := false
  aborted : Bool := false
deriving DecidableEq, Repr

/-- The call of `rspamd_mime_header_maybe_save_token` on the variables of the decoder. -/
def decode_save (env : Env) (s : decode_state) (old_charset : Bytes) : decode_state :=
  match rspamd_mime_header_maybe_save_token env s.out s.token old_charset s.cur_charset with
  | some (out, token, old) => { s with out := out, token := token, old_charset := old }
  | none => { s with old_charset := old_charset, aborted := true }

/-- State `parse_normal` of the decoder: bytes are left to be copied later; `=` may open
an encoded word; a byte above 0x7F is checked as UTF-8. -/
def decode_parse_normal (inp : Bytes) (s : decode_state) : decode_state :=
  let b := peek inp s.p
  if b = 61 then
    { s with out := s.out ++ slice inp s.c s.p, c := s.p, state := got_eqsign, p := s.p + 1 }
  else if b ≥ 128 then
    match U8_NEXT inp s.p with
    | none =>
      { s with out := s.out ++ slice inp s.c s.p ++ [239, 191, 189], c := s.p + 1,
               invalid_utf := true, p := s.p + 1 }
    | some (_, off) =>
      { s with out := s.out ++ slice inp s.c s.p, c := s.p, p := s.p + off }
  else { s with p := s.p + 1 }

/-- State `got_eqsign` of the decoder. -/
def decode_got_eqsign (inp : Bytes) (s : decode_state) : decode_state :=
  if peek inp s.p = 63 then { s with state := got_encoded_start, qmarks := 0, p := s.p + 1 }
  else
    { s with out := s.out ++ slice inp s.c (s.c + 2), c := s.p + 1, state := parse_normal,
             p := s.p + 1 }

/-- State `got_encoded_start` of the decoder. -/
def decode_got_encoded_start (inp : Bytes) (s : decode_state) : decode_state :=
  if peek inp s.p = 63 then
    { s with state := got_more_qmark, qmarks := s.qmarks + 1, p := s.p + 1 }
  else { s with p := s.p + 1 }

/-- State `got_more_qmark` of the decoder: at `?=` after three question marks the
candidate `[c, p]` is given to the token grammar. -/
def decode_got_more_qmark (env : Env) (inp : Bytes) (s : decode_state) : decode_state :=
  if peek inp s.p = 61 then
    if s.qmarks < 3 then { s with state := got_encoded_start, p := s.p + 1 }
    else
      let c1 := if peek inp s.c = 34 then s.c + 1 else s.c
      match env.rfc2047_parse (slice inp c1 (s.p + 1)) with
      | some (encoding, charset, tok) =>
        let s1 := { s with c := c1, cur_charset := charset }
        let s2 :=
          if s1.token.length > 0 then
            decode_save env s1 (if s1.old_charset.length = 0 then charset else s1.old_charset)
          else s1
        let payload :=
          match encoding with
          | rfc2047_encoding.RSPAMD_RFC2047_QP => env.decode_qp2047 tok
          | rfc2047_encoding.RSPAMD_RFC2047_BASE64 => env.base64_decode tok
        { s2 with qmarks := 0, token := s2.token ++ payload.getD [], c := s.p + 1,
                  state := skip_spaces, p := s.p + 1 }
      | none =>
        let s1 := { s with c := c1, old_charset := [] }
        let s2 := if s1.token.length > 0 then decode_save env s1 [] else s1
        { s2 with out := s2.out ++ slice inp c1 s.p, c := s.p, state := parse_normal,
                  p := s.p + 1 }
  else { s with state := got_encoded_start, p := s.p + 1 }

/-- State `skip_spaces` of the decoder. -/
def decode_skip_spaces (env : Env) (inp : Bytes) (s : decode_state) : decode_state :=
  let b := peek inp s.p
  if g_ascii_isspace b then { s with p := s.p + 1 }
  else if b = 61 && s.p + 1 < inp.length && peek inp (s.p + 1) = 63 then
    { s with c := s.p, p := s.p + 2, state := got_encoded_start }
  else
    let s1 := if s.token.length > 0 then decode_save env s [] else s
    { s1 with out := s1.out ++ slice inp s.c s.p, c := s.p, state := parse_normal }

/-- One pass through the body of the `while (p < end)` loop of
`rspamd_mime_header_decode`: the `switch (state)`. -/
def decode_step (env : Env) (inp : Bytes) (s : decode_state) : decode_state :=
  if s.state = parse_normal then decode_parse_normal inp s
  else if s.state = got_eqsign then decode_got_eqsign inp s
  else if s.state = got_encoded_start then decode_got_encoded_start inp s
  else if s.state = got_more_qmark then decode_got_more_qmark env inp s
  else if s.state = skip_spaces then decode_skip_spaces env inp s
  else s

/-- The loop `while (p < end)` of `rspamd_mime_header_decode`, run for at most `fuel`
passes; it stops as well when the assertion aborted the process. -/
def decode_loop (env : Env) (inp : Bytes) : Nat → decode_state → decode_state
  | 0, s => s
  | fuel + 1, s =>
    if s.p < inp.length ∧ s.aborted = false then decode_loop env inp fuel (decode_step env inp s)
    else s

/-- The leftover switch that follows the loop of `rspamd_mime_header_decode`. -/
def decode_leftover (env : Env) (inp : Bytes) (s : decode_state) : decode_state :=
  if s.state = skip_spaces then
    if s.token.length > 0 && s.cur_charset.length > 0 then decode_save env s [] else s
  else if s.p > s.c then { s with out := s.out ++ slice inp s.c s.p }
  else s

/-- The function `rspamd_mime_header_decode`: the decoded string and the flag
`invalid_utf`; `none` when `g_assert_not_reached` aborts the process.  Every pass of the
loop but the last one of state `skip_spaces` moves `p` forward, so twice the length of the
input and two more passes are enough. -/
def rspamd_mime_header_decode (env : Env) (inp : Bytes) : Option (Bytes × Bool) :=
  let s := decode_loop env inp (2 * inp.length + 2) {}
  if s.aborted then none
  else
    let s1 := decode_leftover env inp s
    if s1.aborted then none
    else some (rspamd_mime_header_sanity_check s1.out, s1.invalid_utf)

/-! ## Header tokenizer -/

/-- The local variables of `rspamd_mime_headers_process` together with the task, the name
index and the global queue it writes.  `nh` is the header under construction (the zeroed
structure while the C pointer is `NULL`: it is read in the states 2 to 5 only, which are
entered after state 1 allocated it).  `aborted` records that an assertion aborted the
process: `g_assert_not_reached` of the decoder or `g_assert (pos != 0)` of the trace
parser. -/
structure hdr_state where
  task : rspamd_task := {}
  target : HeaderTable := []
  order : List rspamd_mime_header := []
  nh : rspamd_mime_header := {}
  p : Nat := 0
  c : Nat := 0
  state : Nat := 0
  next_state : Nat := 100
  err_state : Nat := 100
  valid_folding : Bool := false
  nlines_count : List Nat := [0, 0, 0]
  norder : Nat := 0
  aborted : Bool := false
deriving DecidableEq, Repr

/-- The increment `nlines_count[i] ++`. -/
def nlines_incr (counts : List Nat) (i : Nat) : List Nat := counts.set i (counts.getD i 0 + 1)

/-- The newline accounting of the states 2 and 3 at a CR or LF byte. -/
def count_newline (inp : Bytes) (check_newlines : Bool) (s : hdr_state) : List Nat :=
  if check_newlines then
    if peek inp s.p = 10 then nlines_incr s.nlines_count RSPAMD_TASK_NEWLINES_LF
    else if peek inp (s.p + 1) = 10 then nlines_incr s.nlines_count RSPAMD_TASK_NEWLINES_CRLF
    else nlines_incr s.nlines_count RSPAMD_TASK_NEWLINES_CR
  else s.nlines_count

/-- The copy loop of state 4 over the raw value, started in `t_state`: outside a folding
(0) a CR or LF is written as one space and opens a folding, inside a folding (1) white
space is skipped; a NUL byte is never copied. -/
def value_copy : Nat → Bytes → Bytes
  | _, [] => []
  | 0, b :: rest =>
    if b = 10 ∨ b = 13 then 32 :: value_copy 1 rest
    else if b ≠ 0 then b :: value_copy 0 rest
    else value_copy 0 rest
  | t + 1, b :: rest =>
    if g_ascii_isspace b then value_copy (t + 1) rest
    else if b ≠ 0 then b :: value_copy 0 rest
    else value_copy 0 rest

/-- The test `*(tp - 1) == ' '` of state 4: one final space is given up.  On an empty copy
the C code reads the byte before the buffer; that byte is taken not to be a space. -/
def strip_last_space (t : Bytes) : Bytes := if t.getLast? = some 32 then t.dropLast else t

/-- The loop `while (*tmp != 0 && g_ascii_isspace (*tmp)) tmp ++` of state 4. -/
def strip_initial_spaces (t : Bytes) : Bytes := t.dropWhile g_ascii_isspace

/-- The value that state 4 builds from the raw bytes `[c, p)`. -/
def header_value (raw : Bytes) : Bytes := strip_initial_spaces (strip_last_space (value_copy 0 raw))

/-- The emission shared by the states 4 and 5: the order index is assigned, the header is
inserted by `rspamd_mime_header_add`, `nh` becomes `NULL` and the state 0; when the
insertion aborts the process, nothing but that is recorded. -/
def hdr_emit (env : Env) (check_newlines : Bool) (s : hdr_state) (nh : rspamd_mime_header) :
    hdr_state :=
  match rspamd_mime_header_add env s.task s.target s.order { nh with order := s.norder }
      check_newlines with
  | none => { s with aborted := true }
  | some r =>
    { s with task := r.1, target := r.2.1, order := r.2.2, nh := {}, norder := s.norder + 1,
             state := 0 }

/-- State 0 of the tokenizer, begin of a line: a letter opens a name, any other byte sends
the line to the skipping state. -/
def hdr_case_0 (inp : Bytes) (s : hdr_state) : hdr_state :=
  if !g_ascii_isalpha (peek inp s.p) then { s with state := 100, next_state := 0 }
  else { s with state := 1, c := s.p }

/-- State 1 of the tokenizer, inside a name. -/
def hdr_case_1 (inp : Bytes) (s : hdr_state) : hdr_state :=
  let b := peek inp s.p
  if b = 58 then
    { s with nh := { name := rspamd_null_safe_copy (slice inp s.c s.p), empty_separator := true,
                     raw_value := s.c, raw_len := s.p - s.c },
             p := s.p + 1, state := 2, c := s.p + 1 }
  else if g_ascii_isspace b then
    { s with task := { s.task with flags := s.task.flags ||| RSPAMD_TASK_FLAG_BROKEN_HEADERS },
             state := 100, next_state := 0 }
  else { s with p := s.p + 1 }

/-- State 2 of the tokenizer, past the colon. -/
def hdr_case_2 (inp : Bytes) (check_newlines : Bool) (s : hdr_state) : hdr_state :=
  let b := peek inp s.p
  if b = 9 then
    { s with nh := { s.nh with tab_separated := true, empty_separator := false }, p := s.p + 1 }
  else if b = 32 then
    { s with nh := { s.nh with empty_separator := false }, p := s.p + 1 }
  else if b = 10 ∨ b = 13 then
    { s with nlines_count := count_newline inp check_newlines s, state := 99,
             nh := if s.p - s.c > 0 then
                     { s.nh with separator := some (rspamd_null_safe_copy (slice inp s.c s.p)) }
                   else s.nh,
             next_state := 3, err_state := 5, c := s.p }
  else
    { s with nh := { s.nh with separator := some (rspamd_null_safe_copy (slice inp s.c s.p)) },
             c := s.p, state := 3 }

/-- State 3 of the tokenizer, inside a value. -/
def hdr_case_3 (inp : Bytes) (check_newlines : Bool) (s : hdr_state) : hdr_state :=
  let b := peek inp s.p
  if b = 13 ∨ b = 10 then
    { s with nlines_count := count_newline inp check_newlines s, state := 99, next_state := 3,
             err_state := 4 }
  else if s.p + 1 = inp.length then { s with state := 4 }
  else { s with p := s.p + 1 }

/-- State 4 of the tokenizer: the value is copied, decoded and the header emitted. -/
def hdr_case_4 (env : Env) (inp : Bytes) (check_newlines : Bool) (s : hdr_state) : hdr_state :=
  let tmp := header_value (slice inp s.c s.p)
  let nh1 := { s.nh with raw_len := if s.p + 1 = inp.length then inp.length - s.nh.raw_value
                                    else s.p - s.nh.raw_value,
                         value := tmp }
  match rspamd_mime_header_decode env tmp with
  | none => { s with c := s.c + (s.p - s.c), nh := nh1, aborted := true }
  | some (decoded, broken_utf) =>
    let task1 :=
      if broken_utf then
        { s.task with flags := s.task.flags ||| RSPAMD_TASK_FLAG_BAD_UNICODE }
      else s.task
    hdr_emit env check_newlines { s with c := s.c + (s.p - s.c), task := task1 }
      { nh1 with decoded := rspamd_mime_charset_utf_enforce decoded }

/-- State 5 of the tokenizer: a header that has a name and no value is emitted. -/
def hdr_case_5 (env : Env) (check_newlines : Bool) (s : hdr_state) : hdr_state :=
  hdr_emit env check_newlines s
    { s.nh with value := [], decoded := [], raw_len := s.p - s.nh.raw_value }

/-- State 99 of the tokenizer, folding. -/
def hdr_case_99 (inp : Bytes) (s : hdr_state) : hdr_state :=
  let b := peek inp s.p
  if s.p + 1 = inp.length then { s with state := s.err_state }
  else if b = 13 ∨ b = 10 then { s with p := s.p + 1, valid_folding := false }
  else if b = 9 ∨ b = 32 then { s with p := s.p + 1, valid_folding := true }
  else if s.valid_folding then { s with state := s.next_state }
  else { s with state := s.err_state }

/-- State 100 of the tokenizer: the line is skipped. -/
def hdr_case_100 (inp : Bytes) (s : hdr_state) : hdr_state :=
  let b := peek inp s.p
  if b = 13 then
    if peek inp (s.p + 1) = 10 then
      { s with nlines_count := nlines_incr s.nlines_count RSPAMD_TASK_NEWLINES_CRLF,
               p := s.p + 2, state := s.next_state }
    else { s with p := s.p + 1, state := s.next_state }
  else if b = 10 then
    { s with nlines_count := nlines_incr s.nlines_count RSPAMD_TASK_NEWLINES_LF,
             p := if peek inp (s.p + 1) = 13 then s.p + 2 else s.p + 1,
             state := s.next_state }
  else if s.p + 1 = inp.length then { s with state := s.next_state, p := s.p + 1 }
  else { s with p := s.p + 1 }

/-- One pass through the body of the `while (p < end)` loop of
`rspamd_mime_headers_process`: the `switch (state)`, which has no default case. -/
def hdr_step (env : Env) (inp : Bytes) (check_newlines : Bool) (s : hdr_state) : hdr_state :=
  if s.state = 0 then hdr_case_0 inp s
  else if s.state = 1 then hdr_case_1 inp s
  else if s.state = 2 then hdr_case_2 inp check_newlines s
  else if s.state = 3 then hdr_case_3 inp check_newlines s
  else if s.state = 4 then hdr_case_4 env inp check_newlines s
  else if s.state = 5 then hdr_case_5 env check_newlines s
  else if s.state = 99 then hdr_case_99 inp s
  else if s.state = 100 then hdr_case_100 inp s
  else s

/-- The loop `while (p < end)` of `rspamd_mime_headers_process`, run for at most `fuel`
passes; it stops as well when an assertion aborted the process. -/
def hdr_loop (env : Env) (inp : Bytes) (check_newlines : Bool) : Nat → hdr_state → hdr_state
  | 0, s => s
  | fuel + 1, s =>
    if s.p < inp.length ∧ s.aborted = false then
      hdr_loop env inp check_newlines fuel (hdr_step env inp check_newlines s)
    else s

/-- The selection loop over `nlines_count`: the first index whose counter is strictly
above the ones before it, 0 when every counter is 0. -/
def nlines_select (counts : List Nat) : Nat :=
  ([0, 1, 2].foldl
    (fun (acc : Nat × Nat) i => if counts.getD i 0 > acc.1 then (counts.getD i 0, i) else acc)
    (0, 0)).2

/-- The bytes absorbed by the hashing primitive: the name of every header of the queue
whose type is not `RSPAMD_HEADER_RECEIVED`, in the order of the queue. -/
def headers_hash_input (order : List rspamd_mime_header) : Bytes :=
  (order.filter (fun nh => nh.type != RSPAMD_HEADER_RECEIVED)).flatMap (fun nh => nh.name)

/-- The block `if (check_newlines)` that follows the loop. -/
def hdr_finish (check_newlines : Bool) (s : hdr_state) : hdr_state :=
  if check_newlines then
    { s with task := { s.task with nlines_type := nlines_select s.nlines_count,
                                   headers_hash := some (headers_hash_input s.order) } }
  else s

/-- The number of passes given to the loop of the tokenizer: at most seven passes in a
row leave `p` in place (see `hdr_loop_exits`). -/
def hdr_fuel (inp : Bytes) : Nat := 8 * inp.length + 8

/-- The state in which `rspamd_mime_headers_process` enters its loop. -/
def hdr_init (task : rspamd_task) (target : HeaderTable) (order : List rspamd_mime_header) :
    hdr_state :=
  { task := task, target := target, order := order }

/-- The function `rspamd_mime_headers_process`, run on a task, a name index and a global
queue: the state in which the function returns, whose fields `task`, `target` and `order`
are the three objects it wrote; the function does not return when `aborted` is set. -/
def rspamd_mime_headers_process (env : Env) (task : rspamd_task) (target : HeaderTable)
    (order : List rspamd_mime_header) (inp : Bytes) (check_newlines : Bool) : hdr_state :=
  let s := hdr_loop env inp check_newlines (hdr_fuel inp) (hdr_init task target order)
  if s.aborted then s else hdr_finish check_newlines s

/-- A sample of the collaborators of the trace parser for closed examples: an address is
a dotted quad of digits and is printed back as it was written, a host name character is a
letter, a digit, `-` or `.`, and no date is understood. -/
def sample_received_env : received_env where
  parse_inet_address := fun t =>
    if t ≠ [] ∧ t.all (fun b => (48 ≤ b && b ≤ 57) || b == 46)
        ∧ (t.filter (fun b => b == 46)).length = 3 then some t else none
  inet_address_to_string := fun a => a
  url_is_domain := fun c => g_ascii_isalpha c || (48 ≤ c && c ≤ 57) || c == 45 || c == 46
  parse_smtp_date := fun _ => 0

/-- An environment for closed examples: no candidate is an encoded word, no charset is
known, the trace parser works with the sample collaborators and an address list is the
list of the raw values met. -/
def plain_env : Env where
  rfc2047_parse := fun _ => none
  decode_qp2047 := fun _ => none
  base64_decode := fun _ => none
  detect_charset := fun _ => none
  to_utf8_byte_array := fun _ _ => none
  received := sample_received_env
  email_address_from_mime := fun d l => l ++ [d]
  email_address_from_smtp := fun d => some d

/-! ## The loop of the tokenizer leaves -/

/-- The states of the tokenizer and what the folding and skipping states expect of the
saved states: the folding state goes on to state 3 or falls back to state 4 or 5, the
skipping state goes on to state 0. -/
def hdr_inv (s : hdr_state) : Prop :=
  (s.state = 0 ∨ s.state = 1 ∨ s.state = 2 ∨ s.state = 3 ∨ s.state = 4 ∨ s.state = 5
    ∨ s.state = 99 ∨ s.state = 100)
  ∧ (s.state = 99 → s.next_state = 3 ∧ (s.err_state = 4 ∨ s.err_state = 5))
  ∧ (s.state = 100 → s.next_state = 0)

/-- The number of passes a state can still make without moving `p`. -/
def hdr_rank (inp : Bytes) (s : hdr_state) : Nat :=
  if s.state = 0 then 2
  else if s.state = 1 then 1
  else if s.state = 2 then 7
  else if s.state = 3 then 5
  else if s.state = 4 then 3
  else if s.state = 5 then 3
  else if s.state = 99 then
    (if s.p + 1 = inp.length ∨ peek inp s.p = 13 ∨ peek inp s.p = 10 ∨ peek inp s.p = 9
        ∨ peek inp s.p = 32 then 4 else 6)
  else 0

/-- The measure that every pass of the loop lowers. -/
def hdr_measure (inp : Bytes) (s : hdr_state) : Nat := 8 * (inp.length - s.p) + hdr_rank inp s

/-- A state in which the loop of the tokenizer has left. -/
def hdr_done (inp : Bytes) (s : hdr_state) : Prop := inp.length ≤ s.p ∨ s.aborted = true

/-- The state `t` is met by the loop started in `s`. -/
def hdr_reach (env : Env) (inp : Bytes) (cn : Bool) (s t : hdr_state) : Prop :=
  ∃ n, hdr_loop env inp cn n s = t

/-! ## What a pass of the loop does to the task, the name index and the queue -/

/-- The header that `rspamd_mime_header_add` stores when it returns: the header given, with
the type-mask written by the recogniser. -/
def stored_header (env : Env) (task : rspamd_task) (rh : rspamd_mime_header) (cs : Bool) :
    rspamd_mime_header :=
  match (if cs then rspamd_mime_header_check_special env task rh else some (task, rh)) with
  | some r => r.2
  | none => rh

/-- The order indices of the queue are the positions and the order counter is the length
of the queue. -/
def order_inv (s : hdr_state) : Prop :=
  s.order.map (fun h => h.order) = List.range s.order.length ∧ s.norder = s.order.length

/-! ## The two views of the header table -/

/-- The sum of the lengths of the per-name sequences. -/
def table_size (t : HeaderTable) : Nat := (t.map (fun e => e.2.length)).sum

/-- The per-name view is the global view filtered by the name, a name that has no header
has no entry, and the two views hold the same number of headers. -/
def table_inv (target : HeaderTable) (order : List rspamd_mime_header) : Prop :=
  (∀ name, g_hash_table_lookup target name
      = if order.filter (fun h => rspamd_strcase_equal h.name name) = [] then none
        else some (order.filter (fun h => rspamd_strcase_equal h.name name)))
  ∧ table_size target = order.length

/-! ## Subject and Message-ID -/

/-- The task names as its subject the decoded value of the first header of the queue
whose name is `subject` in any letter case. -/
def subject_inv (s : hdr_state) : Prop :=
  s.task.subject
    = (s.order.find? (fun h => lc_name h.name == ascii "subject")).map (fun h => h.decoded)

/-- The first header of a queue whose name is `subject` in any letter case. -/
def first_subject (order : List rspamd_mime_header) : Option rspamd_mime_header :=
  order.find? (fun h => lc_name h.name == ascii "subject")

/-! ## The identifier taken from a Message-ID header -/

/-- The value without one leading `<`, when it has one. -/
def strip_leading_lt : Bytes → Bytes
  | 60 :: r => r
  | d => d

/-- The value without one trailing `>`, when it has one. -/
def strip_trailing_gt (d : Bytes) : Bytes := if d.getLast? = some 62 then d.dropLast else d

/-- The identifier as the specification words it: one leading `<` and one trailing `>` are
stripped and every byte that is no graphic ASCII character (0x21 to 0x7E) is replaced by a
question mark; nothing is stored when nothing follows the leading `<`. -/
def message_id_spec (d : Bytes) : Option Bytes :=
  if strip_leading_lt d = [] then none
  else some ((strip_trailing_gt (strip_leading_lt d)).map
    (fun b => if 0x21 ≤ b ∧ b ≤ 0x7E then b else 63))

/-! ## The assertion of the trace parser -/

/-- A header with this name and this decoded value does not abort the process in
`rspamd_mime_header_add`: special fields are not recognised, the name is not `Received` in
any letter case, or no assertion of `rspamd_smtp_received_spill` fails on the value. -/
def received_safe (check_special : Bool) (name decoded : Bytes) : Bool :=
  !(check_special && lc_name name == ascii "received"
    && rspamd_smtp_received_spill decoded == spill_outcome.assert_failed)

/-! ## Shape of a header on the wire -/

/-- A header name on the wire: it starts with a letter and holds neither a colon nor a
white-space byte. -/
def wire_name (n : Bytes) : Bool :=
  match n with
  | [] => false
  | a :: _ => g_ascii_isalpha a && n.all (fun b => b != 58 && !g_ascii_isspace b)

/-- A line of a value: not empty, printable ASCII (0x20 to 0x7E) without `=`, neither
starting nor ending with a space. -/
def value_line (l : Bytes) : Bool :=
  l.all (fun b => 32 ≤ b && b ≤ 126 && b != 61) && l.head? != none && l.head? != some 32
    && l.getLast? != some 32

/-- A line break followed by blanks: a non-empty run of CR and LF bytes followed by a
non-empty run of spaces and tabs. -/
def fold_break (nl ws : Bytes) : Bool :=
  nl != [] && nl.all (fun b => b == 13 || b == 10) && ws != [] && ws.all (fun b => b == 32 || b == 9)

/-- The continuation lines of a folded value, each with the line break and the blanks
written before it: they are well formed. -/
def folds_ok (rest : List (Bytes × Bytes × Bytes)) : Bool :=
  rest.all (fun f => fold_break f.1 f.2.1 && value_line f.2.2)

/-- The wire form of a value: the first line, then every continuation line after its line
break and blanks. -/
def folded (l1 : Bytes) (rest : List (Bytes × Bytes × Bytes)) : Bytes :=
  l1 ++ rest.flatMap (fun f => f.1 ++ (f.2.1 ++ f.2.2))

/-- The unfolded value: the lines joined by one space each. -/
def unfolded (l1 : Bytes) (rest : List (Bytes × Bytes × Bytes)) : Bytes :=
  l1 ++ rest.flatMap (fun f => 32 :: f.2.2)

/-! ## From a run of the loop to the result of the function -/

/-- A run of CR and LF bytes that is not empty: a line break, possibly followed by empty
lines. -/
def newline_run (nl : Bytes) : Bool := nl != [] && nl.all (fun b => b == 13 || b == 10)

/-- The wire form of a block of unfolded lines `name: value`, each followed by its line
break. -/
def wire_block (lines : List (Bytes × Bytes × Bytes)) : Bytes :=
  lines.flatMap (fun l => l.1 ++ (58 :: 32 :: (l.2.1 ++ l.2.2)))

/-- Every line of the block has a name as on the wire, a value that is one well-formed
line and a line break that is a non-empty run of CR and LF. -/
def block_ok (lines : List (Bytes × Bytes × Bytes)) : Bool :=
  lines.all (fun l => wire_name l.1 && value_line l.2.1 && newline_run l.2.2)

/-- No line of the block aborts the process in the trace parser: every line is safe for
it, with the name as it is stored and the value as it is written. -/
def block_safe (check_special : Bool) (lines : List (Bytes × Bytes × Bytes)) : Bool :=
  lines.all (fun l => received_safe check_special (rspamd_null_safe_copy l.1) l.2.1)

/-- A line of garbage: not empty, its first byte no letter, no CR or LF in it. -/
def garbage_line (g : Bytes) : Bool :=
  match g with
  | [] => false
  | a :: _ => !g_ascii_isalpha a && g.all (fun b => b != 13 && b != 10)

/-- A line break: CR, LF or CRLF. -/
def line_break (nl : Bytes) : Bool := nl == [13] || nl == [10] || nl == [13, 10]

/-! ## The loop of the decoder leaves -/

/-- The measure that every pass of the loop of the decoder lowers: only state
`skip_spaces` can make a pass that leaves `p` in place, and it leaves the state then. -/
def decode_measure (inp : Bytes) (s : decode_state) : Nat :=
  2 * (inp.length - s.p) + (if s.state = skip_spaces then 1 else 0)

/-- The states of the decoder. -/
def decode_inv (s : decode_state) : Prop := s.state ≤ 4

/-! ## The type-mask of a header -/

/-- The type-mask that the table of recognised names gives to a name, read without regard
to letter case: `Received` is tagged RECEIVED alone, `To`, `Cc` and `Bcc` their own bit with
RCPT and UNIQUE, `From` FROM with SENDER and UNIQUE, `Message-ID`, `Subject` and
`Return-Path` their own bit with UNIQUE, `Delivered-To` DELIVERED_TO alone, `Date`,
`Sender`, `In-Reply-To`, `Content-Type`, `Content-Transfer-Encoding` and `References`
UNIQUE alone, and every other name nothing. -/
def special_type (name : Bytes) : Nat :=
  let n := lc_name name
  if n = ascii "received" then RSPAMD_HEADER_RECEIVED
  else if n = ascii "to" then RSPAMD_HEADER_TO ||| RSPAMD_HEADER_RCPT ||| RSPAMD_HEADER_UNIQUE
  else if n = ascii "cc" then RSPAMD_HEADER_CC ||| RSPAMD_HEADER_RCPT ||| RSPAMD_HEADER_UNIQUE
  else if n = ascii "bcc" then RSPAMD_HEADER_BCC ||| RSPAMD_HEADER_RCPT ||| RSPAMD_HEADER_UNIQUE
  else if n = ascii "from" then
    RSPAMD_HEADER_FROM ||| RSPAMD_HEADER_SENDER ||| RSPAMD_HEADER_UNIQUE
  else if n = ascii "message-id" then RSPAMD_HEADER_MESSAGE_ID ||| RSPAMD_HEADER_UNIQUE
  else if n = ascii "subject" then RSPAMD_HEADER_SUBJECT ||| RSPAMD_HEADER_UNIQUE
  else if n = ascii "return-path" then RSPAMD_HEADER_RETURN_PATH ||| RSPAMD_HEADER_UNIQUE
  else if n = ascii "delivered-to" then RSPAMD_HEADER_DELIVERED_TO
  else if n = ascii "date" ∨ n = ascii "sender" ∨ n = ascii "in-reply-to"
      ∨ n = ascii "content-type" ∨ n = ascii "content-transfer-encoding"
      ∨ n = ascii "references" then RSPAMD_HEADER_UNIQUE
  else 0

/-- The header under construction carries no type-mask and every header of the queue
carries the type-mask of its name. -/
def type_inv (s : hdr_state) : Prop :=
  s.nh.type = 0 ∧ ∀ h ∈ s.order, h.type = special_type h.name

/-- The type-mask written by the switch of the recogniser, as a function of the hash. -/
def hash_type (h : Nat) (old : Nat) : Nat :=
  if h = 0x88705DC4D9D61AB then RSPAMD_HEADER_RECEIVED
  else if h = 0x76F31A09F4352521 then
    RSPAMD_HEADER_TO ||| RSPAMD_HEADER_RCPT ||| RSPAMD_HEADER_UNIQUE
  else if h = 0x7EB117C1480B76 then
    RSPAMD_HEADER_CC ||| RSPAMD_HEADER_RCPT ||| RSPAMD_HEADER_UNIQUE
  else if h = 0xE4923E11C4989C8D then
    RSPAMD_HEADER_BCC ||| RSPAMD_HEADER_RCPT ||| RSPAMD_HEADER_UNIQUE
  else if h = 0x41E1985EDC1CBDE4 then
    RSPAMD_HEADER_FROM ||| RSPAMD_HEADER_SENDER ||| RSPAMD_HEADER_UNIQUE
  else if h = 0x43A558FC7C240226 then RSPAMD_HEADER_MESSAGE_ID ||| RSPAMD_HEADER_UNIQUE
  else if h = 0xB91D3910358E8212 then RSPAMD_HEADER_SUBJECT ||| RSPAMD_HEADER_UNIQUE
  else if h = 0xEE4AA2EAAC61D6F4 then RSPAMD_HEADER_RETURN_PATH ||| RSPAMD_HEADER_UNIQUE
  else if h = 0xB9EEFAD2E93C2161 then RSPAMD_HEADER_DELIVERED_TO
  else if h = 0x2EC3BFF3C393FC10 ∨ h = 0xAC0DDB1A1D214CA ∨ h = 0x54094572367AB695
      ∨ h = 0x81CD9E9131AB6A9A ∨ h = 0xC39BD9A75AA25B60 ∨ h = 0xB3F6704CB3AD6589 then
    RSPAMD_HEADER_UNIQUE
  else old

/-! ## A sample environment with RFC 2047 tokens -/

/-- Modelled from the spec: `rspamd_rfc2047_parser` is not part of the sources given.  The
candidate `=?charset?enc?payload?=` is split at its question marks (section 4.1, token
closure): the charset is not empty, `enc` is `Q` or `B` in either letter case and the
payload holds no question mark. -/
def rspamd_rfc2047_parse (s : Bytes) : Option (rfc2047_encoding × Bytes × Bytes) :=
  if s.take 2 = [61, 63] ∧ s.drop (s.length - 2) = [63, 61] ∧ 4 ≤ s.length then
    let body := (s.drop 2).take (s.length - 4)
    let charset := body.takeWhile (fun b => b != 63)
    match body.drop charset.length with
    | 63 :: e :: 63 :: payload =>
      if charset = [] ∨ 63 ∈ payload then none
      else if e = 81 ∨ e = 113 then
        some (rfc2047_encoding.RSPAMD_RFC2047_QP, charset, payload)
      else if e = 66 ∨ e = 98 then
        some (rfc2047_encoding.RSPAMD_RFC2047_BASE64, charset, payload)
      else none
    | _ => none
  else none

/-- The value of a hexadecimal digit. -/
def hex_value (c : Nat) : Option Nat :=
  if 48 ≤ c ∧ c ≤ 57 then some (c - 48)
  else if 65 ≤ c ∧ c ≤ 70 then some (c - 55)
  else if 97 ≤ c ∧ c ≤ 102 then some (c - 87)
  else none

/-- Modelled from the spec: `rspamd_decode_qp2047_buf` is not part of the sources given.
Quoted-printable for headers (section 4.1): an underscore is a space, `=HH` is the byte
with the hexadecimal value `HH`, any other byte is itself; a `=` that is not followed by
two hexadecimal digits makes the decoding fail. -/
def rspamd_decode_qp2047_buf : Bytes → Option Bytes
  | [] => some []
  | b :: rest =>
    if b = 61 then
      match rest with
      | h :: l :: rest2 =>
        match hex_value h, hex_value l, rspamd_decode_qp2047_buf rest2 with
        | some x, some y, some r => some ((16 * x + y) :: r)
        | _, _, _ => none
      | _ => none
    else
      match rspamd_decode_qp2047_buf rest with
      | some r => some ((if b = 95 then 32 else b) :: r)
      | none => none

/-- The value of a digit of the base64 alphabet. -/
def base64_value (c : Nat) : Option Nat :=
  if 65 ≤ c ∧ c ≤ 90 then some (c - 65)
  else if 97 ≤ c ∧ c ≤ 122 then some (c - 71)
  else if 48 ≤ c ∧ c ≤ 57 then some (c + 4)
  else if c = 43 then some 62
  else if c = 47 then some 63
  else none

/-- Modelled from the spec: `rspamd_cryptobox_base64_decode` is not part of the sources
given.  Base64 (section 4.1): four digits give three bytes, a last group may end with one or
two `=`; any other shape makes the decoding fail. -/
def rspamd_cryptobox_base64_decode : Bytes → Option Bytes
  | [] => some []
  | [a, b, c, d] =>
    match base64_value a, base64_value b with
    | some x, some y =>
      if c = 61 ∧ d = 61 then some [(x * 4 + y / 16) % 256]
      else
        match base64_value c with
        | some z =>
          if d = 61 then some [(x * 4 + y / 16) % 256, (y * 16 + z / 4) % 256]
          else
            match base64_value d with
            | some w => some [(x * 4 + y / 16) % 256, (y * 16 + z / 4) % 256, (z * 64 + w) % 256]
            | none => none
        | none => none
    | _, _ => none
  | a :: b :: c :: d :: rest =>
    match base64_value a, base64_value b, base64_value c, base64_value d,
      rspamd_cryptobox_base64_decode rest with
    | some x, some y, some z, some w, some r =>
      some ((x * 4 + y / 16) % 256 :: (y * 16 + z / 4) % 256 :: (z * 64 + w) % 256 :: r)
    | _, _, _, _, _ => none
  | _ => none

/-- The UTF-8 form of a code point of the basic plane above U+07FF. -/
def utf8_three (cp : Nat) : Bytes := [224 + cp / 4096, 128 + cp / 64 % 64, 128 + cp % 64]

/-- A sample conversion from ISO-8859-1: a byte is its own code point. -/
def latin1_to_utf8 (s : Bytes) : Bytes :=
  s.flatMap (fun b => if b < 128 then [b] else [192 + b / 64, 128 + b % 64])

/-- A sample conversion from ISO-2022-JP, restricted to ASCII and to the hiragana row of
JIS X 0208: `ESC $ B` enters the two-byte mode (`jis` true), `ESC ( B` leaves it; in the
two-byte mode the pair `0x24 x` is the hiragana U+3041 + (x - 0x21); anything else makes the
conversion fail. -/
def iso2022jp_to_utf8 : Nat → Bool → Bytes → Option Bytes
  | 0, _, _ => none
  | _, _, [] => some []
  | n + 1, jis, b :: rest =>
    if b = 27 then
      match rest with
      | 36 :: 66 :: rest2 => iso2022jp_to_utf8 n true rest2
      | 40 :: 66 :: rest2 => iso2022jp_to_utf8 n false rest2
      | _ => none
    else if jis then
      match rest with
      | x :: rest2 =>
        if b = 36 ∧ 33 ≤ x ∧ x ≤ 115 then
          (iso2022jp_to_utf8 n jis rest2).map (fun r => utf8_three (12353 + (x - 33)) ++ r)
        else none
      | [] => none
    else if b < 128 then (iso2022jp_to_utf8 n jis rest).map (fun r => b :: r)
    else none

/-- A sample environment for closed examples with encoded words: the token grammar and the
payload decoders above; the charsets `utf-8` (well-formed input is kept, other input makes
the conversion fail), `iso-8859-1` and `iso-2022-jp` (as far as the sample conversion goes),
named in any letter case; the trace parser works with the sample collaborators and an
address list is the list of the raw values met. -/
def sample_env : Env where
  rfc2047_parse := rspamd_rfc2047_parse
  decode_qp2047 := rspamd_decode_qp2047_buf
  base64_decode := rspamd_cryptobox_base64_decode
  detect_charset := fun c => some (lc_name c)
  to_utf8_byte_array := fun tok cs =>
    if cs = some (ascii "utf-8") then
      (if rspamd_mime_charset_utf_enforce tok = tok then some tok else none)
    else if cs = some (ascii "iso-8859-1") then some (latin1_to_utf8 tok)
    else if cs = some (ascii "iso-2022-jp") then iso2022jp_to_utf8 (tok.length + 1) false tok
    else none
  received := sample_received_env
  email_address_from_mime := fun d l => l ++ [d]
  email_address_from_smtp := fun d => some d

/-! ## Runs of the decoder over encoded words -/

/-- The state `t` is met by the loop of the decoder started in `s`. -/
def decode_reach (env : Env) (inp : Bytes) (s t : decode_state) : Prop :=
  ∃ n, decode_loop env inp n s = t

/-- A state in which the loop of the decoder has left. -/
def decode_done (inp : Bytes) (s : decode_state) : Prop := inp.length ≤ s.p ∨ s.aborted = true

/-- The bytes of the encoded word `=?charset?e?text?=`. -/
def encoded_word (cs : Bytes) (e : Nat) (txt : Bytes) : Bytes :=
  61 :: 63 :: (cs ++ (63 :: e :: 63 :: (txt ++ [63, 61])))

/-- The parts of an encoded word are well formed on the wire: the charset and the text are
not empty and hold no question mark, and the encoding letter is no question mark. -/
def word_ok (cs : Bytes) (e : Nat) (txt : Bytes) : Bool :=
  cs != [] && cs.all (fun b => b != 63) && e != 63 && txt != [] && txt.all (fun b => b != 63)

/-- The payload decoder chosen by the encoding of a token, as in state `got_more_qmark`. -/
def decode_payload (env : Env) (encoding : rfc2047_encoding) (tok : Bytes) : Option Bytes :=
  match encoding with
  | rfc2047_encoding.RSPAMD_RFC2047_QP => env.decode_qp2047 tok
  | rfc2047_encoding.RSPAMD_RFC2047_BASE64 => env.base64_decode tok

/-- The conversion of `rspamd_mime_header_maybe_save_token`: the buffer is converted to
UTF-8 from the charset that the detection gives for the charset name. -/
def transcode (env : Env) (token charset : Bytes) : Option Bytes :=
  env.to_utf8_byte_array token (env.detect_charset charset)

/-- The bytes that a flush of the pending buffer adds to the output: nothing for an empty
buffer, which is never flushed, and nothing when the conversion fails. -/
def flushed (env : Env) (token charset : Bytes) : Bytes :=
  if token = [] then [] else (transcode env token charset).getD []

/-- The output for two adjacent encoded words with the payloads `d1` and `d2`, the second
word naming the charset `ch`: one conversion of the joined payloads, or one conversion per
payload when the charset is `iso-2022-jp`. -/
def two_words_out (env : Env) (d1 d2 ch : Bytes) : Bytes :=
  if rspamd_ftok_casecmp_eq ch (ascii "iso-2022-jp") then flushed env d1 ch ++ flushed env d2 ch
  else flushed env (d1 ++ d2) ch

/-! ## The loop of the part reader leaves -/

/-- The number of passes a state of `rspamd_smtp_received_process_part` can still make
without moving `p`. -/
def part_rank (data : Bytes) (s : part_vars) : Nat :=
  match s.state with
  | part_state.skip_spaces => if g_ascii_isspace (peek data s.p) then 0 else 2
  | part_state.read_data => 1
  | _ => 0

/-- The measure that every pass of the loop of `rspamd_smtp_received_process_part`
lowers. -/
def part_measure (data : Bytes) (s : part_vars) : Nat := 3 * (data.length - s.p) + part_rank data s

/-! ## The host name extractor and the transport table -/

/-- The longest prefix of a span made of host name characters: bytes that are no white
space and that the domain-character predicate accepts. -/
def hostname_run (renv : received_env) (s : Bytes) : Bytes :=
  s.takeWhile (fun b => !g_ascii_isspace b && renv.url_is_domain b)

/-- The transport table of the specification, section 4.4: the type and the flags that a
lower-cased token of a `with` part selects; any other token leaves the type UNKNOWN and no
flag set. -/
def transport_table (t : Bytes) : Nat × Nat :=
  if t = ascii "smtp" then (RSPAMD_RECEIVED_SMTP, 0)
  else if t = ascii "esmtp" then (RSPAMD_RECEIVED_ESMTP, 0)
  else if t = ascii "esmtpa" then (RSPAMD_RECEIVED_ESMTPA, RSPAMD_RECEIVED_FLAG_AUTHENTICATED)
  else if t = ascii "esmtps" then (RSPAMD_RECEIVED_ESMTPS, RSPAMD_RECEIVED_FLAG_SSL)
  else if t = ascii "esmtpsa" then
    (RSPAMD_RECEIVED_ESMTPSA, RSPAMD_RECEIVED_FLAG_SSL ||| RSPAMD_RECEIVED_FLAG_AUTHENTICATED)
  else if t = ascii "lmtp" then (RSPAMD_RECEIVED_LMTP, 0)
  else if t = ascii "imap" then (RSPAMD_RECEIVED_IMAP, 0)
  else if t = ascii "http" then (RSPAMD_RECEIVED_HTTP, 0)
  else if t = ascii "https" then (RSPAMD_RECEIVED_HTTP, RSPAMD_RECEIVED_FLAG_SSL)
  else if t = ascii "local" then (RSPAMD_RECEIVED_LOCAL, 0)
  else (RSPAMD_RECEIVED_UNKNOWN, 0)

/-! ### The parts of a value hold lower-case bytes -/

/-- Every byte of a part's data is its own image under `lc_map`. -/
def lower_bytes (d : Option Bytes) : Prop := ∀ x, d = some x → ∀ b ∈ x, lc_map b = b

/-! ### Which fields the parts of a value write -/

/-- The three address fields of a structure agree: none of them is set, or `addr` holds an
address and both `real_ip` and `from_ip` hold its textual form. -/
def addr_consistent (renv : received_env) (rh : received_header) : Prop :=
  (rh.addr = none ∧ rh.real_ip = none ∧ rh.from_ip = none)
    ∨ ∃ a, rh.addr = some a ∧ rh.real_ip = some (renv.inet_address_to_string a)
        ∧ rh.from_ip = some (renv.inet_address_to_string a)

/-- What the `from` part of a value may change in a structure: neither the type nor the
flags, and the three address fields only together. -/
def from_writes (renv : received_env) (rh r : received_header) : Prop :=
  r.type = rh.type ∧ r.flags = rh.flags ∧ (addr_consistent renv rh → addr_consistent renv r)

/-! ## The raw byte ranges of the emitted headers -/

/-- The name of a header lies in the buffer at `raw_value`: the byte there is a letter,
the name is the copy of the bytes from there up to the first colon, none of which is white
space, and the colon lies before the offset `e`. -/
def name_at (inp : Bytes) (h : rspamd_mime_header) (e : Nat) : Prop :=
  g_ascii_isalpha (peek inp h.raw_value) = true
    ∧ ∃ k, h.name = rspamd_null_safe_copy (slice inp h.raw_value (h.raw_value + k))
        ∧ peek inp (h.raw_value + k) = 58
        ∧ (∀ j, j < k → peek inp (h.raw_value + j) ≠ 58
            ∧ g_ascii_isspace (peek inp (h.raw_value + j)) = false)
        ∧ h.raw_value + k < e

/-- The raw range of a header starts at its name, holds the colon and ends inside the
buffer. -/
def raw_ok (inp : Bytes) (h : rspamd_mime_header) : Prop :=
  name_at inp h (h.raw_value + h.raw_len) ∧ h.raw_value + h.raw_len ≤ inp.length

/-- Every raw range of the queue ends at or before the offset `x`. -/
def ends_le (order : List rspamd_mime_header) (x : Nat) : Prop :=
  ∀ h ∈ order, h.raw_value + h.raw_len ≤ x

/-- Every raw range of the queue ends at or before the start of the ranges behind it. -/
def raw_chain (order : List rspamd_mime_header) : Prop :=
  order.Pairwise (fun a b => a.raw_value + a.raw_len ≤ b.raw_value)

/-- Where the tokenizer stands relative to the raw ranges emitted so far: the loop has
left; or one byte is left after a header that was emitted with a range up to the end of the
input; or the ranges end before the current line, name or header. -/
def raw_mode (inp : Bytes) (s : hdr_state) : Prop :=
  inp.length ≤ s.p
  ∨ (s.p + 1 = inp.length
      ∧ (s.state = 0 ∨ (s.state = 100 ∧ s.next_state = 0)
          ∨ (s.state = 1 ∧ g_ascii_isalpha (peek inp s.p) = true)))
  ∨ (s.state = 0 ∧ ends_le s.order s.p)
  ∨ (s.state = 100 ∧ s.next_state = 0 ∧ ends_le s.order s.p)
  ∨ (s.state = 1 ∧ s.c ≤ s.p ∧ g_ascii_isalpha (peek inp s.c) = true
      ∧ (∀ j, s.c ≤ j → j < s.p → peek inp j ≠ 58 ∧ g_ascii_isspace (peek inp j) = false)
      ∧ ends_le s.order s.c)
  ∨ ((s.state = 2 ∨ s.state = 3 ∨ s.state = 4 ∨ s.state = 5
        ∨ (s.state = 99 ∧ s.next_state = 3 ∧ (s.err_state = 4 ∨ s.err_state = 5)))
      ∧ name_at inp s.nh s.p ∧ ends_le s.order s.nh.raw_value)

/-- The invariant of the loop of the tokenizer on the raw ranges. -/
def raw_inv (inp : Bytes) (s : hdr_state) : Prop :=
  (∀ h ∈ s.order, raw_ok inp h) ∧ raw_chain s.order ∧ raw_mode inp s

/-- The offset `p` is the end of a header: the last byte of the input, or the first byte
behind a line break that is neither CR, LF, tab nor space. -/
def line_end_at (inp : Bytes) (p : Nat) : Prop :=
  p + 1 = inp.length
  ∨ (0 < p ∧ (peek inp (p - 1) = 13 ∨ peek inp (p - 1) = 10)
      ∧ peek inp p ≠ 13 ∧ peek inp p ≠ 10 ∧ peek inp p ≠ 9 ∧ peek inp p ≠ 32)

/-- Where the raw range of a header ends: at the end of the input; one byte before it, for
a header without a value; or behind a line break, at a byte that is neither CR, LF, tab
nor space. -/
def raw_end_ok (inp : Bytes) (h : rspamd_mime_header) : Prop :=
  h.raw_value + h.raw_len = inp.length
  ∨ (h.raw_value + h.raw_len + 1 = inp.length ∧ h.value = [])
  ∨ (h.raw_value + h.raw_len < inp.length
      ∧ (peek inp (h.raw_value + h.raw_len - 1) = 13
          ∨ peek inp (h.raw_value + h.raw_len - 1) = 10)
      ∧ peek inp (h.raw_value + h.raw_len) ≠ 13 ∧ peek inp (h.raw_value + h.raw_len) ≠ 10
      ∧ peek inp (h.raw_value + h.raw_len) ≠ 9 ∧ peek inp (h.raw_value + h.raw_len) ≠ 32)

/-- The folding state stands on a line break, or behind the bytes it has walked over: when
the last of them was no blank, it was CR or LF. -/
def fold_at (inp : Bytes) (s : hdr_state) : Prop :=
  (peek inp s.p = 13 ∨ peek inp s.p = 10)
  ∨ (s.valid_folding = false → 0 < s.p ∧ (peek inp (s.p - 1) = 13 ∨ peek inp (s.p - 1) = 10))

/-- The invariant of the loop of the tokenizer on the ends of the raw ranges. -/
def end_inv (inp : Bytes) (s : hdr_state) : Prop :=
  raw_inv inp s ∧ (∀ h ∈ s.order, raw_end_ok inp h)
    ∧ ((s.state = 4 ∨ s.state = 5) → line_end_at inp s.p)
    ∧ (s.state = 99 → fold_at inp s)

/-! ## Runs of the part reader of the `Received:` parser -/

/-- The state `t` is met by the loop of `rspamd_smtp_received_process_part` started in
`s`. -/
def part_reach (data : Bytes) (type : rspamd_received_part_type) (s t : part_vars) : Prop :=
  ∃ n, part_loop data type n s = t

/-- The bytes of a host name as it is written in a `Received:` value: letters, digits,
`-` and `.`, at least one of them. -/
def hostname_bytes (h : Bytes) : Bool :=
  h != [] && h.all (fun b => g_ascii_isalpha b || (48 ≤ b && b ≤ 57) || b == 45 || b == 46)

/-- The bytes of an address as it is written in a `Received:` value: hexadecimal digits,
`.` and `:`, at least one of them. -/
def address_bytes (i : Bytes) : Bool :=
  i != [] && i.all (fun b => g_ascii_isxdigit b || b == 46 || b == 58)

/-- The types of the parts that the loop of the splitter adds. -/
def later_part (c : rspamd_received_part) : Prop :=
  c.type = rspamd_received_part_type.RSPAMD_RECEIVED_PART_WITH
    ∨ c.type = rspamd_received_part_type.RSPAMD_RECEIVED_PART_FOR
    ∨ c.type = rspamd_received_part_type.RSPAMD_RECEIVED_PART_UNKNOWN

/-- A sample of the collaborators that knows one date: the text behind the semicolon of
the example value of the specification is the time 1577836800, any other text the time
0. -/
def sample_date_env : received_env :=
  { sample_received_env with
    parse_smtp_date := fun t =>
      if t = ascii " Tue, 1 Jan 2020 00:00:00 +0000" then 1577836800 else 0 }

/-! ## Matching a host name against a certificate name (`ssl_util.c`) -/

/-- The bytes of the C string held by a buffer: the bytes before the first NUL. -/
def c_string (s : Bytes) : Bytes := s.takeWhile (fun b => b != 0)

/-- The libc function `strlen`. -/
def strlen (s : Bytes) : Nat := (c_string s).length

/-- The libc function `strchr` for a byte other than NUL: the C string from the first
occurrence of the byte on, `none` for `NULL`. -/
def strchr (s : Bytes) (ch : Nat) : Option Bytes :=
  if (c_string s).contains ch then some ((c_string s).dropWhile (fun b => b != ch)) else none

/-- The glib function `g_ascii_strcasecmp` returns 0: the two C strings are equal when
ASCII letters are taken without regard to case. -/
def g_ascii_strcasecmp_eq (a b : Bytes) : Bool :=
  lc_name (c_string a) == lc_name (c_string b)

/-- The function `rspamd_tls_match_name` of `ssl_util.c`. -/
def rspamd_tls_match_name (cert_name name : Bytes) : Bool :=
  if g_ascii_strcasecmp_eq cert_name name then true
  else if peek cert_name 0 = 42 then
    let cert_domain := cert_name.drop 1
    if peek cert_domain 0 = 0 then false
    else if peek cert_domain 0 ≠ 46 then false
    else if peek cert_domain 1 = 46 then false
    else
      match strchr (cert_domain.drop 1) 46 with
      | none => false
      | some next_dot =>
        if peek next_dot 1 = 46 then false
        else if peek name 0 = 46 then false
        else
          match strchr name 46 with
          | none => false
          | some domain =>
            if strlen domain = 1 then false
            else if g_ascii_strcasecmp_eq cert_domain domain then true
            else false
  else false

/-! ## The sanity pass of the decoder -/

/-- The sanity pass in the words of the specification: TAB, LF, VT, FF and CR become a
space, every other ASCII byte that is neither graphic nor the space becomes a question
mark, and every other byte is kept. -/
def sanity_byte_spec (t : Nat) : Nat :=
  if t = 9 ∨ t = 10 ∨ t = 11 ∨ t = 12 ∨ t = 13 then 32
  else if t < 32 ∨ t = 127 then 63
  else t

/-- The bytewise map that the sanity pass of the code is: TAB, LF, FF and CR become a
space, every other byte below 0x20, the vertical tab among them, and DEL become a question
mark, and every other byte is kept. -/
def sanity_byte (t : Nat) : Nat :=
  if t = 9 ∨ t = 10 ∨ t = 12 ∨ t = 13 then 32
  else if t < 32 ∨ t = 127 then 63
  else t

/-! ## White space around the value -/

/-- The value of a stored header is empty or built by state 4 from a range of the input. -/
def value_ok (inp : Bytes) (h : rspamd_mime_header) : Prop :=
  h.value = [] ∨ ∃ c p, h.value = header_value (slice inp c p)

/-! ## A skipped line before a header block -/

/-- The header with its raw range moved by `k` bytes. -/
def shift_hdr (k : Nat) (h : rspamd_mime_header) : rspamd_mime_header :=
  { h with raw_value := h.raw_value + k }

/-- The state `t` of the tokenizer on an input that has `k` bytes more in front follows
the state `s` on the input without them: the positions and raw ranges are moved by `k`,
the name index, the newline counters and the saved next state are left out. -/
def line_rel (k : Nat) (s t : hdr_state) : Prop :=
  t.p = s.p + k ∧ t.state = s.state ∧ t.task = s.task ∧ t.norder = s.norder
  ∧ t.aborted = s.aborted ∧ t.valid_folding = s.valid_folding ∧ t.err_state = s.err_state
  ∧ t.order = s.order.map (shift_hdr k)
  ∧ (s.state ≠ 0 ∧ s.state ≠ 100 → t.c = s.c + k)
  ∧ (s.state = 0 ∨ s.state = 1 ∨ s.state = 100 → t.nh = s.nh)
  ∧ (s.state ≠ 0 ∧ s.state ≠ 1 ∧ s.state ≠ 100 → t.nh = shift_hdr k s.nh)

/-- The relation `line_rel` between two states that the loop can be in. -/
def line_sim (k : Nat) (s t : hdr_state) : Prop :=
  hdr_inv s ∧ hdr_inv t ∧ line_rel k s t

/-! ## The loop of the tokenizer leaves -/

theorem hdr_emit_state (env : Env) (cn : Bool) (s : hdr_state) (nh : rspamd_mime_header) :
    (hdr_emit env cn s nh).p = s.p ∧
    (((hdr_emit env cn s nh).state = 0 ∧ (hdr_emit env cn s nh).aborted = s.aborted)
      ∨ ((hdr_emit env cn s nh).state = s.state ∧ (hdr_emit env cn s nh).aborted = true)) := by
  unfold hdr_emit
  split <;> simp

theorem hdr_case_4_state (env : Env) (inp : Bytes) (cn : Bool) (s : hdr_state) :
    (hdr_case_4 env inp cn s).p = s.p ∧
    (((hdr_case_4 env inp cn s).state = 0 ∧ (hdr_case_4 env inp cn s).aborted = s.aborted)
      ∨ ((hdr_case_4 env inp cn s).state = s.state ∧ (hdr_case_4 env inp cn s).aborted = true)) := by
  unfold hdr_case_4
  simp only []
  split
  · simp
  · exact hdr_emit_state env cn _ _

theorem hdr_case_5_state (env : Env) (cn : Bool) (s : hdr_state) :
    (hdr_case_5 env cn s).p = s.p ∧
    (((hdr_case_5 env cn s).state = 0 ∧ (hdr_case_5 env cn s).aborted = s.aborted)
      ∨ ((hdr_case_5 env cn s).state = s.state ∧ (hdr_case_5 env cn s).aborted = true)) :=
  hdr_emit_state env cn _ _

theorem hdr_step_0 (env : Env) (inp : Bytes) (cn : Bool) (s : hdr_state) (h : s.state = 0) :
    hdr_step env inp cn s = hdr_case_0 inp s := by
  simp [hdr_step, h]

theorem hdr_step_1 (env : Env) (inp : Bytes) (cn : Bool) (s : hdr_state) (h : s.state = 1) :
    hdr_step env inp cn s = hdr_case_1 inp s := by
  simp [hdr_step, h]

theorem hdr_step_2 (env : Env) (inp : Bytes) (cn : Bool) (s : hdr_state) (h : s.state = 2) :
    hdr_step env inp cn s = hdr_case_2 inp cn s := by
  simp [hdr_step, h]

theorem hdr_step_3 (env : Env) (inp : Bytes) (cn : Bool) (s : hdr_state) (h : s.state = 3) :
    hdr_step env inp cn s = hdr_case_3 inp cn s := by
  simp [hdr_step, h]

theorem hdr_step_4 (env : Env) (inp : Bytes) (cn : Bool) (s : hdr_state) (h : s.state = 4) :
    hdr_step env inp cn s = hdr_case_4 env inp cn s := by
  simp [hdr_step, h]

theorem hdr_step_5 (env : Env) (inp : Bytes) (cn : Bool) (s : hdr_state) (h : s.state = 5) :
    hdr_step env inp cn s = hdr_case_5 env cn s := by
  simp [hdr_step, h]

theorem hdr_step_99 (env : Env) (inp : Bytes) (cn : Bool) (s : hdr_state) (h : s.state = 99) :
    hdr_step env inp cn s = hdr_case_99 inp s := by
  simp [hdr_step, h]

theorem hdr_step_100 (env : Env) (inp : Bytes) (cn : Bool) (s : hdr_state)
    (h : s.state = 100) : hdr_step env inp cn s = hdr_case_100 inp s := by
  simp [hdr_step, h]

theorem hdr_step_inv (env : Env) (inp : Bytes) (cn : Bool) (s : hdr_state)
    (hi : hdr_inv s) : hdr_inv (hdr_step env inp cn s) := by
  obtain ⟨hs, h99, h100⟩ := hi
  rcases hs with h | h | h | h | h | h | h | h
  · rw [hdr_step_0 _ _ _ _ h, hdr_case_0]; split_ifs <;> simp [hdr_inv]
  · rw [hdr_step_1 _ _ _ _ h]; simp only [hdr_case_1]; split_ifs <;> simp [hdr_inv, h]
  · rw [hdr_step_2 _ _ _ _ h]; simp only [hdr_case_2]; split_ifs <;> simp [hdr_inv, h]
  · rw [hdr_step_3 _ _ _ _ h]; simp only [hdr_case_3]; split_ifs <;> simp [hdr_inv, h]
  · rw [hdr_step_4 _ _ _ _ h]
    have := hdr_case_4_state env inp cn s
    rcases this.2 with h1 | h1
    · simp [hdr_inv, h1]
    · simp [hdr_inv, h1, h]
  · rw [hdr_step_5 _ _ _ _ h]
    have := hdr_case_5_state env cn s
    rcases this.2 with h1 | h1
    · simp [hdr_inv, h1]
    · simp [hdr_inv, h1, h]
  · have := h99 h
    rw [hdr_step_99 _ _ _ _ h]; simp only [hdr_case_99]
    split_ifs <;> simp_all [hdr_inv] <;> omega
  · have := h100 h
    rw [hdr_step_100 _ _ _ _ h]; simp only [hdr_case_100]
    split_ifs <;> simp_all [hdr_inv]

theorem hdr_rank_le (inp : Bytes) (s : hdr_state) : hdr_rank inp s ≤ 7 := by
  unfold hdr_rank
  split_ifs <;> omega

theorem hdr_measure_adv (inp : Bytes) (s t : hdr_state) (hp : s.p < inp.length)
    (ht : s.p + 1 ≤ t.p) : hdr_measure inp t < hdr_measure inp s := by
  have := hdr_rank_le inp t
  unfold hdr_measure
  omega

theorem hdr_measure_rank (inp : Bytes) (s t : hdr_state) (ht : t.p = s.p)
    (hr : hdr_rank inp t < hdr_rank inp s) : hdr_measure inp t < hdr_measure inp s := by
  unfold hdr_measure
  rw [ht]
  omega

theorem hdr_step_measure (env : Env) (inp : Bytes) (cn : Bool) (s : hdr_state)
    (hi : hdr_inv s) (hp : s.p < inp.length) :
    (hdr_step env inp cn s).aborted = true
      ∨ hdr_measure inp (hdr_step env inp cn s) < hdr_measure inp s := by
  obtain ⟨hs, h99, h100⟩ := hi
  rcases hs with h | h | h | h | h | h | h | h
  · right
    rw [hdr_step_0 _ _ _ _ h, hdr_case_0]
    split_ifs <;> exact hdr_measure_rank _ _ _ rfl (by simp [hdr_rank, h])
  · right
    rw [hdr_step_1 _ _ _ _ h]; simp only [hdr_case_1]
    split_ifs
    · exact hdr_measure_adv _ _ _ hp (by simp)
    · exact hdr_measure_rank _ _ _ rfl (by simp [hdr_rank, h])
    · exact hdr_measure_adv _ _ _ hp (by simp)
  · right
    rw [hdr_step_2 _ _ _ _ h]; simp only [hdr_case_2]
    by_cases h1 : peek inp s.p = 9
    · rw [if_pos h1]; exact hdr_measure_adv _ _ _ hp (by simp)
    rw [if_neg h1]
    by_cases h2 : peek inp s.p = 32
    · rw [if_pos h2]; exact hdr_measure_adv _ _ _ hp (by simp)
    rw [if_neg h2]
    by_cases h3 : peek inp s.p = 10 ∨ peek inp s.p = 13
    · rw [if_pos h3]
      refine hdr_measure_rank _ _ _ rfl ?_
      simp only [hdr_rank, h]
      simp
      split_ifs <;> omega
    · rw [if_neg h3]
      exact hdr_measure_rank _ _ _ rfl (by simp [hdr_rank, h])
  · right
    rw [hdr_step_3 _ _ _ _ h]; simp only [hdr_case_3]
    split_ifs with h1 h2
    · refine hdr_measure_rank _ _ _ rfl ?_
      simp only [hdr_rank, h]
      simp
      split_ifs <;> omega
    · exact hdr_measure_rank _ _ _ rfl (by simp [hdr_rank, h])
    · exact hdr_measure_adv _ _ _ hp (by simp)
  · rw [hdr_step_4 _ _ _ _ h]
    have := hdr_case_4_state env inp cn s
    rcases this.2 with h1 | h1
    · right; exact hdr_measure_rank _ _ _ this.1 (by simp [hdr_rank, h1, h])
    · left; exact h1.2
  · rw [hdr_step_5 _ _ _ _ h]
    have := hdr_case_5_state env cn s
    rcases this.2 with h1 | h1
    · right; exact hdr_measure_rank _ _ _ this.1 (by simp [hdr_rank, h1, h])
    · left; exact h1.2
  · right
    obtain ⟨hn, he⟩ := h99 h
    rw [hdr_step_99 _ _ _ _ h]; simp only [hdr_case_99]
    split_ifs with h1 h2 h3 h4
    · refine hdr_measure_rank _ _ _ rfl ?_
      simp only [hdr_rank, h]
      rcases he with he | he <;> simp [he, h1]
    · exact hdr_measure_adv _ _ _ hp (by simp)
    · exact hdr_measure_adv _ _ _ hp (by simp)
    · refine hdr_measure_rank _ _ _ rfl ?_
      simp only [hdr_rank, h, hn]
      have : ¬ (s.p + 1 = inp.length ∨ peek inp s.p = 13 ∨ peek inp s.p = 10 ∨ peek inp s.p = 9
        ∨ peek inp s.p = 32) := by omega
      simp [this]
    · refine hdr_measure_rank _ _ _ rfl ?_
      simp only [hdr_rank, h]
      have : ¬ (s.p + 1 = inp.length ∨ peek inp s.p = 13 ∨ peek inp s.p = 10 ∨ peek inp s.p = 9
        ∨ peek inp s.p = 32) := by omega
      rcases he with he | he <;> simp [he, this]
  · right
    rw [hdr_step_100 _ _ _ _ h]; simp only [hdr_case_100]
    split_ifs <;> exact hdr_measure_adv _ _ _ hp (by simp)

theorem hdr_loop_done (env : Env) (inp : Bytes) (cn : Bool) (n : Nat) (s : hdr_state)
    (h : hdr_done inp s) : hdr_loop env inp cn n s = s := by
  cases n with
  | zero => rfl
  | succ n =>
    have : ¬ (s.p < inp.length ∧ s.aborted = false) := by
      rcases h with h | h
      · omega
      · simp [h]
    simp [hdr_loop, this]

theorem hdr_loop_succ (env : Env) (inp : Bytes) (cn : Bool) (n : Nat) (s : hdr_state)
    (hp : s.p < inp.length) (ha : s.aborted = false) :
    hdr_loop env inp cn (n + 1) s = hdr_loop env inp cn n (hdr_step env inp cn s) := by
  simp [hdr_loop, hp, ha]

theorem hdr_loop_add (env : Env) (inp : Bytes) (cn : Bool) (m n : Nat) (s : hdr_state) :
    hdr_loop env inp cn (m + n) s = hdr_loop env inp cn n (hdr_loop env inp cn m s) := by
  induction m generalizing s with
  | zero => simp [hdr_loop]
  | succ m ih =>
    by_cases hg : s.p < inp.length ∧ s.aborted = false
    · rw [show m + 1 + n = (m + n) + 1 by omega, hdr_loop_succ _ _ _ _ _ hg.1 hg.2,
        hdr_loop_succ _ _ _ _ _ hg.1 hg.2, ih]
    · have hd : hdr_done inp s := by
        unfold hdr_done
        by_cases hp : s.p < inp.length
        · right
          cases ha : s.aborted with
          | true => rfl
          | false => exact absurd ⟨hp, ha⟩ hg
        · left; omega
      rw [hdr_loop_done _ _ _ _ _ hd, hdr_loop_done _ _ _ _ _ hd, hdr_loop_done _ _ _ _ _ hd]

theorem hdr_loop_inv (env : Env) (inp : Bytes) (cn : Bool) (n : Nat) (s : hdr_state)
    (hi : hdr_inv s) : hdr_inv (hdr_loop env inp cn n s) := by
  induction n generalizing s with
  | zero => exact hi
  | succ n ih =>
    unfold hdr_loop
    split_ifs
    · exact ih _ (hdr_step_inv env inp cn s hi)
    · exact hi

/-- The loop of the tokenizer leaves: after as many passes as the measure of the state it
started in, `p` has reached the end of the input or the process was aborted. -/
theorem hdr_loop_exits_of_measure (env : Env) (inp : Bytes) (cn : Bool) (n : Nat)
    (s : hdr_state) (hi : hdr_inv s) (hn : hdr_measure inp s ≤ n) :
    hdr_done inp (hdr_loop env inp cn n s) := by
  induction n generalizing s with
  | zero =>
    have : inp.length ≤ s.p := by
      unfold hdr_measure at hn
      omega
    exact Or.inl this
  | succ n ih =>
    by_cases hp : s.p < inp.length
    · cases ha : s.aborted with
      | true => rw [hdr_loop_done _ _ _ _ _ (Or.inr ha)]; exact Or.inr ha
      | false =>
        rw [hdr_loop_succ _ _ _ _ _ hp ha]
        rcases hdr_step_measure env inp cn s hi hp with h | h
        · rw [hdr_loop_done _ _ _ _ _ (Or.inr h)]; exact Or.inr h
        · exact ih _ (hdr_step_inv env inp cn s hi) (by omega)
    · have hd : hdr_done inp s := Or.inl (by omega)
      rw [hdr_loop_done _ _ _ _ _ hd]; exact hd

theorem hdr_init_inv (task : rspamd_task) (target : HeaderTable)
    (order : List rspamd_mime_header) : hdr_inv (hdr_init task target order) := by
  simp [hdr_inv, hdr_init]

/-- The passes given to the loop of `rspamd_mime_headers_process` are enough on every
input: the loop is left because `p` reached the end of the input, or the decoder aborted
the process. -/
theorem hdr_loop_exits (env : Env) (task : rspamd_task) (target : HeaderTable)
    (order : List rspamd_mime_header) (inp : Bytes) (cn : Bool) :
    hdr_done inp (hdr_loop env inp cn (hdr_fuel inp) (hdr_init task target order)) := by
  apply hdr_loop_exits_of_measure _ _ _ _ _ (hdr_init_inv task target order)
  simp [hdr_measure, hdr_rank, hdr_init, hdr_fuel]

theorem hdr_reach_refl (env : Env) (inp : Bytes) (cn : Bool) (s : hdr_state) :
    hdr_reach env inp cn s s := ⟨0, rfl⟩

theorem hdr_reach_trans {env : Env} {inp : Bytes} {cn : Bool} {s t u : hdr_state}
    (h1 : hdr_reach env inp cn s t) (h2 : hdr_reach env inp cn t u) :
    hdr_reach env inp cn s u := by
  obtain ⟨m, hm⟩ := h1
  obtain ⟨n, hn⟩ := h2
  exact ⟨m + n, by rw [hdr_loop_add, hm, hn]⟩

theorem hdr_reach_step (env : Env) (inp : Bytes) (cn : Bool) (s : hdr_state)
    (hp : s.p < inp.length) (ha : s.aborted = false) :
    hdr_reach env inp cn s (hdr_step env inp cn s) :=
  ⟨1, by rw [hdr_loop_succ _ _ _ _ _ hp ha]; rfl⟩

/-- A state met by the loop in which the loop has left is the state in which the loop
ends, whatever the number of passes given beyond the measure. -/
theorem hdr_reach_final {env : Env} {inp : Bytes} {cn : Bool} {s t : hdr_state}
    (h : hdr_reach env inp cn s t) (hd : hdr_done inp t) (hi : hdr_inv s) (n : Nat)
    (hn : hdr_measure inp s ≤ n) : hdr_loop env inp cn n s = t := by
  obtain ⟨m, hm⟩ := h
  have h1 : hdr_loop env inp cn (m + n) s = t := by
    rw [hdr_loop_add, hm, hdr_loop_done _ _ _ _ _ hd]
  have h2 : hdr_loop env inp cn (n + m) s = hdr_loop env inp cn n s := by
    rw [hdr_loop_add, hdr_loop_done _ _ _ _ _ (hdr_loop_exits_of_measure env inp cn n s hi hn)]
  rw [← h2, Nat.add_comm, h1]

/-! ## What a pass of the loop does to the task, the name index and the queue -/

/-- The recogniser returns unless the name is `Received` and an assertion of the trace
parser fails on the decoded value. -/
theorem check_special_returns (env : Env) (task : rspamd_task) (rh : rspamd_mime_header)
    (h : rspamd_icase_hash rh.name = 0x88705DC4D9D61AB →
      rspamd_smtp_received_spill rh.decoded ≠ spill_outcome.assert_failed) :
    ∃ r, rspamd_mime_header_check_special env task rh = some r := by
  unfold rspamd_mime_header_check_special
  generalize hh : rspamd_icase_hash rh.name = x at h
  dsimp only
  by_cases h1 : x = 0x88705DC4D9D61AB
  · simp only [if_pos h1]
    have hs := h h1
    unfold rspamd_smtp_received_parse
    cases hsp : rspamd_smtp_received_spill rh.decoded with
    | assert_failed => exact absurd hsp hs
    | null => exact ⟨_, rfl⟩
    | head parts date_pos => exact ⟨_, rfl⟩
  simp only [if_neg h1]
  by_cases h2 : x = 0x76F31A09F4352521
  · simp only [if_pos h2]; exact ⟨_, rfl⟩
  simp only [if_neg h2]
  by_cases h3 : x = 0x7EB117C1480B76
  · simp only [if_pos h3]; exact ⟨_, rfl⟩
  simp only [if_neg h3]
  by_cases h4 : x = 0xE4923E11C4989C8D
  · simp only [if_pos h4]; exact ⟨_, rfl⟩
  simp only [if_neg h4]
  by_cases h5 : x = 0x41E1985EDC1CBDE4
  · simp only [if_pos h5]; exact ⟨_, rfl⟩
  simp only [if_neg h5]
  by_cases h6 : x = 0x43A558FC7C240226
  · simp only [if_pos h6]; exact ⟨_, rfl⟩
  simp only [if_neg h6]
  by_cases h7 : x = 0xB91D3910358E8212
  · simp only [if_pos h7]; exact ⟨_, rfl⟩
  simp only [if_neg h7]
  by_cases h8 : x = 0xEE4AA2EAAC61D6F4
  · simp only [if_pos h8]; exact ⟨_, rfl⟩
  simp only [if_neg h8]
  by_cases h9 : x = 0xB9EEFAD2E93C2161
  · simp only [if_pos h9]; exact ⟨_, rfl⟩
  simp only [if_neg h9]
  split <;> exact ⟨_, rfl⟩

/-- The recogniser aborts the process exactly on a `Received` header on whose decoded value
an assertion of the trace parser fails. -/
theorem check_special_none_iff (env : Env) (task : rspamd_task) (rh : rspamd_mime_header) :
    rspamd_mime_header_check_special env task rh = none ↔
      (rspamd_icase_hash rh.name = 0x88705DC4D9D61AB
        ∧ rspamd_smtp_received_spill rh.decoded = spill_outcome.assert_failed) := by
  constructor
  · intro hn
    by_contra hc
    obtain ⟨r, hr⟩ := check_special_returns env task rh (fun h1 h2 => hc ⟨h1, h2⟩)
    rw [hr] at hn
    cases hn
  · rintro ⟨h1, h2⟩
    unfold rspamd_mime_header_check_special
    dsimp only
    simp only [if_pos h1]
    unfold rspamd_smtp_received_parse
    rw [h2]

/-- What the recogniser returns: the header given with the type-mask of the hash of its
name, and a task with the flags it had. -/
theorem check_special_some (env : Env) (task : rspamd_task) (rh : rspamd_mime_header)
    (r : rspamd_task × rspamd_mime_header)
    (hr : rspamd_mime_header_check_special env task rh = some r) :
    r.2 = { rh with type := hash_type (rspamd_icase_hash rh.name) rh.type }
    ∧ r.1.flags = task.flags := by
  unfold rspamd_mime_header_check_special at hr
  unfold hash_type
  generalize rspamd_icase_hash rh.name = h at hr ⊢
  dsimp only at hr
  by_cases h1 : h = 0x88705DC4D9D61AB
  · simp only [if_pos h1] at hr ⊢
    cases hp : rspamd_smtp_received_parse env.received rh.decoded { hdr := rh.order } with
    | none => rw [hp] at hr; cases hr
    | some x =>
      rw [hp] at hr
      obtain ⟨ret, recv1⟩ := x
      simp only [Option.some.injEq] at hr
      subst hr
      refine ⟨rfl, ?_⟩
      dsimp only
      split <;> rfl
  simp only [if_neg h1] at hr ⊢
  by_cases h2 : h = 0x76F31A09F4352521
  · simp only [if_pos h2, Option.some.injEq] at hr ⊢
    subst hr
    exact ⟨rfl, rfl⟩
  simp only [if_neg h2] at hr ⊢
  by_cases h3 : h = 0x7EB117C1480B76
  · simp only [if_pos h3, Option.some.injEq] at hr ⊢
    subst hr
    exact ⟨rfl, rfl⟩
  simp only [if_neg h3] at hr ⊢
  by_cases h4 : h = 0xE4923E11C4989C8D
  · simp only [if_pos h4, Option.some.injEq] at hr ⊢
    subst hr
    exact ⟨rfl, rfl⟩
  simp only [if_neg h4] at hr ⊢
  by_cases h5 : h = 0x41E1985EDC1CBDE4
  · simp only [if_pos h5, Option.some.injEq] at hr ⊢
    subst hr
    exact ⟨rfl, rfl⟩
  simp only [if_neg h5] at hr ⊢
  by_cases h6 : h = 0x43A558FC7C240226
  · simp only [if_pos h6, Option.some.injEq] at hr ⊢
    subst hr
    refine ⟨rfl, ?_⟩
    dsimp only
    split <;> rfl
  simp only [if_neg h6] at hr ⊢
  by_cases h7 : h = 0xB91D3910358E8212
  · simp only [if_pos h7, Option.some.injEq] at hr ⊢
    subst hr
    refine ⟨rfl, ?_⟩
    dsimp only
    split <;> rfl
  simp only [if_neg h7] at hr ⊢
  by_cases h8 : h = 0xEE4AA2EAAC61D6F4
  · simp only [if_pos h8, Option.some.injEq] at hr ⊢
    subst hr
    refine ⟨rfl, ?_⟩
    dsimp only
    split <;> rfl
  simp only [if_neg h8] at hr ⊢
  by_cases h9 : h = 0xB9EEFAD2E93C2161
  · simp only [if_pos h9, Option.some.injEq] at hr ⊢
    subst hr
    refine ⟨rfl, ?_⟩
    dsimp only
    split <;> rfl
  simp only [if_neg h9] at hr ⊢
  split at hr <;> simp only [Option.some.injEq] at hr <;> subst hr
  · rw [if_pos (by assumption)]; exact ⟨rfl, rfl⟩
  · rw [if_neg (by assumption)]; exact ⟨rfl, rfl⟩

theorem check_special_header (env : Env) (task : rspamd_task) (rh : rspamd_mime_header)
    (r : rspamd_task × rspamd_mime_header)
    (hr : rspamd_mime_header_check_special env task rh = some r) :
    r.2 = { rh with type := r.2.type } := by
  rw [(check_special_some env task rh r hr).1]

theorem check_special_flags (env : Env) (task : rspamd_task) (rh : rspamd_mime_header)
    (r : rspamd_task × rspamd_mime_header)
    (hr : rspamd_mime_header_check_special env task rh = some r) :
    r.1.flags = task.flags :=
  (check_special_some env task rh r hr).2

theorem check_special_subject (env : Env) (task : rspamd_task) (rh : rspamd_mime_header)
    (r : rspamd_task × rspamd_mime_header)
    (hr : rspamd_mime_header_check_special env task rh = some r) :
    r.1.subject
      = if rspamd_icase_hash rh.name = 0xB91D3910358E8212 then
          (if task.subject = none then some rh.decoded else task.subject)
        else task.subject := by
  unfold rspamd_mime_header_check_special at hr
  generalize rspamd_icase_hash rh.name = h at hr ⊢
  dsimp only at hr
  by_cases h1 : h = 0x88705DC4D9D61AB
  · simp only [if_pos h1] at hr
    rw [if_neg (by rw [h1]; decide)]
    cases hp : rspamd_smtp_received_parse env.received rh.decoded { hdr := rh.order } with
    | none => rw [hp] at hr; cases hr
    | some x =>
      rw [hp] at hr
      obtain ⟨ret, recv1⟩ := x
      simp only [Option.some.injEq] at hr
      subst hr
      dsimp only
      split <;> rfl
  simp only [if_neg h1] at hr
  by_cases h2 : h = 0x76F31A09F4352521
  · simp only [if_pos h2, Option.some.injEq] at hr
    subst hr
    rw [if_neg (by rw [h2]; decide)]
  simp only [if_neg h2] at hr
  by_cases h3 : h = 0x7EB117C1480B76
  · simp only [if_pos h3, Option.some.injEq] at hr
    subst hr
    rw [if_neg (by rw [h3]; decide)]
  simp only [if_neg h3] at hr
  by_cases h4 : h = 0xE4923E11C4989C8D
  · simp only [if_pos h4, Option.some.injEq] at hr
    subst hr
    rw [if_neg (by rw [h4]; decide)]
  simp only [if_neg h4] at hr
  by_cases h5 : h = 0x41E1985EDC1CBDE4
  · simp only [if_pos h5, Option.some.injEq] at hr
    subst hr
    rw [if_neg (by rw [h5]; decide)]
  simp only [if_neg h5] at hr
  by_cases h6 : h = 0x43A558FC7C240226
  · simp only [if_pos h6, Option.some.injEq] at hr
    subst hr
    rw [if_neg (by rw [h6]; decide)]
    dsimp only
    split <;> rfl
  simp only [if_neg h6] at hr
  by_cases h7 : h = 0xB91D3910358E8212
  · simp only [if_pos h7, Option.some.injEq] at hr ⊢
    subst hr
    dsimp only
    split <;> rfl
  simp only [if_neg h7] at hr ⊢
  by_cases h8 : h = 0xEE4AA2EAAC61D6F4
  · simp only [if_pos h8, Option.some.injEq] at hr
    subst hr
    dsimp only
    split <;> rfl
  simp only [if_neg h8] at hr
  by_cases h9 : h = 0xB9EEFAD2E93C2161
  · simp only [if_pos h9, Option.some.injEq] at hr
    subst hr
    dsimp only
    split <;> rfl
  simp only [if_neg h9] at hr
  split at hr <;> simp only [Option.some.injEq] at hr <;> subst hr <;> rfl

theorem check_special_message_id (env : Env) (task : rspamd_task) (rh : rspamd_mime_header)
    (r : rspamd_task × rspamd_mime_header)
    (hr : rspamd_mime_header_check_special env task rh = some r) :
    r.1.message_id
      = if rspamd_icase_hash rh.name = 0x43A558FC7C240226 then
          (match message_id_of rh.decoded with
           | some id => some id
           | none => task.message_id)
        else task.message_id := by
  unfold rspamd_mime_header_check_special at hr
  generalize rspamd_icase_hash rh.name = h at hr ⊢
  dsimp only at hr
  by_cases h1 : h = 0x88705DC4D9D61AB
  · simp only [if_pos h1] at hr
    rw [if_neg (by rw [h1]; decide)]
    cases hp : rspamd_smtp_received_parse env.received rh.decoded { hdr := rh.order } with
    | none => rw [hp] at hr; cases hr
    | some x =>
      rw [hp] at hr
      obtain ⟨ret, recv1⟩ := x
      simp only [Option.some.injEq] at hr
      subst hr
      dsimp only
      split <;> rfl
  simp only [if_neg h1] at hr
  by_cases h2 : h = 0x76F31A09F4352521
  · simp only [if_pos h2, Option.some.injEq] at hr
    subst hr
    rw [if_neg (by rw [h2]; decide)]
  simp only [if_neg h2] at hr
  by_cases h3 : h = 0x7EB117C1480B76
  · simp only [if_pos h3, Option.some.injEq] at hr
    subst hr
    rw [if_neg (by rw [h3]; decide)]
  simp only [if_neg h3] at hr
  by_cases h4 : h = 0xE4923E11C4989C8D
  · simp only [if_pos h4, Option.some.injEq] at hr
    subst hr
    rw [if_neg (by rw [h4]; decide)]
  simp only [if_neg h4] at hr
  by_cases h5 : h = 0x41E1985EDC1CBDE4
  · simp only [if_pos h5, Option.some.injEq] at hr
    subst hr
    rw [if_neg (by rw [h5]; decide)]
  simp only [if_neg h5] at hr
  by_cases h6 : h = 0x43A558FC7C240226
  · simp only [if_pos h6, Option.some.injEq] at hr ⊢
    subst hr
    dsimp only
    cases message_id_of rh.decoded <;> rfl
  simp only [if_neg h6] at hr ⊢
  by_cases h7 : h = 0xB91D3910358E8212
  · simp only [if_pos h7, Option.some.injEq] at hr
    subst hr
    dsimp only
    split <;> rfl
  simp only [if_neg h7] at hr
  by_cases h8 : h = 0xEE4AA2EAAC61D6F4
  · simp only [if_pos h8, Option.some.injEq] at hr
    subst hr
    dsimp only
    split <;> rfl
  simp only [if_neg h8] at hr
  by_cases h9 : h = 0xB9EEFAD2E93C2161
  · simp only [if_pos h9, Option.some.injEq] at hr
    subst hr
    dsimp only
    split <;> rfl
  simp only [if_neg h9] at hr
  split at hr <;> simp only [Option.some.injEq] at hr <;> subst hr <;> rfl

theorem stored_header_eq (env : Env) (task : rspamd_task) (rh : rspamd_mime_header) (cs : Bool) :
    stored_header env task rh cs = { rh with type := (stored_header env task rh cs).type } := by
  unfold stored_header
  cases cs
  · rfl
  · simp only [if_true]
    cases hr : rspamd_mime_header_check_special env task rh with
    | none => rfl
    | some r => exact check_special_header env task rh r hr

/-- What `rspamd_mime_header_add` returns: the header is stored at the end of the queue
and in the name index, under its name. -/
theorem header_add_some (env : Env) (task : rspamd_task) (target : HeaderTable)
    (order : List rspamd_mime_header) (rh : rspamd_mime_header) (cs : Bool)
    (r : rspamd_task × HeaderTable × List rspamd_mime_header)
    (hr : rspamd_mime_header_add env task target order rh cs = some r) :
    r.2.2 = order ++ [stored_header env task rh cs]
    ∧ r.2.1 = (match g_hash_table_lookup target rh.name with
        | some _ => table_append target rh.name (stored_header env task rh cs)
        | none => target ++ [(rh.name, [stored_header env task rh cs])])
    ∧ r.1.flags = task.flags
    ∧ (cs = false → r.1 = task)
    ∧ (cs = true → ∃ r0, rspamd_mime_header_check_special env task rh = some r0
        ∧ r.1 = r0.1) := by
  unfold rspamd_mime_header_add at hr
  unfold stored_header
  cases cs
  · simp only [Bool.false_eq_true, if_false, Option.some.injEq] at hr
    subst hr
    exact ⟨rfl, rfl, rfl, fun _ => rfl, fun h => by cases h⟩
  · simp only [if_true] at hr
    cases hc : rspamd_mime_header_check_special env task rh with
    | none => rw [hc] at hr; cases hr
    | some r0 =>
      rw [hc] at hr
      simp only [Option.some.injEq] at hr
      subst hr
      refine ⟨rfl, rfl, check_special_flags env task rh r0 hc, ?_, ?_⟩
      · intro h; cases h
      · intro _; exact ⟨r0, rfl, rfl⟩

theorem header_add_order (env : Env) (task : rspamd_task) (target : HeaderTable)
    (order : List rspamd_mime_header) (rh : rspamd_mime_header) (cs : Bool)
    (r : rspamd_task × HeaderTable × List rspamd_mime_header)
    (hr : rspamd_mime_header_add env task target order rh cs = some r) :
    r.2.2 = order ++ [stored_header env task rh cs] :=
  (header_add_some env task target order rh cs r hr).1

/-- The insertion returns unless special fields are recognised, the name is `Received`
and an assertion of the trace parser fails on the decoded value. -/
theorem header_add_returns (env : Env) (task : rspamd_task) (target : HeaderTable)
    (order : List rspamd_mime_header) (rh : rspamd_mime_header) (cs : Bool)
    (h : cs = true → rspamd_icase_hash rh.name = 0x88705DC4D9D61AB →
      rspamd_smtp_received_spill rh.decoded ≠ spill_outcome.assert_failed) :
    ∃ r, rspamd_mime_header_add env task target order rh cs = some r := by
  unfold rspamd_mime_header_add
  cases cs
  · exact ⟨_, rfl⟩
  · obtain ⟨r0, hr0⟩ := check_special_returns env task rh (h rfl)
    simp only [if_true, hr0]
    exact ⟨_, rfl⟩

theorem hdr_emit_some (env : Env) (cn : Bool) (s : hdr_state) (nh : rspamd_mime_header)
    (r : rspamd_task × HeaderTable × List rspamd_mime_header)
    (hr : rspamd_mime_header_add env s.task s.target s.order { nh with order := s.norder } cn
      = some r) :
    hdr_emit env cn s nh
      = { s with task := r.1, target := r.2.1, order := r.2.2, nh := {},
                 norder := s.norder + 1, state := 0 } := by
  unfold hdr_emit
  rw [hr]

theorem hdr_emit_none (env : Env) (cn : Bool) (s : hdr_state) (nh : rspamd_mime_header)
    (hr : rspamd_mime_header_add env s.task s.target s.order { nh with order := s.norder } cn
      = none) :
    hdr_emit env cn s nh = { s with aborted := true } := by
  unfold hdr_emit
  rw [hr]

theorem hdr_emit_effect (env : Env) (cn : Bool) (s : hdr_state) (nh : rspamd_mime_header) :
    hdr_emit env cn s nh = { s with aborted := true }
    ∨ ∃ r, rspamd_mime_header_add env s.task s.target s.order { nh with order := s.norder } cn
          = some r
        ∧ hdr_emit env cn s nh
          = { s with task := r.1, target := r.2.1, order := r.2.2, nh := {},
                     norder := s.norder + 1, state := 0 } := by
  cases hr : rspamd_mime_header_add env s.task s.target s.order { nh with order := s.norder } cn with
  | none => exact Or.inl (hdr_emit_none env cn s nh hr)
  | some r => exact Or.inr ⟨r, rfl, hdr_emit_some env cn s nh r hr⟩

/-- A pass of the loop either leaves the name index, the queue and the order counter as
they are and changes at most the flags of the task, or adds one header, numbered by the
order counter, through `rspamd_mime_header_add` to a task that differs from the task
before at most by its flags. -/
theorem hdr_step_effect (env : Env) (inp : Bytes) (cn : Bool) (s : hdr_state) :
    (∃ fl, (hdr_step env inp cn s).task = { s.task with flags := fl }
        ∧ (hdr_step env inp cn s).target = s.target
        ∧ (hdr_step env inp cn s).order = s.order
        ∧ (hdr_step env inp cn s).norder = s.norder)
    ∨ (∃ fl nh r, nh.order = s.norder
        ∧ rspamd_mime_header_add env { s.task with flags := fl } s.target s.order nh cn = some r
        ∧ (hdr_step env inp cn s).task = r.1
        ∧ (hdr_step env inp cn s).target = r.2.1
        ∧ (hdr_step env inp cn s).order = r.2.2
        ∧ (hdr_step env inp cn s).norder = s.norder + 1) := by
  unfold hdr_step
  split_ifs
  · left; refine ⟨s.task.flags, ?_⟩; unfold hdr_case_0; split_ifs <;> simp
  · left; unfold hdr_case_1; simp only []
    split_ifs
    · exact ⟨s.task.flags, by simp⟩
    · exact ⟨_, rfl, rfl, rfl, rfl⟩
    · exact ⟨s.task.flags, by simp⟩
  · left; refine ⟨s.task.flags, ?_⟩; unfold hdr_case_2; simp only []; split_ifs <;> simp
  · left; refine ⟨s.task.flags, ?_⟩; unfold hdr_case_3; simp only []; split_ifs <;> simp
  · unfold hdr_case_4
    simp only []
    split
    · left; exact ⟨s.task.flags, by simp⟩
    · rename_i decoded broken _
      cases broken
      · rcases hdr_emit_effect env cn _ _ with h | ⟨r, hr, h⟩ <;> rw [h]
        · left; exact ⟨s.task.flags, rfl, rfl, rfl, rfl⟩
        · right; exact ⟨s.task.flags, _, r, rfl, hr, rfl, rfl, rfl, rfl⟩
      · rcases hdr_emit_effect env cn _ _ with h | ⟨r, hr, h⟩ <;> rw [h]
        · left; exact ⟨_, rfl, rfl, rfl, rfl⟩
        · right; exact ⟨_, _, r, rfl, hr, rfl, rfl, rfl, rfl⟩
  · unfold hdr_case_5
    rcases hdr_emit_effect env cn _ _ with h | ⟨r, hr, h⟩ <;> rw [h]
    · left; exact ⟨s.task.flags, rfl, rfl, rfl, rfl⟩
    · right; exact ⟨s.task.flags, _, r, rfl, hr, rfl, rfl, rfl, rfl⟩
  · left; refine ⟨s.task.flags, ?_⟩; unfold hdr_case_99; simp only []; split_ifs <;> simp
  · left; refine ⟨s.task.flags, ?_⟩; unfold hdr_case_100; simp only []; split_ifs <;> simp
  · left; exact ⟨s.task.flags, by simp⟩

theorem hdr_loop_induct (env : Env) (inp : Bytes) (cn : Bool) (P : hdr_state → Prop)
    (hstep : ∀ s, P s → P (hdr_step env inp cn s)) (n : Nat) (s : hdr_state) (h : P s) :
    P (hdr_loop env inp cn n s) := by
  induction n generalizing s with
  | zero => exact h
  | succ n ih =>
    unfold hdr_loop
    split_ifs
    · exact ih _ (hstep s h)
    · exact h

theorem order_inv_step (env : Env) (inp : Bytes) (cn : Bool) (s : hdr_state)
    (h : order_inv s) : order_inv (hdr_step env inp cn s) := by
  rcases hdr_step_effect env inp cn s with ⟨fl, _, _, ho, hn⟩ | ⟨fl, nh, r, hnh, hr, _, _, ho, hn⟩
  · unfold order_inv; rw [ho, hn]; exact h
  · unfold order_inv
    rw [ho, hn, header_add_order _ _ _ _ _ _ r hr, stored_header_eq]
    simp [List.range_succ, h.1, h.2, hnh]

/-! ## The two views of the header table -/

theorem strcase_equal_iff (a b : Bytes) : rspamd_strcase_equal a b = true ↔ lc_name a = lc_name b := by
  simp [rspamd_strcase_equal]

theorem lookup_congr (t : HeaderTable) (a b : Bytes) (h : lc_name a = lc_name b) :
    g_hash_table_lookup t a = g_hash_table_lookup t b := by
  induction t with
  | nil => rfl
  | cons e t ih =>
    obtain ⟨k, ar⟩ := e
    simp only [g_hash_table_lookup, rspamd_strcase_equal, h, ih]

theorem lookup_table_append (t : HeaderTable) (n m : Bytes) (x : rspamd_mime_header) :
    g_hash_table_lookup (table_append t n x) m
      = if lc_name n = lc_name m then (g_hash_table_lookup t m).map (fun ar => ar ++ [x])
        else g_hash_table_lookup t m := by
  induction t with
  | nil => simp [table_append, g_hash_table_lookup]
  | cons e t ih =>
    obtain ⟨k, ar⟩ := e
    by_cases hkn : lc_name k = lc_name n
    · have h1 : rspamd_strcase_equal k n = true := (strcase_equal_iff k n).2 hkn
      simp only [table_append, h1, ↓reduceIte, g_hash_table_lookup]
      by_cases hkm : lc_name k = lc_name m
      · have h2 : rspamd_strcase_equal k m = true := (strcase_equal_iff k m).2 hkm
        simp [h2, ← hkn, hkm]
      · have h2 : rspamd_strcase_equal k m = false := by
          simpa [rspamd_strcase_equal] using hkm
        have : ¬ lc_name n = lc_name m := by rw [← hkn]; exact hkm
        simp [h2, this]
    · have h1 : rspamd_strcase_equal k n = false := by
        simpa [rspamd_strcase_equal] using hkn
      simp only [table_append, h1, g_hash_table_lookup, Bool.false_eq_true, ↓reduceIte]
      by_cases hkm : lc_name k = lc_name m
      · have h2 : rspamd_strcase_equal k m = true := (strcase_equal_iff k m).2 hkm
        have : ¬ lc_name n = lc_name m := by
          intro h; exact hkn (hkm.trans h.symm)
        simp [h2, this]
      · have h2 : rspamd_strcase_equal k m = false := by
          simpa [rspamd_strcase_equal] using hkm
        simp only [h2, Bool.false_eq_true, ↓reduceIte]
        exact ih

theorem lookup_table_snoc (t : HeaderTable) (n m : Bytes) (x : rspamd_mime_header) :
    g_hash_table_lookup (t ++ [(n, [x])]) m
      = match g_hash_table_lookup t m with
        | some ar => some ar
        | none => if lc_name n = lc_name m then some [x] else none := by
  induction t with
  | nil => simp [g_hash_table_lookup, rspamd_strcase_equal]
  | cons e t ih =>
    obtain ⟨k, ar⟩ := e
    by_cases hkm : rspamd_strcase_equal k m = true
    · simp [g_hash_table_lookup, hkm]
    · simp only [List.cons_append, g_hash_table_lookup, hkm, ↓reduceIte]
      exact ih

theorem table_size_append (t : HeaderTable) (n : Bytes) (x : rspamd_mime_header)
    (h : (g_hash_table_lookup t n).isSome) : table_size (table_append t n x) = table_size t + 1 := by
  induction t with
  | nil => simp [g_hash_table_lookup] at h
  | cons e t ih =>
    obtain ⟨k, ar⟩ := e
    by_cases hkn : rspamd_strcase_equal k n = true
    · simp [table_append, hkn, table_size]; omega
    · simp only [g_hash_table_lookup, hkn, ↓reduceIte] at h
      have := ih h
      simp only [table_size] at this
      simp [table_append, hkn, table_size, this]; omega

theorem table_inv_add (env : Env) (task : rspamd_task) (target : HeaderTable)
    (order : List rspamd_mime_header) (rh : rspamd_mime_header) (cs : Bool)
    (r : rspamd_task × HeaderTable × List rspamd_mime_header)
    (hr : rspamd_mime_header_add env task target order rh cs = some r)
    (h : table_inv target order) :
    table_inv r.2.1 r.2.2 := by
  obtain ⟨h1, h2⟩ := h
  have hname : (stored_header env task rh cs).name = rh.name := by
    rw [stored_header_eq]
  obtain ⟨ho, htab, _⟩ := header_add_some env task target order rh cs r hr
  rw [ho, htab]
  cases hl : g_hash_table_lookup target rh.name with
  | some ar =>
    simp only []
    constructor
    · intro name
      rw [lookup_table_append, h1 name, List.filter_append]
      by_cases hnm : lc_name rh.name = lc_name name
      · have hq : rspamd_strcase_equal (stored_header env task rh cs).name name = true := by
          rw [hname]; exact (strcase_equal_iff _ _).2 hnm
        have hne : ¬ (order.filter (fun h => rspamd_strcase_equal h.name name) = []) := by
          intro he
          have := h1 name
          rw [← lookup_congr target _ _ hnm, hl, he] at this
          simp at this
        simp [hnm, hq, hne]
      · have hq : rspamd_strcase_equal (stored_header env task rh cs).name name = false := by
          rw [hname]; simpa [rspamd_strcase_equal] using hnm
        simp [hnm, hq]
    · rw [table_size_append _ _ _ (by simp [hl]), h2]; simp
  | none =>
    simp only []
    constructor
    · intro name
      rw [lookup_table_snoc, h1 name, List.filter_append]
      by_cases hnm : lc_name rh.name = lc_name name
      · have hq : rspamd_strcase_equal (stored_header env task rh cs).name name = true := by
          rw [hname]; exact (strcase_equal_iff _ _).2 hnm
        have he : order.filter (fun h => rspamd_strcase_equal h.name name) = [] := by
          by_contra hc
          have := h1 name
          rw [← lookup_congr target _ _ hnm, hl, if_neg hc] at this
          simp at this
        simp [hnm, hq, he]
      · have hq : rspamd_strcase_equal (stored_header env task rh cs).name name = false := by
          rw [hname]; simpa [rspamd_strcase_equal] using hnm
        by_cases he : order.filter (fun h => rspamd_strcase_equal h.name name) = []
        · simp [hnm, hq, he]
        · simp [hnm, hq, he]
    · simp [table_size, List.map_append] at h2 ⊢
      omega

theorem table_inv_step (env : Env) (inp : Bytes) (cn : Bool) (s : hdr_state)
    (h : table_inv s.target s.order) :
    table_inv (hdr_step env inp cn s).target (hdr_step env inp cn s).order := by
  rcases hdr_step_effect env inp cn s with ⟨fl, _, ht, ho, _⟩ | ⟨fl, nh, r, _, hr, _, ht, ho, _⟩
  · rw [ht, ho]; exact h
  · rw [ht, ho]; exact table_inv_add _ _ _ _ _ _ r hr h

theorem hdr_finish_order (cn : Bool) (s : hdr_state) :
    (hdr_finish cn s).order = s.order ∧ (hdr_finish cn s).target = s.target := by
  unfold hdr_finish
  split <;> simp

theorem process_order (env : Env) (task : rspamd_task) (target : HeaderTable)
    (order : List rspamd_mime_header) (inp : Bytes) (cn : Bool) :
    (rspamd_mime_headers_process env task target order inp cn).order
        = (hdr_loop env inp cn (hdr_fuel inp) (hdr_init task target order)).order
      ∧ (rspamd_mime_headers_process env task target order inp cn).target
        = (hdr_loop env inp cn (hdr_fuel inp) (hdr_init task target order)).target := by
  unfold rspamd_mime_headers_process
  simp only []
  split
  · exact ⟨rfl, rfl⟩
  · exact hdr_finish_order _ _

/-- Claim C2.  For every input, after `rspamd_mime_headers_process` started on an empty
name index and an empty queue, the header at position `i` of the global queue has the order
index `i`: the order indices of the queue are 0, 1, ..., count - 1, hence pairwise
different. -/
theorem C2_order_is_position (env : Env) (task : rspamd_task) (inp : Bytes) (cn : Bool) :
    ((rspamd_mime_headers_process env task [] [] inp cn).order.map (fun h => h.order))
      = List.range (rspamd_mime_headers_process env task [] [] inp cn).order.length := by
  rw [(process_order env task [] [] inp cn).1]
  exact (hdr_loop_induct env inp cn order_inv (order_inv_step env inp cn) _ _
    (by simp [order_inv, hdr_init])).1

/-- Claim C3.  For every input processed from an empty name index and an empty queue, and
for every name, the sequence stored under the name in the per-name view is the global
queue filtered to the headers whose name equals it without regard to letter case, in the
order of arrival and with every occurrence kept; and the length of the global queue is the
sum of the lengths of the per-name sequences. -/
theorem C3_views_agree (env : Env) (task : rspamd_task) (inp : Bytes) (cn : Bool) :
    (∀ name : Bytes,
      (g_hash_table_lookup (rspamd_mime_headers_process env task [] [] inp cn).target name).getD []
        = (rspamd_mime_headers_process env task [] [] inp cn).order.filter
            (fun h => rspamd_strcase_equal h.name name))
    ∧ (rspamd_mime_headers_process env task [] [] inp cn).order.length
        = ((rspamd_mime_headers_process env task [] [] inp cn).target.map
            (fun e => e.2.length)).sum := by
  rw [(process_order env task [] [] inp cn).1, (process_order env task [] [] inp cn).2]
  have h := hdr_loop_induct env inp cn (fun s => table_inv s.target s.order)
    (table_inv_step env inp cn) (hdr_fuel inp) (hdr_init task [] [])
    (by simp [table_inv, hdr_init, g_hash_table_lookup, table_size])
  obtain ⟨h1, h2⟩ := h
  constructor
  · intro name
    rw [h1 name]
    split_ifs with he
    · simp [he]
    · simp
  · exact h2.symm

/-! ## Subject and Message-ID -/

theorem ascii_received : ascii "received" = [114, 101, 99, 101, 105, 118, 101, 100] := by
  decide

theorem ascii_to : ascii "to" = [116, 111] := by
  decide

theorem ascii_cc : ascii "cc" = [99, 99] := by
  decide

theorem ascii_bcc : ascii "bcc" = [98, 99, 99] := by
  decide

theorem ascii_from : ascii "from" = [102, 114, 111, 109] := by
  decide

theorem ascii_message_id : ascii "message-id" = [109, 101, 115, 115, 97, 103, 101, 45, 105, 100] := by
  decide

theorem ascii_subject : ascii "subject" = [115, 117, 98, 106, 101, 99, 116] := by
  decide

theorem ascii_return_path : ascii "return-path" = [114, 101, 116, 117, 114, 110, 45, 112, 97, 116, 104] := by
  decide

theorem ascii_delivered_to : ascii "delivered-to" = [100, 101, 108, 105, 118, 101, 114, 101, 100, 45, 116, 111] := by
  decide

theorem ascii_date : ascii "date" = [100, 97, 116, 101] := by
  decide

theorem ascii_sender : ascii "sender" = [115, 101, 110, 100, 101, 114] := by
  decide

theorem ascii_in_reply_to : ascii "in-reply-to" = [105, 110, 45, 114, 101, 112, 108, 121, 45, 116, 111] := by
  decide

theorem ascii_content_type : ascii "content-type" = [99, 111, 110, 116, 101, 110, 116, 45, 116, 121, 112, 101] := by
  decide

theorem ascii_content_transfer_encoding : ascii "content-transfer-encoding" = [99, 111, 110, 116, 101, 110, 116, 45, 116, 114, 97, 110, 115, 102, 101, 114, 45, 101, 110, 99, 111, 100, 105, 110, 103] := by
  decide

theorem ascii_references : ascii "references" = [114, 101, 102, 101, 114, 101, 110, 99, 101, 115] := by
  decide

theorem icase_hash_subject_iff (n : Bytes) :
    rspamd_icase_hash n = 0xB91D3910358E8212 ↔ lc_name n = ascii "subject" := by
  unfold rspamd_icase_hash
  generalize lc_name n = m
  simp only [ascii_received, ascii_to, ascii_cc, ascii_bcc, ascii_from, ascii_message_id, ascii_subject, ascii_return_path, ascii_delivered_to, ascii_date, ascii_sender, ascii_in_reply_to, ascii_content_type, ascii_content_transfer_encoding, ascii_references]
  constructor
  · intro h
    revert h
    by_cases h1 : (m == [114, 101, 99, 101, 105, 118, 101, 100]) = true
    · rw [if_pos h1]; intro h; omega
    rw [if_neg h1]
    by_cases h2 : (m == [116, 111]) = true
    · rw [if_pos h2]; intro h; omega
    rw [if_neg h2]
    by_cases h3 : (m == [99, 99]) = true
    · rw [if_pos h3]; intro h; omega
    rw [if_neg h3]
    by_cases h4 : (m == [98, 99, 99]) = true
    · rw [if_pos h4]; intro h; omega
    rw [if_neg h4]
    by_cases h5 : (m == [102, 114, 111, 109]) = true
    · rw [if_pos h5]; intro h; omega
    rw [if_neg h5]
    by_cases h6 : (m == [109, 101, 115, 115, 97, 103, 101, 45, 105, 100]) = true
    · rw [if_pos h6]; intro h; omega
    rw [if_neg h6]
    by_cases h7 : (m == [115, 117, 98, 106, 101, 99, 116]) = true
    · intro _; simpa using h7
    rw [if_neg h7]
    by_cases h8 : (m == [114, 101, 116, 117, 114, 110, 45, 112, 97, 116, 104]) = true
    · rw [if_pos h8]; intro h; omega
    rw [if_neg h8]
    by_cases h9 : (m == [100, 101, 108, 105, 118, 101, 114, 101, 100, 45, 116, 111]) = true
    · rw [if_pos h9]; intro h; omega
    rw [if_neg h9]
    by_cases h10 : (m == [100, 97, 116, 101]) = true
    · rw [if_pos h10]; intro h; omega
    rw [if_neg h10]
    by_cases h11 : (m == [115, 101, 110, 100, 101, 114]) = true
    · rw [if_pos h11]; intro h; omega
    rw [if_neg h11]
    by_cases h12 : (m == [105, 110, 45, 114, 101, 112, 108, 121, 45, 116, 111]) = true
    · rw [if_pos h12]; intro h; omega
    rw [if_neg h12]
    by_cases h13 : (m == [99, 111, 110, 116, 101, 110, 116, 45, 116, 121, 112, 101]) = true
    · rw [if_pos h13]; intro h; omega
    rw [if_neg h13]
    by_cases h14 : (m == [99, 111, 110, 116, 101, 110, 116, 45, 116, 114, 97, 110, 115, 102, 101, 114, 45, 101, 110, 99, 111, 100, 105, 110, 103]) = true
    · rw [if_pos h14]; intro h; omega
    rw [if_neg h14]
    by_cases h15 : (m == [114, 101, 102, 101, 114, 101, 110, 99, 101, 115]) = true
    · rw [if_pos h15]; intro h; omega
    rw [if_neg h15]
    intro h; omega
  · intro h
    subst h
    decide

theorem icase_hash_message_id_iff (n : Bytes) :
    rspamd_icase_hash n = 0x43A558FC7C240226 ↔ lc_name n = ascii "message-id" := by
  unfold rspamd_icase_hash
  generalize lc_name n = m
  simp only [ascii_received, ascii_to, ascii_cc, ascii_bcc, ascii_from, ascii_message_id, ascii_subject, ascii_return_path, ascii_delivered_to, ascii_date, ascii_sender, ascii_in_reply_to, ascii_content_type, ascii_content_transfer_encoding, ascii_references]
  constructor
  · intro h
    revert h
    by_cases h1 : (m == [114, 101, 99, 101, 105, 118, 101, 100]) = true
    · rw [if_pos h1]; intro h; omega
    rw [if_neg h1]
    by_cases h2 : (m == [116, 111]) = true
    · rw [if_pos h2]; intro h; omega
    rw [if_neg h2]
    by_cases h3 : (m == [99, 99]) = true
    · rw [if_pos h3]; intro h; omega
    rw [if_neg h3]
    by_cases h4 : (m == [98, 99, 99]) = true
    · rw [if_pos h4]; intro h; omega
    rw [if_neg h4]
    by_cases h5 : (m == [102, 114, 111, 109]) = true
    · rw [if_pos h5]; intro h; omega
    rw [if_neg h5]
    by_cases h6 : (m == [109, 101, 115, 115, 97, 103, 101, 45, 105, 100]) = true
    · intro _; simpa using h6
    rw [if_neg h6]
    by_cases h7 : (m == [115, 117, 98, 106, 101, 99, 116]) = true
    · rw [if_pos h7]; intro h; omega
    rw [if_neg h7]
    by_cases h8 : (m == [114, 101, 116, 117, 114, 110, 45, 112, 97, 116, 104]) = true
    · rw [if_pos h8]; intro h; omega
    rw [if_neg h8]
    by_cases h9 : (m == [100, 101, 108, 105, 118, 101, 114, 101, 100, 45, 116, 111]) = true
    · rw [if_pos h9]; intro h; omega
    rw [if_neg h9]
    by_cases h10 : (m == [100, 97, 116, 101]) = true
    · rw [if_pos h10]; intro h; omega
    rw [if_neg h10]
    by_cases h11 : (m == [115, 101, 110, 100, 101, 114]) = true
    · rw [if_pos h11]; intro h; omega
    rw [if_neg h11]
    by_cases h12 : (m == [105, 110, 45, 114, 101, 112, 108, 121, 45, 116, 111]) = true
    · rw [if_pos h12]; intro h; omega
    rw [if_neg h12]
    by_cases h13 : (m == [99, 111, 110, 116, 101, 110, 116, 45, 116, 121, 112, 101]) = true
    · rw [if_pos h13]; intro h; omega
    rw [if_neg h13]
    by_cases h14 : (m == [99, 111, 110, 116, 101, 110, 116, 45, 116, 114, 97, 110, 115, 102, 101, 114, 45, 101, 110, 99, 111, 100, 105, 110, 103]) = true
    · rw [if_pos h14]; intro h; omega
    rw [if_neg h14]
    by_cases h15 : (m == [114, 101, 102, 101, 114, 101, 110, 99, 101, 115]) = true
    · rw [if_pos h15]; intro h; omega
    rw [if_neg h15]
    intro h; omega
  · intro h
    subst h
    decide

theorem icase_hash_received_iff (n : Bytes) :
    rspamd_icase_hash n = 0x88705DC4D9D61AB ↔ lc_name n = ascii "received" := by
  unfold rspamd_icase_hash
  generalize lc_name n = m
  simp only [ascii_received, ascii_to, ascii_cc, ascii_bcc, ascii_from, ascii_message_id, ascii_subject, ascii_return_path, ascii_delivered_to, ascii_date, ascii_sender, ascii_in_reply_to, ascii_content_type, ascii_content_transfer_encoding, ascii_references]
  constructor
  · intro h
    revert h
    by_cases h1 : (m == [114, 101, 99, 101, 105, 118, 101, 100]) = true
    · intro _; simpa using h1
    rw [if_neg h1]
    by_cases h2 : (m == [116, 111]) = true
    · rw [if_pos h2]; intro h; omega
    rw [if_neg h2]
    by_cases h3 : (m == [99, 99]) = true
    · rw [if_pos h3]; intro h; omega
    rw [if_neg h3]
    by_cases h4 : (m == [98, 99, 99]) = true
    · rw [if_pos h4]; intro h; omega
    rw [if_neg h4]
    by_cases h5 : (m == [102, 114, 111, 109]) = true
    · rw [if_pos h5]; intro h; omega
    rw [if_neg h5]
    by_cases h6 : (m == [109, 101, 115, 115, 97, 103, 101, 45, 105, 100]) = true
    · rw [if_pos h6]; intro h; omega
    rw [if_neg h6]
    by_cases h7 : (m == [115, 117, 98, 106, 101, 99, 116]) = true
    · rw [if_pos h7]; intro h; omega
    rw [if_neg h7]
    by_cases h8 : (m == [114, 101, 116, 117, 114, 110, 45, 112, 97, 116, 104]) = true
    · rw [if_pos h8]; intro h; omega
    rw [if_neg h8]
    by_cases h9 : (m == [100, 101, 108, 105, 118, 101, 114, 101, 100, 45, 116, 111]) = true
    · rw [if_pos h9]; intro h; omega
    rw [if_neg h9]
    by_cases h10 : (m == [100, 97, 116, 101]) = true
    · rw [if_pos h10]; intro h; omega
    rw [if_neg h10]
    by_cases h11 : (m == [115, 101, 110, 100, 101, 114]) = true
    · rw [if_pos h11]; intro h; omega
    rw [if_neg h11]
    by_cases h12 : (m == [105, 110, 45, 114, 101, 112, 108, 121, 45, 116, 111]) = true
    · rw [if_pos h12]; intro h; omega
    rw [if_neg h12]
    by_cases h13 : (m == [99, 111, 110, 116, 101, 110, 116, 45, 116, 121, 112, 101]) = true
    · rw [if_pos h13]; intro h; omega
    rw [if_neg h13]
    by_cases h14 : (m == [99, 111, 110, 116, 101, 110, 116, 45, 116, 114, 97, 110, 115, 102, 101, 114, 45, 101, 110, 99, 111, 100, 105, 110, 103]) = true
    · rw [if_pos h14]; intro h; omega
    rw [if_neg h14]
    by_cases h15 : (m == [114, 101, 102, 101, 114, 101, 110, 99, 101, 115]) = true
    · rw [if_pos h15]; intro h; omega
    rw [if_neg h15]
    intro h; omega
  · intro h
    subst h
    decide

/-- A header that is safe for the trace parser is inserted. -/
theorem header_add_safe (env : Env) (task : rspamd_task) (target : HeaderTable)
    (order : List rspamd_mime_header) (rh : rspamd_mime_header) (cs : Bool)
    (h : received_safe cs rh.name rh.decoded = true) :
    ∃ r, rspamd_mime_header_add env task target order rh cs = some r := by
  apply header_add_returns
  intro hcs hh hsp
  have hn := (icase_hash_received_iff rh.name).1 hh
  simp [received_safe, hcs, hn, hsp] at h

/-- A header that is not safe for the trace parser aborts the process. -/
theorem header_add_aborts (env : Env) (task : rspamd_task) (target : HeaderTable)
    (order : List rspamd_mime_header) (rh : rspamd_mime_header) (cs : Bool)
    (h : received_safe cs rh.name rh.decoded = false) :
    rspamd_mime_header_add env task target order rh cs = none := by
  simp only [received_safe, Bool.not_eq_false', Bool.and_eq_true, beq_iff_eq] at h
  obtain ⟨⟨hcs, hn⟩, hsp⟩ := h
  subst hcs
  unfold rspamd_mime_header_add
  simp only [if_true]
  rw [(check_special_none_iff env task rh).2 ⟨(icase_hash_received_iff rh.name).2 hn, hsp⟩]

theorem subject_inv_step (env : Env) (inp : Bytes) (s : hdr_state)
    (h : subject_inv s) : subject_inv (hdr_step env inp true s) := by
  rcases hdr_step_effect env inp true s with
    ⟨fl, ht, _, ho, _⟩ | ⟨fl, nh, r, _, hr, ht, _, ho, _⟩
  · unfold subject_inv; rw [ho, ht]; exact h
  · unfold subject_inv at h ⊢
    obtain ⟨hord, _, _, _, hcs⟩ := header_add_some _ _ _ _ _ _ r hr
    obtain ⟨r0, hr0, h1⟩ := hcs rfl
    rw [ho, ht, hord]
    have h2 : stored_header env { s.task with flags := fl } nh true
        = { nh with type := (stored_header env { s.task with flags := fl } nh true).type } :=
      stored_header_eq _ _ _ _
    rw [h1, check_special_subject _ _ _ r0 hr0, h2, List.find?_append]
    simp only [h]
    by_cases hn : lc_name nh.name = ascii "subject"
    · rw [if_pos ((icase_hash_subject_iff _).2 hn)]
      cases hf : s.order.find? (fun h => lc_name h.name == ascii "subject") with
      | none => simp [hn]
      | some x => simp
    · rw [if_neg (fun hc => hn ((icase_hash_subject_iff _).1 hc))]
      cases hf : s.order.find? (fun h => lc_name h.name == ascii "subject") with
      | none => simp [hn]
      | some x => simp

theorem process_subject (env : Env) (task : rspamd_task) (target : HeaderTable)
    (order : List rspamd_mime_header) (inp : Bytes) (cn : Bool) :
    (rspamd_mime_headers_process env task target order inp cn).task.subject
      = (hdr_loop env inp cn (hdr_fuel inp) (hdr_init task target order)).task.subject := by
  unfold rspamd_mime_headers_process
  simp only []
  split
  · rfl
  · unfold hdr_finish
    split <;> rfl

/-- Claim C8.  For every input processed with special fields recognised, from an empty
queue and a task whose subject is unset: the subject of the task afterwards is the decoded
value of the first header of the queue whose name is `Subject` in any letter case (later
ones do not change it), and it is unset when the queue has no such header.  When an
assertion aborts the process, this is so for the headers stored up to then. -/
theorem C8_subject_first_wins (env : Env) (task : rspamd_task) (inp : Bytes)
    (h0 : task.subject = none) :
    (rspamd_mime_headers_process env task [] [] inp true).task.subject
      = (first_subject (rspamd_mime_headers_process env task [] [] inp true).order).map
          (fun h => h.decoded) := by
  rw [process_subject, (process_order env task [] [] inp true).1]
  exact hdr_loop_induct env inp true subject_inv (subject_inv_step env inp) _ _
    (by simp [subject_inv, hdr_init, h0])

/-- Claim C8, witness: two `Subject` headers in different letter cases, the first one
wins. -/
theorem C8_subject_first_wins_witness :
    (rspamd_mime_headers_process plain_env {} [] [] (ascii "Subject: a\nsubject: b\n\n")
        true).task.subject = some (ascii "a")
    ∧ (rspamd_mime_headers_process plain_env {} [] [] (ascii "Subject: a\nsubject: b\n\n")
        true).task.subject
      = (first_subject (rspamd_mime_headers_process plain_env {} [] []
          (ascii "Subject: a\nsubject: b\n\n") true).order).map (fun h => h.decoded) :=
  ⟨by decide, C8_subject_first_wins plain_env {} (ascii "Subject: a\nsubject: b\n\n") rfl⟩

/-- Claim C9, the code at the failing input: of two `Message-ID` headers the task keeps
the identifier of the last one, `c@d`, not the one of the first, `a@b`. -/
theorem C9_message_id_last_wins :
    (rspamd_mime_headers_process plain_env {} [] []
        (ascii "Message-ID: <a@b>\nMessage-ID: <c@d>\n\n") true).order.map
        (fun h => (h.name, h.decoded))
      = [(ascii "Message-ID", ascii "<a@b>"), (ascii "Message-ID", ascii "<c@d>")]
    ∧ (rspamd_mime_headers_process plain_env {} [] []
        (ascii "Message-ID: <a@b>\nMessage-ID: <c@d>\n\n") true).task.message_id
      = some (ascii "c@d") := by
  decide

/-- Claim C6, the code at the failing inputs: an input that ends right after the colon of
its last line, or after the blanks that follow the colon, emits no header at all. -/
theorem C6_no_header_after_colon :
    (rspamd_mime_headers_process plain_env {} [] [] (ascii "A:") true).order = []
    ∧ (rspamd_mime_headers_process plain_env {} [] [] (ascii "A: ") true).order = []
    ∧ (rspamd_mime_headers_process plain_env {} [] [] (ascii "X: y\nA:") true).order.map
        (fun h => h.name) = [ascii "X"] := by
  decide

/-- Claim C7, counterexample.  The line `!!garbage` starts with a byte that is no letter;
the block is processed with the flag `BROKEN_HEADERS` left unset, and the one header
`Subject` decoded as `real` is stored. -/
theorem C7_counterexample :
    (rspamd_mime_headers_process plain_env {} [] []
        (ascii "!!garbage\r\nSubject: real\r\n\r\n") true).task.flags
        &&& RSPAMD_TASK_FLAG_BROKEN_HEADERS = 0
    ∧ (rspamd_mime_headers_process plain_env {} [] []
        (ascii "!!garbage\r\nSubject: real\r\n\r\n") true).order.map
        (fun h => (h.name, h.decoded)) = [(ascii "Subject", ascii "real")] := by
  decide

/-! ## The identifier taken from a Message-ID header -/

theorem peek_last (d : Bytes) (h : d ≠ []) : peek d (d.length - 1) = d.getLast h := by
  unfold peek
  rw [List.getLast_eq_getElem]
  rw [List.getD_eq_getElem?_getD, List.getElem?_eq_getElem (by
    have := List.length_pos.2 h
    omega)]
  rfl

theorem slice_zero (d : Bytes) (e : Nat) : slice d 0 e = d.take e := by
  simp [slice]

theorem slice_cons_succ (b : Nat) (d : Bytes) (e : Nat) : slice (b :: d) 1 (e + 1) = d.take e := by
  simp [slice]

theorem message_id_copy_eq (s : Bytes) :
    message_id_copy s = s.map (fun b => if 0x21 ≤ b ∧ b ≤ 0x7E then b else 63) := by
  unfold message_id_copy
  apply List.map_congr_left
  intro b _
  simp [g_ascii_isgraph]

theorem strip_trailing_gt_eq (d : Bytes) (h : d ≠ []) :
    strip_trailing_gt d = d.take (if peek d (d.length - 1) = 62 then d.length - 1 else d.length) := by
  unfold strip_trailing_gt
  rw [peek_last d h, List.getLast?_eq_getLast d h]
  by_cases hl : d.getLast h = 62
  · simp [hl, List.dropLast_eq_take]
  · simp [hl]

theorem message_id_of_eq_spec (d : Bytes) : message_id_of d = message_id_spec d := by
  unfold message_id_of message_id_spec
  simp only [message_id_copy_eq]
  cases d with
  | nil => simp [peek, strip_leading_lt]
  | cons b r =>
    by_cases hb : b = 60
    · subst hb
      have h1 : strip_leading_lt (60 :: r) = r := rfl
      rw [h1]
      cases r with
      | nil => simp [peek]
      | cons b2 r2 =>
        have hne : (b2 :: r2) ≠ [] := by simp
        rw [strip_trailing_gt_eq _ hne]
        have hp : peek (60 :: b2 :: r2) ((60 :: b2 :: r2).length - 1)
            = peek (b2 :: r2) ((b2 :: r2).length - 1) := by
          simp [peek]
        simp only [peek, List.getD_cons_zero, beq_self_eq_true, ↓reduceIte] at hp ⊢
        simp only [List.length_cons] at hp ⊢
        simp only [show r2.length + 1 + 1 > 1 by omega, ↓reduceIte, reduceCtorEq]
        rw [hp]
        by_cases hl : (b2 :: r2).getD (r2.length + 1 - 1) 0 = 62
        · simp only [hl, beq_self_eq_true, ↓reduceIte]
          rw [show r2.length + 1 + 1 - 1 = (r2.length + 1 - 1) + 1 by omega, slice_cons_succ]
        · simp only [hl, ↓reduceIte]
          have : ((b2 :: r2).getD (r2.length + 1 - 1) 0 == 62) = false := by simpa using hl
          simp only [this, Bool.false_eq_true, ↓reduceIte]
          rw [slice_cons_succ]
    · have h1 : strip_leading_lt (b :: r) = b :: r := by
        unfold strip_leading_lt
        split
        · rename_i h; simp at h; exact absurd h.1 hb
        · rfl
      rw [h1]
      have hne : (b :: r) ≠ [] := by simp
      rw [strip_trailing_gt_eq _ hne]
      have hb2 : (peek (b :: r) 0 == 60) = false := by simpa [peek] using hb
      simp only [hb2, Bool.false_eq_true, ↓reduceIte, List.length_cons,
        show r.length + 1 > 0 by omega, reduceCtorEq, slice_zero]
      by_cases hl : peek (b :: r) (r.length + 1 - 1) = 62
      · simp [hl]
      · have : (peek (b :: r) (r.length + 1 - 1) == 62) = false := by simpa using hl
        simp [hl, this]

theorem strip_leading_lt_length (d : Bytes) :
    (strip_leading_lt d).length + (if d.head? = some 60 then 1 else 0) = d.length := by
  cases d with
  | nil => rfl
  | cons b r =>
    by_cases hb : b = 60
    · subst hb; simp [strip_leading_lt]
    · have h1 : strip_leading_lt (b :: r) = b :: r := by
        unfold strip_leading_lt
        split
        · rename_i h; simp at h; exact absurd h.1 hb
        · rfl
      simp [h1, hb]

theorem strip_trailing_gt_length (d : Bytes) :
    (strip_trailing_gt d).length + (if d.getLast? = some 62 then 1 else 0) = d.length := by
  unfold strip_trailing_gt
  by_cases h : d.getLast? = some 62
  · have hne : d ≠ [] := by
      intro hc; subst hc; simp at h
    have := List.length_pos.2 hne
    simp [h]; omega
  · simp [h]

/-- Claim C10.  For a header named `Message-ID` in any letter case with decoded value `d`:
let `d1` be `d` without one leading `<`; when `d1` is not empty, the identifier that
`rspamd_mime_header_check_special` stores in the task is `d1` without one trailing `>` with
every byte that is no graphic ASCII character (0x21 to 0x7E) replaced by a question mark.
So the identifier has the length of `d` less the stripped brackets, and all its bytes are
graphic ASCII. -/
theorem C10_message_id (env : Env) (task : rspamd_task) (rh : rspamd_mime_header)
    (hname : lc_name rh.name = ascii "message-id") (hne : strip_leading_lt rh.decoded ≠ []) :
    ∃ r, rspamd_mime_header_check_special env task rh = some r
      ∧ r.1.message_id
        = some ((strip_trailing_gt (strip_leading_lt rh.decoded)).map
            (fun b => if 0x21 ≤ b ∧ b ≤ 0x7E then b else 63))
      ∧ ∀ id, r.1.message_id = some id →
          (id.length + (if rh.decoded.head? = some 60 then 1 else 0)
              + (if (strip_leading_lt rh.decoded).getLast? = some 62 then 1 else 0)
            = rh.decoded.length)
          ∧ ∀ b ∈ id, 0x21 ≤ b ∧ b ≤ 0x7E := by
  have hh := (icase_hash_message_id_iff rh.name).2 hname
  obtain ⟨r, hr⟩ := check_special_returns env task rh (fun hc => by
    rw [hh] at hc; exact absurd hc (by decide))
  have h1 : r.1.message_id
      = some ((strip_trailing_gt (strip_leading_lt rh.decoded)).map
          (fun b => if 0x21 ≤ b ∧ b ≤ 0x7E then b else 63)) := by
    rw [check_special_message_id env task rh r hr, if_pos hh, message_id_of_eq_spec]
    simp [message_id_spec, hne]
  refine ⟨r, hr, h1, ?_⟩
  intro id hid
  rw [h1] at hid
  have hid2 := (Option.some.inj hid).symm
  subst hid2
  constructor
  · have := strip_leading_lt_length rh.decoded
    have := strip_trailing_gt_length (strip_leading_lt rh.decoded)
    simp only [List.length_map]
    omega
  · intro b hb
    rw [List.mem_map] at hb
    obtain ⟨a, _, ha⟩ := hb
    by_cases hg : 0x21 ≤ a ∧ a ≤ 0x7E
    · rw [if_pos hg] at ha; subst ha; exact hg
    · rw [if_neg hg] at ha; subst ha; decide

/-- Claim C10, witness: the header `Message-ID` with decoded value `<a@b>` gives the
identifier `a@b`. -/
theorem C10_message_id_witness :
    (rspamd_mime_header_check_special plain_env {}
        { name := ascii "Message-ID", decoded := ascii "<a@b>" }).map (fun r => r.1.message_id)
      = some (some (ascii "a@b"))
    ∧ ∃ r, rspamd_mime_header_check_special plain_env {}
          { name := ascii "Message-ID", decoded := ascii "<a@b>" } = some r
        ∧ r.1.message_id
          = some ((strip_trailing_gt (strip_leading_lt (ascii "<a@b>"))).map
            (fun b => if 0x21 ≤ b ∧ b ≤ 0x7E then b else 63)) :=
  ⟨by decide,
    (C10_message_id plain_env {} { name := ascii "Message-ID", decoded := ascii "<a@b>" }
      (by decide) (by decide)).imp (fun _ h => ⟨h.1, h.2.1⟩)⟩

/-! ## Reading the input through its decomposition -/

theorem peek_append_right (a b : Bytes) (j : Nat) : peek (a ++ b) (a.length + j) = peek b j := by
  unfold peek
  rw [List.getD_eq_getElem?_getD, List.getD_eq_getElem?_getD]
  rw [List.getElem?_append_right (by omega)]
  simp

theorem peek_append_left (a b : Bytes) (j : Nat) (h : j < a.length) :
    peek (a ++ b) j = peek a j := by
  unfold peek
  rw [List.getD_eq_getElem?_getD, List.getD_eq_getElem?_getD,
    List.getElem?_append_left h]

theorem peek_mem (a : Bytes) (j : Nat) (h : j < a.length) : peek a j ∈ a := by
  unfold peek
  rw [List.getD_eq_getElem?_getD, List.getElem?_eq_getElem h]
  exact List.getElem_mem h

/-- The byte read at offset `|a| + j` of `a ++ x ++ b` lies in `x` when `j < |x|`. -/
theorem peek_mid (a x b : Bytes) (j : Nat) (h : j < x.length) :
    peek (a ++ (x ++ b)) (a.length + j) ∈ x := by
  rw [peek_append_right, peek_append_left _ _ _ h]
  exact peek_mem x j h

theorem peek_mid_head (a b : Bytes) (y : Nat) : peek (a ++ y :: b) a.length = y := by
  have := peek_append_right a (y :: b) 0
  simpa [peek] using this

theorem slice_mid (a x b : Bytes) : slice (a ++ (x ++ b)) a.length (a.length + x.length) = x := by
  unfold slice
  simp

theorem peek_cons_zero (y : Nat) (b : Bytes) : peek (y :: b) 0 = y := rfl

theorem peek_nil (j : Nat) : peek [] j = 0 := by
  simp [peek]

/-! ## Runs of the tokenizer over a stretch of the input -/

/-- State 1 walks over bytes that are neither a colon nor white space. -/
theorem run_name (env : Env) (inp : Bytes) (cn : Bool) (n : Nat) (s : hdr_state)
    (hs : s.state = 1) (ha : s.aborted = false) (hlen : s.p + n ≤ inp.length)
    (hb : ∀ j, j < n → peek inp (s.p + j) ≠ 58 ∧ g_ascii_isspace (peek inp (s.p + j)) = false) :
    hdr_reach env inp cn s { s with p := s.p + n } := by
  induction n generalizing s with
  | zero => exact hdr_reach_refl _ _ _ _
  | succ n ih =>
    have h0 := hb 0 (by omega)
    simp only [Nat.add_zero] at h0
    have hstep : hdr_step env inp cn s = { s with p := s.p + 1 } := by
      rw [hdr_step_1 _ _ _ _ hs]
      simp [hdr_case_1, h0.1, h0.2]
    have h1 := hdr_reach_step env inp cn s (show s.p < inp.length by omega) ha
    rw [hstep] at h1
    have h2 := ih { s with p := s.p + 1 } hs ha (by simp; omega) (by
      intro j hj
      have := hb (j + 1) (by omega)
      simpa [Nat.add_assoc, Nat.add_comm 1 j] using this)
    have : ({ s with p := s.p + 1 + n } : hdr_state) = { s with p := s.p + (n + 1) } := by
      simp [Nat.add_assoc, Nat.add_comm 1 n]
    simp only [] at h2
    rw [this] at h2
    exact hdr_reach_trans h1 h2

/-- State 2 walks over spaces and tabs; only the two separator marks of `nh` change. -/
theorem run_separator (env : Env) (inp : Bytes) (cn : Bool) (n : Nat) (s : hdr_state)
    (hs : s.state = 2) (ha : s.aborted = false) (hlen : s.p + n ≤ inp.length)
    (hb : ∀ j, j < n → peek inp (s.p + j) = 32 ∨ peek inp (s.p + j) = 9) :
    ∃ ts es, hdr_reach env inp cn s
      { s with p := s.p + n, nh := { s.nh with tab_separated := ts, empty_separator := es } } := by
  induction n generalizing s with
  | zero => exact ⟨s.nh.tab_separated, s.nh.empty_separator, hdr_reach_refl _ _ _ _⟩
  | succ n ih =>
    have h0 := hb 0 (by omega)
    simp only [Nat.add_zero] at h0
    have h1 := hdr_reach_step env inp cn s (show s.p < inp.length by omega) ha
    rw [hdr_step_2 _ _ _ _ hs] at h1
    have hstep : ∃ ts es, hdr_case_2 inp cn s
        = { s with p := s.p + 1, nh := { s.nh with tab_separated := ts, empty_separator := es } } := by
      rcases h0 with h0 | h0
      · exact ⟨s.nh.tab_separated, false, by simp [hdr_case_2, h0]⟩
      · exact ⟨true, false, by simp [hdr_case_2, h0]⟩
    obtain ⟨ts, es, hstep⟩ := hstep
    rw [hstep] at h1
    obtain ⟨ts2, es2, h2⟩ := ih
      { s with p := s.p + 1, nh := { s.nh with tab_separated := ts, empty_separator := es } }
      hs ha (by simp; omega) (by
        intro j hj
        have := hb (j + 1) (by omega)
        simpa [Nat.add_assoc, Nat.add_comm 1 j] using this)
    refine ⟨ts2, es2, ?_⟩
    have : ({ s with p := s.p + 1 + n,
                     nh := { s.nh with tab_separated := ts2, empty_separator := es2 } } : hdr_state)
        = { s with p := s.p + (n + 1),
                   nh := { s.nh with tab_separated := ts2, empty_separator := es2 } } := by
      simp [Nat.add_assoc, Nat.add_comm 1 n]
    simp only [] at h2
    rw [this] at h2
    exact hdr_reach_trans h1 h2

/-- State 3 walks over bytes that are neither CR nor LF, as long as the last byte of the
input is not reached. -/
theorem run_value (env : Env) (inp : Bytes) (cn : Bool) (n : Nat) (s : hdr_state)
    (hs : s.state = 3) (ha : s.aborted = false) (hlen : s.p + n < inp.length)
    (hb : ∀ j, j < n → peek inp (s.p + j) ≠ 13 ∧ peek inp (s.p + j) ≠ 10) :
    hdr_reach env inp cn s { s with p := s.p + n } := by
  induction n generalizing s with
  | zero => exact hdr_reach_refl _ _ _ _
  | succ n ih =>
    have h0 := hb 0 (by omega)
    simp only [Nat.add_zero] at h0
    have hstep : hdr_step env inp cn s = { s with p := s.p + 1 } := by
      rw [hdr_step_3 _ _ _ _ hs]
      have : ¬ (s.p + 1 = inp.length) := by omega
      simp [hdr_case_3, h0.1, h0.2, this]
    have h1 := hdr_reach_step env inp cn s (show s.p < inp.length by omega) ha
    rw [hstep] at h1
    have h2 := ih { s with p := s.p + 1 } hs ha (by simp; omega) (by
      intro j hj
      have := hb (j + 1) (by omega)
      simpa [Nat.add_assoc, Nat.add_comm 1 j] using this)
    have : ({ s with p := s.p + 1 + n } : hdr_state) = { s with p := s.p + (n + 1) } := by
      simp [Nat.add_assoc, Nat.add_comm 1 n]
    simp only [] at h2
    rw [this] at h2
    exact hdr_reach_trans h1 h2

/-- State 99 walks over CR and LF bytes, as long as the last byte of the input is not
reached; the folding seen so far is no longer valid. -/
theorem run_fold_newlines (env : Env) (inp : Bytes) (cn : Bool) (n : Nat) (s : hdr_state)
    (hs : s.state = 99) (ha : s.aborted = false) (hlen : s.p + n < inp.length) (hn : 0 < n)
    (hb : ∀ j, j < n → peek inp (s.p + j) = 13 ∨ peek inp (s.p + j) = 10) :
    hdr_reach env inp cn s { s with p := s.p + n, valid_folding := false } := by
  induction n generalizing s with
  | zero => omega
  | succ n ih =>
    have h0 := hb 0 (by omega)
    simp only [Nat.add_zero] at h0
    have hstep : hdr_step env inp cn s = { s with p := s.p + 1, valid_folding := false } := by
      rw [hdr_step_99 _ _ _ _ hs]
      have : ¬ (s.p + 1 = inp.length) := by omega
      simp [hdr_case_99, h0, this]
    have h1 := hdr_reach_step env inp cn s (show s.p < inp.length by omega) ha
    rw [hstep] at h1
    cases n with
    | zero => exact h1
    | succ m =>
      have h2 := ih { s with p := s.p + 1, valid_folding := false } hs ha (by simp; omega)
        (by omega) (by
        intro j hj
        have := hb (j + 1) (by omega)
        simpa [Nat.add_assoc, Nat.add_comm 1 j] using this)
      have : ({ s with p := s.p + 1 + (m + 1), valid_folding := false } : hdr_state)
          = { s with p := s.p + (m + 1 + 1), valid_folding := false } := by
        simp [Nat.add_assoc, Nat.add_comm 1 (m + 1)]
      simp only [] at h2
      rw [this] at h2
      exact hdr_reach_trans h1 h2

/-- State 99 walks over spaces and tabs, as long as the last byte of the input is not
reached; the folding is valid. -/
theorem run_fold_blanks (env : Env) (inp : Bytes) (cn : Bool) (n : Nat) (s : hdr_state)
    (hs : s.state = 99) (ha : s.aborted = false) (hlen : s.p + n < inp.length) (hn : 0 < n)
    (hb : ∀ j, j < n → peek inp (s.p + j) = 9 ∨ peek inp (s.p + j) = 32) :
    hdr_reach env inp cn s { s with p := s.p + n, valid_folding := true } := by
  induction n generalizing s with
  | zero => omega
  | succ n ih =>
    have h0 := hb 0 (by omega)
    simp only [Nat.add_zero] at h0
    have hstep : hdr_step env inp cn s = { s with p := s.p + 1, valid_folding := true } := by
      rw [hdr_step_99 _ _ _ _ hs]
      have : ¬ (s.p + 1 = inp.length) := by omega
      have h13 : ¬ (peek inp s.p = 13 ∨ peek inp s.p = 10) := by omega
      simp only [hdr_case_99, this, ↓reduceIte, h13, h0]
    have h1 := hdr_reach_step env inp cn s (show s.p < inp.length by omega) ha
    rw [hstep] at h1
    cases n with
    | zero => exact h1
    | succ m =>
      have h2 := ih { s with p := s.p + 1, valid_folding := true } hs ha (by simp; omega)
        (by omega) (by
        intro j hj
        have := hb (j + 1) (by omega)
        simpa [Nat.add_assoc, Nat.add_comm 1 j] using this)
      have : ({ s with p := s.p + 1 + (m + 1), valid_folding := true } : hdr_state)
          = { s with p := s.p + (m + 1 + 1), valid_folding := true } := by
        simp [Nat.add_assoc, Nat.add_comm 1 (m + 1)]
      simp only [] at h2
      rw [this] at h2
      exact hdr_reach_trans h1 h2

/-- State 100 walks over bytes that are neither CR nor LF, as long as the last byte of
the input is not reached. -/
theorem run_skip (env : Env) (inp : Bytes) (cn : Bool) (n : Nat) (s : hdr_state)
    (hs : s.state = 100) (ha : s.aborted = false) (hlen : s.p + n < inp.length)
    (hb : ∀ j, j < n → peek inp (s.p + j) ≠ 13 ∧ peek inp (s.p + j) ≠ 10) :
    hdr_reach env inp cn s { s with p := s.p + n } := by
  induction n generalizing s with
  | zero => exact hdr_reach_refl _ _ _ _
  | succ n ih =>
    have h0 := hb 0 (by omega)
    simp only [Nat.add_zero] at h0
    have hstep : hdr_step env inp cn s = { s with p := s.p + 1 } := by
      rw [hdr_step_100 _ _ _ _ hs]
      have : ¬ (s.p + 1 = inp.length) := by omega
      simp [hdr_case_100, h0.1, h0.2, this]
    have h1 := hdr_reach_step env inp cn s (show s.p < inp.length by omega) ha
    rw [hstep] at h1
    have h2 := ih { s with p := s.p + 1 } hs ha (by simp; omega) (by
      intro j hj
      have := hb (j + 1) (by omega)
      simpa [Nat.add_assoc, Nat.add_comm 1 j] using this)
    have : ({ s with p := s.p + 1 + n } : hdr_state) = { s with p := s.p + (n + 1) } := by
      simp [Nat.add_assoc, Nat.add_comm 1 n]
    simp only [] at h2
    rw [this] at h2
    exact hdr_reach_trans h1 h2

/-! ## Shape of a header on the wire -/

theorem value_line_bytes {l : Bytes} (h : value_line l = true) :
    ∀ b ∈ l, 32 ≤ b ∧ b ≤ 126 ∧ b ≠ 61 := by
  intro b hb
  simp only [value_line, Bool.and_eq_true, List.all_eq_true] at h
  have := h.1.1.1 b hb
  simp only [Bool.and_eq_true, decide_eq_true_eq, bne_iff_ne, ne_eq] at this
  exact ⟨this.1.1, this.1.2, this.2⟩

theorem value_line_cons {l : Bytes} (h : value_line l = true) :
    ∃ a r, l = a :: r ∧ a ≠ 32 ∧ 32 ≤ a ∧ a ≤ 126 ∧ a ≠ 61 := by
  cases l with
  | nil => simp [value_line] at h
  | cons a r =>
    have hb := value_line_bytes h a (by simp)
    simp only [value_line, Bool.and_eq_true] at h
    have h32 : a ≠ 32 := by
      have := h.1.2
      simpa using this
    exact ⟨a, r, rfl, h32, hb.1, hb.2.1, hb.2.2⟩

theorem value_line_last {l : Bytes} (h : value_line l = true) : l.getLast? ≠ some 32 := by
  simp only [value_line, Bool.and_eq_true] at h
  simpa using h.2

/-! ## The copy loop of state 4 -/

theorem value_copy_plain (l x : Bytes) (h : ∀ b ∈ l, b ≠ 10 ∧ b ≠ 13 ∧ b ≠ 0) :
    value_copy 0 (l ++ x) = l ++ value_copy 0 x := by
  induction l with
  | nil => rfl
  | cons b r ih =>
    have hb := h b (by simp)
    have : ¬ (b = 10 ∨ b = 13) := by omega
    have ih' := ih (fun c hc => h c (by simp [hc]))
    simp only [List.cons_append, value_copy, this, ↓reduceIte, hb.2.2, ne_eq, not_false_eq_true]
    exact congrArg (List.cons b) ih'

theorem value_copy_spaces (t : Nat) (w x : Bytes) (h : ∀ b ∈ w, g_ascii_isspace b = true) :
    value_copy (t + 1) (w ++ x) = value_copy (t + 1) x := by
  induction w with
  | nil => rfl
  | cons b r ih =>
    simp only [List.cons_append, value_copy, h b (by simp), ↓reduceIte]
    exact ih (fun c hc => h c (by simp [hc]))

theorem value_copy_fold (nl ws l x : Bytes) (hf : fold_break nl ws = true)
    (hl : value_line l = true) :
    value_copy 0 (nl ++ (ws ++ l) ++ x) = 32 :: l ++ value_copy 0 x := by
  simp only [fold_break, Bool.and_eq_true, List.all_eq_true] at hf
  obtain ⟨⟨⟨hnl, hnlb⟩, _⟩, hwsb⟩ := hf
  cases nl with
  | nil => simp at hnl
  | cons b r =>
    have hb := hnlb b (by simp)
    have hb' : b = 10 ∨ b = 13 := by
      simp at hb; omega
    obtain ⟨a, r', hl', ha32, ha1, ha2, _⟩ := value_line_cons hl
    have hsp : ∀ c ∈ r ++ ws, g_ascii_isspace c = true := by
      intro c hc
      rcases List.mem_append.1 hc with hc | hc
      · have := hnlb c (by simp [hc])
        simp at this
        rcases this with h | h <;> simp [h, g_ascii_isspace]
      · have := hwsb c hc
        simp at this
        rcases this with h | h <;> simp [h, g_ascii_isspace]
    have hns : g_ascii_isspace a = false := by
      simp only [g_ascii_isspace, Bool.or_eq_false_iff, beq_eq_false_iff_ne, ne_eq]
      refine ⟨⟨⟨⟨ha32, ?_⟩, ?_⟩, ?_⟩, ?_⟩ <;> omega
    have e1 : b :: r ++ (ws ++ l) ++ x = b :: ((r ++ ws) ++ (a :: (r' ++ x))) := by
      simp [hl']
    rw [e1]
    simp only [value_copy, hb', ↓reduceIte]
    rw [value_copy_spaces 0 _ _ hsp]
    have ha0 : a ≠ 0 := by omega
    simp only [value_copy, hns, Bool.false_eq_true, ↓reduceIte, ha0, ne_eq, not_false_eq_true]
    have hpl : ∀ c ∈ r', c ≠ 10 ∧ c ≠ 13 ∧ c ≠ 0 := by
      intro c hc
      have := value_line_bytes hl c (by simp [hl', hc])
      omega
    rw [value_copy_plain r' x hpl, hl']
    simp

theorem value_copy_newlines (x : Bytes) (h : ∀ b ∈ x, b = 13 ∨ b = 10) :
    value_copy 0 x = if x = [] then [] else [32] := by
  cases x with
  | nil => rfl
  | cons b r =>
    have hb := h b (by simp)
    have hb' : b = 10 ∨ b = 13 := by omega
    have hsp : ∀ c ∈ r, g_ascii_isspace c = true := by
      intro c hc
      rcases h c (by simp [hc]) with h | h <;> simp [h, g_ascii_isspace]
    have := value_copy_spaces 0 r [] hsp
    simp only [List.append_nil] at this
    simp [value_copy, hb', this]

theorem value_copy_folds (rest : List (Bytes × Bytes × Bytes)) (x : Bytes)
    (hr : folds_ok rest = true) :
    value_copy 0 (rest.flatMap (fun f => f.1 ++ (f.2.1 ++ f.2.2)) ++ x)
      = rest.flatMap (fun f => 32 :: f.2.2) ++ value_copy 0 x := by
  induction rest with
  | nil => rfl
  | cons f rest ih =>
    simp only [folds_ok, List.all_cons, Bool.and_eq_true] at hr
    obtain ⟨⟨hf, hl⟩, hrest⟩ := hr
    simp only [List.flatMap_cons, List.append_assoc]
    have := value_copy_fold f.1 f.2.1 f.2.2
      (rest.flatMap (fun f => f.1 ++ (f.2.1 ++ f.2.2)) ++ x) hf hl
    simp only [List.append_assoc] at this
    rw [this, ih (by simpa [folds_ok] using hrest)]

theorem unfolded_bytes (l1 : Bytes) (rest : List (Bytes × Bytes × Bytes))
    (h1 : value_line l1 = true) (hr : folds_ok rest = true) :
    ∀ b ∈ unfolded l1 rest, 32 ≤ b ∧ b ≤ 126 ∧ b ≠ 61 := by
  intro b hb
  simp only [unfolded, List.mem_append, List.mem_flatMap, List.mem_cons] at hb
  rcases hb with hb | ⟨f, hf, hb⟩
  · exact value_line_bytes h1 b hb
  · rcases hb with hb | hb
    · subst hb; omega
    · simp only [folds_ok, List.all_eq_true, Bool.and_eq_true] at hr
      exact value_line_bytes (hr f hf).2 b hb

theorem unfolded_last (l1 : Bytes) (rest : List (Bytes × Bytes × Bytes))
    (h1 : value_line l1 = true) (hr : folds_ok rest = true) :
    (unfolded l1 rest).getLast? ≠ some 32 := by
  induction rest using List.reverseRecOn with
  | nil => simpa [unfolded] using value_line_last h1
  | append_singleton rest f _ =>
    simp only [folds_ok, List.all_append, List.all_cons, List.all_nil, Bool.and_true,
      Bool.and_eq_true] at hr
    obtain ⟨a, r, hl, _⟩ := value_line_cons hr.2.2
    have hlast := value_line_last hr.2.2
    simp only [unfolded, List.flatMap_append, List.flatMap_cons, List.flatMap_nil,
      List.append_nil]
    rw [← List.append_assoc, List.getLast?_append]
    rw [hl] at hlast ⊢
    simp only [List.getLast?_cons_cons]
    cases hq : (a :: r).getLast? with
    | none => simp at hq
    | some q =>
      rw [hq] at hlast
      simpa using hlast

theorem header_value_folded (l1 : Bytes) (rest : List (Bytes × Bytes × Bytes)) (x : Bytes)
    (h1 : value_line l1 = true) (hr : folds_ok rest = true) (hx : ∀ b ∈ x, b = 13 ∨ b = 10) :
    header_value (folded l1 rest ++ x) = unfolded l1 rest := by
  have hpl : ∀ c ∈ l1, c ≠ 10 ∧ c ≠ 13 ∧ c ≠ 0 := by
    intro c hc
    have := value_line_bytes h1 c hc
    omega
  have hcopy : value_copy 0 (folded l1 rest ++ x)
      = unfolded l1 rest ++ (if x = [] then [] else [32]) := by
    unfold folded unfolded
    rw [List.append_assoc, value_copy_plain _ _ hpl, value_copy_folds rest x hr,
      value_copy_newlines x hx, List.append_assoc]
  have hlast := unfolded_last l1 rest h1 hr
  have hstrip : strip_last_space (value_copy 0 (folded l1 rest ++ x)) = unfolded l1 rest := by
    rw [hcopy]
    unfold strip_last_space
    by_cases hxe : x = []
    · simp [hxe, hlast]
    · simp [hxe]
  unfold header_value
  rw [hstrip]
  obtain ⟨a, r, hl, ha32, ha1, ha2, _⟩ := value_line_cons h1
  have hns : g_ascii_isspace a = false := by
    simp only [g_ascii_isspace, Bool.or_eq_false_iff, beq_eq_false_iff_ne, ne_eq]
    refine ⟨⟨⟨⟨ha32, ?_⟩, ?_⟩, ?_⟩, ?_⟩ <;> omega
  simp [strip_initial_spaces, unfolded, hl, List.dropWhile, hns]

/-! ## The decoder on plain text -/

theorem decode_loop_plain (env : Env) (v : Bytes) (n : Nat) (s : decode_state)
    (hs : s.state = parse_normal) (ha : s.aborted = false) (hp : s.p ≤ v.length)
    (hn : v.length - s.p ≤ n) (hv : ∀ b ∈ v, b < 128 ∧ b ≠ 61) :
    decode_loop env v n s = { s with p := v.length } := by
  induction n generalizing s with
  | zero =>
    have : s.p = v.length := by omega
    simp [decode_loop, ← this]
  | succ n ih =>
    unfold decode_loop
    by_cases hlt : s.p < v.length
    · have hb := hv _ (peek_mem v s.p hlt)
      have hstep : decode_step env v s = { s with p := s.p + 1 } := by
        unfold decode_step
        have h128 : ¬ (peek v s.p ≥ 128) := by omega
        simp only [hs, ↓reduceIte, decode_parse_normal, hb.2, h128]
      have h2 := ih { s with p := s.p + 1 } hs ha (by simp; omega) (by simp; omega)
      rw [if_pos ⟨hlt, ha⟩, hstep]
      exact h2
    · have : s.p = v.length := by omega
      rw [if_neg (by omega)]
      simp [← this]

theorem sanity_check_printable (v : Bytes) (hv : ∀ b ∈ v, 32 ≤ b ∧ b ≤ 126) :
    rspamd_mime_header_sanity_check v = v := by
  unfold rspamd_mime_header_sanity_check
  conv_rhs => rw [← List.map_id v]
  apply List.map_congr_left
  intro b hb
  have := hv b hb
  by_cases h32 : b = 32
  · subst h32; rfl
  · have hg : g_ascii_isgraph b = true := by
      simp [g_ascii_isgraph]; omega
    simp [hg]

/-- On printable ASCII without `=` the decoder returns its input and reports no invalid
UTF-8. -/
theorem decode_plain (env : Env) (v : Bytes) (hv : ∀ b ∈ v, 32 ≤ b ∧ b ≤ 126 ∧ b ≠ 61) :
    rspamd_mime_header_decode env v = some (v, false) := by
  unfold rspamd_mime_header_decode
  have hl := decode_loop_plain env v (2 * v.length + 2) {} rfl rfl (by simp) (by simp; omega)
    (fun b hb => by have := hv b hb; omega)
  simp only [hl]
  have hs : rspamd_mime_header_sanity_check v = v :=
    sanity_check_printable v (fun b hb => by have := hv b hb; omega)
  by_cases hz : v.length = 0
  · have : v = [] := List.length_eq_zero.1 hz
    subst this
    simp [decode_leftover, parse_normal, skip_spaces, rspamd_mime_header_sanity_check]
  · have hpos : v.length > 0 := by omega
    simp [decode_leftover, parse_normal, skip_spaces, hpos, slice_zero, hs]

theorem utf_enforce_ascii (v : Bytes) (hv : ∀ b ∈ v, b < 128) :
    rspamd_mime_charset_utf_enforce v = v := by
  unfold rspamd_mime_charset_utf_enforce
  induction v with
  | nil => rfl
  | cons b r ih =>
    simp only [utf_enforce_scan, hv b (by simp), ↓reduceIte]
    rw [ih (fun c hc => hv c (by simp [hc]))]

theorem header_add_flags (env : Env) (task : rspamd_task) (target : HeaderTable)
    (order : List rspamd_mime_header) (rh : rspamd_mime_header) (cs : Bool)
    (r : rspamd_task × HeaderTable × List rspamd_mime_header)
    (hr : rspamd_mime_header_add env task target order rh cs = some r) :
    r.1.flags = task.flags :=
  (header_add_some env task target order rh cs r hr).2.2.1

/-- The emission of a header that is safe for the trace parser: the header is inserted,
the queue is one header longer and the flags of the task are left as they are. -/
theorem hdr_emit_safe (env : Env) (cn : Bool) (s : hdr_state) (nh : rspamd_mime_header)
    (h : received_safe cn nh.name nh.decoded = true) :
    ∃ r, rspamd_mime_header_add env s.task s.target s.order { nh with order := s.norder } cn
          = some r
      ∧ hdr_emit env cn s nh
          = { s with task := r.1, target := r.2.1, order := r.2.2, nh := {},
                     norder := s.norder + 1, state := 0 }
      ∧ r.2.2 = s.order ++ [stored_header env s.task { nh with order := s.norder } cn]
      ∧ r.1.flags = s.task.flags := by
  obtain ⟨r, hr⟩ := header_add_safe env s.task s.target s.order { nh with order := s.norder } cn h
  exact ⟨r, hr, hdr_emit_some env cn s nh r hr, header_add_order _ _ _ _ _ _ r hr,
    header_add_flags _ _ _ _ _ _ r hr⟩

/-- The emission of a header that is not safe for the trace parser aborts the process. -/
theorem hdr_emit_aborts (env : Env) (cn : Bool) (s : hdr_state) (nh : rspamd_mime_header)
    (h : received_safe cn nh.name nh.decoded = false) :
    hdr_emit env cn s nh = { s with aborted := true } :=
  hdr_emit_none env cn s nh
    (header_add_aborts env s.task s.target s.order { nh with order := s.norder } cn h)

/-- State 4 on a value that decodes to itself: one header is added and the state is 0. -/
theorem case_4_plain (env : Env) (inp : Bytes) (cn : Bool) (s : hdr_state) (v : Bytes)
    (hraw : header_value (slice inp s.c s.p) = v)
    (hv : ∀ b ∈ v, 32 ≤ b ∧ b ≤ 126 ∧ b ≠ 61)
    (hsafe : received_safe cn s.nh.name v = true) :
    (hdr_case_4 env inp cn s).state = 0 ∧ (hdr_case_4 env inp cn s).p = s.p
      ∧ (hdr_case_4 env inp cn s).aborted = s.aborted
      ∧ (hdr_case_4 env inp cn s).task.flags = s.task.flags
      ∧ ∃ h, (hdr_case_4 env inp cn s).order = s.order ++ [h] ∧ h.name = s.nh.name
          ∧ h.value = v ∧ h.decoded = v := by
  unfold hdr_case_4
  simp only [hraw, decode_plain env v hv, Bool.false_eq_true, ↓reduceIte]
  rw [utf_enforce_ascii v (fun b hb => by have := hv b hb; omega)]
  obtain ⟨r, _, he, ho, hf⟩ := hdr_emit_safe env cn
    { s with c := s.c + (s.p - s.c), task := s.task }
    { s.nh with raw_len := if s.p + 1 = inp.length then inp.length - s.nh.raw_value
                           else s.p - s.nh.raw_value,
                value := v, decoded := v } hsafe
  rw [he]
  refine ⟨rfl, rfl, rfl, hf, ?_⟩
  simp only [ho]
  refine ⟨_, rfl, ?_, ?_, ?_⟩ <;> rw [stored_header_eq]

/-! ## The run of the tokenizer over one header -/

theorem wire_name_cons {n : Bytes} (h : wire_name n = true) :
    ∃ a r, n = a :: r ∧ g_ascii_isalpha a = true := by
  cases n with
  | nil => simp [wire_name] at h
  | cons a r =>
    simp only [wire_name, Bool.and_eq_true] at h
    exact ⟨a, r, rfl, h.1⟩

theorem wire_name_bytes {n : Bytes} (h : wire_name n = true) :
    ∀ b ∈ n, b ≠ 58 ∧ g_ascii_isspace b = false := by
  cases n with
  | nil => simp [wire_name] at h
  | cons a r =>
    simp only [wire_name, Bool.and_eq_true, List.all_eq_true] at h
    intro b hb
    have := h.2 b hb
    simpa using this

theorem fold_break_parts {nl ws : Bytes} (h : fold_break nl ws = true) :
    nl ≠ [] ∧ (∀ b ∈ nl, b = 13 ∨ b = 10) ∧ ws ≠ [] ∧ ∀ b ∈ ws, b = 9 ∨ b = 32 := by
  simp only [fold_break, Bool.and_eq_true, List.all_eq_true] at h
  obtain ⟨⟨⟨h1, h2⟩, h3⟩, h4⟩ := h
  refine ⟨by simpa using h1, ?_, by simpa using h3, ?_⟩
  · intro b hb
    have := h2 b hb
    simpa using this
  · intro b hb
    have := h4 b hb
    simp at this
    omega

/-- State 3 walks over a folded value: the first line and every continuation line with
its line break and blanks, up to the byte that follows the last line. -/
theorem run_folded (env : Env) (inp : Bytes) (cn : Bool) (rest : List (Bytes × Bytes × Bytes)) :
    ∀ (a l1 b : Bytes) (s : hdr_state),
      inp = a ++ (folded l1 rest ++ b) → b ≠ [] → value_line l1 = true → folds_ok rest = true →
      s.state = 3 → s.aborted = false → s.p = a.length →
      ∃ nc ns es vf, hdr_reach env inp cn s
        { s with p := a.length + (folded l1 rest).length, nlines_count := nc, next_state := ns,
                 err_state := es, valid_folding := vf } := by
  induction rest with
  | nil =>
    intro a l1 b s hinp hb h1 _ hs ha hp
    have hblen : 0 < b.length := List.length_pos.2 hb
    have hlen : inp.length = a.length + l1.length + b.length := by
      rw [hinp]; simp [folded]; omega
    have h := run_value env inp cn l1.length s hs ha (by omega) (by
      intro j hj
      have hm := peek_mid a l1 b j hj
      have hinp' : inp = a ++ (l1 ++ b) := by rw [hinp]; simp [folded]
      rw [← hinp', ← hp] at hm
      have := value_line_bytes h1 _ hm
      omega)
    refine ⟨s.nlines_count, s.next_state, s.err_state, s.valid_folding, ?_⟩
    have e : a.length + (folded l1 []).length = s.p + l1.length := by simp [folded, hp]
    rw [e]
    exact h
  | cons f rest ih =>
    intro a l1 b s hinp hb h1 hr hs ha hp
    obtain ⟨nl, ws, l2⟩ := f
    simp only [folds_ok, List.all_cons, Bool.and_eq_true] at hr
    obtain ⟨⟨hf, hl2⟩, hrest⟩ := hr
    have hrest' : folds_ok rest = true := by simpa [folds_ok] using hrest
    obtain ⟨hnl, hnlb, hws, hwsb⟩ := fold_break_parts hf
    have hblen : 0 < b.length := List.length_pos.2 hb
    have hnllen : 0 < nl.length := List.length_pos.2 hnl
    have hwslen : 0 < ws.length := List.length_pos.2 hws
    obtain ⟨c2, r2, hl2c, hc32, hc1, hc2, _⟩ := value_line_cons hl2
    have hfold : folded l1 ((nl, ws, l2) :: rest) = l1 ++ (nl ++ (ws ++ folded l2 rest)) := by
      simp [folded]
    have hlen : inp.length = a.length + l1.length + nl.length + ws.length
        + (folded l2 rest).length + b.length := by
      rw [hinp, hfold]; simp; omega
    have hl2len : 0 < (folded l2 rest).length := by
      rw [hl2c]; simp [folded]
    -- the first line
    have hA : inp = a ++ (l1 ++ (nl ++ (ws ++ (folded l2 rest ++ b)))) := by
      rw [hinp, hfold]; simp
    have h1run := run_value env inp cn l1.length s hs ha (by omega) (by
      intro j hj
      have hm := peek_mid a l1 (nl ++ (ws ++ (folded l2 rest ++ b))) j hj
      rw [← hA, ← hp] at hm
      have := value_line_bytes h1 _ hm
      omega)
    -- the line break
    have hB : inp = (a ++ l1) ++ (nl ++ (ws ++ (folded l2 rest ++ b))) := by
      rw [hA]; simp
    have hpeekB : ∀ j, j < nl.length →
        (peek inp (s.p + l1.length + j) = 13 ∨ peek inp (s.p + l1.length + j) = 10) := by
      intro j hj
      have hm := peek_mid (a ++ l1) nl (ws ++ (folded l2 rest ++ b)) j hj
      rw [← hB] at hm
      simp only [List.length_append] at hm
      rw [hp]
      exact hnlb _ hm
    have hstep2 : hdr_step env inp cn { s with p := s.p + l1.length }
        = { s with p := s.p + l1.length,
                   nlines_count := count_newline inp cn { s with p := s.p + l1.length },
                   state := 99, next_state := 3, err_state := 4 } := by
      rw [hdr_step_3 env inp cn { s with p := s.p + l1.length } hs]
      have := hpeekB 0 hnllen
      simp only [Nat.add_zero] at this
      simp only [hdr_case_3, this, ↓reduceIte]
    have h2run := hdr_reach_step env inp cn { s with p := s.p + l1.length } (by simp; omega) ha
    rw [hstep2] at h2run
    have h3run := run_fold_newlines env inp cn nl.length
      { s with p := s.p + l1.length,
               nlines_count := count_newline inp cn { s with p := s.p + l1.length },
               state := 99, next_state := 3, err_state := 4 } rfl ha (by simp; omega) hnllen
      (by intro j hj; exact hpeekB j hj)
    -- the blanks
    have hC : inp = (a ++ l1 ++ nl) ++ (ws ++ (folded l2 rest ++ b)) := by
      rw [hA]; simp
    have h4run := run_fold_blanks env inp cn ws.length
      { s with p := s.p + l1.length + nl.length,
               nlines_count := count_newline inp cn { s with p := s.p + l1.length },
               state := 99, next_state := 3, err_state := 4, valid_folding := false }
      rfl ha (by simp; omega) hwslen (by
        intro j hj
        have hm := peek_mid (a ++ l1 ++ nl) ws (folded l2 rest ++ b) j hj
        rw [← hC] at hm
        simp only [List.length_append] at hm
        simp only [hp]
        exact hwsb _ hm)
    -- the first byte of the next line
    have hD : inp = (a ++ l1 ++ nl ++ ws) ++ (c2 :: (r2 ++ rest.flatMap
        (fun f => f.1 ++ (f.2.1 ++ f.2.2)) ++ b)) := by
      rw [hA, hl2c]; simp [folded]
    have hpeekD : peek inp (s.p + l1.length + nl.length + ws.length) = c2 := by
      have := peek_mid_head (a ++ l1 ++ nl ++ ws) (r2 ++ rest.flatMap
        (fun f => f.1 ++ (f.2.1 ++ f.2.2)) ++ b) c2
      rw [← hD] at this
      simp only [List.length_append] at this
      rw [hp]
      exact this
    have hstep5 : hdr_step env inp cn
        { s with p := s.p + l1.length + nl.length + ws.length,
                 nlines_count := count_newline inp cn { s with p := s.p + l1.length },
                 state := 99, next_state := 3, err_state := 4, valid_folding := true }
        = { s with p := s.p + l1.length + nl.length + ws.length,
                   nlines_count := count_newline inp cn { s with p := s.p + l1.length },
                   state := 3, next_state := 3, err_state := 4, valid_folding := true } := by
      rw [hdr_step_99 env inp cn _ rfl]
      have e1 : ¬ (s.p + l1.length + nl.length + ws.length + 1 = inp.length) := by omega
      have e2 : ¬ (c2 = 13 ∨ c2 = 10) := by omega
      have e3 : ¬ (c2 = 9 ∨ c2 = 32) := by omega
      simp only [hdr_case_99, hpeekD, e1, e2, e3, ↓reduceIte]
    have h5run := hdr_reach_step env inp cn
      { s with p := s.p + l1.length + nl.length + ws.length,
               nlines_count := count_newline inp cn { s with p := s.p + l1.length },
               state := 99, next_state := 3, err_state := 4, valid_folding := true }
      (by simp; omega) ha
    rw [hstep5] at h5run
    -- the remaining lines
    obtain ⟨nc, ns, es, vf, h6run⟩ := ih (a ++ l1 ++ nl ++ ws) l2 b
      { s with p := s.p + l1.length + nl.length + ws.length,
               nlines_count := count_newline inp cn { s with p := s.p + l1.length },
               state := 3, next_state := 3, err_state := 4, valid_folding := true }
      (by rw [hA]; simp) hb hl2 hrest' rfl ha (by simp [hp]; omega)
    refine ⟨nc, ns, es, vf, ?_⟩
    have e : a.length + (folded l1 ((nl, ws, l2) :: rest)).length
        = (a ++ l1 ++ nl ++ ws).length + (folded l2 rest).length := by
      rw [hfold]; simp; omega
    rw [e]
    have hs3 : ({ s with p := (a ++ l1 ++ nl ++ ws).length + (folded l2 rest).length,
                         nlines_count := nc, next_state := ns, err_state := es,
                         valid_folding := vf } : hdr_state)
        = { s with p := (a ++ l1 ++ nl ++ ws).length + (folded l2 rest).length,
                   nlines_count := nc, state := 3, next_state := ns, err_state := es,
                   valid_folding := vf } := by
      rw [← hs]
    rw [hs3]
    exact hdr_reach_trans h1run (hdr_reach_trans h2run (hdr_reach_trans h3run
      (hdr_reach_trans h4run (hdr_reach_trans h5run h6run))))

theorem slice_mid_take (a x y z : Bytes) (k : Nat) :
    slice (a ++ (x ++ (y ++ z))) a.length (a.length + x.length + k) = x ++ (y ++ z).take k := by
  unfold slice
  rw [List.drop_left']
  · rw [show a.length + x.length + k - a.length = x.length + k by omega]
    rw [List.take_append]
  · rfl

/-- From the begin of a line to the first byte of the value: the name, the colon and the
separator are read, and state 3 is entered with `c` on the first byte of the value. -/
theorem header_start (env : Env) (inp : Bytes) (cn : Bool) (pre n sep : Bytes) (v : Nat)
    (post : Bytes) (s : hdr_state)
    (hinp : inp = pre ++ (n ++ (58 :: (sep ++ (v :: post)))))
    (hn : wire_name n = true) (hsep : ∀ b ∈ sep, b = 32 ∨ b = 9)
    (hv : v ≠ 9 ∧ v ≠ 32 ∧ v ≠ 10 ∧ v ≠ 13)
    (hs : s.state = 0) (ha : s.aborted = false) (hp : s.p = pre.length) :
    ∃ nh, nh.name = rspamd_null_safe_copy n ∧
      hdr_reach env inp cn s
        { s with state := 3, c := pre.length + n.length + 1 + sep.length,
                 p := pre.length + n.length + 1 + sep.length, nh := nh } := by
  obtain ⟨a, r, hna, halpha⟩ := wire_name_cons hn
  have hnb := wire_name_bytes hn
  have hlen : inp.length = pre.length + n.length + 1 + sep.length + 1 + post.length := by
    rw [hinp]; simp; omega
  have hnlen : 0 < n.length := by rw [hna]; simp
  -- state 0 on the first letter
  have hpeek0 : peek inp s.p = a := by
    have := peek_mid_head pre (r ++ (58 :: (sep ++ (v :: post)))) a
    rw [hp, hinp, hna]
    simpa using this
  have hstep0 : hdr_step env inp cn s = { s with state := 1, c := s.p } := by
    rw [hdr_step_0 _ _ _ _ hs]
    simp [hdr_case_0, hpeek0, halpha]
  have h0 := hdr_reach_step env inp cn s (by omega) ha
  rw [hstep0] at h0
  -- state 1 over the name
  have h1 := run_name env inp cn n.length { s with state := 1, c := s.p } rfl ha
    (by simp; omega) (by
      intro j hj
      have hm := peek_mid pre n (58 :: (sep ++ (v :: post))) j hj
      rw [← hinp, ← hp] at hm
      exact hnb _ hm)
  -- the colon
  have hB : inp = (pre ++ n) ++ (58 :: (sep ++ (v :: post))) := by rw [hinp]; simp
  have hpeek1 : peek inp (s.p + n.length) = 58 := by
    have := peek_mid_head (pre ++ n) (sep ++ (v :: post)) 58
    rw [← hB] at this
    simpa [hp] using this
  have hslice : slice inp s.p (s.p + n.length) = n := by
    rw [hp, hinp]; exact slice_mid pre n _
  have hstep2 : hdr_step env inp cn { s with state := 1, c := s.p, p := s.p + n.length }
      = { s with state := 2, c := s.p + n.length + 1, p := s.p + n.length + 1,
                 nh := { name := rspamd_null_safe_copy n, empty_separator := true,
                         raw_value := s.p, raw_len := s.p + n.length - s.p } } := by
    rw [hdr_step_1 env inp cn _ rfl]
    simp only [hdr_case_1, hpeek1, ↓reduceIte, hslice]
  have h2 := hdr_reach_step env inp cn { s with state := 1, c := s.p, p := s.p + n.length }
    (by simp; omega) ha
  rw [hstep2] at h2
  -- state 2 over the separator
  have hC : inp = (pre ++ n ++ [58]) ++ (sep ++ (v :: post)) := by rw [hinp]; simp
  obtain ⟨ts, es, h3⟩ := run_separator env inp cn sep.length
    { s with state := 2, c := s.p + n.length + 1, p := s.p + n.length + 1,
             nh := { name := rspamd_null_safe_copy n, empty_separator := true,
                     raw_value := s.p, raw_len := s.p + n.length - s.p } }
    rfl ha (by simp; omega) (by
      intro j hj
      have hm := peek_mid (pre ++ n ++ [58]) sep (v :: post) j hj
      rw [← hC] at hm
      simp only [List.length_append, List.length_singleton] at hm
      simp only [hp]
      exact hsep _ hm)
  -- the first byte of the value
  have hD : inp = (pre ++ n ++ [58] ++ sep) ++ (v :: post) := by rw [hinp]; simp
  have hpeek4 : peek inp (s.p + n.length + 1 + sep.length) = v := by
    have := peek_mid_head (pre ++ n ++ [58] ++ sep) post v
    rw [← hD] at this
    rw [hp, show pre.length + n.length + 1 + sep.length = (pre ++ n ++ [58] ++ sep).length by
      simp; omega]
    exact this
  have hstep4 : ∃ nh4, nh4.name = rspamd_null_safe_copy n ∧
      hdr_step env inp cn
        { s with state := 2, c := s.p + n.length + 1, p := s.p + n.length + 1 + sep.length,
                 nh := { name := rspamd_null_safe_copy n, empty_separator := es,
                         tab_separated := ts,
                         raw_value := s.p, raw_len := s.p + n.length - s.p } }
      = { s with state := 3, c := s.p + n.length + 1 + sep.length,
                 p := s.p + n.length + 1 + sep.length, nh := nh4 } := by
    rw [hdr_step_2 env inp cn _ rfl]
    have e1 : ¬ (v = 10 ∨ v = 13) := by omega
    simp only [hdr_case_2, hpeek4, hv.1, hv.2.1, e1, ↓reduceIte]
    exact ⟨_, rfl, rfl⟩
  obtain ⟨nh4, hname4, hstep4⟩ := hstep4
  have h4 := hdr_reach_step env inp cn
    { s with state := 2, c := s.p + n.length + 1, p := s.p + n.length + 1 + sep.length,
             nh := { name := rspamd_null_safe_copy n, empty_separator := es,
                     tab_separated := ts,
                     raw_value := s.p, raw_len := s.p + n.length - s.p } }
    (by simp; omega) ha
  rw [hstep4] at h4
  refine ⟨nh4, hname4, ?_⟩
  rw [← hp]
  exact hdr_reach_trans h0 (hdr_reach_trans h1 (hdr_reach_trans h2 (hdr_reach_trans h3 h4)))

/-- The folding state at the line break that ends a header: it walks over the CR and LF
bytes and falls back to the error-branch state, on the last byte of the input or on the
first byte that is neither CR, LF, space nor tab. -/
theorem run_header_end (env : Env) (inp : Bytes) (cn : Bool) (a nls tail : Bytes)
    (s : hdr_state) (hinp : inp = a ++ (nls ++ tail)) (hnls : nls ≠ [])
    (hnlsb : ∀ b ∈ nls, b = 13 ∨ b = 10)
    (htail : ∀ b ∈ tail.head?, b ≠ 13 ∧ b ≠ 10 ∧ b ≠ 9 ∧ b ≠ 32)
    (hs : s.state = 99) (ha : s.aborted = false) (hp : s.p = a.length) :
    ∃ vf k, k ≤ nls.length
      ∧ a.length + k = (if tail = [] then inp.length - 1 else inp.length - tail.length)
      ∧ hdr_reach env inp cn s
          { s with p := a.length + k, state := s.err_state, valid_folding := vf } := by
  have hnlen : 0 < nls.length := List.length_pos.2 hnls
  have hlen : inp.length = a.length + nls.length + tail.length := by
    rw [hinp]; simp; omega
  have hpeek : ∀ j, j < nls.length → (peek inp (s.p + j) = 13 ∨ peek inp (s.p + j) = 10) := by
    intro j hj
    have hm := peek_mid a nls tail j hj
    rw [← hinp, ← hp] at hm
    exact hnlsb _ hm
  cases tail with
  | nil =>
    simp only [List.length_nil, Nat.add_zero] at hlen
    by_cases hk : nls.length = 1
    · refine ⟨s.valid_folding, 0, by omega, by simp; omega, ?_⟩
      have hstep : hdr_step env inp cn s = { s with state := s.err_state } := by
        rw [hdr_step_99 _ _ _ _ hs]
        have : s.p + 1 = inp.length := by omega
        simp [hdr_case_99, this]
      have h := hdr_reach_step env inp cn s (by omega) ha
      rw [hstep] at h
      have e : ({ s with p := a.length + 0, state := s.err_state,
                         valid_folding := s.valid_folding } : hdr_state)
          = { s with state := s.err_state } := by
        simp [← hp]
      rw [e]
      exact h
    · refine ⟨false, nls.length - 1, by omega, by simp; omega, ?_⟩
      have h1 := run_fold_newlines env inp cn (nls.length - 1) s hs ha (by omega) (by omega)
        (fun j hj => hpeek j (by omega))
      have hstep : hdr_step env inp cn { s with p := s.p + (nls.length - 1), valid_folding := false }
          = { s with p := s.p + (nls.length - 1), valid_folding := false,
                     state := s.err_state } := by
        rw [hdr_step_99 env inp cn { s with p := s.p + (nls.length - 1), valid_folding := false } hs]
        have : s.p + (nls.length - 1) + 1 = inp.length := by omega
        simp [hdr_case_99, this]
      have h2 := hdr_reach_step env inp cn
        { s with p := s.p + (nls.length - 1), valid_folding := false } (by simp; omega) ha
      rw [hstep] at h2
      rw [← hp]
      exact hdr_reach_trans h1 h2
  | cons b tl =>
    have hb := htail b (by simp)
    simp only [List.length_cons] at hlen
    refine ⟨false, nls.length, by omega, by simp; omega, ?_⟩
    have h1 := run_fold_newlines env inp cn nls.length s hs ha (by omega) hnlen
      hpeek
    have hB : inp = (a ++ nls) ++ (b :: tl) := by rw [hinp]; simp
    have hpeekb : peek inp (s.p + nls.length) = b := by
      have := peek_mid_head (a ++ nls) tl b
      rw [← hB] at this
      simpa [hp] using this
    have hstep : hdr_step env inp cn { s with p := s.p + nls.length, valid_folding := false }
        = { s with p := s.p + nls.length, valid_folding := false, state := s.err_state } := by
      rw [hdr_step_99 env inp cn { s with p := s.p + nls.length, valid_folding := false } hs]
      have e1 : ¬ (b = 13 ∨ b = 10) := by omega
      have e2 : ¬ (b = 9 ∨ b = 32) := by omega
      simp only [hdr_case_99, hpeekb, e1, e2, ↓reduceIte, Bool.false_eq_true]
      split_ifs <;> rfl
    have h2 := hdr_reach_step env inp cn
      { s with p := s.p + nls.length, valid_folding := false }
      (by simp; omega) ha
    rw [hstep] at h2
    rw [← hp]
    exact hdr_reach_trans h1 h2

/-- The run of the tokenizer over one header whose value is written on one or more lines:
from the begin of the line, in state 0, the tokenizer comes back to state 0 with one
header added whose name is the name on the wire and whose value and decoded value are the
unfolded value; the flags of the task are as before.  What follows the header is a run of
CR and LF bytes, then the end of the input or a byte that is neither space nor tab. -/
theorem header_run (env : Env) (inp : Bytes) (cn : Bool) (pre n sep l1 : Bytes)
    (rest : List (Bytes × Bytes × Bytes)) (nls tail : Bytes) (s : hdr_state)
    (hinp : inp = pre ++ (n ++ (58 :: (sep ++ (folded l1 rest ++ (nls ++ tail))))))
    (hn : wire_name n = true) (hsep : ∀ b ∈ sep, b = 32 ∨ b = 9)
    (h1 : value_line l1 = true) (hr : folds_ok rest = true)
    (hnls : nls ≠ []) (hnlsb : ∀ b ∈ nls, b = 13 ∨ b = 10)
    (htail : ∀ b ∈ tail.head?, b ≠ 13 ∧ b ≠ 10 ∧ b ≠ 9 ∧ b ≠ 32)
    (hsafe : received_safe cn (rspamd_null_safe_copy n) (unfolded l1 rest) = true)
    (hs : s.state = 0) (ha : s.aborted = false) (hp : s.p = pre.length) :
    ∃ t, hdr_reach env inp cn s t ∧ t.state = 0 ∧ t.aborted = false
      ∧ t.p = (if tail = [] then inp.length - 1 else inp.length - tail.length)
      ∧ t.task.flags = s.task.flags
      ∧ ∃ h, t.order = s.order ++ [h] ∧ h.name = rspamd_null_safe_copy n
          ∧ h.value = unfolded l1 rest ∧ h.decoded = unfolded l1 rest := by
  obtain ⟨c1, r1, hl1, hc32, hc1a, hc1b, _⟩ := value_line_cons h1
  have hnlen : 0 < nls.length := List.length_pos.2 hnls
  have hlen : inp.length = pre.length + n.length + 1 + sep.length + (folded l1 rest).length
      + nls.length + tail.length := by
    rw [hinp]; simp; omega
  -- up to the first byte of the value
  obtain ⟨nh, hname, h5⟩ := header_start env inp cn pre n sep c1
    (r1 ++ rest.flatMap (fun f => f.1 ++ (f.2.1 ++ f.2.2)) ++ (nls ++ tail)) s
    (by rw [hinp, hl1]; simp [folded]) hn hsep (by omega) hs ha hp
  -- over the lines of the value
  have hA : inp = (pre ++ n ++ [58] ++ sep) ++ (folded l1 rest ++ (nls ++ tail)) := by
    rw [hinp]; simp
  have hqa : pre.length + n.length + 1 + sep.length = (pre ++ n ++ [58] ++ sep).length := by
    simp; omega
  obtain ⟨nc, ns, es, vf, h6⟩ := run_folded env inp cn rest (pre ++ n ++ [58] ++ sep) l1
    (nls ++ tail)
    { s with state := 3, c := pre.length + n.length + 1 + sep.length,
             p := pre.length + n.length + 1 + sep.length, nh := nh }
    hA (by simp [hnls]) h1 hr rfl ha hqa
  -- the line break that ends the value
  obtain ⟨x, nls', hx⟩ : ∃ x nls', nls = x :: nls' := by
    cases nls with
    | nil => exact absurd rfl hnls
    | cons x nls' => exact ⟨x, nls', rfl⟩
  have hxb : x = 13 ∨ x = 10 := hnlsb x (by simp [hx])
  have hB : inp = ((pre ++ n ++ [58] ++ sep) ++ folded l1 rest) ++ (x :: (nls' ++ tail)) := by
    rw [hA, hx]; simp
  have hpeek6 : peek inp ((pre ++ n ++ [58] ++ sep).length + (folded l1 rest).length) = x := by
    have := peek_mid_head ((pre ++ n ++ [58] ++ sep) ++ folded l1 rest) (nls' ++ tail) x
    rw [← hB] at this
    rw [← List.length_append]
    exact this
  have hstep6 : hdr_step env inp cn
      { s with state := 3, c := pre.length + n.length + 1 + sep.length,
               p := (pre ++ n ++ [58] ++ sep).length + (folded l1 rest).length, nh := nh,
               nlines_count := nc, next_state := ns, err_state := es, valid_folding := vf }
      = { s with state := 99, c := pre.length + n.length + 1 + sep.length,
                 p := (pre ++ n ++ [58] ++ sep).length + (folded l1 rest).length, nh := nh,
                 nlines_count := count_newline inp cn
                   { s with state := 3, c := pre.length + n.length + 1 + sep.length,
                            p := (pre ++ n ++ [58] ++ sep).length + (folded l1 rest).length,
                            nh := nh, nlines_count := nc, next_state := ns, err_state := es,
                            valid_folding := vf },
                 next_state := 3, err_state := 4, valid_folding := vf } := by
    rw [hdr_step_3 env inp cn _ rfl]
    simp only [hdr_case_3, hpeek6, hxb, ↓reduceIte]
  have h7 := hdr_reach_step env inp cn
    { s with state := 3, c := pre.length + n.length + 1 + sep.length,
             p := (pre ++ n ++ [58] ++ sep).length + (folded l1 rest).length, nh := nh,
             nlines_count := nc, next_state := ns, err_state := es, valid_folding := vf }
    (by simp; omega) ha
  rw [hstep6] at h7
  -- the folding state falls back to state 4
  obtain ⟨vf', k, hk, hk4, h8⟩ := run_header_end env inp cn
    ((pre ++ n ++ [58] ++ sep) ++ folded l1 rest) nls tail
    { s with state := 99, c := pre.length + n.length + 1 + sep.length,
             p := (pre ++ n ++ [58] ++ sep).length + (folded l1 rest).length, nh := nh,
             nlines_count := count_newline inp cn
               { s with state := 3, c := pre.length + n.length + 1 + sep.length,
                        p := (pre ++ n ++ [58] ++ sep).length + (folded l1 rest).length,
                        nh := nh, nlines_count := nc, next_state := ns, err_state := es,
                        valid_folding := vf },
             next_state := 3, err_state := 4, valid_folding := vf }
    (by rw [hA]; simp) hnls hnlsb htail rfl ha
    (List.length_append (pre ++ n ++ [58] ++ sep) (folded l1 rest)).symm
  -- state 4
  have hraw : header_value (slice inp (pre.length + n.length + 1 + sep.length)
      (((pre ++ n ++ [58] ++ sep) ++ folded l1 rest).length + k)) = unfolded l1 rest := by
    have e2 : ((pre ++ n ++ [58] ++ sep) ++ folded l1 rest).length + k
        = (pre ++ n ++ [58] ++ sep).length + (folded l1 rest).length + k := by
      rw [List.length_append]
    rw [hqa, e2]
    conv_lhs => rw [hA]
    rw [slice_mid_take, List.take_append_of_le_length hk]
    exact header_value_folded l1 rest _ h1 hr
      (fun b hb => hnlsb b (List.mem_of_mem_take hb))
  have h4 := case_4_plain env inp cn
    { s with state := 4, c := pre.length + n.length + 1 + sep.length,
             p := ((pre ++ n ++ [58] ++ sep) ++ folded l1 rest).length + k, nh := nh,
             nlines_count := count_newline inp cn
               { s with state := 3, c := pre.length + n.length + 1 + sep.length,
                        p := (pre ++ n ++ [58] ++ sep).length + (folded l1 rest).length,
                        nh := nh, nlines_count := nc, next_state := ns, err_state := es,
                        valid_folding := vf },
             next_state := 3, err_state := 4, valid_folding := vf' }
    (unfolded l1 rest) hraw (unfolded_bytes l1 rest h1 hr)
    (by show received_safe cn nh.name _ = true; rw [hname]; exact hsafe)
  have hp4 : ((pre ++ n ++ [58] ++ sep) ++ folded l1 rest).length + k < inp.length := by
    rw [hk4]
    split_ifs with ht
    · omega
    · have : 0 < tail.length := List.length_pos.2 ht
      omega
  have h9 := hdr_reach_step env inp cn
    { s with state := 4, c := pre.length + n.length + 1 + sep.length,
             p := ((pre ++ n ++ [58] ++ sep) ++ folded l1 rest).length + k, nh := nh,
             nlines_count := count_newline inp cn
               { s with state := 3, c := pre.length + n.length + 1 + sep.length,
                        p := (pre ++ n ++ [58] ++ sep).length + (folded l1 rest).length,
                        nh := nh, nlines_count := nc, next_state := ns, err_state := es,
                        valid_folding := vf },
             next_state := 3, err_state := 4, valid_folding := vf' }
    hp4 ha
  rw [hdr_step_4 env inp cn _ rfl] at h9
  obtain ⟨hst, hpp, hab, hfl, h, hord, hnm, hval, hdec⟩ := h4
  refine ⟨_, hdr_reach_trans h5 (hdr_reach_trans h6 (hdr_reach_trans h7
    (hdr_reach_trans h8 h9))), hst, ?_, ?_, hfl, h, hord, ?_, hval, hdec⟩
  · rw [hab]; exact ha
  · rw [hpp]; exact hk4
  · rw [hnm]; exact hname

/-! ## From a run of the loop to the result of the function -/

theorem peek_out (inp : Bytes) (i : Nat) (h : inp.length ≤ i) : peek inp i = 0 := by
  unfold peek
  rw [List.getD_eq_getElem?_getD, List.getElem?_eq_none h]
  rfl

theorem peek_last_byte (a : Bytes) (x : Nat) : peek (a ++ [x]) a.length = x :=
  peek_mid_head a [] x

/-- State 0 on a CR or LF that is the last byte of the input: the line is skipped and the
loop leaves; nothing but the newline counters changes. -/
theorem run_trailing_newline (env : Env) (inp : Bytes) (cn : Bool) (s : hdr_state)
    (hs : s.state = 0) (ha : s.aborted = false) (hp : s.p + 1 = inp.length)
    (hb : peek inp s.p = 10 ∨ peek inp s.p = 13) :
    ∃ t, hdr_reach env inp cn s t ∧ hdr_done inp t ∧ t.order = s.order ∧ t.task = s.task
      ∧ t.aborted = false := by
  have hna : g_ascii_isalpha (peek inp s.p) = false := by
    rcases hb with h | h <;> rw [h] <;> rfl
  have hstep0 : hdr_step env inp cn s = { s with state := 100, next_state := 0 } := by
    rw [hdr_step_0 _ _ _ _ hs]
    simp [hdr_case_0, hna]
  have h0 := hdr_reach_step env inp cn s (by omega) ha
  rw [hstep0] at h0
  have h1 := hdr_reach_step env inp cn { s with state := 100, next_state := 0 } (by simp; omega) ha
  rw [hdr_step_100 env inp cn _ rfl] at h1
  have hout : peek inp (s.p + 1) = 0 := peek_out inp _ (by omega)
  refine ⟨_, hdr_reach_trans h0 h1, ?_, ?_, ?_, ?_⟩
  · left
    rcases hb with h | h <;> simp [hdr_case_100, h, hout] <;> omega
  · rcases hb with h | h <;> simp [hdr_case_100, h, hout]
  · rcases hb with h | h <;> simp [hdr_case_100, h, hout]
  · rcases hb with h | h <;> simp [hdr_case_100, h, hout, ha]

theorem hdr_init_measure (task : rspamd_task) (target : HeaderTable)
    (order : List rspamd_mime_header) (inp : Bytes) :
    hdr_measure inp (hdr_init task target order) ≤ hdr_fuel inp := by
  simp [hdr_measure, hdr_rank, hdr_init, hdr_fuel]

/-- The loop started in `s` and the loop started in a state met from `s` end in the same
state. -/
theorem hdr_reach_loop {env : Env} {inp : Bytes} {cn : Bool} {s t : hdr_state}
    (h : hdr_reach env inp cn s t) (hi : hdr_inv s) (n : Nat) (hn : hdr_measure inp s ≤ n) :
    hdr_loop env inp cn n s = hdr_loop env inp cn n t := by
  obtain ⟨m, hm⟩ := h
  have h1 : hdr_loop env inp cn (m + n) s = hdr_loop env inp cn n t := by
    rw [hdr_loop_add, hm]
  have h2 : hdr_loop env inp cn (n + m) s = hdr_loop env inp cn n s := by
    rw [hdr_loop_add, hdr_loop_done _ _ _ _ _ (hdr_loop_exits_of_measure env inp cn n s hi hn)]
  rw [← h2, Nat.add_comm, h1]

theorem process_flags (env : Env) (task : rspamd_task) (target : HeaderTable)
    (order : List rspamd_mime_header) (inp : Bytes) (cn : Bool) :
    (rspamd_mime_headers_process env task target order inp cn).task.flags
      = (hdr_loop env inp cn (hdr_fuel inp) (hdr_init task target order)).task.flags := by
  unfold rspamd_mime_headers_process
  simp only []
  split
  · rfl
  · unfold hdr_finish
    split <;> rfl

/-- When the loop started by the function meets a state in which it has left, the queue
and the flags of the task that the function returns are the ones of that state. -/
theorem process_of_reach (env : Env) (task : rspamd_task) (target : HeaderTable)
    (order : List rspamd_mime_header) (inp : Bytes) (cn : Bool) (t : hdr_state)
    (h : hdr_reach env inp cn (hdr_init task target order) t) (hd : hdr_done inp t) :
    (rspamd_mime_headers_process env task target order inp cn).order = t.order
      ∧ (rspamd_mime_headers_process env task target order inp cn).task.flags = t.task.flags := by
  have hf := hdr_reach_final h hd (hdr_init_inv task target order) (hdr_fuel inp)
    (hdr_init_measure task target order inp)
  rw [(process_order env task target order inp cn).1, process_flags, hf]
  exact ⟨rfl, rfl⟩

theorem newline_run_parts {nl : Bytes} (h : newline_run nl = true) :
    nl ≠ [] ∧ ∀ b ∈ nl, b = 13 ∨ b = 10 := by
  simp only [newline_run, Bool.and_eq_true, List.all_eq_true] at h
  refine ⟨by simpa using h.1, ?_⟩
  intro b hb
  have := h.2 b hb
  simpa using this

theorem wire_block_head (l : Bytes × Bytes × Bytes) (ls : List (Bytes × Bytes × Bytes))
    (x : Bytes) (h : wire_name l.1 = true) :
    ∀ b ∈ (wire_block (l :: ls) ++ x).head?, b ≠ 13 ∧ b ≠ 10 ∧ b ≠ 9 ∧ b ≠ 32 := by
  obtain ⟨a, r, hna, halpha⟩ := wire_name_cons h
  intro b hb
  simp only [wire_block, List.flatMap_cons, hna, List.cons_append, List.head?_cons,
    Option.mem_def, Option.some.injEq] at hb
  subst hb
  simp only [g_ascii_isalpha, Bool.or_eq_true, Bool.and_eq_true, decide_eq_true_eq] at halpha
  omega

/-- The run of the tokenizer over a block of unfolded lines that is followed by a last
run of CR and LF bytes (the empty line) at the end of the input: the loop leaves with one
header added per line, in the order of the lines, and with the flags of the task as
before. -/
theorem block_run (env : Env) (inp : Bytes) (cn : Bool) (fin : Bytes)
    (hfin : newline_run fin = true) (lines : List (Bytes × Bytes × Bytes)) :
    ∀ (pre : Bytes) (s : hdr_state), lines ≠ [] → block_ok lines = true →
      block_safe cn lines = true →
      inp = pre ++ (wire_block lines ++ fin) →
      s.state = 0 → s.aborted = false → s.p = pre.length →
      ∃ t, hdr_reach env inp cn s t ∧ hdr_done inp t ∧ t.aborted = false
        ∧ t.task.flags = s.task.flags
        ∧ t.order.map (fun h => (h.name, h.decoded))
            = s.order.map (fun h => (h.name, h.decoded))
              ++ lines.map (fun l => (rspamd_null_safe_copy l.1, l.2.1)) := by
  obtain ⟨hfin1, hfin2⟩ := newline_run_parts hfin
  induction lines with
  | nil => intro pre s h; exact absurd rfl h
  | cons l ls ih =>
    intro pre s _ hok hsafe hinp hs ha hp
    simp only [block_ok, List.all_cons, Bool.and_eq_true] at hok
    simp only [block_safe, List.all_cons, Bool.and_eq_true] at hsafe
    obtain ⟨hsafe1, hsafe2⟩ := hsafe
    have hsafe1' : received_safe cn (rspamd_null_safe_copy l.1) (unfolded l.2.1 []) = true := by
      simpa [unfolded] using hsafe1
    obtain ⟨⟨⟨hn, hv⟩, hnl⟩, hrest⟩ := hok
    obtain ⟨hnl1, hnl2⟩ := newline_run_parts hnl
    have hsep : ∀ b ∈ [32], b = 32 ∨ b = 9 := by simp
    cases ls with
    | nil =>
      -- the last line: its line break and the empty line are one run
      obtain ⟨t, hreach, hst, hab, htp, hfl, h, hord, hname, _, hdec⟩ :=
        header_run env inp cn pre l.1 [32] l.2.1 [] (l.2.2 ++ fin) [] s
          (by rw [hinp]; simp [wire_block, folded]) hn hsep hv rfl
          (by simp [hnl1])
          (by
            intro b hb
            rcases List.mem_append.1 hb with hb | hb
            · exact hnl2 b hb
            · exact hfin2 b hb)
          (by simp) hsafe1' hs ha hp
      simp only [↓reduceIte] at htp
      have hlenpos : 0 < inp.length := by
        rw [hinp]; simp [wire_block]
      obtain ⟨y, fin', hfy⟩ : ∃ y fin', fin = fin' ++ [y] :=
        ⟨fin.getLast hfin1, fin.dropLast, (List.dropLast_append_getLast hfin1).symm⟩
      have hy : y = 13 ∨ y = 10 := hfin2 y (by rw [hfy]; simp)
      have hlast : peek inp t.p = y := by
        have e : inp = (pre ++ (wire_block [l] ++ fin')) ++ [y] := by
          rw [hinp, hfy]; simp
        have := peek_last_byte (pre ++ (wire_block [l] ++ fin')) y
        rw [← e] at this
        have e2 : t.p = (pre ++ (wire_block [l] ++ fin')).length := by
          rw [htp, e]; simp; omega
        rw [e2]
        exact this
      obtain ⟨t2, hreach2, hdone, hord2, htask2, hab2⟩ :=
        run_trailing_newline env inp cn t hst hab (by omega) (by rw [hlast]; omega)
      refine ⟨t2, hdr_reach_trans hreach hreach2, hdone, hab2, ?_, ?_⟩
      · rw [htask2, hfl]
      · rw [hord2, hord]
        simp [hname, hdec, unfolded]
    | cons l2 ls2 =>
      simp only [List.all_cons, Bool.and_eq_true] at hrest
      have hn2 : wire_name l2.1 = true := hrest.1.1.1
      have hne : wire_block (l2 :: ls2) ++ fin ≠ [] := by
        obtain ⟨a, r, hna, _⟩ := wire_name_cons hn2
        simp [wire_block, hna]
      obtain ⟨t, hreach, hst, hab, htp, hfl, h, hord, hname, _, hdec⟩ :=
        header_run env inp cn pre l.1 [32] l.2.1 [] l.2.2 (wire_block (l2 :: ls2) ++ fin) s
          (by rw [hinp]; simp [wire_block, folded]) hn hsep hv rfl hnl1 hnl2
          (wire_block_head l2 ls2 fin hn2) hsafe1' hs ha hp
      rw [if_neg hne] at htp
      have hlen : inp.length = (pre ++ (l.1 ++ (58 :: 32 :: (l.2.1 ++ l.2.2)))).length
          + (wire_block (l2 :: ls2) ++ fin).length := by
        rw [hinp, ← List.length_append]; simp [wire_block]
      obtain ⟨t2, hreach2, hdone, hab2, hfl2, hord2⟩ :=
        ih (pre ++ (l.1 ++ (58 :: 32 :: (l.2.1 ++ l.2.2)))) t (by simp)
          (by simpa [block_ok] using hrest)
          (by simpa [block_safe] using hsafe2)
          (by rw [hinp]; simp [wire_block]) hst hab
          (by rw [htp, hlen]; omega)
      refine ⟨t2, hdr_reach_trans hreach hreach2, hdone, hab2, ?_, ?_⟩
      · rw [hfl2, hfl]
      · rw [hord2, hord]
        simp [hname, hdec, unfolded]

theorem null_safe_copy_id (n : Bytes) (h : ∀ b ∈ n, b ≠ 0) : rspamd_null_safe_copy n = n := by
  unfold rspamd_null_safe_copy
  rw [List.filter_eq_self]
  intro b hb
  simpa using h b hb

/-- Lines none of which makes the trace parser abort form a block that is safe. -/
theorem block_safe_lines (cn : Bool) (lines : List (Bytes × Bytes))
    (h0 : ∀ l ∈ lines, ∀ b ∈ l.1, b ≠ 0)
    (hsafe : ∀ l ∈ lines, received_safe cn l.1 l.2 = true) :
    block_safe cn (lines.map (fun l => (l.1, l.2, [10]))) = true := by
  rw [block_safe, List.all_eq_true]
  intro x hx
  rw [List.mem_map] at hx
  obtain ⟨l, hl, hxl⟩ := hx
  subst hxl
  show received_safe cn (rspamd_null_safe_copy l.1) l.2 = true
  rw [null_safe_copy_id l.1 (h0 l hl)]
  exact hsafe l hl

/-- A header that is not named `Received` is safe for the trace parser. -/
theorem received_safe_of_name (cs : Bool) (name decoded : Bytes)
    (h : lc_name name ≠ ascii "received") : received_safe cs name decoded = true := by
  have e : (lc_name name == ascii "received") = false := by simpa using h
  simp [received_safe, e]

/-- Claim C1, counterexample.  The name `A\0B` starts with a letter and holds neither
white space nor a colon, and `v` is a well-formed value; the header stored for the line
`A\0B: v` is named `AB`: a name is kept as a C string, from which the NUL byte is
dropped.  And the line `Received: from;x` is well formed as well, yet with special fields
recognised the process is aborted by an assertion of the trace parser, no header being
handed back. -/
theorem C1_counterexample :
    wire_name [65, 0, 66] = true ∧ value_line [118] = true
    ∧ (rspamd_mime_headers_process plain_env {} [] []
        ([65, 0, 66] ++ [58, 32] ++ [118] ++ [10] ++ [10]) true).order.map
        (fun h => (h.name, h.decoded)) = [([65, 66], [118])]
    ∧ wire_name (ascii "Received") = true ∧ value_line (ascii "from;x") = true
    ∧ (rspamd_mime_headers_process plain_env {} [] [] (ascii "Received: from;x\n\n") true).aborted
        = true
    ∧ (rspamd_mime_headers_process plain_env {} [] [] (ascii "Received: from;x\n\n") true).order
        = [] := by
  refine ⟨by decide, by decide, by decide, by decide, by decide, by decide, by decide⟩

/-- Claim C1, amended.  For every header block made of one or more unfolded lines
`name: value`, each ended by LF, followed by one empty line, where each name starts with a
letter and holds no white space, no colon and no NUL byte, each value is not empty,
printable ASCII without `=`, not starting or ending with a space, and no line aborts the
process (special fields being recognised, no line is named `Received` with a value on
which an assertion of the trace parser fails): the headers stored are exactly the lines,
in wire order, the i-th with the name and, as decoded value, the value of the i-th
line. -/
theorem C1_headers_in_wire_order (env : Env) (task : rspamd_task) (cn : Bool)
    (lines : List (Bytes × Bytes)) (hk : lines ≠ [])
    (hok : ∀ l ∈ lines, wire_name l.1 = true ∧ (∀ b ∈ l.1, b ≠ 0) ∧ value_line l.2 = true)
    (hsafe : ∀ l ∈ lines, received_safe cn l.1 l.2 = true) :
    (rspamd_mime_headers_process env task [] []
        (lines.flatMap (fun l => l.1 ++ [58, 32] ++ l.2 ++ [10]) ++ [10]) cn).order.map
        (fun h => (h.name, h.decoded)) = lines := by
  have hb : block_ok (lines.map (fun l => (l.1, l.2, [10]))) = true := by
    rw [block_ok, List.all_eq_true]
    intro x hx
    rw [List.mem_map] at hx
    obtain ⟨l, hl, hxl⟩ := hx
    obtain ⟨h1, _, h3⟩ := hok l hl
    subst hxl
    simp only [h1, h3, Bool.and_self, Bool.true_and]
    decide
  have hw : wire_block (lines.map (fun l => (l.1, l.2, [10])))
      = lines.flatMap (fun l => l.1 ++ [58, 32] ++ l.2 ++ [10]) := by
    simp [wire_block, List.flatMap_map, Function.comp]
  have hbs := block_safe_lines cn lines (fun l hl => (hok l hl).2.1) hsafe
  obtain ⟨t, hreach, hdone, _, _, hord⟩ :=
    block_run env (lines.flatMap (fun l => l.1 ++ [58, 32] ++ l.2 ++ [10]) ++ [10]) cn [10]
      (by decide) (lines.map (fun l => (l.1, l.2, [10]))) [] (hdr_init task [] [])
      (by simpa using hk) hb hbs (by rw [hw]; rfl) rfl rfl rfl
  rw [(process_of_reach env task [] [] _ cn t hreach hdone).1, hord]
  simp only [hdr_init, List.map_nil, List.nil_append, List.map_map, Function.comp]
  conv_rhs => rw [← List.map_id lines]
  apply List.map_congr_left
  intro l hl
  show (rspamd_null_safe_copy l.1, l.2) = l
  rw [null_safe_copy_id l.1 (hok l hl).2.1]

/-- Claim C1, witness: three lines give the three headers From, To and Subject with the
values `a@b`, `c@d` and `hi`. -/
theorem C1_headers_in_wire_order_witness :
    (rspamd_mime_headers_process plain_env {} [] []
        (ascii "From: a@b\nTo: c@d\nSubject: hi\n\n") true).order.map
        (fun h => (h.name, h.decoded))
      = [(ascii "From", ascii "a@b"), (ascii "To", ascii "c@d"), (ascii "Subject", ascii "hi")] :=
  C1_headers_in_wire_order plain_env {} true
    [(ascii "From", ascii "a@b"), (ascii "To", ascii "c@d"), (ascii "Subject", ascii "hi")]
    (by decide) (by decide) (by decide)

/-- The run of the tokenizer over a line of garbage and its line break, when a letter
follows: the line is skipped and state 0 is entered on the letter; nothing but the newline
counters and the saved state changes. -/
theorem garbage_run (env : Env) (inp : Bytes) (cn : Bool) (g nl : Bytes) (a : Nat)
    (post : Bytes) (s : hdr_state) (hinp : inp = g ++ (nl ++ (a :: post)))
    (hg : garbage_line g = true) (hnl : line_break nl = true) (halpha : g_ascii_isalpha a = true)
    (hs : s.state = 0) (ha : s.aborted = false) (hp : s.p = 0) :
    ∃ t, hdr_reach env inp cn s t ∧ t.state = 0 ∧ t.aborted = false
      ∧ t.p = g.length + nl.length ∧ t.task = s.task ∧ t.order = s.order := by
  obtain ⟨x, r, hgx, hxa, hgb⟩ : ∃ x r, g = x :: r ∧ g_ascii_isalpha x = false
      ∧ ∀ b ∈ g, b ≠ 13 ∧ b ≠ 10 := by
    cases g with
    | nil => simp [garbage_line] at hg
    | cons x r =>
      simp only [garbage_line, Bool.and_eq_true, Bool.not_eq_true', List.all_eq_true] at hg
      refine ⟨x, r, rfl, hg.1, ?_⟩
      intro b hb
      have := hg.2 b hb
      simpa using this
  have ha13 : a ≠ 13 ∧ a ≠ 10 := by
    simp only [g_ascii_isalpha, Bool.or_eq_true, Bool.and_eq_true, decide_eq_true_eq] at halpha
    omega
  have hlen : inp.length = g.length + nl.length + 1 + post.length := by
    rw [hinp]; simp; omega
  have hnlpos : 0 < nl.length := by
    simp only [line_break, Bool.or_eq_true, beq_iff_eq] at hnl
    rcases hnl with (h | h) | h <;> simp [h]
  -- state 0 on the first byte
  have hpeek0 : peek inp s.p = x := by
    rw [hp, hinp, hgx]; rfl
  have hstep0 : hdr_step env inp cn s = { s with state := 100, next_state := 0 } := by
    rw [hdr_step_0 _ _ _ _ hs]
    simp [hdr_case_0, hpeek0, hxa]
  have h0 := hdr_reach_step env inp cn s (by omega) ha
  rw [hstep0] at h0
  -- state 100 over the line
  have h1 := run_skip env inp cn g.length { s with state := 100, next_state := 0 } rfl ha
    (by simp; omega) (by
      intro j hj
      have hm := peek_mid [] g (nl ++ (a :: post)) j hj
      simp only [List.nil_append, List.length_nil, Nat.zero_add] at hm
      rw [← hinp] at hm
      simp only [hp, Nat.zero_add]
      exact hgb _ hm)
  -- state 100 on the line break
  have hpeekn : ∀ j, peek inp (g.length + j) = peek (nl ++ (a :: post)) j := by
    intro j
    rw [hinp]
    exact peek_append_right g _ j
  have h2 := hdr_reach_step env inp cn
    { s with state := 100, next_state := 0, p := s.p + g.length } (by simp; omega) ha
  rw [hdr_step_100 env inp cn _ rfl] at h2
  have hn0 := hpeekn 0
  have hn1 := hpeekn 1
  simp only [Nat.add_zero] at hn0
  simp only [line_break, Bool.or_eq_true, beq_iff_eq] at hnl
  have key : (hdr_case_100 inp { s with state := 100, next_state := 0, p := s.p + g.length }).state = 0
      ∧ (hdr_case_100 inp { s with state := 100, next_state := 0, p := s.p + g.length }).aborted
          = false
      ∧ (hdr_case_100 inp { s with state := 100, next_state := 0, p := s.p + g.length }).p
          = g.length + nl.length
      ∧ (hdr_case_100 inp { s with state := 100, next_state := 0, p := s.p + g.length }).task
          = s.task
      ∧ (hdr_case_100 inp { s with state := 100, next_state := 0, p := s.p + g.length }).order
          = s.order := by
    rcases hnl with (h | h) | h <;> subst h
    · have e0 : peek inp g.length = 13 := by rw [hn0]; rfl
      have e1 : peek inp (g.length + 1) = a := by rw [hn1]; rfl
      simp [hdr_case_100, hp, e0, e1, ha13.2, ha]
    · have e0 : peek inp g.length = 10 := by rw [hn0]; rfl
      have e1 : peek inp (g.length + 1) = a := by rw [hn1]; rfl
      simp [hdr_case_100, hp, e0, e1, ha13.1, ha]
    · have e0 : peek inp g.length = 13 := by rw [hn0]; rfl
      have e1 : peek inp (g.length + 1) = 10 := by rw [hn1]; rfl
      simp [hdr_case_100, hp, e0, e1, ha]
  exact ⟨_, hdr_reach_trans h0 (hdr_reach_trans h1 h2), key⟩

/-- Claim C7, amended.  A line whose first byte is no letter is skipped without the flag
`BROKEN_HEADERS` being set: for every such line (without CR or LF in it) ended by CR, LF
or CRLF and followed by a block of unfolded header lines, none of which aborts the process
in the trace parser, and an empty line, the flags of the task are after processing what
they were before, and the headers stored are exactly the ones of the block. -/
theorem C7_garbage_line_skipped (env : Env) (task : rspamd_task) (cn : Bool)
    (inp g nl : Bytes) (lines : List (Bytes × Bytes × Bytes)) (fin : Bytes)
    (hinp : inp = g ++ (nl ++ (wire_block lines ++ fin)))
    (hg : garbage_line g = true) (hnl : line_break nl = true) (hk : lines ≠ [])
    (hok : block_ok lines = true) (hsafe : block_safe cn lines = true)
    (hfin : newline_run fin = true) :
    (rspamd_mime_headers_process env task [] [] inp cn).task.flags = task.flags
    ∧ (rspamd_mime_headers_process env task [] [] inp cn).order.map
        (fun h => (h.name, h.decoded))
      = lines.map (fun l => (rspamd_null_safe_copy l.1, l.2.1)) := by
  obtain ⟨l, ls, hl⟩ : ∃ l ls, lines = l :: ls := by
    cases lines with
    | nil => exact absurd rfl hk
    | cons l ls => exact ⟨l, ls, rfl⟩
  have hn : wire_name l.1 = true := by
    rw [hl] at hok
    simp only [block_ok, List.all_cons, Bool.and_eq_true] at hok
    exact hok.1.1.1
  obtain ⟨a, r, hna, halpha⟩ := wire_name_cons hn
  obtain ⟨t, hreach, hst, hab, htp, htask, hord⟩ :=
    garbage_run env inp cn g nl a
      (r ++ (58 :: 32 :: (l.2.1 ++ l.2.2)) ++ wire_block ls ++ fin) (hdr_init task [] [])
      (by rw [hinp, hl]; simp [wire_block, hna]) hg hnl halpha rfl rfl rfl
  obtain ⟨t2, hreach2, hdone, _, hfl2, hord2⟩ :=
    block_run env inp cn fin hfin lines (g ++ nl) t hk hok hsafe (by rw [hinp]; simp) hst hab
      (by rw [htp]; simp)
  have hfinal := process_of_reach env task [] [] inp cn t2 (hdr_reach_trans hreach hreach2) hdone
  rw [hfinal.1, hfinal.2, hfl2, htask, hord2, hord]
  exact ⟨rfl, rfl⟩

/-- Claim C7, witness: the scenario `!!garbage`, then the header `Subject: real` and an
empty line, with CRLF line ends; the flags stay 0 and the one header is stored. -/
theorem C7_garbage_line_skipped_witness :
    (rspamd_mime_headers_process plain_env {} [] []
        (ascii "!!garbage\r\nSubject: real\r\n\r\n") true).task.flags = 0
    ∧ (rspamd_mime_headers_process plain_env {} [] []
        (ascii "!!garbage\r\nSubject: real\r\n\r\n") true).order.map
        (fun h => (h.name, h.decoded)) = [(ascii "Subject", ascii "real")] :=
  C7_garbage_line_skipped plain_env {} true (ascii "!!garbage\r\nSubject: real\r\n\r\n")
    (ascii "!!garbage") (ascii "\r\n") [(ascii "Subject", ascii "real", ascii "\r\n")]
    (ascii "\r\n") (by decide) (by decide) (by decide) (by decide) (by decide) (by decide)
    (by decide)

/-! ## A header that has a name and no value -/

/-- An empty value is safe for the trace parser: the splitter returns at once on a value
of four bytes or less, before any assertion. -/
theorem received_safe_nil (cn : Bool) (name : Bytes) : received_safe cn name [] = true := by
  have h : rspamd_smtp_received_spill [] ≠ spill_outcome.assert_failed := by decide
  simp [received_safe, h]

/-- State 5: one header with an empty value is added and the state is 0. -/
theorem case_5_effect (env : Env) (cn : Bool) (s : hdr_state) :
    (hdr_case_5 env cn s).state = 0 ∧ (hdr_case_5 env cn s).p = s.p
      ∧ (hdr_case_5 env cn s).aborted = s.aborted
      ∧ (hdr_case_5 env cn s).task.flags = s.task.flags
      ∧ ∃ h, (hdr_case_5 env cn s).order = s.order ++ [h] ∧ h.name = s.nh.name
          ∧ h.value = [] ∧ h.decoded = [] := by
  unfold hdr_case_5
  obtain ⟨r, _, he, ho, hf⟩ := hdr_emit_safe env cn s
    { s.nh with value := [], decoded := [], raw_len := s.p - s.nh.raw_value }
    (received_safe_nil cn s.nh.name)
  rw [he]
  refine ⟨rfl, rfl, rfl, hf, ?_⟩
  simp only [ho]
  refine ⟨_, rfl, ?_, ?_, ?_⟩ <;> rw [stored_header_eq]

/-- The run of the tokenizer over a header made of a name, a colon and a line break: from
the begin of the line, in state 0, the tokenizer comes back to state 0 with one header
added whose name is the name on the wire and whose value and decoded value are empty; the
flags of the task are as before. -/
theorem header_empty_run (env : Env) (inp : Bytes) (cn : Bool) (pre n nls tail : Bytes)
    (s : hdr_state) (hinp : inp = pre ++ (n ++ (58 :: (nls ++ tail))))
    (hn : wire_name n = true) (hnls : nls ≠ []) (hnlsb : ∀ b ∈ nls, b = 13 ∨ b = 10)
    (htail : ∀ b ∈ tail.head?, b ≠ 13 ∧ b ≠ 10 ∧ b ≠ 9 ∧ b ≠ 32)
    (hs : s.state = 0) (ha : s.aborted = false) (hp : s.p = pre.length) :
    ∃ t, hdr_reach env inp cn s t ∧ t.state = 0 ∧ t.aborted = false
      ∧ t.p = (if tail = [] then inp.length - 1 else inp.length - tail.length)
      ∧ t.task.flags = s.task.flags
      ∧ ∃ h, t.order = s.order ++ [h] ∧ h.name = rspamd_null_safe_copy n
          ∧ h.value = [] ∧ h.decoded = [] := by
  obtain ⟨a, r, hna, halpha⟩ := wire_name_cons hn
  have hnb := wire_name_bytes hn
  have hnlen : 0 < nls.length := List.length_pos.2 hnls
  have hlen : inp.length = pre.length + n.length + 1 + nls.length + tail.length := by
    rw [hinp]; simp; omega
  obtain ⟨x, nls', hx⟩ : ∃ x nls', nls = x :: nls' := by
    cases nls with
    | nil => exact absurd rfl hnls
    | cons x nls' => exact ⟨x, nls', rfl⟩
  have hxb : x = 13 ∨ x = 10 := hnlsb x (by simp [hx])
  -- state 0 on the first letter
  have hpeek0 : peek inp s.p = a := by
    have := peek_mid_head pre (r ++ (58 :: (nls ++ tail))) a
    rw [hp, hinp, hna]
    simpa using this
  have hstep0 : hdr_step env inp cn s = { s with state := 1, c := s.p } := by
    rw [hdr_step_0 _ _ _ _ hs]
    simp [hdr_case_0, hpeek0, halpha]
  have h0 := hdr_reach_step env inp cn s (by omega) ha
  rw [hstep0] at h0
  -- state 1 over the name
  have h1 := run_name env inp cn n.length { s with state := 1, c := s.p } rfl ha
    (by simp; omega) (by
      intro j hj
      have hm := peek_mid pre n (58 :: (nls ++ tail)) j hj
      rw [← hinp, ← hp] at hm
      exact hnb _ hm)
  -- the colon
  have hB : inp = (pre ++ n) ++ (58 :: (nls ++ tail)) := by rw [hinp]; simp
  have hpeek1 : peek inp (s.p + n.length) = 58 := by
    have := peek_mid_head (pre ++ n) (nls ++ tail) 58
    rw [← hB] at this
    simpa [hp] using this
  have hslice : slice inp s.p (s.p + n.length) = n := by
    rw [hp, hinp]; exact slice_mid pre n _
  have hstep2 : hdr_step env inp cn { s with state := 1, c := s.p, p := s.p + n.length }
      = { s with state := 2, c := s.p + n.length + 1, p := s.p + n.length + 1,
                 nh := { name := rspamd_null_safe_copy n, empty_separator := true,
                         raw_value := s.p, raw_len := s.p + n.length - s.p } } := by
    rw [hdr_step_1 env inp cn _ rfl]
    simp only [hdr_case_1, hpeek1, ↓reduceIte, hslice]
  have h2 := hdr_reach_step env inp cn { s with state := 1, c := s.p, p := s.p + n.length }
    (by simp; omega) ha
  rw [hstep2] at h2
  -- state 2 on the line break
  have hC : inp = (pre ++ n ++ [58]) ++ (x :: (nls' ++ tail)) := by rw [hinp, hx]; simp
  have hpeek3 : peek inp (s.p + n.length + 1) = x := by
    have := peek_mid_head (pre ++ n ++ [58]) (nls' ++ tail) x
    rw [← hC] at this
    rw [hp, show pre.length + n.length + 1 = (pre ++ n ++ [58]).length by simp; omega]
    exact this
  have hstep3 : hdr_step env inp cn
      { s with state := 2, c := s.p + n.length + 1, p := s.p + n.length + 1,
               nh := { name := rspamd_null_safe_copy n, empty_separator := true,
                       raw_value := s.p, raw_len := s.p + n.length - s.p } }
      = { s with state := 99, c := s.p + n.length + 1, p := s.p + n.length + 1,
                 nh := { name := rspamd_null_safe_copy n, empty_separator := true,
                         raw_value := s.p, raw_len := s.p + n.length - s.p },
                 nlines_count := count_newline inp cn
                   { s with state := 2, c := s.p + n.length + 1, p := s.p + n.length + 1,
                            nh := { name := rspamd_null_safe_copy n, empty_separator := true,
                                    raw_value := s.p, raw_len := s.p + n.length - s.p } },
                 next_state := 3, err_state := 5 } := by
    rw [hdr_step_2 env inp cn _ rfl]
    have e9 : x ≠ 9 := by omega
    have e32 : x ≠ 32 := by omega
    have e10 : x = 10 ∨ x = 13 := by omega
    simp only [hdr_case_2, hpeek3, e9, e32, e10, ↓reduceIte, Nat.sub_self, gt_iff_lt,
      Nat.lt_irrefl]
  have h3 := hdr_reach_step env inp cn
    { s with state := 2, c := s.p + n.length + 1, p := s.p + n.length + 1,
             nh := { name := rspamd_null_safe_copy n, empty_separator := true,
                     raw_value := s.p, raw_len := s.p + n.length - s.p } }
    (by simp; omega) ha
  rw [hstep3] at h3
  -- the folding state falls back to state 5
  obtain ⟨vf', k, hk, hk4, h4⟩ := run_header_end env inp cn (pre ++ n ++ [58]) nls tail
    { s with state := 99, c := s.p + n.length + 1, p := s.p + n.length + 1,
             nh := { name := rspamd_null_safe_copy n, empty_separator := true,
                     raw_value := s.p, raw_len := s.p + n.length - s.p },
             nlines_count := count_newline inp cn
               { s with state := 2, c := s.p + n.length + 1, p := s.p + n.length + 1,
                        nh := { name := rspamd_null_safe_copy n, empty_separator := true,
                                raw_value := s.p, raw_len := s.p + n.length - s.p } },
             next_state := 3, err_state := 5 }
    (by rw [hinp]; simp) hnls hnlsb htail rfl ha (by simp [hp]; omega)
  -- state 5
  have hp4 : (pre ++ n ++ [58]).length + k < inp.length := by
    rw [hk4]
    split_ifs with ht
    · omega
    · have : 0 < tail.length := List.length_pos.2 ht
      omega
  have h5 := hdr_reach_step env inp cn
    { s with state := 5, c := s.p + n.length + 1, p := (pre ++ n ++ [58]).length + k,
             nh := { name := rspamd_null_safe_copy n, empty_separator := true,
                     raw_value := s.p, raw_len := s.p + n.length - s.p },
             nlines_count := count_newline inp cn
               { s with state := 2, c := s.p + n.length + 1, p := s.p + n.length + 1,
                        nh := { name := rspamd_null_safe_copy n, empty_separator := true,
                                raw_value := s.p, raw_len := s.p + n.length - s.p } },
             next_state := 3, err_state := 5, valid_folding := vf' }
    hp4 ha
  rw [hdr_step_5 env inp cn _ rfl] at h5
  obtain ⟨hst, hpp, hab, hfl, h, hord, hnm, hval, hdec⟩ := case_5_effect env cn
    { s with state := 5, c := s.p + n.length + 1, p := (pre ++ n ++ [58]).length + k,
             nh := { name := rspamd_null_safe_copy n, empty_separator := true,
                     raw_value := s.p, raw_len := s.p + n.length - s.p },
             nlines_count := count_newline inp cn
               { s with state := 2, c := s.p + n.length + 1, p := s.p + n.length + 1,
                        nh := { name := rspamd_null_safe_copy n, empty_separator := true,
                                raw_value := s.p, raw_len := s.p + n.length - s.p } },
             next_state := 3, err_state := 5, valid_folding := vf' }
  refine ⟨_, hdr_reach_trans h0 (hdr_reach_trans h1 (hdr_reach_trans h2 (hdr_reach_trans h3
    (hdr_reach_trans h4 h5)))), hst, ?_, ?_, hfl, h, hord, hnm, hval, hdec⟩
  · rw [hab]; exact ha
  · rw [hpp]; exact hk4

/-- Claim C5, counterexample.  The name `A\0B` starts with a letter and holds neither
white space nor a colon; the header stored for the input `A\0B:` and LF is named `AB`, not
`A\0B`. -/
theorem C5_counterexample :
    wire_name [65, 0, 66] = true
    ∧ (rspamd_mime_headers_process plain_env {} [] [] ([65, 0, 66] ++ [58] ++ [10]) true).order.map
        (fun h => (h.name, h.value, h.decoded)) = [([65, 66], [], [])] := by
  decide

/-- Claim C5, amended.  For every name `n` that starts with a letter and holds no white
space, no colon and no NUL byte, and every line break `nl` (CR, LF, CRLF, or any run of CR
and LF), the input `n ++ ":" ++ nl` stores exactly one header, named `n`, whose value and
decoded value are empty, and the flags of the task are what they were before: the flag
`BROKEN_HEADERS` is not set. -/
theorem C5_header_without_value (env : Env) (task : rspamd_task) (cn : Bool) (n nl : Bytes)
    (hn : wire_name n = true) (h0 : ∀ b ∈ n, b ≠ 0) (hnl : newline_run nl = true) :
    (rspamd_mime_headers_process env task [] [] (n ++ [58] ++ nl) cn).order.map
        (fun h => (h.name, h.value, h.decoded)) = [(n, [], [])]
    ∧ (rspamd_mime_headers_process env task [] [] (n ++ [58] ++ nl) cn).task.flags
        = task.flags := by
  obtain ⟨hnl1, hnl2⟩ := newline_run_parts hnl
  obtain ⟨t, hreach, hst, hab, htp, hfl, h, hord, hname, hval, hdec⟩ :=
    header_empty_run env (n ++ [58] ++ nl) cn [] n nl [] (hdr_init task [] [])
      (by simp) hn hnl1 hnl2 (by simp) rfl rfl rfl
  simp only [↓reduceIte] at htp
  obtain ⟨y, nl', hy⟩ : ∃ y nl', nl = nl' ++ [y] :=
    ⟨nl.getLast hnl1, nl.dropLast, (List.dropLast_append_getLast hnl1).symm⟩
  have hyb : y = 13 ∨ y = 10 := hnl2 y (by rw [hy]; simp)
  have hlast : peek (n ++ [58] ++ nl) t.p = y := by
    have e : n ++ [58] ++ nl = (n ++ [58] ++ nl') ++ [y] := by rw [hy]; simp
    have := peek_last_byte (n ++ [58] ++ nl') y
    have e2 : t.p = (n ++ [58] ++ nl').length := by
      rw [htp, e]; simp
    rw [e2, e]
    exact this
  have hpos : 0 < (n ++ [58] ++ nl).length := by simp
  obtain ⟨t2, hreach2, hdone, hord2, htask2, _⟩ :=
    run_trailing_newline env (n ++ [58] ++ nl) cn t hst hab (by omega) (by rw [hlast]; omega)
  have hfinal := process_of_reach env task [] [] (n ++ [58] ++ nl) cn t2
    (hdr_reach_trans hreach hreach2) hdone
  rw [hfinal.1, hfinal.2, hord2, htask2, hord, hfl]
  refine ⟨?_, rfl⟩
  simp [hdr_init, hname, hval, hdec, null_safe_copy_id n h0]

/-- Claim C5, witness: `X-Flag:` followed by LF. -/
theorem C5_header_without_value_witness :
    (rspamd_mime_headers_process plain_env {} [] [] (ascii "X-Flag:\n") true).order.map
        (fun h => (h.name, h.value, h.decoded)) = [(ascii "X-Flag", [], [])]
    ∧ (rspamd_mime_headers_process plain_env {} [] [] (ascii "X-Flag:\n") true).task.flags = 0 :=
  C5_header_without_value plain_env {} true (ascii "X-Flag") (ascii "\n") (by decide)
    (by decide) (by decide)

/-! ## The loop of the decoder leaves -/

theorem decode_save_frame (env : Env) (s : decode_state) (oc : Bytes) :
    (decode_save env s oc).p = s.p ∧ (decode_save env s oc).state = s.state
      ∧ (decode_save env s oc).c = s.c := by
  unfold decode_save
  split <;> simp

theorem decode_measure_adv (inp : Bytes) (s t : decode_state) (hp : s.p < inp.length)
    (ht : s.p + 1 ≤ t.p) : decode_measure inp t < decode_measure inp s := by
  unfold decode_measure
  split_ifs <;> omega

theorem u8_next_off (inp : Bytes) (p cp off : Nat) (h : U8_NEXT inp p = some (cp, off)) :
    1 ≤ off := by
  unfold U8_NEXT at h
  simp only [] at h
  split_ifs at h <;> simp at h <;> omega

theorem decode_parse_normal_adv (inp : Bytes) (s : decode_state) :
    s.p + 1 ≤ (decode_parse_normal inp s).p ∧ (decode_parse_normal inp s).state ≤ 1 ∨
      (decode_parse_normal inp s).state = s.state ∧ s.p + 1 ≤ (decode_parse_normal inp s).p := by
  unfold decode_parse_normal
  simp only []
  split_ifs
  · left; simp [got_eqsign]
  · right
    cases hu : U8_NEXT inp s.p with
    | none => simp
    | some r =>
      obtain ⟨cp, off⟩ := r
      have := u8_next_off inp s.p cp off hu
      simp; omega
  · right; simp

theorem decode_got_more_qmark_adv (env : Env) (inp : Bytes) (s : decode_state) :
    (decode_got_more_qmark env inp s).p = s.p + 1 ∧ (decode_got_more_qmark env inp s).state ≤ 4 := by
  unfold decode_got_more_qmark
  simp only []
  by_cases h1 : peek inp s.p = 61
  · rw [if_pos h1]
    by_cases h2 : s.qmarks < 3
    · rw [if_pos h2]; simp [got_encoded_start]
    · rw [if_neg h2]
      generalize (if peek inp s.c = 34 then s.c + 1 else s.c) = c1
      cases hm : env.rfc2047_parse (slice inp c1 (s.p + 1)) with
      | none => simp [parse_normal]
      | some r =>
        obtain ⟨e, cs, tok⟩ := r
        simp [skip_spaces]
  · rw [if_neg h1]; simp [got_encoded_start]

theorem decode_step_measure (env : Env) (inp : Bytes) (s : decode_state)
    (hi : decode_inv s) (hp : s.p < inp.length) :
    decode_inv (decode_step env inp s)
      ∧ decode_measure inp (decode_step env inp s) < decode_measure inp s := by
  unfold decode_inv at hi
  have hcases : s.state = 0 ∨ s.state = 1 ∨ s.state = 2 ∨ s.state = 3 ∨ s.state = 4 := by omega
  rcases hcases with h | h | h | h | h
  · have e : decode_step env inp s = decode_parse_normal inp s := by
      simp [decode_step, h, parse_normal]
    rw [e]
    rcases decode_parse_normal_adv inp s with ⟨h1, h2⟩ | ⟨h1, h2⟩
    · exact ⟨by unfold decode_inv; omega, decode_measure_adv _ _ _ hp h1⟩
    · exact ⟨by unfold decode_inv; omega, decode_measure_adv _ _ _ hp h2⟩
  · have e : decode_step env inp s = decode_got_eqsign inp s := by
      simp [decode_step, h, parse_normal, got_eqsign]
    rw [e]
    unfold decode_got_eqsign
    split_ifs
    · exact ⟨by simp [decode_inv, got_encoded_start], decode_measure_adv _ _ _ hp (by simp)⟩
    · exact ⟨by simp [decode_inv, parse_normal], decode_measure_adv _ _ _ hp (by simp)⟩
  · have e : decode_step env inp s = decode_got_encoded_start inp s := by
      simp [decode_step, h, parse_normal, got_eqsign, got_encoded_start]
    rw [e]
    unfold decode_got_encoded_start
    split_ifs
    · exact ⟨by simp [decode_inv, got_more_qmark], decode_measure_adv _ _ _ hp (by simp)⟩
    · exact ⟨by simp [decode_inv, h], decode_measure_adv _ _ _ hp (by simp)⟩
  · have e : decode_step env inp s = decode_got_more_qmark env inp s := by
      simp [decode_step, h, parse_normal, got_eqsign, got_encoded_start, got_more_qmark]
    rw [e]
    have key := decode_got_more_qmark_adv env inp s
    exact ⟨key.2, decode_measure_adv _ _ _ hp (by omega)⟩
  · have e : decode_step env inp s = decode_skip_spaces env inp s := by
      simp [decode_step, h, parse_normal, got_eqsign, got_encoded_start, got_more_qmark,
        skip_spaces]
    rw [e]
    unfold decode_skip_spaces
    simp only []
    split_ifs with h1 h2 h3
    · exact ⟨by simp [decode_inv, h], decode_measure_adv _ _ _ hp (by simp)⟩
    · exact ⟨by simp [decode_inv, got_encoded_start], decode_measure_adv _ _ _ hp (by simp)⟩
    · refine ⟨by simp [decode_inv, parse_normal], ?_⟩
      simp [decode_measure, (decode_save_frame env s []).1, h, parse_normal, skip_spaces]
    · refine ⟨by simp [decode_inv, parse_normal], ?_⟩
      simp [decode_measure, h, parse_normal, skip_spaces]

theorem decode_loop_exits_of_measure (env : Env) (inp : Bytes) (n : Nat) (s : decode_state)
    (hi : decode_inv s) (hn : decode_measure inp s ≤ n) :
    inp.length ≤ (decode_loop env inp n s).p ∨ (decode_loop env inp n s).aborted = true := by
  induction n generalizing s with
  | zero =>
    left
    unfold decode_measure at hn
    simp only [decode_loop]
    omega
  | succ n ih =>
    unfold decode_loop
    by_cases hg : s.p < inp.length ∧ s.aborted = false
    · rw [if_pos hg]
      obtain ⟨h1, h2⟩ := decode_step_measure env inp s hi hg.1
      exact ih _ h1 (by omega)
    · rw [if_neg hg]
      by_cases hp : s.p < inp.length
      · right
        cases ha : s.aborted with
        | true => rfl
        | false => exact absurd ⟨hp, ha⟩ hg
      · left; omega

/-- The passes given to the loop of `rspamd_mime_header_decode` are enough on every input:
the loop is left because `p` reached the end of the input, or the assertion aborted the
process. -/
theorem decode_loop_exits (env : Env) (inp : Bytes) :
    inp.length ≤ (decode_loop env inp (2 * inp.length + 2) {}).p
      ∨ (decode_loop env inp (2 * inp.length + 2) {}).aborted = true := by
  apply decode_loop_exits_of_measure
  · simp [decode_inv]
  · simp [decode_measure, skip_spaces]

theorem hash_type_special (name : Bytes) :
    hash_type (rspamd_icase_hash name) 0 = special_type name := by
  unfold rspamd_icase_hash special_type
  simp only [ascii_received, ascii_to, ascii_cc, ascii_bcc, ascii_from, ascii_message_id, ascii_subject, ascii_return_path, ascii_delivered_to, ascii_date, ascii_sender, ascii_in_reply_to, ascii_content_type, ascii_content_transfer_encoding, ascii_references]
  generalize lc_name name = n
  by_cases c0 : n = [114, 101, 99, 101, 105, 118, 101, 100]
  · subst c0; decide
  have b0 : (n == [114, 101, 99, 101, 105, 118, 101, 100]) = false := by simpa using c0
  rw [b0]
  simp only [Bool.false_eq_true, if_false, c0, false_or]
  by_cases c1 : n = [116, 111]
  · subst c1; decide
  have b1 : (n == [116, 111]) = false := by simpa using c1
  rw [b1]
  simp only [Bool.false_eq_true, if_false, c1, false_or]
  by_cases c2 : n = [99, 99]
  · subst c2; decide
  have b2 : (n == [99, 99]) = false := by simpa using c2
  rw [b2]
  simp only [Bool.false_eq_true, if_false, c2, false_or]
  by_cases c3 : n = [98, 99, 99]
  · subst c3; decide
  have b3 : (n == [98, 99, 99]) = false := by simpa using c3
  rw [b3]
  simp only [Bool.false_eq_true, if_false, c3, false_or]
  by_cases c4 : n = [102, 114, 111, 109]
  · subst c4; decide
  have b4 : (n == [102, 114, 111, 109]) = false := by simpa using c4
  rw [b4]
  simp only [Bool.false_eq_true, if_false, c4, false_or]
  by_cases c5 : n = [109, 101, 115, 115, 97, 103, 101, 45, 105, 100]
  · subst c5; decide
  have b5 : (n == [109, 101, 115, 115, 97, 103, 101, 45, 105, 100]) = false := by simpa using c5
  rw [b5]
  simp only [Bool.false_eq_true, if_false, c5, false_or]
  by_cases c6 : n = [115, 117, 98, 106, 101, 99, 116]
  · subst c6; decide
  have b6 : (n == [115, 117, 98, 106, 101, 99, 116]) = false := by simpa using c6
  rw [b6]
  simp only [Bool.false_eq_true, if_false, c6, false_or]
  by_cases c7 : n = [114, 101, 116, 117, 114, 110, 45, 112, 97, 116, 104]
  · subst c7; decide
  have b7 : (n == [114, 101, 116, 117, 114, 110, 45, 112, 97, 116, 104]) = false := by simpa using c7
  rw [b7]
  simp only [Bool.false_eq_true, if_false, c7, false_or]
  by_cases c8 : n = [100, 101, 108, 105, 118, 101, 114, 101, 100, 45, 116, 111]
  · subst c8; decide
  have b8 : (n == [100, 101, 108, 105, 118, 101, 114, 101, 100, 45, 116, 111]) = false := by simpa using c8
  rw [b8]
  simp only [Bool.false_eq_true, if_false, c8, false_or]
  by_cases c9 : n = [100, 97, 116, 101]
  · subst c9; decide
  have b9 : (n == [100, 97, 116, 101]) = false := by simpa using c9
  rw [b9]
  simp only [Bool.false_eq_true, if_false, c9, false_or]
  by_cases c10 : n = [115, 101, 110, 100, 101, 114]
  · subst c10; decide
  have b10 : (n == [115, 101, 110, 100, 101, 114]) = false := by simpa using c10
  rw [b10]
  simp only [Bool.false_eq_true, if_false, c10, false_or]
  by_cases c11 : n = [105, 110, 45, 114, 101, 112, 108, 121, 45, 116, 111]
  · subst c11; decide
  have b11 : (n == [105, 110, 45, 114, 101, 112, 108, 121, 45, 116, 111]) = false := by simpa using c11
  rw [b11]
  simp only [Bool.false_eq_true, if_false, c11, false_or]
  by_cases c12 : n = [99, 111, 110, 116, 101, 110, 116, 45, 116, 121, 112, 101]
  · subst c12; decide
  have b12 : (n == [99, 111, 110, 116, 101, 110, 116, 45, 116, 121, 112, 101]) = false := by simpa using c12
  rw [b12]
  simp only [Bool.false_eq_true, if_false, c12, false_or]
  by_cases c13 : n = [99, 111, 110, 116, 101, 110, 116, 45, 116, 114, 97, 110, 115, 102, 101, 114, 45, 101, 110, 99, 111, 100, 105, 110, 103]
  · subst c13; decide
  have b13 : (n == [99, 111, 110, 116, 101, 110, 116, 45, 116, 114, 97, 110, 115, 102, 101, 114, 45, 101, 110, 99, 111, 100, 105, 110, 103]) = false := by simpa using c13
  rw [b13]
  simp only [Bool.false_eq_true, if_false, c13, false_or]
  by_cases c14 : n = [114, 101, 102, 101, 114, 101, 110, 99, 101, 115]
  · subst c14; decide
  have b14 : (n == [114, 101, 102, 101, 114, 101, 110, 99, 101, 115]) = false := by simpa using c14
  rw [b14]
  simp only [Bool.false_eq_true, if_false, c14, false_or]
  decide

/-- The header that the recogniser hands back is the one stored. -/
theorem stored_header_some (env : Env) (task : rspamd_task) (rh : rspamd_mime_header)
    (r0 : rspamd_task × rspamd_mime_header)
    (h : rspamd_mime_header_check_special env task rh = some r0) :
    stored_header env task rh true = r0.2 := by
  unfold stored_header
  simp only [if_true]
  rw [h]

theorem type_inv_emit (env : Env) (s : hdr_state) (nh : rspamd_mime_header)
    (h0 : s.nh.type = 0)
    (hs : ∀ h ∈ s.order, h.type = special_type h.name) (hnh : nh.type = 0) :
    type_inv (hdr_emit env true s nh) := by
  rcases hdr_emit_effect env true s nh with he | ⟨r, hr, he⟩
  · rw [he]; exact ⟨h0, hs⟩
  · rw [he]
    refine ⟨rfl, ?_⟩
    intro h hh
    obtain ⟨ho, _, _, _, hc⟩ := header_add_some _ _ _ _ _ _ r hr
    obtain ⟨r0, hr0, _⟩ := hc rfl
    change h ∈ r.2.2 at hh
    rw [ho, List.mem_append, List.mem_singleton] at hh
    rcases hh with hh | hh
    · exact hs h hh
    · rw [hh, stored_header_some _ _ _ r0 hr0, (check_special_some _ _ _ r0 hr0).1]
      show hash_type (rspamd_icase_hash nh.name) nh.type = special_type nh.name
      rw [hnh, hash_type_special]

theorem type_inv_step (env : Env) (inp : Bytes) (s : hdr_state) (h : type_inv s) :
    type_inv (hdr_step env inp true s) := by
  obtain ⟨h1, h2⟩ := h
  unfold hdr_step
  split_ifs
  · unfold hdr_case_0; split_ifs <;> exact ⟨h1, h2⟩
  · unfold hdr_case_1; simp only []
    split_ifs
    · exact ⟨rfl, h2⟩
    · exact ⟨h1, h2⟩
    · exact ⟨h1, h2⟩
  · unfold hdr_case_2; simp only []
    split_ifs <;> exact ⟨h1, h2⟩
  · unfold hdr_case_3; simp only []; split_ifs <;> exact ⟨h1, h2⟩
  · unfold hdr_case_4
    simp only []
    split
    · exact ⟨by simpa using h1, h2⟩
    · exact type_inv_emit env _ _ (by simpa using h1) (by split <;> exact h2)
        (by simpa using h1)
  · unfold hdr_case_5
    exact type_inv_emit env _ _ h1 h2 (by simpa using h1)
  · unfold hdr_case_99; simp only []; split_ifs <;> exact ⟨h1, h2⟩
  · unfold hdr_case_100; simp only []; split_ifs <;> exact ⟨h1, h2⟩
  · exact ⟨h1, h2⟩

theorem process_type_inv (env : Env) (task : rspamd_task) (inp : Bytes) :
    ∀ h ∈ (rspamd_mime_headers_process env task [] [] inp true).order,
      h.type = special_type h.name := by
  rw [(process_order env task [] [] inp true).1]
  exact (hdr_loop_induct env inp true type_inv (type_inv_step env inp) _ _
    (by simp [type_inv, hdr_init])).2

theorem process_table_inv (env : Env) (task : rspamd_task) (inp : Bytes) (cn : Bool) :
    table_inv (rspamd_mime_headers_process env task [] [] inp cn).target
      (rspamd_mime_headers_process env task [] [] inp cn).order := by
  rw [(process_order env task [] [] inp cn).1, (process_order env task [] [] inp cn).2]
  exact hdr_loop_induct env inp cn (fun s => table_inv s.target s.order)
    (table_inv_step env inp cn) (hdr_fuel inp) (hdr_init task [] [])
    (by simp [table_inv, hdr_init, g_hash_table_lookup, table_size])

/-- Claim C11.  For every input processed with special-field recognition enabled, from an
empty name index and an empty queue, every header stored, whether it is read from the global
queue or from the per-name view, carries the type-mask that the table of recognised names
gives to its name read without regard to letter case (`special_type`); the mask depends on
the name alone, so every occurrence of a name carries the same mask. -/
theorem C11_type_mask_by_name (env : Env) (task : rspamd_task) (inp : Bytes) :
    (∀ h ∈ (rspamd_mime_headers_process env task [] [] inp true).order,
      h.type = special_type h.name)
    ∧ (∀ name ar,
        g_hash_table_lookup (rspamd_mime_headers_process env task [] [] inp true).target name
          = some ar → ∀ h ∈ ar, h.type = special_type name) := by
  refine ⟨process_type_inv env task inp, ?_⟩
  intro name ar hl h hh
  have hv := (process_table_inv env task inp true).1 name
  rw [hl] at hv
  split_ifs at hv with he
  rw [Option.some.injEq] at hv
  rw [hv, List.mem_filter] at hh
  have h1 := process_type_inv env task inp h hh.1
  have h2 : lc_name h.name = lc_name name := (strcase_equal_iff _ _).1 hh.2
  rw [h1]
  unfold special_type
  simp only [h2]

/-! ## The headers hash -/

theorem special_type_received_iff (name : Bytes) :
    special_type name = RSPAMD_HEADER_RECEIVED ↔ lc_name name = ascii "received" := by
  unfold special_type
  generalize lc_name name = n
  dsimp only
  by_cases c0 : n = ascii "received"
  · simp [c0]
  rw [if_neg c0]
  simp only [c0, iff_false]
  repeat' split
  all_goals decide

theorem process_final_of_reach (env : Env) (task : rspamd_task) (target : HeaderTable)
    (order : List rspamd_mime_header) (inp : Bytes) (cn : Bool) (t : hdr_state)
    (h : hdr_reach env inp cn (hdr_init task target order) t) (hd : hdr_done inp t) :
    rspamd_mime_headers_process env task target order inp cn
      = if t.aborted then t else hdr_finish cn t := by
  unfold rspamd_mime_headers_process
  rw [hdr_reach_final h hd (hdr_init_inv task target order) (hdr_fuel inp)
    (hdr_init_measure task target order inp)]

theorem process_headers_hash (env : Env) (task : rspamd_task) (target : HeaderTable)
    (order : List rspamd_mime_header) (inp : Bytes)
    (h : (rspamd_mime_headers_process env task target order inp true).aborted = false) :
    (rspamd_mime_headers_process env task target order inp true).task.headers_hash
      = some (headers_hash_input
          (rspamd_mime_headers_process env task target order inp true).order) := by
  unfold rspamd_mime_headers_process at h ⊢
  simp only [] at h ⊢
  split
  · rename_i ha
    rw [if_pos ha] at h
    rw [ha] at h
    exact absurd h (by simp)
  · simp [hdr_finish]

theorem process_hash_names (env : Env) (task : rspamd_task) (inp : Bytes)
    (h : (rspamd_mime_headers_process env task [] [] inp true).aborted = false) :
    (rspamd_mime_headers_process env task [] [] inp true).task.headers_hash
      = some ((((rspamd_mime_headers_process env task [] [] inp true).order.map
          (fun nh => nh.name)).filter (fun n => lc_name n != ascii "received")).flatten) := by
  rw [process_headers_hash env task [] [] inp h, headers_hash_input, List.filter_map,
    List.flatMap_def]
  congr 3
  apply List.filter_congr
  intro x hx
  have hx2 := special_type_received_iff x.name
  rw [← process_type_inv env task inp x hx] at hx2
  by_cases c : x.type = RSPAMD_HEADER_RECEIVED
  · simp [c, hx2.1 c]
  · have c2 : ¬ lc_name x.name = ascii "received" := fun hc => c (hx2.2 hc)
    simp only [Function.comp]
    rw [bne_iff_ne.2 c, bne_iff_ne.2 c2]

/-- Claim C12.  The incremental hash is a function of the concatenation of the byte strings
absorbed, so `headers_hash` records that concatenation.  For every input processed with
`check_newlines` set (from an empty name index and an empty queue, the process not being
aborted by an assertion), it is the concatenation, in insertion order, of the names of
exactly the headers whose type is not RECEIVED; these are exactly the headers whose name is
not `received` in any letter case; nothing else (value, separator, `Received` header) is
absorbed, so the bytes absorbed are a function of the sequence of the names of the headers
that are not `Received` headers. -/
theorem C12_headers_hash_names (env : Env) (task : rspamd_task) (inp : Bytes)
    (h : (rspamd_mime_headers_process env task [] [] inp true).aborted = false) :
    (rspamd_mime_headers_process env task [] [] inp true).task.headers_hash
        = some (((rspamd_mime_headers_process env task [] [] inp true).order.filter
            (fun nh => nh.type != RSPAMD_HEADER_RECEIVED)).flatMap (fun nh => nh.name))
    ∧ (rspamd_mime_headers_process env task [] [] inp true).task.headers_hash
        = some (((rspamd_mime_headers_process env task [] [] inp true).order.filter
            (fun nh => lc_name nh.name != ascii "received")).flatMap (fun nh => nh.name))
    ∧ (rspamd_mime_headers_process env task [] [] inp true).task.headers_hash
        = some ((((rspamd_mime_headers_process env task [] [] inp true).order.map
            (fun nh => nh.name)).filter (fun n => lc_name n != ascii "received")).flatten) := by
  have h1 := process_headers_hash env task [] [] inp h
  have h2 : (rspamd_mime_headers_process env task [] [] inp true).order.filter
        (fun nh => nh.type != RSPAMD_HEADER_RECEIVED)
      = (rspamd_mime_headers_process env task [] [] inp true).order.filter
        (fun nh => lc_name nh.name != ascii "received") := by
    apply List.filter_congr
    intro x hx
    have hx1 := process_type_inv env task inp x hx
    have hx2 := special_type_received_iff x.name
    rw [← hx1] at hx2
    by_cases c : x.type = RSPAMD_HEADER_RECEIVED
    · simp [c, hx2.1 c]
    · have c2 : ¬ lc_name x.name = ascii "received" := fun hc => c (hx2.2 hc)
      rw [bne_iff_ne.2 c, bne_iff_ne.2 c2]
  refine ⟨h1, ?_, ?_⟩
  · rw [h1, headers_hash_input, h2]
  · rw [h1, headers_hash_input, h2, List.filter_map, List.flatMap_def]
    rfl

/-- Claim C12, witness: of the lines `Received: x`, `From: a@b` and `To: c@d` the names
`From` and `To` are absorbed. -/
theorem C12_headers_hash_names_witness :
    (rspamd_mime_headers_process plain_env {} [] []
        (ascii "Received: x\nFrom: a@b\nTo: c@d\n\n") true).aborted = false
    ∧ (rspamd_mime_headers_process plain_env {} [] []
        (ascii "Received: x\nFrom: a@b\nTo: c@d\n\n") true).task.headers_hash
        = some (ascii "FromTo") := by
  have h := C12_headers_hash_names plain_env {} (ascii "Received: x\nFrom: a@b\nTo: c@d\n\n")
    (by decide)
  refine ⟨by decide, ?_⟩
  rw [h.2.1]
  decide

theorem process_lines (env : Env) (task : rspamd_task) (cn : Bool)
    (lines : List (Bytes × Bytes)) (hk : lines ≠ [])
    (hok : ∀ l ∈ lines, wire_name l.1 = true ∧ (∀ b ∈ l.1, b ≠ 0) ∧ value_line l.2 = true)
    (hsafe : ∀ l ∈ lines, received_safe cn l.1 l.2 = true) :
    (rspamd_mime_headers_process env task [] []
        (lines.flatMap (fun l => l.1 ++ [58, 32] ++ l.2 ++ [10]) ++ [10]) cn).order.map
        (fun h => (h.name, h.decoded)) = lines
    ∧ (rspamd_mime_headers_process env task [] []
        (lines.flatMap (fun l => l.1 ++ [58, 32] ++ l.2 ++ [10]) ++ [10]) cn).aborted = false := by
  have hb : block_ok (lines.map (fun l => (l.1, l.2, [10]))) = true := by
    rw [block_ok, List.all_eq_true]
    intro x hx
    rw [List.mem_map] at hx
    obtain ⟨l, hl, hxl⟩ := hx
    obtain ⟨h1, _, h3⟩ := hok l hl
    subst hxl
    simp only [h1, h3, Bool.and_self, Bool.true_and]
    decide
  have hw : wire_block (lines.map (fun l => (l.1, l.2, [10])))
      = lines.flatMap (fun l => l.1 ++ [58, 32] ++ l.2 ++ [10]) := by
    simp [wire_block, List.flatMap_map, Function.comp]
  obtain ⟨t, hreach, hdone, hab, _, hord⟩ :=
    block_run env (lines.flatMap (fun l => l.1 ++ [58, 32] ++ l.2 ++ [10]) ++ [10]) cn [10]
      (by decide) (lines.map (fun l => (l.1, l.2, [10]))) [] (hdr_init task [] [])
      (by simpa using hk) hb (block_safe_lines cn lines (fun l hl => (hok l hl).2.1) hsafe)
      (by rw [hw]; rfl) rfl rfl rfl
  rw [process_final_of_reach env task [] [] _ cn t hreach hdone, hab]
  have e : (if false = true then t else hdr_finish cn t) = hdr_finish cn t := by simp
  rw [e]
  constructor
  · rw [(hdr_finish_order cn t).1, hord]
    simp only [hdr_init, List.map_nil, List.nil_append, List.map_map, Function.comp]
    conv_rhs => rw [← List.map_id lines]
    apply List.map_congr_left
    intro l hl
    show (rspamd_null_safe_copy l.1, l.2) = l
    rw [null_safe_copy_id l.1 (hok l hl).2.1]
  · unfold hdr_finish
    split <;> exact hab

/-- Claim C13, counterexample.  For the input `From: a@b\nTo: c@d\nSubject: hi\n\n` the
bytes absorbed are not `from`, `to`, `subject`: the names are stored and absorbed in the
letter case of the wire, `From`, `To`, `Subject`. -/
theorem C13_counterexample :
    (rspamd_mime_headers_process plain_env {} [] []
        (ascii "From: a@b\nTo: c@d\nSubject: hi\n\n") true).task.headers_hash
      ≠ some (ascii "from" ++ ascii "to" ++ ascii "subject")
    ∧ (rspamd_mime_headers_process plain_env {} [] []
        (ascii "From: a@b\nTo: c@d\nSubject: hi\n\n") true).task.headers_hash
      = some (ascii "From" ++ ascii "To" ++ ascii "Subject") := by
  decide

/-- Claim C13, amended.  The name bytes absorbed into the headers hash are the names as
they are written on the wire, letter case kept: for every header block made of one or more
unfolded lines `name: value`, each ended by LF, followed by one empty line (names starting
with a letter, without white space, colon or NUL, none of them `received` in any letter
case; values not empty, printable ASCII without `=`, not starting or ending with a space),
the bytes absorbed are the names of the lines, unchanged and in the order of the lines. -/
theorem C13_hash_keeps_letter_case (env : Env) (task : rspamd_task)
    (lines : List (Bytes × Bytes)) (hk : lines ≠ [])
    (hok : ∀ l ∈ lines, wire_name l.1 = true ∧ (∀ b ∈ l.1, b ≠ 0) ∧ value_line l.2 = true)
    (hrecv : ∀ l ∈ lines, lc_name l.1 ≠ ascii "received") :
    (rspamd_mime_headers_process env task [] []
        (lines.flatMap (fun l => l.1 ++ [58, 32] ++ l.2 ++ [10]) ++ [10]) true).task.headers_hash
      = some (lines.flatMap (fun l => l.1)) := by
  obtain ⟨h1, h2⟩ := process_lines env task true lines hk hok
    (fun l hl => received_safe_of_name true l.1 l.2 (hrecv l hl))
  rw [process_hash_names env task _ h2]
  have h3 : (rspamd_mime_headers_process env task [] []
        (lines.flatMap (fun l => l.1 ++ [58, 32] ++ l.2 ++ [10]) ++ [10]) true).order.map
        (fun h => h.name) = lines.map (fun l => l.1) := by
    conv_rhs => rw [← h1]
    simp [List.map_map, Function.comp]
  rw [h3, List.filter_eq_self.2, List.flatMap_def]
  intro n hn
  rw [List.mem_map] at hn
  obtain ⟨l, hl, hln⟩ := hn
  rw [← hln]
  exact bne_iff_ne.2 (hrecv l hl)

/-- Claim C13, witness: the lines `From: a@b`, `To: c@d` and `Subject: hi` make the bytes
`FromToSubject` absorbed. -/
theorem C13_hash_keeps_letter_case_witness :
    (rspamd_mime_headers_process plain_env {} [] []
        (ascii "From: a@b\nTo: c@d\nSubject: hi\n\n") true).task.headers_hash
      = some (ascii "FromToSubject") :=
  C13_hash_keeps_letter_case plain_env {}
    [(ascii "From", ascii "a@b"), (ascii "To", ascii "c@d"), (ascii "Subject", ascii "hi")]
    (by decide) (by decide) (by decide)

/-! ## Runs of the decoder over encoded words -/

theorem decode_loop_done (env : Env) (inp : Bytes) (n : Nat) (s : decode_state)
    (h : decode_done inp s) : decode_loop env inp n s = s := by
  cases n with
  | zero => rfl
  | succ n =>
    unfold decode_loop
    rw [if_neg]
    rintro ⟨h1, h2⟩
    rcases h with h | h
    · omega
    · rw [h2] at h; exact absurd h (by simp)

theorem decode_loop_succ (env : Env) (inp : Bytes) (n : Nat) (s : decode_state)
    (hp : s.p < inp.length) (ha : s.aborted = false) :
    decode_loop env inp (n + 1) s = decode_loop env inp n (decode_step env inp s) := by
  conv_lhs => unfold decode_loop
  rw [if_pos ⟨hp, ha⟩]

theorem decode_loop_add (env : Env) (inp : Bytes) (m n : Nat) (s : decode_state) :
    decode_loop env inp (m + n) s = decode_loop env inp n (decode_loop env inp m s) := by
  induction m generalizing s with
  | zero => simp [decode_loop]
  | succ m ih =>
    by_cases hg : s.p < inp.length ∧ s.aborted = false
    · rw [Nat.add_right_comm, decode_loop_succ _ _ _ _ hg.1 hg.2, decode_loop_succ _ _ _ _ hg.1 hg.2,
        ih]
    · have hd : decode_done inp s := by
        unfold decode_done
        by_cases hp : s.p < inp.length
        · right
          cases ha : s.aborted with
          | true => rfl
          | false => exact absurd ⟨hp, ha⟩ hg
        · left; omega
      rw [decode_loop_done _ _ _ _ hd, decode_loop_done _ _ _ _ hd, decode_loop_done _ _ _ _ hd]

theorem decode_reach_refl (env : Env) (inp : Bytes) (s : decode_state) :
    decode_reach env inp s s := ⟨0, rfl⟩

theorem decode_reach_trans {env : Env} {inp : Bytes} {s t u : decode_state}
    (h1 : decode_reach env inp s t) (h2 : decode_reach env inp t u) :
    decode_reach env inp s u := by
  obtain ⟨m, hm⟩ := h1
  obtain ⟨n, hn⟩ := h2
  exact ⟨m + n, by rw [decode_loop_add, hm, hn]⟩

theorem decode_reach_step (env : Env) (inp : Bytes) (s : decode_state)
    (hp : s.p < inp.length) (ha : s.aborted = false) :
    decode_reach env inp s (decode_step env inp s) :=
  ⟨1, by rw [decode_loop_succ _ _ _ _ hp ha]; rfl⟩

/-- When the loop of the decoder, started on the input, meets a state in which it has
left, the function returns what the leftover switch and the sanity pass make of that
state. -/
theorem decode_of_reach (env : Env) (inp : Bytes) (t : decode_state)
    (h : decode_reach env inp {} t) (hd : decode_done inp t) :
    rspamd_mime_header_decode env inp
      = if t.aborted then none
        else if (decode_leftover env inp t).aborted then none
        else some (rspamd_mime_header_sanity_check (decode_leftover env inp t).out,
          (decode_leftover env inp t).invalid_utf) := by
  obtain ⟨m, hm⟩ := h
  have h1 : decode_loop env inp (m + (2 * inp.length + 2)) {} = t := by
    rw [decode_loop_add, hm, decode_loop_done _ _ _ _ hd]
  have h2 : decode_loop env inp ((2 * inp.length + 2) + m) {}
      = decode_loop env inp (2 * inp.length + 2) {} := by
    rw [decode_loop_add, decode_loop_done _ _ _ _ (decode_loop_exits env inp)]
  have h3 : decode_loop env inp (2 * inp.length + 2) {} = t := by
    rw [← h2, Nat.add_comm, h1]
  unfold rspamd_mime_header_decode
  simp only [h3]

theorem decode_step_start (env : Env) (inp : Bytes) (s : decode_state)
    (h : s.state = got_encoded_start) : decode_step env inp s = decode_got_encoded_start inp s := by
  simp [decode_step, h, parse_normal, got_eqsign, got_encoded_start]

theorem decode_step_qmark (env : Env) (inp : Bytes) (s : decode_state)
    (h : s.state = got_more_qmark) : decode_step env inp s = decode_got_more_qmark env inp s := by
  simp [decode_step, h, parse_normal, got_eqsign, got_encoded_start, got_more_qmark]

theorem decode_step_spaces (env : Env) (inp : Bytes) (s : decode_state)
    (h : s.state = skip_spaces) : decode_step env inp s = decode_skip_spaces env inp s := by
  simp [decode_step, h, parse_normal, got_eqsign, got_encoded_start, got_more_qmark, skip_spaces]

/-- State `got_encoded_start` over a run of bytes that holds no question mark: `p` moves
to the end of the run and nothing else changes. -/
theorem scan_text (env : Env) (inp : Bytes) (r : Bytes) :
    ∀ (pre post : Bytes) (s : decode_state), inp = pre ++ (r ++ post) → (∀ b ∈ r, b ≠ 63) →
      s.state = got_encoded_start → s.aborted = false → s.p = pre.length →
      decode_reach env inp s { s with p := pre.length + r.length } := by
  induction r with
  | nil =>
    intro pre post s _ _ _ _ hp
    have : s = { s with p := pre.length + ([] : Bytes).length } := by
      cases s; simp at hp; simp [hp]
    rw [← this]
    exact decode_reach_refl env inp s
  | cons b r ih =>
    intro pre post s hinp hr hs ha hp
    have hb : peek inp s.p = b := by
      rw [hinp, hp]; exact peek_mid_head pre (r ++ post) b
    have hlt : s.p < inp.length := by rw [hinp, hp]; simp
    have hstep : decode_step env inp s = { s with p := s.p + 1 } := by
      rw [decode_step_start env inp s hs, decode_got_encoded_start, hb,
        if_neg (hr b (List.mem_cons_self _ _))]
    have h2 := ih (pre ++ [b]) post { s with p := s.p + 1 } (by rw [hinp]; simp)
      (fun x hx => hr x (List.mem_cons_of_mem _ hx)) hs ha (by simp [hp])
    have e : (pre ++ [b]).length + r.length = pre.length + (b :: r).length := by
      simp; omega
    rw [e] at h2
    have h1 := decode_reach_step env inp s hlt ha
    rw [hstep] at h1
    exact decode_reach_trans h1 h2

/-- State `got_encoded_start` at a question mark that is followed by one more byte, while
fewer than three question marks are counted: the mark is counted and both bytes are
passed. -/
theorem scan_pair (env : Env) (inp : Bytes) (s : decode_state)
    (hs : s.state = got_encoded_start) (ha : s.aborted = false) (hq : peek inp s.p = 63)
    (hlt : s.p + 1 < inp.length) (hn : s.qmarks + 1 < 3) :
    decode_reach env inp s { s with p := s.p + 2, qmarks := s.qmarks + 1 } := by
  obtain ⟨c, p, out, token, cur, old, qm, st, inv, ab⟩ := s
  simp only at hs ha hq hlt hn
  subst hs ha
  have e : decode_got_more_qmark env inp
      { c := c, p := p + 1, out := out, token := token, cur_charset := cur, old_charset := old,
        qmarks := qm + 1, state := got_more_qmark, invalid_utf := inv, aborted := false }
      = { c := c, p := p + 2, out := out, token := token, cur_charset := cur, old_charset := old,
          qmarks := qm + 1, state := got_encoded_start, invalid_utf := inv, aborted := false } := by
    unfold decode_got_more_qmark
    by_cases hc : peek inp (p + 1) = 61
    · simp only [hc, hn, if_true]
    · simp only [hc, if_false]
  have h1 := decode_reach_step env inp
    { c := c, p := p, out := out, token := token, cur_charset := cur, old_charset := old,
      qmarks := qm, state := got_encoded_start, invalid_utf := inv, aborted := false }
    (by simp only; omega) rfl
  rw [decode_step_start _ _ _ rfl, decode_got_encoded_start] at h1
  simp only [hq, if_true] at h1
  have h2 := decode_reach_step env inp
    { c := c, p := p + 1, out := out, token := token, cur_charset := cur, old_charset := old,
      qmarks := qm + 1, state := got_more_qmark, invalid_utf := inv, aborted := false } hlt rfl
  rw [decode_step_qmark _ _ _ rfl, e] at h2
  exact decode_reach_trans h1 h2

theorem word_ok_parts {cs : Bytes} {e : Nat} {txt : Bytes} (h : word_ok cs e txt = true) :
    (∀ b ∈ cs, b ≠ 63) ∧ txt ≠ [] ∧ (∀ b ∈ txt, b ≠ 63) := by
  simp only [word_ok, Bool.and_eq_true, List.all_eq_true, bne_iff_ne, ne_eq] at h
  exact ⟨h.1.1.1.2, h.1.2, h.2⟩

/-- State `got_encoded_start` entered behind the `=?` of a well-formed encoded word, no
question mark being counted yet: the word is passed up to its last byte, the `=` on which
state `got_more_qmark` stands with three question marks counted. -/
theorem scan_word (env : Env) (inp pre post cs : Bytes) (e : Nat) (txt : Bytes)
    (s : decode_state) (hinp : inp = pre ++ (encoded_word cs e txt ++ post))
    (hok : word_ok cs e txt = true) (hs : s.state = got_encoded_start)
    (ha : s.aborted = false) (hq : s.qmarks = 0) (hp : s.p = pre.length + 2) :
    decode_reach env inp s
      { s with p := pre.length + (cs.length + txt.length + 6), qmarks := 3,
               state := got_more_qmark } := by
  obtain ⟨hcs, htxt, htq⟩ := word_ok_parts hok
  obtain ⟨x, tl, rfl⟩ := List.exists_cons_of_ne_nil htxt
  obtain ⟨c, p, out, token, cur, old, qm, st, inv, ab⟩ := s
  simp only at hs ha hq hp
  subst hs ha hq hp
  have hlen : inp.length = pre.length + (cs.length + (tl.length + 1) + 7) + post.length := by
    rw [hinp]; simp [encoded_word]; omega
  -- the charset
  have hA := scan_text env inp cs (pre ++ [61, 63]) (63 :: e :: 63 :: ((x :: tl) ++ [63, 61]) ++ post)
    { c := c, p := pre.length + 2, out := out, token := token, cur_charset := cur,
      old_charset := old, qmarks := 0, state := got_encoded_start, invalid_utf := inv,
      aborted := false }
    (by rw [hinp]; simp [encoded_word]) hcs rfl rfl (by simp)
  have eA : (pre ++ [61, 63]).length + cs.length = pre.length + cs.length + 2 := by
    simp; omega
  rw [eA] at hA
  -- the question mark and the encoding letter
  have pB : peek inp (pre.length + cs.length + 2) = 63 := by
    have h := peek_mid_head (pre ++ [61, 63] ++ cs) (e :: 63 :: ((x :: tl) ++ [63, 61]) ++ post) 63
    have e1 : inp = pre ++ [61, 63] ++ cs ++ 63 :: (e :: 63 :: ((x :: tl) ++ [63, 61]) ++ post) := by
      rw [hinp]; simp [encoded_word]
    rw [← e1] at h
    rw [← h]; congr 1; simp; omega
  have hB := scan_pair env inp
    { c := c, p := pre.length + cs.length + 2, out := out, token := token, cur_charset := cur,
      old_charset := old, qmarks := 0, state := got_encoded_start, invalid_utf := inv,
      aborted := false } rfl rfl pB (by simp only; omega) (by simp)
  -- the question mark and the first byte of the text
  have pC : peek inp (pre.length + cs.length + 2 + 2) = 63 := by
    have h := peek_mid_head (pre ++ [61, 63] ++ cs ++ [63, e]) (((x :: tl) ++ [63, 61]) ++ post) 63
    have e1 : inp = pre ++ [61, 63] ++ cs ++ [63, e] ++ 63 :: (((x :: tl) ++ [63, 61]) ++ post) := by
      rw [hinp]; simp [encoded_word]
    rw [← e1] at h
    rw [← h]; congr 1; simp; omega
  have hC := scan_pair env inp
    { c := c, p := pre.length + cs.length + 2 + 2, out := out, token := token,
      cur_charset := cur, old_charset := old, qmarks := 0 + 1, state := got_encoded_start,
      invalid_utf := inv, aborted := false } rfl rfl pC (by simp only; omega) (by simp)
  -- the rest of the text
  have hD := scan_text env inp tl (pre ++ [61, 63] ++ cs ++ [63, e, 63, x]) ([63, 61] ++ post)
    { c := c, p := pre.length + cs.length + 2 + 2 + 2, out := out, token := token,
      cur_charset := cur, old_charset := old, qmarks := 0 + 1 + 1, state := got_encoded_start,
      invalid_utf := inv, aborted := false }
    (by rw [hinp]; simp [encoded_word]) (fun b hb => htq b (List.mem_cons_of_mem _ hb)) rfl rfl
    (by simp; omega)
  have eD : (pre ++ [61, 63] ++ cs ++ [63, e, 63, x]).length + tl.length
      = pre.length + (cs.length + (tl.length + 1) + 5) := by
    simp; omega
  rw [eD] at hD
  -- the last question mark
  have pE : peek inp (pre.length + (cs.length + (tl.length + 1) + 5)) = 63 := by
    have h := peek_mid_head (pre ++ [61, 63] ++ cs ++ [63, e, 63, x] ++ tl) ([61] ++ post) 63
    have e1 : inp = pre ++ [61, 63] ++ cs ++ [63, e, 63, x] ++ tl ++ 63 :: ([61] ++ post) := by
      rw [hinp]; simp [encoded_word]
    rw [← e1] at h
    rw [← h]; congr 1; simp; omega
  have hE := decode_reach_step env inp
    { c := c, p := pre.length + (cs.length + (tl.length + 1) + 5), out := out, token := token,
      cur_charset := cur, old_charset := old, qmarks := 0 + 1 + 1, state := got_encoded_start,
      invalid_utf := inv, aborted := false } (by simp only; omega) rfl
  rw [decode_step_start _ _ _ rfl, decode_got_encoded_start] at hE
  simp only [pE, if_true] at hE
  exact decode_reach_trans hA (decode_reach_trans hB (decode_reach_trans hC
    (decode_reach_trans hD hE)))

/-- State `got_more_qmark` on the closing `=` of a candidate that the token grammar
accepts: the pending buffer is kept or flushed by `rspamd_mime_header_maybe_save_token`,
the payload is added to it and state `skip_spaces` is entered behind the word. -/
theorem close_word (env : Env) (inp : Bytes) (s : decode_state) (enc : rfc2047_encoding)
    (ch tok d : Bytes) (hs : s.state = got_more_qmark) (hq : s.qmarks = 3)
    (hp : peek inp s.p = 61) (hc : peek inp s.c = 61)
    (hparse : env.rfc2047_parse (slice inp s.c (s.p + 1)) = some (enc, ch, tok))
    (hd : decode_payload env enc tok = some d) :
    decode_step env inp s
      = { (if s.token.length > 0 then
            decode_save env { s with cur_charset := ch }
              (if s.old_charset.length = 0 then ch else s.old_charset)
           else { s with cur_charset := ch }) with
          qmarks := 0,
          token := (if s.token.length > 0 then
            decode_save env { s with cur_charset := ch }
              (if s.old_charset.length = 0 then ch else s.old_charset)
           else { s with cur_charset := ch }).token ++ d,
          c := s.p + 1, state := skip_spaces, p := s.p + 1 } := by
  rw [decode_step_qmark env inp s hs]
  unfold decode_got_more_qmark
  have h34 : ¬ peek inp s.c = 34 := by rw [hc]; decide
  have hq3 : ¬ s.qmarks < 3 := by rw [hq]; decide
  simp only [hp, if_true, hq3, if_false, h34, hparse]
  unfold decode_payload at hd
  cases enc <;> (simp only [] at hd ⊢; rw [hd]; rfl)

/-- State `skip_spaces` over a run of white space: `p` moves to the end of the run and
nothing else changes. -/
theorem scan_spaces (env : Env) (inp : Bytes) (r : Bytes) :
    ∀ (pre post : Bytes) (s : decode_state), inp = pre ++ (r ++ post) →
      (∀ b ∈ r, g_ascii_isspace b = true) →
      s.state = skip_spaces → s.aborted = false → s.p = pre.length →
      decode_reach env inp s { s with p := pre.length + r.length } := by
  induction r with
  | nil =>
    intro pre post s _ _ _ _ hp
    have : s = { s with p := pre.length + ([] : Bytes).length } := by
      cases s; simp at hp; simp [hp]
    rw [← this]
    exact decode_reach_refl env inp s
  | cons b r ih =>
    intro pre post s hinp hr hs ha hp
    have hb : peek inp s.p = b := by
      rw [hinp, hp]; exact peek_mid_head pre (r ++ post) b
    have hlt : s.p < inp.length := by rw [hinp, hp]; simp
    have hstep : decode_step env inp s = { s with p := s.p + 1 } := by
      rw [decode_step_spaces env inp s hs, decode_skip_spaces]
      simp only [hb, hr b (List.mem_cons_self _ _), if_true]
    have h2 := ih (pre ++ [b]) post { s with p := s.p + 1 } (by rw [hinp]; simp)
      (fun x hx => hr x (List.mem_cons_of_mem _ hx)) hs ha (by simp [hp])
    have e : (pre ++ [b]).length + r.length = pre.length + (b :: r).length := by
      simp; omega
    rw [e] at h2
    have h1 := decode_reach_step env inp s hlt ha
    rw [hstep] at h1
    exact decode_reach_trans h1 h2

theorem encoded_word_length (cs : Bytes) (e : Nat) (txt : Bytes) :
    (encoded_word cs e txt).length = cs.length + txt.length + 7 := by
  simp [encoded_word]; omega

theorem encoded_word_last (pre cs : Bytes) (e : Nat) (txt post : Bytes) :
    peek (pre ++ (encoded_word cs e txt ++ post)) (pre.length + (cs.length + txt.length + 6))
      = 61 := by
  have e1 : pre ++ (encoded_word cs e txt ++ post)
      = (pre ++ 61 :: 63 :: (cs ++ (63 :: e :: 63 :: (txt ++ [63])))) ++ 61 :: post := by
    simp [encoded_word]
  have e2 : pre.length + (cs.length + txt.length + 6)
      = (pre ++ 61 :: 63 :: (cs ++ (63 :: e :: 63 :: (txt ++ [63])))).length := by
    simp; omega
  rw [e1, e2]
  exact peek_mid_head _ post 61

theorem encoded_word_first (pre cs : Bytes) (e : Nat) (txt post : Bytes) :
    peek (pre ++ (encoded_word cs e txt ++ post)) pre.length = 61
      ∧ peek (pre ++ (encoded_word cs e txt ++ post)) (pre.length + 1) = 63 := by
  constructor
  · exact peek_mid_head pre _ 61
  · have e1 : pre ++ (encoded_word cs e txt ++ post)
        = (pre ++ [61]) ++ 63 :: (cs ++ (63 :: e :: 63 :: (txt ++ [63, 61])) ++ post) := by
      simp [encoded_word]
    have e2 : pre.length + 1 = (pre ++ [61]).length := by simp
    rw [e1, e2]
    exact peek_mid_head _ _ 63

theorem encoded_word_slice (pre cs : Bytes) (e : Nat) (txt post : Bytes) :
    slice (pre ++ (encoded_word cs e txt ++ post)) pre.length
        (pre.length + (cs.length + txt.length + 6) + 1) = encoded_word cs e txt := by
  have h := slice_mid pre (encoded_word cs e txt) post
  rw [encoded_word_length] at h
  have e2 : pre.length + (cs.length + txt.length + 6) + 1
      = pre.length + (cs.length + txt.length + 7) := by omega
  rw [e2]
  exact h

/-- The run of the decoder over two well-formed encoded words that are separated by white
space, both accepted by the token grammar: the state in which the loop leaves. -/
theorem two_words_run (env : Env) (cs1 : Bytes) (e1 : Nat) (t1 ws cs2 : Bytes) (e2 : Nat)
    (t2 : Bytes) (enc1 : rfc2047_encoding) (ch1 tok1 d1 : Bytes) (enc2 : rfc2047_encoding)
    (ch2 tok2 d2 : Bytes)
    (hw1 : word_ok cs1 e1 t1 = true) (hw2 : word_ok cs2 e2 t2 = true)
    (hws : ∀ b ∈ ws, g_ascii_isspace b = true)
    (hp1 : env.rfc2047_parse (encoded_word cs1 e1 t1) = some (enc1, ch1, tok1))
    (hd1 : decode_payload env enc1 tok1 = some d1)
    (hp2 : env.rfc2047_parse (encoded_word cs2 e2 t2) = some (enc2, ch2, tok2))
    (hd2 : decode_payload env enc2 tok2 = some d2) :
    decode_reach env (encoded_word cs1 e1 t1 ++ (ws ++ encoded_word cs2 e2 t2)) {}
      { (if d1.length > 0 then
          decode_save env
            { c := (encoded_word cs1 e1 t1 ++ ws).length,
              p := (encoded_word cs1 e1 t1 ++ ws).length + (cs2.length + t2.length + 6),
              out := [], token := d1, cur_charset := ch2, old_charset := [], qmarks := 3,
              state := got_more_qmark, invalid_utf := false, aborted := false } ch2
         else
            { c := (encoded_word cs1 e1 t1 ++ ws).length,
              p := (encoded_word cs1 e1 t1 ++ ws).length + (cs2.length + t2.length + 6),
              out := [], token := d1, cur_charset := ch2, old_charset := [], qmarks := 3,
              state := got_more_qmark, invalid_utf := false, aborted := false }) with
        qmarks := 0,
        token := (if d1.length > 0 then
          decode_save env
            { c := (encoded_word cs1 e1 t1 ++ ws).length,
              p := (encoded_word cs1 e1 t1 ++ ws).length + (cs2.length + t2.length + 6),
              out := [], token := d1, cur_charset := ch2, old_charset := [], qmarks := 3,
              state := got_more_qmark, invalid_utf := false, aborted := false } ch2
         else
            { c := (encoded_word cs1 e1 t1 ++ ws).length,
              p := (encoded_word cs1 e1 t1 ++ ws).length + (cs2.length + t2.length + 6),
              out := [], token := d1, cur_charset := ch2, old_charset := [], qmarks := 3,
              state := got_more_qmark, invalid_utf := false, aborted := false }).token ++ d2,
        c := (encoded_word cs1 e1 t1 ++ ws).length + (cs2.length + t2.length + 6) + 1,
        state := skip_spaces,
        p := (encoded_word cs1 e1 t1 ++ ws).length + (cs2.length + t2.length + 6) + 1 } := by
  generalize hinp : encoded_word cs1 e1 t1 ++ (ws ++ encoded_word cs2 e2 t2) = inp
  have hi1 : inp = [] ++ (encoded_word cs1 e1 t1 ++ (ws ++ encoded_word cs2 e2 t2)) := by
    rw [← hinp]; rfl
  have hi2 : inp = (encoded_word cs1 e1 t1 ++ ws) ++ (encoded_word cs2 e2 t2 ++ []) := by
    rw [← hinp]; simp
  have hi3 : inp = encoded_word cs1 e1 t1 ++ (ws ++ (encoded_word cs2 e2 t2)) := hinp.symm
  have hlen : inp.length = (encoded_word cs1 e1 t1 ++ ws).length + (cs2.length + t2.length + 7) := by
    rw [hi2]; simp [encoded_word_length]; omega
  have hl1 := encoded_word_length cs1 e1 t1
  have hlw : (encoded_word cs1 e1 t1 ++ ws).length = cs1.length + t1.length + 7 + ws.length := by
    simp [encoded_word_length]
  -- the first word is entered
  have f0 : peek inp 0 = 61 := by
    have := (encoded_word_first [] cs1 e1 t1 (ws ++ encoded_word cs2 e2 t2)).1
    rw [← hi1] at this; exact this
  have f1 : peek inp 1 = 63 := by
    have := (encoded_word_first [] cs1 e1 t1 (ws ++ encoded_word cs2 e2 t2)).2
    rw [← hi1] at this; exact this
  have r1 := decode_reach_step env inp {} (by simp only; omega) rfl
  have s1 : decode_step env inp {}
      = { c := 0, p := 1, out := [], token := [], cur_charset := [], old_charset := [],
          qmarks := 0, state := got_eqsign, invalid_utf := false, aborted := false } := by
    simp [decode_step, decode_parse_normal, parse_normal, f0, slice]
  rw [s1] at r1
  have r2 := decode_reach_step env inp
    { c := 0, p := 1, out := [], token := [], cur_charset := [], old_charset := [],
      qmarks := 0, state := got_eqsign, invalid_utf := false, aborted := false }
    (by simp only; omega) rfl
  have s2 : decode_step env inp
      { c := 0, p := 1, out := [], token := [], cur_charset := [], old_charset := [],
        qmarks := 0, state := got_eqsign, invalid_utf := false, aborted := false }
      = { c := 0, p := 2, out := [], token := [], cur_charset := [], old_charset := [],
          qmarks := 0, state := got_encoded_start, invalid_utf := false, aborted := false } := by
    simp [decode_step, decode_got_eqsign, parse_normal, got_eqsign, f1]
  rw [s2] at r2
  -- the first word is passed and closed
  have r3 := scan_word env inp [] (ws ++ encoded_word cs2 e2 t2) cs1 e1 t1
    { c := 0, p := 2, out := [], token := [], cur_charset := [], old_charset := [],
      qmarks := 0, state := got_encoded_start, invalid_utf := false, aborted := false }
    hi1 hw1 rfl rfl rfl rfl
  simp only [List.length_nil, Nat.zero_add] at r3
  have l1 : peek inp (([] : Bytes).length + (cs1.length + t1.length + 6)) = 61 := by
    have := encoded_word_last [] cs1 e1 t1 (ws ++ encoded_word cs2 e2 t2)
    rw [← hi1] at this; exact this
  have sl1 : slice inp 0 (([] : Bytes).length + (cs1.length + t1.length + 6) + 1)
      = encoded_word cs1 e1 t1 := by
    have := encoded_word_slice [] cs1 e1 t1 (ws ++ encoded_word cs2 e2 t2)
    rw [← hi1] at this; exact this
  have r4 := decode_reach_step env inp
    { c := 0, p := ([] : Bytes).length + (cs1.length + t1.length + 6), out := [], token := [],
      cur_charset := [], old_charset := [],
      qmarks := 3, state := got_more_qmark, invalid_utf := false, aborted := false }
    (by simp only [List.length_nil]; omega) rfl
  rw [close_word env inp _ enc1 ch1 tok1 d1 rfl rfl l1 f0 (by rw [sl1]; exact hp1) hd1] at r4
  simp only [List.length_nil, gt_iff_lt, Nat.lt_irrefl, if_false, List.nil_append,
    Nat.zero_add] at r4
  -- the white space
  have r5 := scan_spaces env inp ws (encoded_word cs1 e1 t1) (encoded_word cs2 e2 t2)
    { c := cs1.length + t1.length + 6 + 1, p := cs1.length + t1.length + 6 + 1, out := [],
      token := d1, cur_charset := ch1, old_charset := [], qmarks := 0, state := skip_spaces,
      invalid_utf := false, aborted := false } hi3 hws rfl rfl (by simp only; omega)
  -- the second word is entered
  have g0 : peek inp (encoded_word cs1 e1 t1 ++ ws).length = 61 := by
    have := (encoded_word_first (encoded_word cs1 e1 t1 ++ ws) cs2 e2 t2 []).1
    rw [← hi2] at this; exact this
  have g1 : peek inp ((encoded_word cs1 e1 t1 ++ ws).length + 1) = 63 := by
    have := (encoded_word_first (encoded_word cs1 e1 t1 ++ ws) cs2 e2 t2 []).2
    rw [← hi2] at this; exact this
  have e5 : (encoded_word cs1 e1 t1).length + ws.length = (encoded_word cs1 e1 t1 ++ ws).length := by
    simp
  rw [e5] at r5
  have r6 := decode_reach_step env inp
    { c := cs1.length + t1.length + 6 + 1, p := (encoded_word cs1 e1 t1 ++ ws).length, out := [],
      token := d1, cur_charset := ch1, old_charset := [], qmarks := 0, state := skip_spaces,
      invalid_utf := false, aborted := false } (by simp only; omega) rfl
  have s6 : decode_step env inp
      { c := cs1.length + t1.length + 6 + 1, p := (encoded_word cs1 e1 t1 ++ ws).length, out := [],
        token := d1, cur_charset := ch1, old_charset := [], qmarks := 0, state := skip_spaces,
        invalid_utf := false, aborted := false }
      = { c := (encoded_word cs1 e1 t1 ++ ws).length, p := (encoded_word cs1 e1 t1 ++ ws).length + 2,
          out := [], token := d1, cur_charset := ch1, old_charset := [], qmarks := 0,
          state := got_encoded_start, invalid_utf := false, aborted := false } := by
    rw [decode_step_spaces _ _ _ rfl, decode_skip_spaces]
    have hsp : g_ascii_isspace 61 = false := by decide
    have hlt : (encoded_word cs1 e1 t1 ++ ws).length + 1 < inp.length := by omega
    simp only [g0, g1, hsp, hlt, Bool.false_eq_true, if_false, decide_True, Bool.and_self,
      if_true]
  rw [s6] at r6
  -- the second word is passed and closed
  have r7 := scan_word env inp (encoded_word cs1 e1 t1 ++ ws) [] cs2 e2 t2
    { c := (encoded_word cs1 e1 t1 ++ ws).length, p := (encoded_word cs1 e1 t1 ++ ws).length + 2,
      out := [], token := d1, cur_charset := ch1, old_charset := [], qmarks := 0,
      state := got_encoded_start, invalid_utf := false, aborted := false }
    hi2 hw2 rfl rfl rfl rfl
  have l2 : peek inp ((encoded_word cs1 e1 t1 ++ ws).length + (cs2.length + t2.length + 6)) = 61 := by
    have := encoded_word_last (encoded_word cs1 e1 t1 ++ ws) cs2 e2 t2 []
    rw [← hi2] at this; exact this
  have sl2 : slice inp (encoded_word cs1 e1 t1 ++ ws).length
      ((encoded_word cs1 e1 t1 ++ ws).length + (cs2.length + t2.length + 6) + 1)
      = encoded_word cs2 e2 t2 := by
    have := encoded_word_slice (encoded_word cs1 e1 t1 ++ ws) cs2 e2 t2 []
    rw [← hi2] at this; exact this
  have r8 := decode_reach_step env inp
    { c := (encoded_word cs1 e1 t1 ++ ws).length,
      p := (encoded_word cs1 e1 t1 ++ ws).length + (cs2.length + t2.length + 6),
      out := [], token := d1, cur_charset := ch1, old_charset := [], qmarks := 3,
      state := got_more_qmark, invalid_utf := false, aborted := false }
    (by simp only; omega) rfl
  rw [close_word env inp _ enc2 ch2 tok2 d2 rfl rfl l2 g0 (by rw [sl2]; exact hp2) hd2] at r8
  simp only [List.length_nil, if_true] at r8
  exact decode_reach_trans r1 (decode_reach_trans r2 (decode_reach_trans r3
    (decode_reach_trans r4 (decode_reach_trans r5 (decode_reach_trans r6
      (decode_reach_trans r7 r8))))))

theorem save_flush (env : Env) (s : decode_state) (h : s.cur_charset ≠ []) :
    decode_save env s []
      = { s with out := s.out ++ (transcode env s.token s.cur_charset).getD [], token := [],
                 old_charset := s.cur_charset } := by
  have hl : ¬ s.cur_charset.length = 0 := fun hc => h (List.length_eq_zero.1 hc)
  unfold decode_save rspamd_mime_header_maybe_save_token transcode
  simp only [hl, if_false, List.length_nil, gt_iff_lt, Nat.lt_irrefl, decide_False,
    Bool.false_and, Bool.false_eq_true]
  cases env.to_utf8_byte_array s.token (env.detect_charset s.cur_charset) <;> simp

theorem save_same (env : Env) (s : decode_state) (h : s.cur_charset ≠ []) :
    decode_save env s s.cur_charset
      = if rspamd_ftok_casecmp_eq s.cur_charset (ascii "iso-2022-jp") then
          { s with out := s.out ++ (transcode env s.token s.cur_charset).getD [], token := [],
                   old_charset := s.cur_charset }
        else { s with old_charset := s.cur_charset } := by
  have hl : ¬ s.cur_charset.length = 0 := fun hc => h (List.length_eq_zero.1 hc)
  have hp : s.cur_charset.length > 0 := by omega
  have hself : rspamd_ftok_casecmp_eq s.cur_charset s.cur_charset = true := by
    simp [rspamd_ftok_casecmp_eq]
  unfold decode_save rspamd_mime_header_maybe_save_token transcode
  simp only [hl, if_false, hp, decide_True, hself, Bool.true_and]
  cases hiso : rspamd_ftok_casecmp_eq s.cur_charset (ascii "iso-2022-jp")
  · simp
  · cases env.to_utf8_byte_array s.token (env.detect_charset s.cur_charset) <;> simp

/-- Two well-formed encoded words separated by white space, both accepted by the token
grammar, the second with a charset name that is not empty: the decoder returns the sanity
pass of `two_words_out` and reports no invalid UTF-8. -/
theorem decode_two_words (env : Env) (cs1 : Bytes) (e1 : Nat) (t1 ws cs2 : Bytes) (e2 : Nat)
    (t2 : Bytes) (enc1 : rfc2047_encoding) (ch1 tok1 d1 : Bytes) (enc2 : rfc2047_encoding)
    (ch2 tok2 d2 : Bytes)
    (hw1 : word_ok cs1 e1 t1 = true) (hw2 : word_ok cs2 e2 t2 = true)
    (hws : ∀ b ∈ ws, g_ascii_isspace b = true)
    (hp1 : env.rfc2047_parse (encoded_word cs1 e1 t1) = some (enc1, ch1, tok1))
    (hd1 : decode_payload env enc1 tok1 = some d1)
    (hp2 : env.rfc2047_parse (encoded_word cs2 e2 t2) = some (enc2, ch2, tok2))
    (hd2 : decode_payload env enc2 tok2 = some d2) (hch : ch2 ≠ []) :
    rspamd_mime_header_decode env (encoded_word cs1 e1 t1 ++ (ws ++ encoded_word cs2 e2 t2))
      = some (rspamd_mime_header_sanity_check (two_words_out env d1 d2 ch2), false) := by
  have hr := two_words_run env cs1 e1 t1 ws cs2 e2 t2 enc1 ch1 tok1 d1 enc2 ch2 tok2 d2
    hw1 hw2 hws hp1 hd1 hp2 hd2
  have hlen : (encoded_word cs1 e1 t1 ++ (ws ++ encoded_word cs2 e2 t2)).length
      = (encoded_word cs1 e1 t1 ++ ws).length + (cs2.length + t2.length + 6) + 1 := by
    simp [encoded_word_length]; omega
  rw [decode_of_reach env _ _ hr (Or.inl (by simp only [hlen]; exact Nat.le_refl _))]
  have hc2 : ch2.length > 0 := List.length_pos.2 hch
  by_cases h1 : d1 = []
  · subst h1
    by_cases h2 : d2 = []
    · subst h2
      simp [decode_leftover, skip_spaces, two_words_out, flushed]
    · have hl2 : d2.length > 0 := List.length_pos.2 h2
      simp only [List.length_nil, gt_iff_lt, Nat.lt_irrefl, if_false, List.nil_append,
        decode_leftover, if_true, hl2, hc2, decide_True, Bool.and_self]
      rw [save_flush env _ hch]
      simp [two_words_out, flushed, h2]
  · have hl1 : d1.length > 0 := List.length_pos.2 h1
    simp only [hl1, if_true, gt_iff_lt]
    rw [save_same env _ hch]
    cases hiso : rspamd_ftok_casecmp_eq ch2 (ascii "iso-2022-jp")
    · have hl : (d1 ++ d2).length > 0 := by simp; omega
      simp only [hiso, Bool.false_eq_true, if_false, decode_leftover, if_true, hl, hc2,
        decide_True, Bool.and_self, gt_iff_lt]
      rw [save_flush env _ hch]
      have hne : d1 ++ d2 ≠ [] := by simp [h1]
      simp [two_words_out, flushed, hiso, hne]
    · by_cases h2 : d2 = []
      · subst h2
        simp [hiso, decode_leftover, skip_spaces, two_words_out, flushed, h1]
      · have hl2 : d2.length > 0 := List.length_pos.2 h2
        simp only [hiso, if_true, List.nil_append, decode_leftover, hl2, hc2, decide_True,
          Bool.and_self, gt_iff_lt]
        rw [save_flush env _ hch]
        simp [two_words_out, flushed, hiso, h1, h2]

/-- Claim C14.  The input `=é` (bytes 3D C3 A9) is well-formed UTF-8, holds no `=?` and is
left as it is by the sanity pass, yet the decoder returns `=`, the lead byte C3 and U+FFFD
and reports invalid UTF-8: state `got_eqsign` copies the byte behind `=` without looking at
it, and state `parse_normal` then meets the trail byte A9 alone. -/
theorem C14_eqsign_splits_utf8 (env : Env) :
    rspamd_mime_charset_utf_enforce [61, 195, 169] = [61, 195, 169]
    ∧ rspamd_mime_header_sanity_check [61, 195, 169] = [61, 195, 169]
    ∧ rspamd_mime_header_decode env [61, 195, 169] = some ([61, 195, 239, 191, 189], true) :=
  ⟨by decide, by decide, rfl⟩

/-- Claim C15, counterexample.  The words `=?utf-8?Q?=09?=` and `=?utf-8?Q?a?=` are well
formed, name the same charset and carry the payloads TAB and `a`; the conversion of the
joined payloads is TAB `a`, but the decoder returns a space and `a`: the sanity pass
rewrites the converted text. -/
theorem C15_counterexample :
    word_ok (ascii "utf-8") 81 (ascii "=09") = true
    ∧ word_ok (ascii "utf-8") 81 (ascii "a") = true
    ∧ sample_env.rfc2047_parse (encoded_word (ascii "utf-8") 81 (ascii "=09"))
        = some (rfc2047_encoding.RSPAMD_RFC2047_QP, ascii "utf-8", ascii "=09")
    ∧ decode_payload sample_env rfc2047_encoding.RSPAMD_RFC2047_QP (ascii "=09") = some [9]
    ∧ sample_env.rfc2047_parse (encoded_word (ascii "utf-8") 81 (ascii "a"))
        = some (rfc2047_encoding.RSPAMD_RFC2047_QP, ascii "utf-8", ascii "a")
    ∧ decode_payload sample_env rfc2047_encoding.RSPAMD_RFC2047_QP (ascii "a") = some [97]
    ∧ transcode sample_env ([9] ++ [97]) (ascii "utf-8") = some [9, 97]
    ∧ encoded_word (ascii "utf-8") 81 (ascii "=09") ++ ([32] ++ encoded_word (ascii "utf-8") 81 (ascii "a"))
        = ascii "=?utf-8?Q?=09?= =?utf-8?Q?a?="
    ∧ rspamd_mime_header_decode sample_env (ascii "=?utf-8?Q?=09?= =?utf-8?Q?a?=")
        = some ([32, 97], false)
    ∧ (rspamd_mime_header_decode sample_env (ascii "=?utf-8?Q?=09?= =?utf-8?Q?a?=")).map
        (fun r => r.1) ≠ transcode sample_env ([9] ++ [97]) (ascii "utf-8") := by
  decide

/-- Claim C15, amended.  For two well-formed encoded words accepted by the token grammar,
with charset names equal without regard to letter case and not `iso-2022-jp`, whose
payloads decode to `d1` and `d2` (not both empty), separated by a run of spaces and tabs of
any length: when the conversion of `d1 ++ d2` from that charset gives `u`, the decoder returns
the sanity pass applied to `u`, and reports no invalid UTF-8.  The payloads are joined
before the one conversion and the white space between the words is dropped. -/
theorem C15_same_charset_joined (env : Env) (inp cs1 : Bytes) (e1 : Nat) (t1 ws cs2 : Bytes)
    (e2 : Nat) (t2 : Bytes) (enc1 : rfc2047_encoding) (ch1 tok1 d1 : Bytes)
    (enc2 : rfc2047_encoding) (ch2 tok2 d2 u : Bytes)
    (hinp : inp = encoded_word cs1 e1 t1 ++ (ws ++ encoded_word cs2 e2 t2))
    (hw1 : word_ok cs1 e1 t1 = true) (hw2 : word_ok cs2 e2 t2 = true)
    (hws : ∀ b ∈ ws, b = 32 ∨ b = 9)
    (hp1 : env.rfc2047_parse (encoded_word cs1 e1 t1) = some (enc1, ch1, tok1))
    (hd1 : decode_payload env enc1 tok1 = some d1)
    (hp2 : env.rfc2047_parse (encoded_word cs2 e2 t2) = some (enc2, ch2, tok2))
    (hd2 : decode_payload env enc2 tok2 = some d2)
    (hsame : rspamd_ftok_casecmp_eq ch1 ch2 = true) (hch : ch1 ≠ [])
    (hiso : rspamd_ftok_casecmp_eq ch2 (ascii "iso-2022-jp") = false)
    (hd : d1 ++ d2 ≠ []) (htr : transcode env (d1 ++ d2) ch2 = some u) :
    rspamd_mime_header_decode env inp = some (rspamd_mime_header_sanity_check u, false) := by
  have hch2 : ch2 ≠ [] := by
    intro h
    rw [h] at hsame
    simp only [rspamd_ftok_casecmp_eq, lc_name, List.map_nil, beq_iff_eq, List.map_eq_nil_iff]
      at hsame
    exact hch hsame
  have hsp : ∀ b ∈ ws, g_ascii_isspace b = true := by
    intro b hb
    rcases hws b hb with h | h <;> subst h <;> decide
  rw [hinp, decode_two_words env cs1 e1 t1 ws cs2 e2 t2 enc1 ch1 tok1 d1 enc2 ch2 tok2 d2
    hw1 hw2 hsp hp1 hd1 hp2 hd2 hch2]
  simp [two_words_out, hiso, flushed, hd, htr]

/-- Claim C15, witness: `=?utf-8?B?SMOpbGxv?= =?utf-8?Q?_world?=` decodes to
`Héllo world`. -/
theorem C15_same_charset_joined_witness :
    rspamd_mime_header_decode sample_env (ascii "=?utf-8?B?SMOpbGxv?= =?utf-8?Q?_world?=")
      = some ([72, 195, 169, 108, 108, 111, 32, 119, 111, 114, 108, 100], false) :=
  (C15_same_charset_joined sample_env (ascii "=?utf-8?B?SMOpbGxv?= =?utf-8?Q?_world?=")
    (ascii "utf-8") 66 (ascii "SMOpbGxv") [32] (ascii "utf-8") 81 (ascii "_world")
    rfc2047_encoding.RSPAMD_RFC2047_BASE64 (ascii "utf-8") (ascii "SMOpbGxv")
    [72, 195, 169, 108, 108, 111]
    rfc2047_encoding.RSPAMD_RFC2047_QP (ascii "utf-8") (ascii "_world")
    [32, 119, 111, 114, 108, 100]
    [72, 195, 169, 108, 108, 111, 32, 119, 111, 114, 108, 100]
    (by decide) (by decide) (by decide) (by decide) (by decide) (by decide) (by decide)
    (by decide) (by decide) (by decide) (by decide) (by decide) (by decide)).trans
    (by decide)

/-- Claim C16.  For two well-formed encoded words accepted by the token grammar whose
charset names differ (also without regard to letter case), the second not `iso-2022-jp`,
with payloads `d1` and `d2`, separated by spaces and tabs: the decoder does not flush `d1`
under the first charset; it joins the payloads and converts `d1 ++ d2` from the charset of
the second word.  When that conversion gives `u`, the result is the sanity pass of `u`. -/
theorem C16_second_charset_converts_both (env : Env) (inp cs1 : Bytes) (e1 : Nat)
    (t1 ws cs2 : Bytes) (e2 : Nat) (t2 : Bytes) (enc1 : rfc2047_encoding) (ch1 tok1 d1 : Bytes)
    (enc2 : rfc2047_encoding) (ch2 tok2 d2 u : Bytes)
    (hinp : inp = encoded_word cs1 e1 t1 ++ (ws ++ encoded_word cs2 e2 t2))
    (hw1 : word_ok cs1 e1 t1 = true) (hw2 : word_ok cs2 e2 t2 = true)
    (hws : ∀ b ∈ ws, b = 32 ∨ b = 9)
    (hp1 : env.rfc2047_parse (encoded_word cs1 e1 t1) = some (enc1, ch1, tok1))
    (hd1 : decode_payload env enc1 tok1 = some d1)
    (hp2 : env.rfc2047_parse (encoded_word cs2 e2 t2) = some (enc2, ch2, tok2))
    (hd2 : decode_payload env enc2 tok2 = some d2)
    (hdiff : rspamd_ftok_casecmp_eq ch1 ch2 = false) (hch : ch2 ≠ [])
    (hiso : rspamd_ftok_casecmp_eq ch2 (ascii "iso-2022-jp") = false)
    (hd : d1 ≠ []) (htr : transcode env (d1 ++ d2) ch2 = some u) :
    ch1 ≠ ch2
      ∧ rspamd_mime_header_decode env inp = some (rspamd_mime_header_sanity_check u, false) := by
  have hsp : ∀ b ∈ ws, g_ascii_isspace b = true := by
    intro b hb
    rcases hws b hb with h | h <;> subst h <;> decide
  constructor
  · intro h
    rw [h] at hdiff
    simp [rspamd_ftok_casecmp_eq] at hdiff
  · rw [hinp, decode_two_words env cs1 e1 t1 ws cs2 e2 t2 enc1 ch1 tok1 d1 enc2 ch2 tok2 d2
      hw1 hw2 hsp hp1 hd1 hp2 hd2 hch]
    simp [two_words_out, hiso, flushed, hd, htr]

/-- Claim C16, the failing input: `=?utf-8?Q?=C3=A9?= =?iso-8859-1?Q?a?=` carries `é` in
UTF-8 and `a` in ISO-8859-1; the bytes C3 A9 61 are converted from ISO-8859-1 as a whole, so
the decoder returns `Ã©a` (C3 83 C2 A9 61), while the conversion of each payload from its
own charset gives `éa` (C3 A9 61). -/
theorem C16_second_charset_converts_both_witness :
    (transcode sample_env [195, 169] (ascii "utf-8")).getD []
        ++ (transcode sample_env [97] (ascii "iso-8859-1")).getD [] = [195, 169, 97]
    ∧ ascii "utf-8" ≠ ascii "iso-8859-1"
    ∧ rspamd_mime_header_decode sample_env (ascii "=?utf-8?Q?=C3=A9?= =?iso-8859-1?Q?a?=")
        = some ([195, 131, 194, 169, 97], false) :=
  ⟨by decide,
    (C16_second_charset_converts_both sample_env (ascii "=?utf-8?Q?=C3=A9?= =?iso-8859-1?Q?a?=")
      (ascii "utf-8") 81 (ascii "=C3=A9") [32] (ascii "iso-8859-1") 81 (ascii "a")
      rfc2047_encoding.RSPAMD_RFC2047_QP (ascii "utf-8") (ascii "=C3=A9") [195, 169]
      rfc2047_encoding.RSPAMD_RFC2047_QP (ascii "iso-8859-1") (ascii "a") [97]
      [195, 131, 194, 169, 97]
      (by decide) (by decide) (by decide) (by decide) (by decide) (by decide) (by decide)
      (by decide) (by decide) (by decide) (by decide) (by decide) (by decide)).1,
    (C16_second_charset_converts_both sample_env (ascii "=?utf-8?Q?=C3=A9?= =?iso-8859-1?Q?a?=")
      (ascii "utf-8") 81 (ascii "=C3=A9") [32] (ascii "iso-8859-1") 81 (ascii "a")
      rfc2047_encoding.RSPAMD_RFC2047_QP (ascii "utf-8") (ascii "=C3=A9") [195, 169]
      rfc2047_encoding.RSPAMD_RFC2047_QP (ascii "iso-8859-1") (ascii "a") [97]
      [195, 131, 194, 169, 97]
      (by decide) (by decide) (by decide) (by decide) (by decide) (by decide) (by decide)
      (by decide) (by decide) (by decide) (by decide) (by decide) (by decide)).2.trans
      (by decide)⟩

/-- Claim C17, counterexample.  The words `=?iso-2022-jp?Q?=09?=` and `=?iso-2022-jp?Q?a?=`
are well formed, both name `iso-2022-jp` and carry the payloads TAB and `a`; the two
conversions give TAB and `a`, but the decoder returns a space and `a`: the sanity pass
rewrites the converted text. -/
theorem C17_counterexample :
    word_ok (ascii "iso-2022-jp") 81 (ascii "=09") = true
    ∧ word_ok (ascii "iso-2022-jp") 81 (ascii "a") = true
    ∧ sample_env.rfc2047_parse (encoded_word (ascii "iso-2022-jp") 81 (ascii "=09"))
        = some (rfc2047_encoding.RSPAMD_RFC2047_QP, ascii "iso-2022-jp", ascii "=09")
    ∧ decode_payload sample_env rfc2047_encoding.RSPAMD_RFC2047_QP (ascii "=09") = some [9]
    ∧ sample_env.rfc2047_parse (encoded_word (ascii "iso-2022-jp") 81 (ascii "a"))
        = some (rfc2047_encoding.RSPAMD_RFC2047_QP, ascii "iso-2022-jp", ascii "a")
    ∧ decode_payload sample_env rfc2047_encoding.RSPAMD_RFC2047_QP (ascii "a") = some [97]
    ∧ transcode sample_env [9] (ascii "iso-2022-jp") = some [9]
    ∧ transcode sample_env [97] (ascii "iso-2022-jp") = some [97]
    ∧ encoded_word (ascii "iso-2022-jp") 81 (ascii "=09")
          ++ ([32] ++ encoded_word (ascii "iso-2022-jp") 81 (ascii "a"))
        = ascii "=?iso-2022-jp?Q?=09?= =?iso-2022-jp?Q?a?="
    ∧ rspamd_mime_header_decode sample_env (ascii "=?iso-2022-jp?Q?=09?= =?iso-2022-jp?Q?a?=")
        = some ([32, 97], false)
    ∧ (rspamd_mime_header_decode sample_env
          (ascii "=?iso-2022-jp?Q?=09?= =?iso-2022-jp?Q?a?=")).map (fun r => r.1)
        ≠ some ((transcode sample_env [9] (ascii "iso-2022-jp")).getD []
            ++ (transcode sample_env [97] (ascii "iso-2022-jp")).getD []) := by
  decide

/-- Claim C17, amended.  For two well-formed encoded words accepted by the token grammar
that both name the charset `iso-2022-jp` (any letter case), with non-empty payloads `d1` and
`d2`, separated by a run of spaces and tabs: when the conversions of `d1` and of `d2` from
that charset give `u1` and `u2`, the decoder returns the sanity pass applied to `u1 ++ u2`.
Each payload is converted on its own; the payloads are never joined in one buffer. -/
theorem C17_iso2022jp_not_joined (env : Env) (inp cs1 : Bytes) (e1 : Nat) (t1 ws cs2 : Bytes)
    (e2 : Nat) (t2 : Bytes) (enc1 : rfc2047_encoding) (ch1 tok1 d1 : Bytes)
    (enc2 : rfc2047_encoding) (ch2 tok2 d2 u1 u2 : Bytes)
    (hinp : inp = encoded_word cs1 e1 t1 ++ (ws ++ encoded_word cs2 e2 t2))
    (hw1 : word_ok cs1 e1 t1 = true) (hw2 : word_ok cs2 e2 t2 = true)
    (hws : ∀ b ∈ ws, b = 32 ∨ b = 9)
    (hp1 : env.rfc2047_parse (encoded_word cs1 e1 t1) = some (enc1, ch1, tok1))
    (hd1 : decode_payload env enc1 tok1 = some d1)
    (hp2 : env.rfc2047_parse (encoded_word cs2 e2 t2) = some (enc2, ch2, tok2))
    (hd2 : decode_payload env enc2 tok2 = some d2)
    (hiso1 : rspamd_ftok_casecmp_eq ch1 (ascii "iso-2022-jp") = true)
    (hiso2 : rspamd_ftok_casecmp_eq ch2 (ascii "iso-2022-jp") = true)
    (hn1 : d1 ≠ []) (hn2 : d2 ≠ [])
    (htr1 : transcode env d1 ch2 = some u1) (htr2 : transcode env d2 ch2 = some u2) :
    rspamd_ftok_casecmp_eq ch1 ch2 = true
      ∧ rspamd_mime_header_decode env inp
          = some (rspamd_mime_header_sanity_check (u1 ++ u2), false) := by
  have hsp : ∀ b ∈ ws, g_ascii_isspace b = true := by
    intro b hb
    rcases hws b hb with h | h <;> subst h <;> decide
  have hch : ch2 ≠ [] := by
    intro h
    rw [h] at hiso2
    exact absurd hiso2 (by decide)
  constructor
  · simp only [rspamd_ftok_casecmp_eq, beq_iff_eq] at hiso1 hiso2 ⊢
    rw [hiso1, hiso2]
  · rw [hinp, decode_two_words env cs1 e1 t1 ws cs2 e2 t2 enc1 ch1 tok1 d1 enc2 ch2 tok2 d2
      hw1 hw2 hsp hp1 hd1 hp2 hd2 hch]
    simp [two_words_out, hiso2, flushed, hn1, hn2, htr1, htr2]

/-- Claim C17, witness: `=?iso-2022-jp?B?GyRCJCIbKEI=?= =?iso-2022-jp?B?GyRCJCQbKEI=?=`
decodes to the two hiragana U+3042 and U+3044. -/
theorem C17_iso2022jp_not_joined_witness :
    rspamd_mime_header_decode sample_env
        (ascii "=?iso-2022-jp?B?GyRCJCIbKEI=?= =?iso-2022-jp?B?GyRCJCQbKEI=?=")
      = some ([227, 129, 130, 227, 129, 132], false) :=
  (C17_iso2022jp_not_joined sample_env
    (ascii "=?iso-2022-jp?B?GyRCJCIbKEI=?= =?iso-2022-jp?B?GyRCJCQbKEI=?=")
    (ascii "iso-2022-jp") 66 (ascii "GyRCJCIbKEI=") [32] (ascii "iso-2022-jp") 66
    (ascii "GyRCJCQbKEI=")
    rfc2047_encoding.RSPAMD_RFC2047_BASE64 (ascii "iso-2022-jp") (ascii "GyRCJCIbKEI=")
    [27, 36, 66, 36, 34, 27, 40, 66]
    rfc2047_encoding.RSPAMD_RFC2047_BASE64 (ascii "iso-2022-jp") (ascii "GyRCJCQbKEI=")
    [27, 36, 66, 36, 36, 27, 40, 66]
    [227, 129, 130] [227, 129, 132]
    (by decide) (by decide) (by decide) (by decide) (by decide) (by decide) (by decide)
    (by decide) (by decide) (by decide) (by decide) (by decide) (by decide)
    (by decide)).2.trans (by decide)

/-- Claim C18.  The byte FF is part of no UTF-8 sequence.  Behind an `=` it is copied to
the output as it is and no invalid UTF-8 is reported; inside the span `=?x?Z?`FF`?=`, which
the token grammar rejects, it is copied as it is as well.  Neither result is well-formed
UTF-8: the UTF-8 enforcement of the tokenizer has to rewrite both. -/
theorem C18_raw_byte_kept (env : Env) :
    rspamd_mime_header_decode env [61, 255] = some ([61, 255], false)
    ∧ rspamd_mime_charset_utf_enforce [61, 255] ≠ [61, 255]
    ∧ rspamd_mime_header_decode sample_env [61, 63, 120, 63, 90, 63, 255, 63, 61]
        = some ([61, 63, 120, 63, 90, 63, 255, 63, 61], false)
    ∧ rspamd_mime_charset_utf_enforce [61, 63, 120, 63, 90, 63, 255, 63, 61]
        ≠ [61, 63, 120, 63, 90, 63, 255, 63, 61] :=
  ⟨rfl, by decide, by decide, by decide⟩

/-! ## The `Received:` trace parser -/

/-- Claim C19.  The first four non-white-space bytes of `by mx.example.com with ESMTP` are
`by m`, not `from`, yet `rspamd_smtp_received_spill` does not return `NULL` and
`rspamd_smtp_received_parse` returns 0: the test that lets only values starting with `from`
through joins its four byte comparisons with `&&`, so a value is refused only when all four
bytes differ from `f`, `r`, `o`, `m`, and here the fourth byte is `m`.  The value is read as
a FROM part `x.example.com` followed by a WITH part `esmtp`. -/
theorem C19_value_without_from_accepted (renv : received_env) (rh : received_header) :
    rspamd_str_lc (((ascii "by mx.example.com with ESMTP").dropWhile g_ascii_isspace).take 4)
      ≠ ascii "from"
    ∧ rspamd_smtp_received_spill (ascii "by mx.example.com with ESMTP")
      = spill_outcome.head
          [{ type := rspamd_received_part_type.RSPAMD_RECEIVED_PART_FROM,
             data := some (ascii "x.example.com") },
           { type := rspamd_received_part_type.RSPAMD_RECEIVED_PART_WITH,
             data := some (ascii "esmtp") }] none
    ∧ (∃ r, rspamd_smtp_received_parse renv (ascii "by mx.example.com with ESMTP") rh
        = some (0, r))
    ∧ (rspamd_smtp_received_parse sample_received_env (ascii "by mx.example.com with ESMTP")
        {}).map (fun r => (r.1, r.2.from_hostname, r.2.type))
      = some (0, some (ascii "x.example.com"), RSPAMD_RECEIVED_ESMTP) := by
  have h : rspamd_smtp_received_spill (ascii "by mx.example.com with ESMTP")
      = spill_outcome.head
          [{ type := rspamd_received_part_type.RSPAMD_RECEIVED_PART_FROM,
             data := some (ascii "x.example.com") },
           { type := rspamd_received_part_type.RSPAMD_RECEIVED_PART_WITH,
             data := some (ascii "esmtp") }] none := by decide
  refine ⟨by decide, h, ?_, by decide⟩
  unfold rspamd_smtp_received_parse
  rw [h]
  exact ⟨_, rfl⟩

theorem part_rank_le (data : Bytes) (s : part_vars) : part_rank data s ≤ 2 := by
  unfold part_rank
  split
  · split <;> omega
  · omega
  · omega

theorem part_measure_adv (data : Bytes) (s t : part_vars) (hp : s.p < data.length)
    (ht : t.p = s.p + 1) : part_measure data t < part_measure data s := by
  unfold part_measure
  have := part_rank_le data t
  rw [ht]
  omega

/-- A pass of the loop keeps `next_state` at `read_data` and either returns from state
`all_done` or lowers the measure. -/
theorem part_step_measure (data : Bytes) (type : rspamd_received_part_type) (s : part_vars)
    (hn : s.next_state = part_state.read_data) (hp : s.p < data.length) :
    (part_step data type s).next_state = part_state.read_data
      ∧ ((part_step data type s).last ≠ none
        ∨ part_measure data (part_step data type s) < part_measure data s) := by
  obtain ⟨npart, p, c, ob, eb, seen, st, nx, last⟩ := s
  simp only at hn hp
  subst hn
  cases st
  · -- skip_spaces
    by_cases hsp : g_ascii_isspace (peek data p) = true
    · simp only [part_step, hsp, Bool.not_true, Bool.false_eq_true, if_false, true_and]
      right
      exact part_measure_adv _ _ _ hp rfl
    · have hf : g_ascii_isspace (peek data p) = false := by simpa using hsp
      simp only [part_step, hf, Bool.not_false, if_true, true_and]
      right
      simp [part_measure, part_rank, hf]
  · -- in_comment
    simp only [part_step]
    split_ifs <;> exact ⟨rfl, Or.inr (part_measure_adv _ _ _ hp rfl)⟩
  · -- read_data
    simp only [part_step]
    split_ifs with h1 h2 h3 h4 h5 h6
    · exact ⟨rfl, Or.inr (part_measure_adv _ _ _ hp rfl)⟩
    · exact ⟨rfl, Or.inr (by simp [part_measure, part_rank, h2])⟩
    · exact ⟨rfl, Or.inr (by simp [part_measure, part_rank])⟩
    · exact ⟨rfl, Or.inr (part_measure_adv _ _ _ hp rfl)⟩
    · exact ⟨rfl, Or.inr (by simp [part_measure, part_rank])⟩
    · exact ⟨rfl, Or.inr (by simp [part_measure, part_rank])⟩
    · exact ⟨rfl, Or.inr (part_measure_adv _ _ _ hp rfl)⟩
  · -- read_tcpinfo
    simp only [part_step]
    split_ifs <;> exact ⟨rfl, Or.inr (part_measure_adv _ _ _ hp rfl)⟩
  · -- all_done
    exact ⟨rfl, Or.inl (by simp [part_step])⟩

theorem part_loop_exits_of_measure (data : Bytes) (type : rspamd_received_part_type) (n : Nat)
    (s : part_vars) (hn : s.next_state = part_state.read_data) (hm : part_measure data s ≤ n) :
    data.length ≤ (part_loop data type n s).p ∨ (part_loop data type n s).last ≠ none := by
  induction n generalizing s with
  | zero =>
    left
    unfold part_measure at hm
    simp only [part_loop]
    omega
  | succ n ih =>
    unfold part_loop
    by_cases hg : s.p < data.length ∧ s.last = none
    · rw [if_pos hg]
      obtain ⟨h1, h2⟩ := part_step_measure data type s hn hg.1
      rcases h2 with h2 | h2
      · right
        cases n with
        | zero => exact h2
        | succ m =>
          unfold part_loop
          rw [if_neg (fun hc => h2 hc.2)]
          exact h2
      · exact ih _ h1 (by omega)
    · rw [if_neg hg]
      by_cases hp : s.p < data.length
      · right
        intro hl
        exact hg ⟨hp, hl⟩
      · left; omega

/-- The passes given to the loop of `rspamd_smtp_received_process_part` are enough on every
input: the loop is left because `p` reached the end of the bytes or because the function
returned from state `all_done`. -/
theorem part_loop_exits (data : Bytes) (type : rspamd_received_part_type) :
    data.length ≤ (part_loop data type (3 * data.length + 3) { npart := { type := type } }).p
      ∨ (part_loop data type (3 * data.length + 3) { npart := { type := type } }).last ≠ none := by
  apply part_loop_exits_of_measure
  · rfl
  · have := part_rank_le data { npart := { type := type } }
    simp only [part_measure]
    omega

theorem icase_hash_received (name : Bytes) (h : lc_name name = ascii "received") :
    rspamd_icase_hash name = 0x88705DC4D9D61AB := by
  unfold rspamd_icase_hash
  simp [h]

theorem check_special_received (env : Env) (task : rspamd_task) (rh : rspamd_mime_header)
    (h : lc_name rh.name = ascii "received")
    (hfail : (rspamd_smtp_received_parse env.received rh.decoded { hdr := rh.order }).map
      (fun r => r.1) = some (-1)) :
    rspamd_mime_header_check_special env task rh
      = some (task, { rh with type := RSPAMD_HEADER_RECEIVED }) := by
  unfold rspamd_mime_header_check_special
  simp only [icase_hash_received rh.name h, if_true]
  cases hp : rspamd_smtp_received_parse env.received rh.decoded { hdr := rh.order } with
  | none => rw [hp] at hfail; cases hfail
  | some x =>
    obtain ⟨ret, recv1⟩ := x
    rw [hp] at hfail
    simp only [Option.map_some', Option.some.injEq] at hfail
    subst hfail
    simp

/-- Claim C20.  A header named `Received` (any letter case) is emitted with recognition
enabled, and the trace parser returns failure (-1) on its decoded value: the task is left as
it was, its Received list included; the header, with the order index assigned and the type
RECEIVED, is appended to the global queue and to the sequence stored under its name in the
name index; the order counter moves on. -/
theorem C20_failed_received_stored (env : Env) (s : hdr_state) (nh : rspamd_mime_header)
    (hname : lc_name nh.name = ascii "received")
    (hfail : (rspamd_smtp_received_parse env.received nh.decoded { hdr := s.norder }).map
      (fun r => r.1) = some (-1))
    (htab : table_inv s.target s.order) :
    (hdr_emit env true s nh).task = s.task
    ∧ (hdr_emit env true s nh).task.received = s.task.received
    ∧ (hdr_emit env true s nh).order
        = s.order ++ [{ nh with order := s.norder, type := RSPAMD_HEADER_RECEIVED }]
    ∧ g_hash_table_lookup (hdr_emit env true s nh).target nh.name
        = some (s.order.filter (fun h => rspamd_strcase_equal h.name nh.name)
            ++ [{ nh with order := s.norder, type := RSPAMD_HEADER_RECEIVED }])
    ∧ (hdr_emit env true s nh).norder = s.norder + 1 := by
  have hcs : rspamd_mime_header_check_special env s.task { nh with order := s.norder }
      = some (s.task, { nh with order := s.norder, type := RSPAMD_HEADER_RECEIVED }) :=
    check_special_received env s.task { nh with order := s.norder } hname hfail
  have hst : stored_header env s.task { nh with order := s.norder } true
      = { nh with order := s.norder, type := RSPAMD_HEADER_RECEIVED } := by
    rw [stored_header_some _ _ _ _ hcs]
  obtain ⟨r, hr⟩ : ∃ r, rspamd_mime_header_add env s.task s.target s.order
      { nh with order := s.norder } true = some r := by
    unfold rspamd_mime_header_add
    simp only [if_true, hcs]
    exact ⟨_, rfl⟩
  obtain ⟨ho, _, _, _, hc⟩ := header_add_some _ _ _ _ _ _ r hr
  obtain ⟨r0, hr0, hr1⟩ := hc rfl
  rw [hcs, Option.some.injEq] at hr0
  have htask : r.1 = s.task := by rw [hr1, ← hr0]
  have hinv := table_inv_add env s.task s.target s.order { nh with order := s.norder } true r hr
    htab
  rw [hdr_emit_some env true s nh r hr]
  refine ⟨htask, by rw [htask], by rw [ho, hst], ?_, rfl⟩
  show g_hash_table_lookup r.2.1 nh.name = _
  rw [hinv.1 nh.name, ho, hst, List.filter_append]
  have hself : rspamd_strcase_equal nh.name nh.name = true := by simp [rspamd_strcase_equal]
  simp [hself]

/-- Claim C20, witness: the value `by x` makes the trace parser return -1; the header
`Received: by x` is stored with the order index 0 and the type RECEIVED, and the Received
list of the task stays empty, also when the header is read by the tokenizer from the input
`Received: by x` followed by an empty line. -/
theorem C20_failed_received_stored_witness :
    (rspamd_smtp_received_parse plain_env.received (ascii "by x") { hdr := 0 }).map
        (fun r => r.1) = some (-1)
    ∧ (hdr_emit plain_env true {}
        { name := ascii "Received", decoded := ascii "by x" }).task.received = []
    ∧ (hdr_emit plain_env true {}
        { name := ascii "Received", decoded := ascii "by x" }).order
        = [{ name := ascii "Received", decoded := ascii "by x", order := 0,
             type := RSPAMD_HEADER_RECEIVED }]
    ∧ (rspamd_mime_headers_process plain_env {} [] []
        (ascii "Received: by x\n\n") true).task.received = []
    ∧ (rspamd_mime_headers_process plain_env {} [] []
        (ascii "Received: by x\n\n") true).order.map (fun h => (h.name, h.decoded, h.order, h.type))
        = [(ascii "Received", ascii "by x", 0, RSPAMD_HEADER_RECEIVED)] :=
  ⟨by decide,
    (C20_failed_received_stored plain_env {}
      { name := ascii "Received", decoded := ascii "by x" } (by decide) (by decide)
      (by simp [table_inv, g_hash_table_lookup, table_size])).2.1,
    (C20_failed_received_stored plain_env {}
      { name := ascii "Received", decoded := ascii "by x" } (by decide) (by decide)
      (by simp [table_inv, g_hash_table_lookup, table_size])).2.2.1,
    by decide, by decide⟩

/-! ## Newline style, NUL bytes, and the assertion of the Received splitter -/

/-- Claim C28, the code at the failing input.  Every line of `A: b`, CR LF, CR LF ends with
CRLF, yet the counters end as one LF and one CRLF and `nlines_type` is LF: the folding state
99 walks over the CR of the last line break, the emission leaves the tokenizer on the final
LF alone, and state 100 counts that byte as a bare LF; the selection keeps the first of two
equal counters.  The same happens for the single line `A: b`, CR LF. -/
theorem C28_crlf_input_selects_lf :
    (rspamd_mime_headers_process plain_env {} [] [] (ascii "A: b\r\n\r\n") true).nlines_count
      = [0, 1, 1]
    ∧ (rspamd_mime_headers_process plain_env {} [] [] (ascii "A: b\r\n\r\n") true).task.nlines_type
      = RSPAMD_TASK_NEWLINES_LF
    ∧ (rspamd_mime_headers_process plain_env {} [] [] (ascii "A: b\r\n") true).nlines_count
      = [0, 1, 1]
    ∧ (rspamd_mime_headers_process plain_env {} [] [] (ascii "A: b\r\n") true).task.nlines_type
      = RSPAMD_TASK_NEWLINES_LF := by
  decide

/-- Claim C29, the code at the failing input.  In the header `A: a`, LF, space, NUL, space,
`b`, LF the NUL byte lies between the blanks of a continuation line.  The copy loop of
state 4 leaves its folding mode on the NUL byte before it drops it, so the blank behind the
NUL is copied: the value is `a`, two spaces, `b`, while the same header without the NUL byte
yields `a b`.  The value holds no NUL byte in either case. -/
theorem C29_nul_in_folding_keeps_blank :
    (rspamd_mime_headers_process plain_env {} [] []
        (ascii "A: a\n " ++ (0 :: ascii " b\n")) true).order.map (fun h => (h.name, h.value))
      = [(ascii "A", ascii "a  b")]
    ∧ (rspamd_mime_headers_process plain_env {} [] []
        (ascii "A: a\n  b\n") true).order.map (fun h => (h.name, h.value))
      = [(ascii "A", ascii "a b")]
    ∧ (ascii "A: a\n " ++ (0 :: ascii " b\n")).filter (fun b => b != 0) = ascii "A: a\n  b\n" := by
  decide

/-- Claim C30, the code at the failing inputs.  On `from;x` and on `from x with;y` the part
reader returns a part together with the offset 0, because a semicolon that directly follows
the keyword ends the part before any byte is consumed; the splitter then fails its
assertion `pos != 0`, and the parser has no result, whatever the collaborators and the
structure given. -/
theorem C30_assertion_fails (renv : received_env) (rh : received_header) :
    rspamd_smtp_received_process_part (ascii ";x")
        rspamd_received_part_type.RSPAMD_RECEIVED_PART_FROM
      = some ({ type := rspamd_received_part_type.RSPAMD_RECEIVED_PART_FROM }, 0)
    ∧ rspamd_smtp_received_process_part (ascii ";y")
        rspamd_received_part_type.RSPAMD_RECEIVED_PART_WITH
      = some ({ type := rspamd_received_part_type.RSPAMD_RECEIVED_PART_WITH }, 0)
    ∧ rspamd_smtp_received_spill (ascii "from;x") = spill_outcome.assert_failed
    ∧ rspamd_smtp_received_spill (ascii "from x with;y") = spill_outcome.assert_failed
    ∧ rspamd_smtp_received_parse renv (ascii "from;x") rh = none
    ∧ rspamd_smtp_received_parse renv (ascii "from x with;y") rh = none :=
  ⟨by decide, by decide, by decide, by decide, rfl, rfl⟩

/-! ## The host name extractor -/

theorem takeWhile_length_eq_iff (f : Nat → Bool) (s : Bytes) :
    (s.takeWhile f).length = s.length ↔ s.takeWhile f = s := by
  constructor
  · intro h
    have hp : (s.takeWhile f) <+: s := List.takeWhile_prefix f
    exact hp.eq_of_length h
  · intro h; rw [h]

theorem takeWhile_ne_zero_id (h : Bytes) (h0 : ∀ b ∈ h, b ≠ 0) :
    h.takeWhile (fun x => x != 0) = h := by
  rw [List.takeWhile_eq_self_iff]
  intro b hb
  simpa using h0 b hb

theorem hostname_run_no_nul (renv : received_env) (s : Bytes)
    (h0 : renv.url_is_domain 0 = false) : ∀ b ∈ hostname_run renv s, b ≠ 0 := by
  intro b hb hz
  have := List.mem_takeWhile_imp hb
  subst hz
  simp [h0] at this

/-- Claim C23.  With `h` the longest prefix of the span `s` made of host name characters
(bytes that are no white space and that the domain-character predicate accepts),
`rspamd_smtp_received_process_rdns` succeeds exactly when `h` is not empty and either `h`
is all of `s`, or `h` holds a dot and the byte behind `h` is white space, `[` or `(`.
White space is what `g_ascii_isspace` takes for it: space, TAB, LF, FF and CR, not the
vertical tab.  On success the host name returned is `h` (the domain-character predicate
refusing the NUL byte, at which the C string copy would end), and on failure the
destination is left as it was: the `by` part of a value leaves the structure unchanged. -/
theorem C23_rdns_extractor (renv : received_env) (s : Bytes) (rh : received_header)
    (h0 : renv.url_is_domain 0 = false) :
    ((rspamd_smtp_received_process_rdns renv s).isSome = true ↔
        (hostname_run renv s ≠ [] ∧
          (hostname_run renv s = s ∨
            (46 ∈ hostname_run renv s ∧
              (g_ascii_isspace (peek s (hostname_run renv s).length) = true
                ∨ peek s (hostname_run renv s).length = 91
                ∨ peek s (hostname_run renv s).length = 40)))))
    ∧ (∀ d, rspamd_smtp_received_process_rdns renv s = some d → d = hostname_run renv s)
    ∧ (rspamd_smtp_received_process_rdns renv s = none →
        received_part_effect renv rh
          { type := rspamd_received_part_type.RSPAMD_RECEIVED_PART_BY, data := some s } = rh) := by
  have hnul := takeWhile_ne_zero_id _ (hostname_run_no_nul renv s h0)
  have hdef : rspamd_smtp_received_process_rdns renv s
      = if (hostname_run renv s).length > 0 then
          if (hostname_run renv s).length = s.length then some (hostname_run renv s)
          else if (hostname_run renv s).contains 46 = true
              ∧ (g_ascii_isspace (peek s (hostname_run renv s).length) = true
                ∨ peek s (hostname_run renv s).length = 91
                ∨ peek s (hostname_run renv s).length = 40) then
            some (hostname_run renv s)
          else none
        else none := by
    simp only [rspamd_smtp_received_process_rdns]
    rw [show (List.takeWhile (fun b => !g_ascii_isspace b && renv.url_is_domain b) s)
      = hostname_run renv s from rfl, hnul]
  refine ⟨?_, ?_, ?_⟩
  · rw [hdef]
    by_cases hl : (hostname_run renv s).length > 0
    · have hne : hostname_run renv s ≠ [] := List.length_pos.1 hl
      rw [if_pos hl]
      by_cases he : (hostname_run renv s).length = s.length
      · rw [if_pos he]
        have := (takeWhile_length_eq_iff _ s).1 he
        simp only [Option.isSome_some, true_iff]
        exact ⟨hne, Or.inl this⟩
      · rw [if_neg he]
        have hne2 : hostname_run renv s ≠ s := fun h => he (by rw [h])
        by_cases hc : (hostname_run renv s).contains 46 = true
            ∧ (g_ascii_isspace (peek s (hostname_run renv s).length) = true
              ∨ peek s (hostname_run renv s).length = 91
              ∨ peek s (hostname_run renv s).length = 40)
        · rw [if_pos hc]
          simp only [Option.isSome_some, true_iff]
          refine ⟨hne, Or.inr ⟨?_, hc.2⟩⟩
          simpa using hc.1
        · rw [if_neg hc]
          simp only [Option.isSome_none, Bool.false_eq_true, false_iff]
          rintro ⟨_, h | ⟨h1, h2⟩⟩
          · exact hne2 h
          · exact hc ⟨by simpa using h1, h2⟩
    · rw [if_neg hl]
      have : hostname_run renv s = [] := by
        cases hh : hostname_run renv s with
        | nil => rfl
        | cons a r => rw [hh] at hl; simp at hl
      simp [this]
  · intro d hd
    rw [hdef] at hd
    split_ifs at hd <;> simp_all
  · intro hn
    simp only [received_part_effect, Option.getD_some, hn]

/-- Claim C23, witness: on `mail.example.com [192.0.2.1]` with the sample predicate the
host name returned is `mail.example.com`, a dot being seen and the byte behind it being a
space.  On `a.b`, a vertical tab and `c` the function fails: the byte behind `a.b` is
neither white space nor a bracket. -/
theorem C23_rdns_extractor_witness :
    sample_received_env.url_is_domain 0 = false
    ∧ rspamd_smtp_received_process_rdns sample_received_env (ascii "mail.example.com [192.0.2.1]")
      = some (ascii "mail.example.com")
    ∧ (∀ d, rspamd_smtp_received_process_rdns sample_received_env
          (ascii "mail.example.com [192.0.2.1]") = some d →
        d = hostname_run sample_received_env (ascii "mail.example.com [192.0.2.1]"))
    ∧ hostname_run sample_received_env [97, 46, 98, 11, 99] = ascii "a.b"
    ∧ rspamd_smtp_received_process_rdns sample_received_env [97, 46, 98, 11, 99] = none :=
  ⟨by decide, by decide,
    (C23_rdns_extractor sample_received_env (ascii "mail.example.com [192.0.2.1]") {}
      (by decide)).2.1, by decide, by decide⟩

/-! ## The transport table -/

theorem ascii_smtp : ascii "smtp" = [115, 109, 116, 112] := by decide

theorem ascii_esmtp : ascii "esmtp" = [101, 115, 109, 116, 112] := by decide

theorem ascii_esmtpa : ascii "esmtpa" = [101, 115, 109, 116, 112, 97] := by decide

theorem ascii_esmtps : ascii "esmtps" = [101, 115, 109, 116, 112, 115] := by decide

theorem ascii_esmtpsa : ascii "esmtpsa" = [101, 115, 109, 116, 112, 115, 97] := by decide

theorem ascii_lmtp : ascii "lmtp" = [108, 109, 116, 112] := by decide

theorem ascii_imap : ascii "imap" = [105, 109, 97, 112] := by decide

theorem ascii_http : ascii "http" = [104, 116, 116, 112] := by decide

theorem ascii_https : ascii "https" = [104, 116, 116, 112, 115] := by decide

theorem ascii_local : ascii "local" = [108, 111, 99, 97, 108] := by decide

theorem prefix_exact (p t : Bytes) (h : p.isPrefixOf t = true) (hl : t.length = p.length) :
    t = p := by
  obtain ⟨r, hr⟩ := List.isPrefixOf_iff_prefix.1 h
  subst hr
  have : r = [] := List.length_eq_zero.1 (by rw [List.length_append] at hl; omega)
  simp [this]

theorem prefix_one (p t : Bytes) (k : Nat) (h : p.isPrefixOf t = true) (hk : p.length = k)
    (hl : t.length = k + 1) : t = p ++ [peek t k] := by
  obtain ⟨r, hr⟩ := List.isPrefixOf_iff_prefix.1 h
  subst hr hk
  obtain ⟨x, hx⟩ : ∃ x, r = [x] := List.length_eq_one.1 (by rw [List.length_append] at hl; omega)
  subst hx
  rw [peek_mid_head p [] x]

theorem prefix_two (p t : Bytes) (k : Nat) (h : p.isPrefixOf t = true) (hk : p.length = k)
    (hl : t.length = k + 2) : t = p ++ [peek t k, peek t (k + 1)] := by
  obtain ⟨r, hr⟩ := List.isPrefixOf_iff_prefix.1 h
  subst hr hk
  obtain ⟨x, y, hx⟩ : ∃ x y, r = [x, y] :=
    List.length_eq_two.1 (by rw [List.length_append] at hl; omega)
  subst hx
  have e2 : peek (p ++ [x, y]) (p.length + 1) = y := by
    have := peek_mid_head (p ++ [x]) [] y
    simpa using this
  rw [peek_mid_head p [y] x, e2]

/-- The `with` case of the parser on a token that is none of the ten words of the
transport table: the structure is left as it was. -/
theorem received_with_other (rh : received_header) (t : Bytes)
    (h1 : t ≠ ascii "smtp") (h2 : t ≠ ascii "esmtp") (h3 : t ≠ ascii "esmtpa")
    (h4 : t ≠ ascii "esmtps") (h5 : t ≠ ascii "esmtpsa") (h6 : t ≠ ascii "lmtp")
    (h7 : t ≠ ascii "imap") (h8 : t ≠ ascii "http") (h9 : t ≠ ascii "https")
    (h10 : t ≠ ascii "local") : received_with rh t = rh := by
  unfold received_with
  split_ifs with c0 c1 c2 c3 c4 c5 c6 c7 c8 c9
  all_goals first
    | rfl
    | (exfalso
       first
         | exact h1 (by assumption)
         | exact h6 (by assumption)
         | exact h7 (by assumption)
         | exact h10 (by assumption)
         | exact h2 (prefix_exact _ _ c6.1 c6.2)
         | exact h8 (prefix_exact _ _ (by assumption) (by assumption))
         | (have e := prefix_one _ _ 5 c1.1 rfl c1.2
            first
              | (rw [c2] at e; exact h3 e)
              | (rw [c3] at e; exact h4 e))
         | (have e := prefix_two _ _ 5 c4.1 rfl c4.2
            rw [c5.1, c5.2] at e; exact h5 e)
         | (have e := prefix_one _ _ 4 c7 rfl c8
            rw [c9] at e; exact h9 e))

/-- The `with` case of the parser on a structure whose type is UNKNOWN and whose flags are
clear: the type and the flags are those of the transport table. -/
theorem received_with_table (rh : received_header) (t : Bytes)
    (hty : rh.type = RSPAMD_RECEIVED_UNKNOWN) (hfl : rh.flags = 0) :
    ((received_with rh t).type, (received_with rh t).flags) = transport_table t := by
  obtain ⟨hdr, ty, fl, a1, a2, a3, a4, a5, a6, a7, a8⟩ := rh
  simp only at hty hfl
  subst hty hfl
  by_cases h1 : t = ascii "smtp"
  · subst h1
    rw [show transport_table (ascii "smtp") = (0, 0) from by decide]
    exact Prod.ext rfl rfl
  by_cases h2 : t = ascii "esmtp"
  · subst h2
    rw [show transport_table (ascii "esmtp") = (1, 0) from by decide]
    exact Prod.ext rfl rfl
  by_cases h3 : t = ascii "esmtpa"
  · subst h3
    rw [show transport_table (ascii "esmtpa") = (2, 4) from by decide]
    refine Prod.ext rfl ?_
    show (0 ||| 4 : Nat) = 4
    rfl
  by_cases h4 : t = ascii "esmtps"
  · subst h4
    rw [show transport_table (ascii "esmtps") = (3, 2) from by decide]
    refine Prod.ext rfl ?_
    show (0 ||| 2 : Nat) = 2
    rfl
  by_cases h5 : t = ascii "esmtpsa"
  · subst h5
    rw [show transport_table (ascii "esmtpsa") = (4, 6) from by decide]
    refine Prod.ext rfl ?_
    show ((0 ||| 4) ||| 2 : Nat) = 6
    rfl
  by_cases h6 : t = ascii "lmtp"
  · subst h6
    rw [show transport_table (ascii "lmtp") = (5, 0) from by decide]
    exact Prod.ext rfl rfl
  by_cases h7 : t = ascii "imap"
  · subst h7
    rw [show transport_table (ascii "imap") = (6, 0) from by decide]
    exact Prod.ext rfl rfl
  by_cases h8 : t = ascii "http"
  · subst h8
    rw [show transport_table (ascii "http") = (8, 0) from by decide]
    exact Prod.ext rfl rfl
  by_cases h9 : t = ascii "https"
  · subst h9
    rw [show transport_table (ascii "https") = (8, 2) from by decide]
    refine Prod.ext rfl ?_
    show (0 ||| 2 : Nat) = 2
    rfl
  by_cases h10 : t = ascii "local"
  · subst h10
    rw [show transport_table (ascii "local") = (7, 0) from by decide]
    exact Prod.ext rfl rfl
  rw [received_with_other _ t h1 h2 h3 h4 h5 h6 h7 h8 h9 h10]
  simp only [transport_table, if_neg h1, if_neg h2, if_neg h3, if_neg h4, if_neg h5, if_neg h6,
    if_neg h7, if_neg h8, if_neg h9, if_neg h10]

/-! ### The parts of a value hold lower-case bytes -/

theorem lc_map_idem (b : Nat) : lc_map (lc_map b) = lc_map b := by
  unfold lc_map g_ascii_tolower
  split_ifs with h1 h2 <;> simp_all
  omega

theorem str_lc_lower (src : Bytes) : ∀ b ∈ rspamd_str_lc src, lc_map b = b := by
  intro b hb
  simp only [rspamd_str_lc, List.mem_map] at hb
  obtain ⟨a, _, rfl⟩ := hb
  exact lc_map_idem a

theorem str_lc_of_lower (x : Bytes) (h : ∀ b ∈ x, lc_map b = b) : rspamd_str_lc x = x := by
  unfold rspamd_str_lc
  conv_rhs => rw [← List.map_id x]
  exact List.map_congr_left h

theorem strip_mem (s chars : Bytes) (b : Nat) (hb : b ∈ rspamd_string_len_strip s chars) :
    b ∈ s := by
  unfold rspamd_string_len_strip at hb
  rw [List.mem_reverse] at hb
  have h1 := (List.dropWhile_sublist _).mem hb
  rw [List.mem_reverse] at h1
  exact (List.dropWhile_sublist _).mem h1

theorem set_or_append_lower (src : Bytes) (dest : Option Bytes) (h : lower_bytes dest) :
    lower_bytes (rspamd_smtp_received_part_set_or_append src dest) := by
  unfold rspamd_smtp_received_part_set_or_append
  split_ifs with h0
  · exact h
  · cases dest with
    | none =>
      intro x hx b hb
      simp only [Option.some.injEq] at hx
      subst hx
      exact str_lc_lower src b (strip_mem _ _ b hb)
    | some d =>
      intro x hx b hb
      simp only [Option.some.injEq] at hx
      subst hx
      rcases List.mem_append.1 hb with h1 | h1
      · exact h d rfl b h1
      · exact str_lc_lower src b h1

theorem part_add_data_lower (data : Bytes) (type : rspamd_received_part_type) (s : part_vars)
    (e : Nat) (h : lower_bytes s.npart.data) : lower_bytes (part_add_data data type s e).data := by
  unfold part_add_data
  split_ifs
  · exact set_or_append_lower _ _ h
  · exact h

theorem part_step_lower (data : Bytes) (type : rspamd_received_part_type) (s : part_vars)
    (h : lower_bytes s.npart.data) : lower_bytes (part_step data type s).npart.data := by
  unfold part_step
  cases hst : s.state <;> simp only []
  · split_ifs <;> exact h
  · split_ifs
    · exact h
    · simp only []
      split <;> exact h
    · exact h
    · exact h
    · exact h
  · split_ifs <;> first | exact h | exact part_add_data_lower _ _ _ _ h
  · split_ifs
    · exact set_or_append_lower _ _ h
    · exact h
  · exact h

theorem part_loop_lower (data : Bytes) (type : rspamd_received_part_type) (fuel : Nat)
    (s : part_vars) (h : lower_bytes s.npart.data) :
    lower_bytes (part_loop data type fuel s).npart.data := by
  induction fuel generalizing s with
  | zero => exact h
  | succ n ih =>
    simp only [part_loop]
    split_ifs
    · exact ih _ (part_step_lower data type s h)
    · exact h

theorem process_part_lower (data : Bytes) (type : rspamd_received_part_type)
    (part : rspamd_received_part) (pos : Nat)
    (h : rspamd_smtp_received_process_part data type = some (part, pos)) :
    lower_bytes part.data := by
  have hl := part_loop_lower data type (3 * data.length + 3) { npart := { type := type } }
    (by intro x hx; simp at hx)
  unfold rspamd_smtp_received_process_part at h
  simp only [] at h
  split at h
  · simp only [Option.some.injEq, Prod.mk.injEq] at h
    rw [← h.1]; exact hl
  · split at h
    · split_ifs at h
      simp only [Option.some.injEq, Prod.mk.injEq] at h
      rw [← h.1]; exact part_add_data_lower _ _ _ _ hl
    · simp only [Option.some.injEq, Prod.mk.injEq] at h
      rw [← h.1]; exact hl
    · simp at h

theorem spill_loop_lower (data : Bytes) (fuel p len : Nat) (head parts : List rspamd_received_part)
    (dp : Option Nat) (hh : ∀ c ∈ head, lower_bytes c.data)
    (h : spill_loop data fuel p len head = spill_outcome.head parts dp) :
    ∀ c ∈ parts, lower_bytes c.data := by
  induction fuel generalizing p len head with
  | zero =>
    simp only [spill_loop, spill_outcome.head.injEq] at h
    rw [← h.1]; exact hh
  | succ n ih =>
    have hext : ∀ cur pos ty d, rspamd_smtp_received_process_part d ty = some (cur, pos) →
        ∀ c ∈ head ++ [cur], lower_bytes c.data := by
      intro cur pos ty d hc c hcm
      rcases List.mem_append.1 hcm with h1 | h1
      · exact hh c h1
      · simp only [List.mem_singleton] at h1
        subst h1
        exact process_part_lower _ _ _ _ hc
    simp only [spill_loop] at h
    split_ifs at h with c1 c2 c3 c4 c5 c6
    · simp only [spill_outcome.head.injEq] at h
      rw [← h.1]; exact hh
    · split at h
      · simp at h
      · rename_i cur pos hc
        split_ifs at h
        exact ih _ _ _ (hext cur pos _ _ hc) h
    · split at h
      · simp at h
      · rename_i cur pos hc
        split_ifs at h
        exact ih _ _ _ (hext cur pos _ _ hc) h
    · simp only [spill_outcome.head.injEq] at h
      rw [← h.1]; exact hh
    · split at h
      · simp at h
      · rename_i cur pos hc
        split_ifs at h
        exact ih _ _ _ (hext cur pos _ _ hc) h
    · simp only [spill_outcome.head.injEq] at h
      rw [← h.1]; exact hh

theorem spill_lower (data : Bytes) (parts : List rspamd_received_part) (dp : Option Nat)
    (h : rspamd_smtp_received_spill data = spill_outcome.head parts dp) :
    ∀ c ∈ parts, lower_bytes c.data := by
  unfold rspamd_smtp_received_spill at h
  simp only [] at h
  split_ifs at h with c1
  split at h
  · simp at h
  · rename_i fp pos hf
    split_ifs at h with c2 c3
    · split at h
      · simp at h
      · rename_i bp pos2 hb
        split_ifs at h
        refine spill_loop_lower data _ _ _ _ parts dp ?_ h
        intro c hc
        simp only [List.mem_cons, List.mem_singleton, List.not_mem_nil, or_false] at hc
        rcases hc with rfl | rfl
        · exact process_part_lower _ _ _ _ hf
        · exact process_part_lower _ _ _ _ hb
    · refine spill_loop_lower data _ _ _ _ parts dp ?_ h
      intro c hc
      simp only [List.mem_singleton] at hc
      subst hc
      exact process_part_lower _ _ _ _ hf

/-! ### Which fields the parts of a value write -/

theorem from_writes_refl (renv : received_env) (rh : received_header) :
    from_writes renv rh rh := ⟨rfl, rfl, id⟩

theorem from_writes_trans {renv : received_env} {a b c : received_header}
    (h1 : from_writes renv a b) (h2 : from_writes renv b c) : from_writes renv a c :=
  ⟨h2.1.trans h1.1, h2.2.1.trans h1.2.1, fun h => h2.2.2 (h1.2.2 h)⟩

theorem from_writes_set_addr (renv : received_env) (rh : received_header) (a : Bytes) :
    from_writes renv rh (received_set_addr renv rh a) :=
  ⟨rfl, rfl, fun _ => Or.inr ⟨a, rfl, rfl, rfl⟩⟩

theorem from_writes_real_hostname (renv : received_env) (rh : received_header) (h : Bytes) :
    from_writes renv rh { rh with real_hostname := some h } := ⟨rfl, rfl, id⟩

theorem from_writes_from_hostname (renv : received_env) (rh : received_header) (h : Bytes) :
    from_writes renv rh { rh with from_hostname := some h } := ⟨rfl, rfl, id⟩

theorem host_tcpinfo_writes (renv : received_env) (rh : received_header) (data : Bytes) :
    from_writes renv rh (rspamd_smtp_received_process_host_tcpinfo renv rh data).1 := by
  unfold rspamd_smtp_received_process_host_tcpinfo
  simp only []
  repeat' split
  all_goals first
    | exact from_writes_refl renv rh
    | exact from_writes_set_addr renv rh _

/-- The attempt of `rspamd_smtp_received_process_from` to read the data of the part as an
address. -/
theorem from_direct_writes (renv : received_env) (rh1 : received_header) (data : Bytes) :
    from_writes renv rh1
      (if rh1.real_ip = none then
         if peek data 0 = 91 then
           match memchr data 93 with
           | some brace_pos =>
             match renv.parse_inet_address (slice data 1 brace_pos) with
             | some addr => (received_set_addr renv rh1 addr, true)
             | none => (rh1, false)
           | none => (rh1, false)
         else if g_ascii_isxdigit (peek data 0) then
           match renv.parse_inet_address data with
           | some addr => (received_set_addr renv rh1 addr, true)
           | none => (rh1, false)
         else (rh1, false)
       else ((rh1, false) : received_header × Bool)).1 := by
  repeat' split
  all_goals first
    | exact from_writes_refl renv rh1
    | exact from_writes_set_addr renv rh1 _

theorem from_tail_writes (renv : received_env) (data : Bytes) (r2 : received_header × Bool) :
    from_writes renv r2.1
      (if !r2.2 then
         if r2.1.real_ip ≠ none then
           match rspamd_smtp_received_process_rdns renv data with
           | some h => { r2.1 with from_hostname := some h }
           | none => r2.1
         else (rspamd_smtp_received_process_host_tcpinfo renv r2.1 data).1
       else r2.1) := by
  split_ifs
  · split
    · exact from_writes_from_hostname renv _ _
    · exact from_writes_refl renv _
  · exact host_tcpinfo_writes renv _ _
  · exact from_writes_refl renv _

theorem head_comment_writes (renv : received_env) (rpart : rspamd_received_part)
    (rh : received_header) :
    from_writes renv rh
      (if (rpart.comments.head?.getD []).length > 0 then
         (rspamd_smtp_received_process_host_tcpinfo renv rh (rpart.comments.head?.getD [])).1
       else rh) := by
  split_ifs
  · exact host_tcpinfo_writes renv rh _
  · exact from_writes_refl renv rh

theorem process_from_writes (renv : received_env) (rpart : rspamd_received_part)
    (rh : received_header) :
    from_writes renv rh (rspamd_smtp_received_process_from renv rpart rh) := by
  unfold rspamd_smtp_received_process_from
  show from_writes renv rh (if rpart.dlen > 0 then _ else _)
  by_cases c1 : rpart.dlen > 0
  · rw [if_pos c1]
    exact from_writes_trans (head_comment_writes renv rpart rh)
      (from_writes_trans (from_direct_writes renv _ (rpart.data.getD []))
        (from_tail_writes renv (rpart.data.getD []) _))
  · rw [if_neg c1]
    exact head_comment_writes renv rpart rh

/-- The `with` case writes the type and the flags only. -/
theorem received_with_shape (rh : received_header) (t : Bytes) :
    ∃ ty fl, received_with rh t = { rh with type := ty, flags := fl } := by
  by_cases h1 : t = ascii "smtp"
  · subst h1; exact ⟨_, _, rfl⟩
  by_cases h2 : t = ascii "esmtp"
  · subst h2; exact ⟨_, _, rfl⟩
  by_cases h3 : t = ascii "esmtpa"
  · subst h3; exact ⟨_, _, rfl⟩
  by_cases h4 : t = ascii "esmtps"
  · subst h4; exact ⟨_, _, rfl⟩
  by_cases h5 : t = ascii "esmtpsa"
  · subst h5; exact ⟨_, _, rfl⟩
  by_cases h6 : t = ascii "lmtp"
  · subst h6; exact ⟨_, _, rfl⟩
  by_cases h7 : t = ascii "imap"
  · subst h7; exact ⟨_, _, rfl⟩
  by_cases h8 : t = ascii "http"
  · subst h8; exact ⟨_, _, rfl⟩
  by_cases h9 : t = ascii "https"
  · subst h9; exact ⟨_, _, rfl⟩
  by_cases h10 : t = ascii "local"
  · subst h10; exact ⟨_, _, rfl⟩
  exact ⟨rh.type, rh.flags, received_with_other rh t h1 h2 h3 h4 h5 h6 h7 h8 h9 h10⟩

theorem received_with_addr (renv : received_env) (rh : received_header) (t : Bytes)
    (h : addr_consistent renv rh) : addr_consistent renv (received_with rh t) := by
  obtain ⟨ty, fl, e⟩ := received_with_shape rh t
  rw [e]
  exact h

/-- A part that is no `with` part leaves the type and the flags as they were. -/
theorem part_effect_type (renv : received_env) (rh : received_header)
    (cur : rspamd_received_part)
    (hc : cur.type ≠ rspamd_received_part_type.RSPAMD_RECEIVED_PART_WITH) :
    (received_part_effect renv rh cur).type = rh.type
      ∧ (received_part_effect renv rh cur).flags = rh.flags := by
  unfold received_part_effect
  cases hty : cur.type <;> simp only []
  · exact ⟨(process_from_writes renv cur rh).1, (process_from_writes renv cur rh).2.1⟩
  · split <;> exact ⟨rfl, rfl⟩
  · exact ⟨trivial, trivial⟩
  · exact absurd hty hc
  · exact ⟨trivial, trivial⟩

/-- Every part keeps the three address fields in agreement. -/
theorem part_effect_consistent (renv : received_env) (rh : received_header)
    (cur : rspamd_received_part) (h : addr_consistent renv rh) :
    addr_consistent renv (received_part_effect renv rh cur) := by
  unfold received_part_effect
  cases hty : cur.type <;> simp only []
  · exact (process_from_writes renv cur rh).2.2 h
  · split <;> exact h
  · exact h
  · exact received_with_addr renv rh _ h
  · exact h

theorem parts_consistent (renv : received_env) (parts : List rspamd_received_part)
    (rh : received_header) (h : addr_consistent renv rh) :
    addr_consistent renv (parts.foldl (received_part_effect renv) rh) := by
  induction parts generalizing rh with
  | nil => exact h
  | cons c rest ih => exact ih _ (part_effect_consistent renv rh c h)

theorem parts_no_with (renv : received_env) (parts : List rspamd_received_part)
    (rh : received_header)
    (h : ∀ c ∈ parts, c.type ≠ rspamd_received_part_type.RSPAMD_RECEIVED_PART_WITH) :
    (parts.foldl (received_part_effect renv) rh).type = rh.type
      ∧ (parts.foldl (received_part_effect renv) rh).flags = rh.flags := by
  induction parts generalizing rh with
  | nil => exact ⟨rfl, rfl⟩
  | cons c rest ih =>
    have h1 := part_effect_type renv rh c (h c (List.mem_cons_self _ _))
    have h2 := ih (received_part_effect renv rh c) (fun x hx => h x (List.mem_cons_of_mem _ hx))
    exact ⟨h2.1.trans h1.1, h2.2.trans h1.2⟩

/-- The parts of a value with one `with` part whose token is `t`: the type and the flags
after the loop are those of the transport table at `t`. -/
theorem parts_one_with (renv : received_env) (parts : List rspamd_received_part)
    (rh : received_header) (w : rspamd_received_part) (t : Bytes)
    (hone : parts.filter
      (fun c => decide (c.type = rspamd_received_part_type.RSPAMD_RECEIVED_PART_WITH)) = [w])
    (hw : w.data = some t) (hty : rh.type = RSPAMD_RECEIVED_UNKNOWN) (hfl : rh.flags = 0) :
    ((parts.foldl (received_part_effect renv) rh).type,
      (parts.foldl (received_part_effect renv) rh).flags) = transport_table t := by
  induction parts generalizing rh with
  | nil => simp at hone
  | cons c rest ih =>
    by_cases hc : c.type = rspamd_received_part_type.RSPAMD_RECEIVED_PART_WITH
    · rw [List.filter_cons_of_pos (by simpa using hc)] at hone
      simp only [List.cons.injEq] at hone
      obtain ⟨hcw, hrest⟩ := hone
      subst hcw
      have hno : ∀ x ∈ rest,
          x.type ≠ rspamd_received_part_type.RSPAMD_RECEIVED_PART_WITH := by
        intro x hx hxt
        have : x ∈ rest.filter
            (fun c => decide (c.type = rspamd_received_part_type.RSPAMD_RECEIVED_PART_WITH)) :=
          List.mem_filter.2 ⟨hx, by simpa using hxt⟩
        rw [hrest] at this
        simp at this
      have h1 := parts_no_with renv rest (received_part_effect renv rh c) hno
      have h2 : received_part_effect renv rh c = received_with rh t := by
        simp only [received_part_effect, hc, hw, Option.getD_some]
      rw [List.foldl_cons, h1.1, h1.2, h2]
      exact received_with_table rh t hty hfl
    · rw [List.filter_cons_of_neg (by simpa using hc)] at hone
      have h1 := part_effect_type renv rh c hc
      rw [List.foldl_cons]
      exact ih _ hone (h1.1.trans hty) (h1.2.trans hfl)

/-- Claim C21.  When the splitter returns the parts of a value and exactly one of them is
a `with` part, with the data token `t`, the parser started on a zeroed structure returns 0
and leaves the type and the flags that the transport table gives for the lower-cased
token; the token stored in the part is lower-cased already. -/
theorem C21_transport_table (renv : received_env) (data : Bytes)
    (parts : List rspamd_received_part) (dp : Option Nat) (w : rspamd_received_part)
    (t : Bytes)
    (hsp : rspamd_smtp_received_spill data = spill_outcome.head parts dp)
    (hone : parts.filter
      (fun c => decide (c.type = rspamd_received_part_type.RSPAMD_RECEIVED_PART_WITH)) = [w])
    (hw : w.data = some t) :
    ∃ r, rspamd_smtp_received_parse renv data {} = some (0, r)
      ∧ rspamd_str_lc t = t
      ∧ (r.type, r.flags) = transport_table (rspamd_str_lc t) := by
  have hwm : w ∈ parts := by
    have : w ∈ parts.filter
        (fun c => decide (c.type = rspamd_received_part_type.RSPAMD_RECEIVED_PART_WITH)) := by
      rw [hone]; exact List.mem_singleton.2 rfl
    exact (List.mem_filter.1 this).1
  have hlc : rspamd_str_lc t = t := str_lc_of_lower t (spill_lower data parts dp hsp w hwm t hw)
  have hfold := parts_one_with renv parts { type := RSPAMD_RECEIVED_UNKNOWN } w t hone hw rfl rfl
  unfold rspamd_smtp_received_parse
  rw [hsp]
  refine ⟨_, rfl, hlc, ?_⟩
  rw [hlc, ← hfold]
  simp only []
  split_ifs <;> split <;> first | rfl | (split_ifs <;> rfl)

/-- Claim C21, witness: the value `from a.example with ESMTPSA id x` has the one `with`
part `esmtpsa`; the type is ESMTPSA and both flags are set. -/
theorem C21_transport_table_witness :
    ∃ r, rspamd_smtp_received_parse sample_received_env (ascii "from a.example with ESMTPSA id x")
        {} = some (0, r)
      ∧ rspamd_str_lc (ascii "esmtpsa") = ascii "esmtpsa"
      ∧ (r.type, r.flags) = transport_table (rspamd_str_lc (ascii "esmtpsa")) :=
  C21_transport_table sample_received_env (ascii "from a.example with ESMTPSA id x")
    [{ type := rspamd_received_part_type.RSPAMD_RECEIVED_PART_FROM,
       data := some (ascii "a.example") },
     { type := rspamd_received_part_type.RSPAMD_RECEIVED_PART_WITH,
       data := some (ascii "esmtpsa") },
     { type := rspamd_received_part_type.RSPAMD_RECEIVED_PART_UNKNOWN }]
    none
    { type := rspamd_received_part_type.RSPAMD_RECEIVED_PART_WITH, data := some (ascii "esmtpsa") }
    (ascii "esmtpsa") (by decide) (by decide) rfl

/-- The copy of `real_hostname` into an unset `from_hostname` behind the loop of the
parser. -/
theorem finish_hostname (renv : received_env) (rh1 : received_header)
    (h1 : addr_consistent renv rh1) :
    addr_consistent renv
        (if rh1.real_hostname ≠ none ∧ rh1.from_hostname = none then
          { rh1 with from_hostname := rh1.real_hostname } else rh1)
      ∧ ((if rh1.real_hostname ≠ none ∧ rh1.from_hostname = none then
            { rh1 with from_hostname := rh1.real_hostname } else rh1).real_hostname ≠ none →
          (if rh1.real_hostname ≠ none ∧ rh1.from_hostname = none then
            { rh1 with from_hostname := rh1.real_hostname } else rh1).from_hostname ≠ none) := by
  by_cases c : rh1.real_hostname ≠ none ∧ rh1.from_hostname = none
  · rw [if_pos c]
    exact ⟨h1, fun _ => c.1⟩
  · rw [if_neg c]
    exact ⟨h1, fun hr hn => c ⟨hr, hn⟩⟩

/-- The date behind the loop of the parser is written to `timestamp` only. -/
theorem finish_date (renv : received_env) (data : Bytes) (dp : Option Nat)
    (rh3 : received_header)
    (hh : addr_consistent renv rh3 ∧ (rh3.real_hostname ≠ none → rh3.from_hostname ≠ none)) :
    addr_consistent renv
        (match dp with
          | some d =>
            if d > 0 ∧ d < data.length then
              { rh3 with timestamp := renv.parse_smtp_date (data.drop d) }
            else rh3
          | none => rh3)
      ∧ ((match dp with
          | some d =>
            if d > 0 ∧ d < data.length then
              { rh3 with timestamp := renv.parse_smtp_date (data.drop d) }
            else rh3
          | none => rh3).real_hostname ≠ none →
        (match dp with
          | some d =>
            if d > 0 ∧ d < data.length then
              { rh3 with timestamp := renv.parse_smtp_date (data.drop d) }
            else rh3
          | none => rh3).from_hostname ≠ none) := by
  cases dp with
  | none => exact hh
  | some d =>
    simp only []
    by_cases c : d > 0 ∧ d < data.length
    · rw [if_pos c]; exact hh
    · rw [if_neg c]; exact hh

/-- Claim C24.  When the parser, started on a zeroed structure, returns 0, the fields
`addr`, `real_ip` and `from_ip` are all unset, or `addr` holds an address and both `real_ip`
and `from_ip` hold its textual form; and a structure with `real_hostname` set has
`from_hostname` set. -/
theorem C24_address_fields_agree (renv : received_env) (data : Bytes) (r : received_header)
    (h : rspamd_smtp_received_parse renv data {} = some (0, r)) :
    ((r.addr = none ∧ r.real_ip = none ∧ r.from_ip = none)
      ∨ ∃ a, r.addr = some a ∧ r.real_ip = some (renv.inet_address_to_string a)
          ∧ r.from_ip = some (renv.inet_address_to_string a))
    ∧ (r.real_hostname ≠ none → r.from_hostname ≠ none) := by
  unfold rspamd_smtp_received_parse at h
  split at h
  · simp at h
  · simp at h
  · rename_i parts dp hsp
    have h1 : addr_consistent renv
        (parts.foldl (received_part_effect renv) { type := RSPAMD_RECEIVED_UNKNOWN }) :=
      parts_consistent renv parts _ (Or.inl ⟨rfl, rfl, rfl⟩)
    generalize parts.foldl (received_part_effect renv) { type := RSPAMD_RECEIVED_UNKNOWN }
      = rh1 at h h1
    have h2 : ∀ rh2, rh2 = (if rh1.real_ip ≠ none ∧ rh1.from_ip = none then
        { rh1 with from_ip := rh1.real_ip } else rh1) → rh2 = rh1 := by
      intro rh2 e
      rw [e, if_neg]
      rintro ⟨c1, c2⟩
      rcases h1 with ⟨_, c3, _⟩ | ⟨a, _, _, c3⟩
      · exact c1 c3
      · rw [c3] at c2; simp at c2
    simp only [h2 _ rfl, Option.some.injEq, Prod.mk.injEq, true_and] at h
    rw [← h]
    exact finish_date renv data dp _ (finish_hostname renv rh1 h1)

/-- Claim C24, witness: on the value `from mail.example.com (mail.example.com [192.0.2.1])
by relay.example.org with ESMTPS` the parser returns 0 with all three address fields and
both host names set. -/
theorem C24_address_fields_agree_witness :
    rspamd_smtp_received_parse sample_received_env
        (ascii "from mail.example.com (mail.example.com [192.0.2.1]) by relay.example.org with ESMTPS")
        {}
      = some (0, { type := RSPAMD_RECEIVED_ESMTPS, flags := RSPAMD_RECEIVED_FLAG_SSL,
                   real_ip := some (ascii "192.0.2.1"), from_ip := some (ascii "192.0.2.1"),
                   addr := some (ascii "192.0.2.1"),
                   real_hostname := some (ascii "mail.example.com"),
                   from_hostname := some (ascii "mail.example.com"),
                   by_hostname := some (ascii "relay.example.org") })
    ∧ (((some (ascii "192.0.2.1") : Option Bytes) = none
          ∧ (some (ascii "192.0.2.1") : Option Bytes) = none
          ∧ (some (ascii "192.0.2.1") : Option Bytes) = none)
      ∨ ∃ a, some (ascii "192.0.2.1") = some a
          ∧ some (ascii "192.0.2.1") = some (sample_received_env.inet_address_to_string a)
          ∧ some (ascii "192.0.2.1") = some (sample_received_env.inet_address_to_string a))
    ∧ ((some (ascii "mail.example.com") : Option Bytes) ≠ none
        → (some (ascii "mail.example.com") : Option Bytes) ≠ none) :=
  ⟨by decide,
    C24_address_fields_agree sample_received_env
      (ascii "from mail.example.com (mail.example.com [192.0.2.1]) by relay.example.org with ESMTPS")
      { type := RSPAMD_RECEIVED_ESMTPS, flags := RSPAMD_RECEIVED_FLAG_SSL,
        real_ip := some (ascii "192.0.2.1"), from_ip := some (ascii "192.0.2.1"),
        addr := some (ascii "192.0.2.1"),
        real_hostname := some (ascii "mail.example.com"),
        from_hostname := some (ascii "mail.example.com"),
        by_hostname := some (ascii "relay.example.org") } (by decide)⟩

/-! ## The raw byte ranges of the emitted headers -/

theorem name_at_mono {inp : Bytes} {h : rspamd_mime_header} {e e2 : Nat}
    (hn : name_at inp h e) (he : e ≤ e2) : name_at inp h e2 := by
  obtain ⟨ha, k, h1, h2, h3, h4⟩ := hn
  exact ⟨ha, k, h1, h2, h3, by omega⟩

theorem name_at_congr {inp : Bytes} {h h2 : rspamd_mime_header} {e : Nat}
    (hn : name_at inp h e) (e1 : h2.name = h.name) (e2 : h2.raw_value = h.raw_value) :
    name_at inp h2 e := by
  unfold name_at at hn ⊢
  rw [e1, e2]
  exact hn

theorem name_at_lt {inp : Bytes} {h : rspamd_mime_header} {e : Nat}
    (hn : name_at inp h e) : h.raw_value < e := by
  obtain ⟨_, k, _, _, _, h4⟩ := hn
  omega

theorem ends_le_mono {order : List rspamd_mime_header} {x y : Nat}
    (h : ends_le order x) (hxy : x ≤ y) : ends_le order y :=
  fun a ha => Nat.le_trans (h a ha) hxy

/-- The emission of a header whose raw range lies behind the ranges of the queue. -/
theorem emit_raw (env : Env) (inp : Bytes) (cn : Bool) (s : hdr_state)
    (nh : rspamd_mime_header) (hok : ∀ h ∈ s.order, raw_ok inp h) (hch : raw_chain s.order)
    (hends : ends_le s.order nh.raw_value) (hnew : raw_ok inp nh) :
    hdr_emit env cn s nh = { s with aborted := true }
    ∨ ((∀ h ∈ (hdr_emit env cn s nh).order, raw_ok inp h)
      ∧ raw_chain (hdr_emit env cn s nh).order
      ∧ (hdr_emit env cn s nh).state = 0
      ∧ (hdr_emit env cn s nh).p = s.p
      ∧ ends_le (hdr_emit env cn s nh).order (nh.raw_value + nh.raw_len)) := by
  rcases hdr_emit_effect env cn s nh with he | ⟨r, hr, he⟩
  · exact Or.inl he
  right
  have hord : (hdr_emit env cn s nh).order
      = s.order ++ [stored_header env s.task { nh with order := s.norder } cn] := by
    rw [he]; exact header_add_order _ _ _ _ _ _ r hr
  have hst0 : (hdr_emit env cn s nh).state = 0 := by rw [he]
  have hp0 : (hdr_emit env cn s nh).p = s.p := by rw [he]
  have hst := stored_header_eq env s.task { nh with order := s.norder } cn
  generalize stored_header env s.task { nh with order := s.norder } cn = sh at hord hst
  have hname : sh.name = nh.name := by rw [hst]
  have hrv : sh.raw_value = nh.raw_value := by rw [hst]
  have hrl : sh.raw_len = nh.raw_len := by rw [hst]
  have hsh : raw_ok inp sh := by
    unfold raw_ok
    rw [hrv, hrl]
    exact ⟨name_at_congr hnew.1 hname hrv, hnew.2⟩
  refine ⟨?_, ?_, hst0, hp0, ?_⟩
  · intro h hh
    rw [hord] at hh
    rcases List.mem_append.1 hh with h1 | h1
    · exact hok h h1
    · rw [List.mem_singleton.1 h1]; exact hsh
  · rw [hord]
    unfold raw_chain
    rw [List.pairwise_append]
    refine ⟨hch, List.pairwise_singleton _ _, ?_⟩
    intro a ha b hb
    rw [List.mem_singleton.1 hb, hrv]
    exact hends a ha
  · intro h hh
    rw [hord] at hh
    rcases List.mem_append.1 hh with h1 | h1
    · have := hends h h1
      omega
    · rw [List.mem_singleton.1 h1, hrv, hrl]

theorem raw_step_0 (inp : Bytes) (s : hdr_state)
    (hm : s.p + 1 = inp.length ∨ ends_le s.order s.p) :
    raw_mode inp (hdr_case_0 inp s) := by
  unfold hdr_case_0
  by_cases ha : g_ascii_isalpha (peek inp s.p) = true
  · simp only [ha, Bool.not_true, Bool.false_eq_true, ↓reduceIte]
    rcases hm with hm | hm
    · right; left
      exact ⟨hm, Or.inr (Or.inr ⟨rfl, ha⟩)⟩
    · right; right; right; right; left
      exact ⟨rfl, Nat.le_refl _, ha, fun j h1 h2 => by simp only [] at h1 h2; omega, hm⟩
  · simp only [ha, Bool.not_false, ↓reduceIte]
    rcases hm with hm | hm
    · right; left
      exact ⟨hm, Or.inr (Or.inl ⟨rfl, rfl⟩)⟩
    · right; right; right; left
      exact ⟨rfl, rfl, hm⟩

theorem raw_step_1_final (inp : Bytes) (s : hdr_state) (hp : s.p + 1 = inp.length)
    (ha : g_ascii_isalpha (peek inp s.p) = true) : raw_mode inp (hdr_case_1 inp s) := by
  have h1 : peek inp s.p ≠ 58 := by
    intro h; rw [h] at ha; simp [g_ascii_isalpha] at ha
  have h2 : g_ascii_isspace (peek inp s.p) = false := by
    simp only [g_ascii_isalpha, Bool.or_eq_true, Bool.and_eq_true, decide_eq_true_eq] at ha
    simp only [g_ascii_isspace, Bool.or_eq_false_iff, beq_eq_false_iff_ne, ne_eq,
      Bool.and_eq_false_imp, decide_eq_true_eq, decide_eq_false_iff_not]
    omega
  left
  simp only [hdr_case_1, h1, h2, ↓reduceIte, Bool.false_eq_true]
  omega

theorem raw_step_1 (inp : Bytes) (s : hdr_state) (hc : s.c ≤ s.p)
    (ha : g_ascii_isalpha (peek inp s.c) = true)
    (hb : ∀ j, s.c ≤ j → j < s.p → peek inp j ≠ 58 ∧ g_ascii_isspace (peek inp j) = false)
    (he : ends_le s.order s.c) (hs : s.state = 1) : raw_mode inp (hdr_case_1 inp s) := by
  unfold hdr_case_1
  simp only []
  by_cases h1 : peek inp s.p = 58
  · rw [if_pos h1]
    right; right; right; right; right
    refine ⟨Or.inl rfl, ⟨ha, s.p - s.c, ?_, ?_, ?_, ?_⟩, he⟩
    · simp only []
      rw [Nat.add_sub_cancel' hc]
    · simp only []
      rw [Nat.add_sub_cancel' hc]; exact h1
    · intro j hj
      exact hb (s.c + j) (by omega) (by omega)
    · simp only []
      omega
  · rw [if_neg h1]
    by_cases h2 : g_ascii_isspace (peek inp s.p) = true
    · rw [if_pos h2]
      right; right; right; left
      exact ⟨rfl, rfl, ends_le_mono he hc⟩
    · rw [if_neg h2]
      right; right; right; right; left
      refine ⟨hs, by simp only []; omega, ha, ?_, he⟩
      intro j hj1 hj2
      simp only [] at hj2
      by_cases hj : j = s.p
      · subst hj
        exact ⟨h1, by simpa using h2⟩
      · exact hb j hj1 (by omega)

theorem raw_step_2 (inp : Bytes) (cn : Bool) (s : hdr_state)
    (hn : name_at inp s.nh s.p) (he : ends_le s.order s.nh.raw_value) (hs : s.state = 2) :
    raw_mode inp (hdr_case_2 inp cn s) := by
  unfold hdr_case_2
  simp only []
  right; right; right; right; right
  split_ifs with h1 h2 h3 h4
  · exact ⟨Or.inl hs, name_at_congr (name_at_mono hn (Nat.le_succ _)) rfl rfl, he⟩
  · exact ⟨Or.inl hs, name_at_congr (name_at_mono hn (Nat.le_succ _)) rfl rfl, he⟩
  · exact ⟨Or.inr (Or.inr (Or.inr (Or.inr ⟨rfl, rfl, Or.inr rfl⟩))),
      name_at_congr hn rfl rfl, he⟩
  · exact ⟨Or.inr (Or.inr (Or.inr (Or.inr ⟨rfl, rfl, Or.inr rfl⟩))), hn, he⟩
  · exact ⟨Or.inr (Or.inl rfl), name_at_congr hn rfl rfl, he⟩

theorem raw_step_3 (inp : Bytes) (cn : Bool) (s : hdr_state)
    (hn : name_at inp s.nh s.p) (he : ends_le s.order s.nh.raw_value) (hs : s.state = 3) :
    raw_mode inp (hdr_case_3 inp cn s) := by
  unfold hdr_case_3
  simp only []
  right; right; right; right; right
  split_ifs with h1 h2
  · exact ⟨Or.inr (Or.inr (Or.inr (Or.inr ⟨rfl, rfl, Or.inl rfl⟩))), hn, he⟩
  · exact ⟨Or.inr (Or.inr (Or.inl rfl)), hn, he⟩
  · exact ⟨Or.inr (Or.inl hs), name_at_mono hn (Nat.le_succ _), he⟩

theorem raw_step_99 (inp : Bytes) (s : hdr_state)
    (hn : name_at inp s.nh s.p) (he : ends_le s.order s.nh.raw_value) (hs : s.state = 99)
    (hns : s.next_state = 3) (hes : s.err_state = 4 ∨ s.err_state = 5) :
    raw_mode inp (hdr_case_99 inp s) := by
  have herr : ∀ t : hdr_state, t.state = s.err_state →
      (t.state = 2 ∨ t.state = 3 ∨ t.state = 4 ∨ t.state = 5
        ∨ (t.state = 99 ∧ t.next_state = 3 ∧ (t.err_state = 4 ∨ t.err_state = 5))) := by
    intro t ht
    rcases hes with h | h
    · exact Or.inr (Or.inr (Or.inl (by rw [ht, h])))
    · exact Or.inr (Or.inr (Or.inr (Or.inl (by rw [ht, h]))))
  unfold hdr_case_99
  simp only []
  right; right; right; right; right
  split_ifs with h1 h2 h3 h4
  · exact ⟨herr _ rfl, hn, he⟩
  · exact ⟨Or.inr (Or.inr (Or.inr (Or.inr ⟨hs, hns, hes⟩))),
      name_at_mono hn (Nat.le_succ _), he⟩
  · exact ⟨Or.inr (Or.inr (Or.inr (Or.inr ⟨hs, hns, hes⟩))),
      name_at_mono hn (Nat.le_succ _), he⟩
  · exact ⟨Or.inr (Or.inl hns), hn, he⟩
  · exact ⟨herr _ rfl, hn, he⟩

theorem raw_step_100 (inp : Bytes) (s : hdr_state)
    (hns : s.next_state = 0) (hs : s.state = 100)
    (hm : s.p + 1 = inp.length ∨ ends_le s.order s.p) :
    raw_mode inp (hdr_case_100 inp s) := by
  rcases hm with hm | hm
  · left
    unfold hdr_case_100
    simp only []
    split_ifs <;> simp only [] <;> omega
  · unfold hdr_case_100
    simp only []
    split_ifs with h1 h2 h3 h4 h5
    · right; right; left
      exact ⟨hns, ends_le_mono hm (by simp only []; omega)⟩
    · right; right; left
      exact ⟨hns, ends_le_mono hm (by simp only []; omega)⟩
    · right; right; left
      exact ⟨hns, ends_le_mono hm (by simp only []; omega)⟩
    · right; right; left
      exact ⟨hns, ends_le_mono hm (by simp only []; omega)⟩
    · right; right; left
      exact ⟨hns, ends_le_mono hm (by simp only []; omega)⟩
    · right; right; right; left
      exact ⟨hs, hns, ends_le_mono hm (by simp only []; omega)⟩

theorem raw_step_4 (env : Env) (inp : Bytes) (cn : Bool) (s : hdr_state)
    (hp : s.p < inp.length) (hok : ∀ h ∈ s.order, raw_ok inp h) (hch : raw_chain s.order)
    (hn : name_at inp s.nh s.p) (he : ends_le s.order s.nh.raw_value) (hs : s.state = 4) :
    raw_inv inp (hdr_case_4 env inp cn s) := by
  have hlt := name_at_lt hn
  unfold hdr_case_4
  simp only []
  split
  · refine ⟨hok, hch, ?_⟩
    right; right; right; right; right
    exact ⟨Or.inr (Or.inr (Or.inl hs)), name_at_congr hn rfl rfl, he⟩
  · rename_i decoded broken_utf hd
    by_cases hl : s.p + 1 = inp.length
    · rcases emit_raw env inp cn
        { s with c := s.c + (s.p - s.c),
                 task := if broken_utf then
                     { s.task with flags := s.task.flags ||| RSPAMD_TASK_FLAG_BAD_UNICODE }
                   else s.task }
        { s.nh with raw_len := if s.p + 1 = inp.length then inp.length - s.nh.raw_value
                               else s.p - s.nh.raw_value,
                    value := header_value (slice inp s.c s.p),
                    decoded := rspamd_mime_charset_utf_enforce decoded }
        hok hch he
        ⟨name_at_congr (name_at_mono hn (by simp only [if_pos hl]; omega)) rfl rfl,
          by simp only [if_pos hl]; omega⟩ with hab | ⟨h1, h2, h3, h4, _⟩
      · rw [hab]
        refine ⟨hok, hch, ?_⟩
        right; right; right; right; right
        exact ⟨Or.inr (Or.inr (Or.inl hs)), hn, he⟩
      · refine ⟨h1, h2, ?_⟩
        right; left
        exact ⟨by rw [h4]; exact hl, Or.inl h3⟩
    · rcases emit_raw env inp cn
        { s with c := s.c + (s.p - s.c),
                 task := if broken_utf then
                     { s.task with flags := s.task.flags ||| RSPAMD_TASK_FLAG_BAD_UNICODE }
                   else s.task }
        { s.nh with raw_len := if s.p + 1 = inp.length then inp.length - s.nh.raw_value
                               else s.p - s.nh.raw_value,
                    value := header_value (slice inp s.c s.p),
                    decoded := rspamd_mime_charset_utf_enforce decoded }
        hok hch he
        ⟨name_at_congr (name_at_mono hn (by simp only [if_neg hl]; omega)) rfl rfl,
          by simp only [if_neg hl]; omega⟩ with hab | ⟨h1, h2, h3, h4, h5⟩
      · rw [hab]
        refine ⟨hok, hch, ?_⟩
        right; right; right; right; right
        exact ⟨Or.inr (Or.inr (Or.inl hs)), hn, he⟩
      · refine ⟨h1, h2, ?_⟩
        right; right; left
        refine ⟨h3, ?_⟩
        rw [h4]
        exact ends_le_mono h5 (by simp only [if_neg hl]; omega)

theorem raw_step_5 (env : Env) (inp : Bytes) (cn : Bool) (s : hdr_state)
    (hp : s.p < inp.length) (hok : ∀ h ∈ s.order, raw_ok inp h) (hch : raw_chain s.order)
    (hn : name_at inp s.nh s.p) (he : ends_le s.order s.nh.raw_value) (hs : s.state = 5) :
    raw_inv inp (hdr_case_5 env cn s) := by
  have hlt := name_at_lt hn
  unfold hdr_case_5
  rcases emit_raw env inp cn s
    { s.nh with value := [], decoded := [], raw_len := s.p - s.nh.raw_value }
    hok hch he
    ⟨name_at_congr (name_at_mono hn (by simp only []; omega)) rfl rfl, by simp only []; omega⟩
    with hab | ⟨h1, h2, h3, h4, h5⟩
  · rw [hab]
    refine ⟨hok, hch, ?_⟩
    right; right; right; right; right
    exact ⟨Or.inr (Or.inr (Or.inr (Or.inl hs))), hn, he⟩
  · refine ⟨h1, h2, ?_⟩
    right; right; left
    refine ⟨h3, ?_⟩
    rw [h4]
    exact ends_le_mono h5 (by simp only []; omega)

/-- Every pass of the loop keeps the invariant on the raw ranges. -/
theorem raw_inv_step (env : Env) (inp : Bytes) (cn : Bool) (s : hdr_state)
    (h : raw_inv inp s) (hp : s.p < inp.length) : raw_inv inp (hdr_step env inp cn s) := by
  obtain ⟨hok, hch, hm⟩ := h
  have keep : ∀ t : hdr_state, t.order = s.order → raw_mode inp t → raw_inv inp t := by
    intro t ht hmt
    exact ⟨by rw [ht]; exact hok, by rw [ht]; exact hch, hmt⟩
  rcases hm with hm | ⟨hl, hm⟩ | ⟨hs, he⟩ | ⟨hs, hns, he⟩ | ⟨hs, hc, ha, hb, he⟩ | ⟨hs, hn, he⟩
  · omega
  · rcases hm with hs | ⟨hs, hns⟩ | ⟨hs, ha⟩
    · rw [hdr_step_0 _ _ _ _ hs]
      exact keep _ (by unfold hdr_case_0; split_ifs <;> rfl) (raw_step_0 inp s (Or.inl hl))
    · rw [hdr_step_100 _ _ _ _ hs]
      exact keep _ (by unfold hdr_case_100; simp only []; split_ifs <;> rfl)
        (raw_step_100 inp s hns hs (Or.inl hl))
    · rw [hdr_step_1 _ _ _ _ hs]
      exact keep _ (by unfold hdr_case_1; simp only []; split_ifs <;> rfl)
        (raw_step_1_final inp s hl ha)
  · rw [hdr_step_0 _ _ _ _ hs]
    exact keep _ (by unfold hdr_case_0; split_ifs <;> rfl) (raw_step_0 inp s (Or.inr he))
  · rw [hdr_step_100 _ _ _ _ hs]
    exact keep _ (by unfold hdr_case_100; simp only []; split_ifs <;> rfl)
      (raw_step_100 inp s hns hs (Or.inr he))
  · rw [hdr_step_1 _ _ _ _ hs]
    exact keep _ (by unfold hdr_case_1; simp only []; split_ifs <;> rfl)
      (raw_step_1 inp s hc ha hb he hs)
  · rcases hs with hs | hs | hs | hs | ⟨hs, hns, hes⟩
    · rw [hdr_step_2 _ _ _ _ hs]
      exact keep _ (by unfold hdr_case_2; simp only []; split_ifs <;> rfl)
        (raw_step_2 inp cn s hn he hs)
    · rw [hdr_step_3 _ _ _ _ hs]
      exact keep _ (by unfold hdr_case_3; simp only []; split_ifs <;> rfl)
        (raw_step_3 inp cn s hn he hs)
    · rw [hdr_step_4 _ _ _ _ hs]
      exact raw_step_4 env inp cn s hp hok hch hn he hs
    · rw [hdr_step_5 _ _ _ _ hs]
      exact raw_step_5 env inp cn s hp hok hch hn he hs
    · rw [hdr_step_99 _ _ _ _ hs]
      exact keep _ (by unfold hdr_case_99; simp only []; split_ifs <;> rfl)
        (raw_step_99 inp s hn he hs hns hes)

theorem raw_inv_loop (env : Env) (inp : Bytes) (cn : Bool) (n : Nat) (s : hdr_state)
    (h : raw_inv inp s) : raw_inv inp (hdr_loop env inp cn n s) := by
  induction n generalizing s with
  | zero => exact h
  | succ n ih =>
    unfold hdr_loop
    split_ifs with hg
    · exact ih _ (raw_inv_step env inp cn s h hg.1)
    · exact h

/-- The invariant on the raw ranges holds for the queue that the function returns when it
was started on an empty queue. -/
theorem process_raw (env : Env) (task : rspamd_task) (target : HeaderTable) (inp : Bytes)
    (cn : Bool) :
    (∀ h ∈ (rspamd_mime_headers_process env task target [] inp cn).order, raw_ok inp h)
      ∧ raw_chain (rspamd_mime_headers_process env task target [] inp cn).order := by
  have h := raw_inv_loop env inp cn (hdr_fuel inp) (hdr_init task target [])
    ⟨by intro h hh; simp [hdr_init] at hh, by simp [raw_chain, hdr_init],
      Or.inr (Or.inr (Or.inl ⟨rfl, by intro h hh; simp [hdr_init] at hh⟩))⟩
  rw [(process_order env task target [] inp cn).1]
  exact ⟨h.1, h.2.1⟩

theorem slice_mem (inp : Bytes) (c k b : Nat) (hb : b ∈ slice inp c (c + k)) :
    ∃ j, j < k ∧ b = peek inp (c + j) := by
  unfold slice at hb
  rw [Nat.add_sub_cancel_left] at hb
  obtain ⟨i, hi, e⟩ := List.getElem_of_mem hb
  simp only [List.length_take, List.length_drop] at hi
  refine ⟨i, by omega, ?_⟩
  rw [← e]
  simp only [List.getElem_take, List.getElem_drop, peek]
  rw [List.getD_eq_getElem _ _ (by omega)]

theorem slice_head (inp : Bytes) (c k : Nat) (hc : c < inp.length) (hk : 0 < k) :
    ∃ r, slice inp c (c + k) = peek inp c :: r := by
  unfold slice
  rw [Nat.add_sub_cancel_left]
  obtain ⟨k2, rfl⟩ : ∃ k2, k = k2 + 1 := ⟨k - 1, by omega⟩
  rw [List.drop_eq_getElem_cons hc, List.take_succ_cons]
  exact ⟨List.take k2 (List.drop (c + 1) inp), by rw [peek, List.getD_eq_getElem _ _ hc]⟩

/-- What the place of a name in the buffer says about the name: it starts with the
letter found at `raw_value` and holds no colon, no white space and no NUL byte. -/
theorem name_at_bytes {inp : Bytes} {h : rspamd_mime_header} {e : Nat}
    (hn : name_at inp h e) :
    (∃ r, h.name = peek inp h.raw_value :: r)
      ∧ ∀ b ∈ h.name, b ≠ 58 ∧ g_ascii_isspace b = false ∧ b ≠ 0 := by
  obtain ⟨ha, k, h1, h2, h3, _⟩ := hn
  have hne : peek inp h.raw_value ≠ 0 := by
    intro hz; rw [hz] at ha; simp [g_ascii_isalpha] at ha
  have hlt : h.raw_value < inp.length := by
    by_contra hc
    exact hne (peek_out inp _ (by omega))
  have hk : 0 < k := by
    rcases Nat.eq_zero_or_pos k with hk | hk
    · subst hk
      rw [Nat.add_zero] at h2
      rw [h2] at ha
      simp [g_ascii_isalpha] at ha
    · exact hk
  constructor
  · obtain ⟨r, hr⟩ := slice_head inp h.raw_value k hlt hk
    refine ⟨rspamd_null_safe_copy r, ?_⟩
    rw [h1, hr]
    simp [rspamd_null_safe_copy, hne]
  · intro b hb
    rw [h1] at hb
    simp only [rspamd_null_safe_copy, List.mem_filter, bne_iff_ne, ne_eq] at hb
    obtain ⟨j, hj, e⟩ := slice_mem inp _ _ b hb.1
    rw [e]
    exact ⟨(h3 j hj).1, (h3 j hj).2, by rw [← e]; exact hb.2⟩

/-- Claim C25.  For every input, the raw ranges of the headers that the function emits
into an empty queue lie inside the input buffer; a range ends at or before the start of
every range behind it in the queue, and its start lies strictly before theirs; and each
range starts at the first byte of the name: the byte there is a letter, the name is the
copy of the bytes up to the first colon, and that colon lies inside the range. -/
theorem C25_raw_ranges (env : Env) (task : rspamd_task) (target : HeaderTable) (inp : Bytes)
    (cn : Bool) :
    (∀ h ∈ (rspamd_mime_headers_process env task target [] inp cn).order,
        h.raw_value + h.raw_len ≤ inp.length)
    ∧ (rspamd_mime_headers_process env task target [] inp cn).order.Pairwise
        (fun a b => a.raw_value + a.raw_len ≤ b.raw_value ∧ a.raw_value < b.raw_value)
    ∧ (∀ h ∈ (rspamd_mime_headers_process env task target [] inp cn).order,
        g_ascii_isalpha (peek inp h.raw_value) = true
        ∧ ∃ k, 0 < k ∧ k < h.raw_len
            ∧ h.name = rspamd_null_safe_copy (slice inp h.raw_value (h.raw_value + k))
            ∧ peek inp (h.raw_value + k) = 58
            ∧ ∀ j, j < k → peek inp (h.raw_value + j) ≠ 58) := by
  obtain ⟨hok, hch⟩ := process_raw env task target inp cn
  refine ⟨fun h hh => (hok h hh).2, ?_, ?_⟩
  · unfold raw_chain at hch
    refine List.Pairwise.imp_of_mem ?_ hch
    intro a b ha _ hab
    have := name_at_lt (hok a ha).1
    exact ⟨hab, by omega⟩
  · intro h hh
    obtain ⟨ha, k, h1, h2, h3, h4⟩ := (hok h hh).1
    refine ⟨ha, k, ?_, by omega, h1, h2, fun j hj => (h3 j hj).1⟩
    rcases Nat.eq_zero_or_pos k with hk | hk
    · subst hk
      rw [Nat.add_zero] at h2
      rw [h2] at ha
      simp [g_ascii_isalpha] at ha
    · exact hk

/-- Claim C27, counterexample.  In the line `A`, byte 0x01, `: v` the name is read up to
the colon, so the name of the emitted header holds the control byte 0x01; in the same way
the byte 0xFF and the vertical tab (byte 0x0B, no white space for `g_ascii_isspace`) are
kept in a name.  None of these bytes is graphic ASCII. -/
theorem C27_counterexample :
    (rspamd_mime_headers_process plain_env {} [] [] [65, 1, 58, 32, 118, 10] true).order.map
        (fun h => h.name) = [[65, 1]]
    ∧ g_ascii_isgraph 1 = false
    ∧ (rspamd_mime_headers_process plain_env {} [] [] [65, 255, 58, 32, 118, 10] true).order.map
        (fun h => h.name) = [[65, 255]]
    ∧ g_ascii_isgraph 255 = false
    ∧ (rspamd_mime_headers_process plain_env {} [] [] [65, 11, 66, 58, 32, 118, 10] true).order.map
        (fun h => h.name) = [[65, 11, 66]]
    ∧ (rspamd_mime_headers_process plain_env {} [] [] [65, 11, 66, 58, 32, 118, 10] true).task.flags
        = 0
    ∧ g_ascii_isgraph 11 = false := by
  refine ⟨by decide, by decide, by decide, by decide, by decide, by decide, by decide⟩

/-- Claim C27, amended.  For every input, the name of every header that the function
emits into an empty queue is not empty, starts with an ASCII letter and holds no colon, no
NUL byte and no byte that `g_ascii_isspace` takes for white space (space, TAB, LF, FF,
CR). -/
theorem C27_name_bytes (env : Env) (task : rspamd_task) (target : HeaderTable) (inp : Bytes)
    (cn : Bool) :
    ∀ h ∈ (rspamd_mime_headers_process env task target [] inp cn).order,
      h.name ≠ []
      ∧ (∃ a r, h.name = a :: r ∧ g_ascii_isalpha a = true)
      ∧ ∀ b ∈ h.name, b ≠ 58 ∧ g_ascii_isspace b = false ∧ b ≠ 0 := by
  intro h hh
  obtain ⟨hok, _⟩ := process_raw env task target inp cn
  obtain ⟨⟨r, hr⟩, hb⟩ := name_at_bytes (hok h hh).1
  exact ⟨by rw [hr]; exact List.cons_ne_nil _ _, ⟨_, r, hr, (hok h hh).1.1⟩, hb⟩

/-- Claim C27, witness: the header emitted for the line `A`, byte 0x01, `: v` has the name
`A`, byte 0x01; the name is not empty, starts with the letter `A` and holds no colon, no
white space and no NUL byte. -/
theorem C27_name_bytes_witness :
    ({ name := [65, 1], value := [118], raw_value := 0, raw_len := 6, separator := some [32],
       decoded := [118] } : rspamd_mime_header)
        ∈ (rspamd_mime_headers_process plain_env {} [] [] [65, 1, 58, 32, 118, 10] true).order
    ∧ (([65, 1] : Bytes) ≠ []
      ∧ (∃ a r, ([65, 1] : Bytes) = a :: r ∧ g_ascii_isalpha a = true)
      ∧ ∀ b ∈ ([65, 1] : Bytes), b ≠ 58 ∧ g_ascii_isspace b = false ∧ b ≠ 0) :=
  ⟨by decide,
    C27_name_bytes plain_env {} [] [65, 1, 58, 32, 118, 10] true
      { name := [65, 1], value := [118], raw_value := 0, raw_len := 6, separator := some [32],
        decoded := [118] } (by decide)⟩

/-! ## Where the raw range of a header ends -/

theorem raw_end_ok_congr {inp : Bytes} {h h2 : rspamd_mime_header}
    (hn : raw_end_ok inp h) (e1 : h2.raw_value = h.raw_value) (e2 : h2.raw_len = h.raw_len)
    (e3 : h2.value = h.value) : raw_end_ok inp h2 := by
  unfold raw_end_ok at hn ⊢
  rw [e1, e2, e3]
  exact hn

/-- The emission of a header whose raw range ends as the ranges of the queue do. -/
theorem emit_end (env : Env) (inp : Bytes) (cn : Bool) (s : hdr_state)
    (nh : rspamd_mime_header) (hends : ∀ h ∈ s.order, raw_end_ok inp h)
    (hnew : raw_end_ok inp nh) :
    ∀ h ∈ (hdr_emit env cn s nh).order, raw_end_ok inp h := by
  rcases hdr_emit_effect env cn s nh with he | ⟨r, hr, he⟩
  · rw [he]; exact hends
  · rw [he]
    have hord : r.2.2 = s.order ++ [stored_header env s.task { nh with order := s.norder } cn] :=
      header_add_order _ _ _ _ _ _ r hr
    have hst := stored_header_eq env s.task { nh with order := s.norder } cn
    generalize stored_header env s.task { nh with order := s.norder } cn = sh at hord hst
    intro h hh
    change h ∈ r.2.2 at hh
    rw [hord] at hh
    rcases List.mem_append.1 hh with h1 | h1
    · exact hends h h1
    · rw [List.mem_singleton.1 h1]
      exact raw_end_ok_congr hnew (by rw [hst]) (by rw [hst]) (by rw [hst])

/-- What the invariant on the raw ranges says about the state of the tokenizer. -/
theorem raw_mode_state {inp : Bytes} {s : hdr_state} (hm : raw_mode inp s)
    (hp : s.p < inp.length) :
    s.state = 0 ∨ (s.state = 100 ∧ s.next_state = 0) ∨ s.state = 1 ∨ s.state = 2 ∨ s.state = 3
      ∨ (s.state = 4 ∧ s.nh.raw_value < s.p) ∨ (s.state = 5 ∧ s.nh.raw_value < s.p)
      ∨ (s.state = 99 ∧ s.next_state = 3 ∧ (s.err_state = 4 ∨ s.err_state = 5)) := by
  rcases hm with hm | ⟨_, hm⟩ | ⟨hs, _⟩ | ⟨hs, hns, _⟩ | ⟨hs, _⟩ | ⟨hs, hn, _⟩
  · omega
  · rcases hm with hs | ⟨hs, hns⟩ | ⟨hs, _⟩
    · exact Or.inl hs
    · exact Or.inr (Or.inl ⟨hs, hns⟩)
    · exact Or.inr (Or.inr (Or.inl hs))
  · exact Or.inl hs
  · exact Or.inr (Or.inl ⟨hs, hns⟩)
  · exact Or.inr (Or.inr (Or.inl hs))
  · have hlt := name_at_lt hn
    rcases hs with hs | hs | hs | hs | hs
    · exact Or.inr (Or.inr (Or.inr (Or.inl hs)))
    · exact Or.inr (Or.inr (Or.inr (Or.inr (Or.inl hs))))
    · exact Or.inr (Or.inr (Or.inr (Or.inr (Or.inr (Or.inl ⟨hs, hlt⟩)))))
    · exact Or.inr (Or.inr (Or.inr (Or.inr (Or.inr (Or.inr (Or.inl ⟨hs, hlt⟩))))))
    · exact Or.inr (Or.inr (Or.inr (Or.inr (Or.inr (Or.inr (Or.inr hs))))))

theorem end_step_4 (env : Env) (inp : Bytes) (cn : Bool) (s : hdr_state)
    (hp : s.p < inp.length) (hends : ∀ h ∈ s.order, raw_end_ok inp h)
    (hl : line_end_at inp s.p) (hlt : s.nh.raw_value < s.p) (hs : s.state = 4) :
    (∀ h ∈ (hdr_case_4 env inp cn s).order, raw_end_ok inp h)
      ∧ (((hdr_case_4 env inp cn s).state = 4 ∨ (hdr_case_4 env inp cn s).state = 5) →
          line_end_at inp (hdr_case_4 env inp cn s).p)
      ∧ ((hdr_case_4 env inp cn s).state = 99 → fold_at inp (hdr_case_4 env inp cn s)) := by
  obtain ⟨hpp, hst⟩ := hdr_case_4_state env inp cn s
  refine ⟨?_, fun _ => by rw [hpp]; exact hl, ?_⟩
  · unfold hdr_case_4
    simp only []
    split
    · exact hends
    · refine emit_end env inp cn _ _ ?_ ?_
      · exact hends
      unfold raw_end_ok
      simp only []
      by_cases he : s.p + 1 = inp.length
      · left
        rw [if_pos he]
        omega
      · right; right
        rw [if_neg he]
        rcases hl with hl | ⟨_, h1, h2⟩
        · exact absurd hl he
        · rw [Nat.add_sub_cancel' (Nat.le_of_lt hlt)]
          exact ⟨hp, h1, h2⟩
  · intro h99
    rcases hst with ⟨h0, _⟩ | ⟨h4, _⟩
    · rw [h0] at h99; cases h99
    · rw [h4, hs] at h99; cases h99

theorem end_step_5 (env : Env) (inp : Bytes) (cn : Bool) (s : hdr_state)
    (hp : s.p < inp.length) (hends : ∀ h ∈ s.order, raw_end_ok inp h)
    (hl : line_end_at inp s.p) (hlt : s.nh.raw_value < s.p) (hs : s.state = 5) :
    (∀ h ∈ (hdr_case_5 env cn s).order, raw_end_ok inp h)
      ∧ (((hdr_case_5 env cn s).state = 4 ∨ (hdr_case_5 env cn s).state = 5) →
          line_end_at inp (hdr_case_5 env cn s).p)
      ∧ ((hdr_case_5 env cn s).state = 99 → fold_at inp (hdr_case_5 env cn s)) := by
  obtain ⟨hpp, hst⟩ := hdr_case_5_state env cn s
  refine ⟨?_, fun _ => by rw [hpp]; exact hl, ?_⟩
  · unfold hdr_case_5
    refine emit_end env inp cn _ _ hends ?_
    unfold raw_end_ok
    simp only []
    rw [Nat.add_sub_cancel' (Nat.le_of_lt hlt)]
    rcases hl with hl | ⟨_, h1, h2⟩
    · exact Or.inr (Or.inl ⟨hl, trivial⟩)
    · exact Or.inr (Or.inr ⟨hp, h1, h2⟩)
  · intro h99
    rcases hst with ⟨h0, _⟩ | ⟨h4, _⟩
    · rw [h0] at h99; cases h99
    · rw [h4, hs] at h99; cases h99

/-- Every pass of the loop keeps the invariant on the ends of the raw ranges. -/
theorem end_inv_step (env : Env) (inp : Bytes) (cn : Bool) (s : hdr_state)
    (h : end_inv inp s) (hp : s.p < inp.length) : end_inv inp (hdr_step env inp cn s) := by
  obtain ⟨hraw, hends, h45, h99⟩ := h
  refine ⟨raw_inv_step env inp cn s hraw hp, ?_⟩
  rcases raw_mode_state hraw.2.2 hp with hs | ⟨hs, hns⟩ | hs | hs | hs | ⟨hs, hlt⟩ | ⟨hs, hlt⟩
    | ⟨hs, hns, hes⟩
  · rw [hdr_step_0 _ _ _ _ hs]
    unfold hdr_case_0
    split_ifs <;> refine ⟨hends, ?_, ?_⟩ <;> intro hc <;> simp at hc
  · rw [hdr_step_100 _ _ _ _ hs]
    unfold hdr_case_100
    simp only []
    split_ifs <;> refine ⟨hends, ?_, ?_⟩ <;> intro hc <;> simp [hs, hns] at hc
  · rw [hdr_step_1 _ _ _ _ hs]
    unfold hdr_case_1
    simp only []
    split_ifs <;> refine ⟨hends, ?_, ?_⟩ <;> intro hc <;> simp [hs] at hc
  · rw [hdr_step_2 _ _ _ _ hs]
    unfold hdr_case_2
    simp only []
    split_ifs with h1 h2 h3 h4
    · refine ⟨hends, ?_, ?_⟩ <;> intro hc <;> simp [hs] at hc
    · refine ⟨hends, ?_, ?_⟩ <;> intro hc <;> simp [hs] at hc
    · refine ⟨hends, fun hc => by simp at hc, fun _ => Or.inl ?_⟩
      rcases h3 with h3 | h3
      · exact Or.inr h3
      · exact Or.inl h3
    · refine ⟨hends, fun hc => by simp at hc, fun _ => Or.inl ?_⟩
      rcases h3 with h3 | h3
      · exact Or.inr h3
      · exact Or.inl h3
    · refine ⟨hends, ?_, ?_⟩ <;> intro hc <;> simp at hc
  · rw [hdr_step_3 _ _ _ _ hs]
    unfold hdr_case_3
    simp only []
    split_ifs with h1 h2
    · exact ⟨hends, fun hc => by simp at hc, fun _ => Or.inl h1⟩
    · exact ⟨hends, fun _ => Or.inl h2, fun hc => by simp at hc⟩
    · refine ⟨hends, ?_, ?_⟩ <;> intro hc <;> simp [hs] at hc
  · rw [hdr_step_4 _ _ _ _ hs]
    exact end_step_4 env inp cn s hp hends (h45 (Or.inl hs)) hlt hs
  · rw [hdr_step_5 _ _ _ _ hs]
    exact end_step_5 env inp cn s hp hends (h45 (Or.inr hs)) hlt hs
  · rw [hdr_step_99 _ _ _ _ hs]
    have hf := h99 hs
    unfold hdr_case_99
    simp only []
    split_ifs with h1 h2 h3 h4
    · refine ⟨hends, fun _ => Or.inl h1, ?_⟩
      intro hc
      simp only [] at hc
      omega
    · refine ⟨hends, fun hc => by simp [hs] at hc, fun _ => Or.inr fun _ => ?_⟩
      exact ⟨Nat.succ_pos _, by simpa using h2⟩
    · refine ⟨hends, fun hc => by simp [hs] at hc, fun _ => Or.inr fun hc => ?_⟩
      simp at hc
    · refine ⟨hends, ?_, ?_⟩ <;> intro hc <;> simp [hns] at hc
    · refine ⟨hends, fun _ => Or.inr ?_, ?_⟩
      · rcases hf with hf | hf
        · exact absurd hf h2
        · obtain ⟨hp0, hb⟩ := hf (by simpa using h4)
          refine ⟨hp0, hb, ?_⟩
          simp only []
          omega
      · intro hc
        simp only [] at hc
        omega

theorem end_inv_loop (env : Env) (inp : Bytes) (cn : Bool) (n : Nat) (s : hdr_state)
    (h : end_inv inp s) : end_inv inp (hdr_loop env inp cn n s) := by
  induction n generalizing s with
  | zero => exact h
  | succ n ih =>
    unfold hdr_loop
    split_ifs with hg
    · exact ih _ (end_inv_step env inp cn s h hg.1)
    · exact h

/-- The invariant on the ends of the raw ranges holds for the queue that the function
returns when it was started on an empty queue. -/
theorem process_raw_end (env : Env) (task : rspamd_task) (target : HeaderTable) (inp : Bytes)
    (cn : Bool) :
    ∀ h ∈ (rspamd_mime_headers_process env task target [] inp cn).order, raw_end_ok inp h := by
  have h := end_inv_loop env inp cn (hdr_fuel inp) (hdr_init task target [])
    ⟨⟨by intro h hh; simp [hdr_init] at hh, by simp [raw_chain, hdr_init],
        Or.inr (Or.inr (Or.inl ⟨rfl, by intro h hh; simp [hdr_init] at hh⟩))⟩,
      by intro h hh; simp [hdr_init] at hh,
      by intro hc; simp [hdr_init] at hc,
      by intro hc; simp [hdr_init] at hc⟩
  rw [(process_order env task target [] inp cn).1]
  exact h.2.1

/-- Claim C26, counterexample.  For the input `A: b`, LF, `C: d`, LF the raw range of the
first header has the length 5, not 4: it is `A: b` with the line break, and the raw range
of the second header starts right behind it. -/
theorem C26_counterexample :
    (rspamd_mime_headers_process plain_env {} [] [] (ascii "A: b\nC: d\n") true).order.map
        (fun h => (h.name, h.raw_value, h.raw_len))
      = [(ascii "A", 0, 5), (ascii "C", 5, 5)]
    ∧ slice (ascii "A: b\nC: d\n") 0 (0 + 5) = ascii "A: b\n" := by
  decide

/-- Claim C26, amended.  For every input, the raw range of every header that the function
emits into an empty queue starts at the first byte of the name and holds the colon, and it
ends at one of three places: at the end of the input; one byte before the end of the
input, for a header without a value; or behind a line break, at the first byte of the
next line, a byte that is neither CR, LF, tab nor space.  In the last case the byte before
the end of the range is CR or LF: the range holds the line break that ends the header. -/
theorem C26_raw_range_end (env : Env) (task : rspamd_task) (target : HeaderTable)
    (inp : Bytes) (cn : Bool) :
    ∀ h ∈ (rspamd_mime_headers_process env task target [] inp cn).order,
      (g_ascii_isalpha (peek inp h.raw_value) = true
        ∧ ∃ k, k < h.raw_len
            ∧ h.name = rspamd_null_safe_copy (slice inp h.raw_value (h.raw_value + k))
            ∧ peek inp (h.raw_value + k) = 58)
      ∧ (h.raw_value + h.raw_len = inp.length
        ∨ (h.raw_value + h.raw_len + 1 = inp.length ∧ h.value = [])
        ∨ (h.raw_value + h.raw_len < inp.length
            ∧ (peek inp (h.raw_value + h.raw_len - 1) = 13
                ∨ peek inp (h.raw_value + h.raw_len - 1) = 10)
            ∧ peek inp (h.raw_value + h.raw_len) ≠ 13
            ∧ peek inp (h.raw_value + h.raw_len) ≠ 10
            ∧ peek inp (h.raw_value + h.raw_len) ≠ 9
            ∧ peek inp (h.raw_value + h.raw_len) ≠ 32)) := by
  intro h hh
  obtain ⟨ha, k, h1, h2, _, h4⟩ := ((process_raw env task target inp cn).1 h hh).1
  exact ⟨⟨ha, k, by omega, h1, h2⟩, process_raw_end env task target inp cn h hh⟩

/-- Claim C26, witness: in `A: b`, LF, `C: d`, LF the raw range of the header `A` is
`A: b` with the line break; it ends at the `C` of the next line, behind the LF. -/
theorem C26_raw_range_end_witness :
    ({ name := ascii "A", value := ascii "b", raw_value := 0, raw_len := 5,
       separator := some [32], decoded := ascii "b" } : rspamd_mime_header)
        ∈ (rspamd_mime_headers_process plain_env {} [] [] (ascii "A: b\nC: d\n") true).order
    ∧ slice (ascii "A: b\nC: d\n") 0 (0 + 5) = ascii "A: b\n"
    ∧ ((g_ascii_isalpha (peek (ascii "A: b\nC: d\n") 0) = true
        ∧ ∃ k, k < 5
            ∧ ascii "A" = rspamd_null_safe_copy (slice (ascii "A: b\nC: d\n") 0 (0 + k))
            ∧ peek (ascii "A: b\nC: d\n") (0 + k) = 58)
      ∧ (0 + 5 = (ascii "A: b\nC: d\n").length
        ∨ (0 + 5 + 1 = (ascii "A: b\nC: d\n").length ∧ ascii "b" = [])
        ∨ (0 + 5 < (ascii "A: b\nC: d\n").length
            ∧ (peek (ascii "A: b\nC: d\n") (0 + 5 - 1) = 13
                ∨ peek (ascii "A: b\nC: d\n") (0 + 5 - 1) = 10)
            ∧ peek (ascii "A: b\nC: d\n") (0 + 5) ≠ 13
            ∧ peek (ascii "A: b\nC: d\n") (0 + 5) ≠ 10
            ∧ peek (ascii "A: b\nC: d\n") (0 + 5) ≠ 9
            ∧ peek (ascii "A: b\nC: d\n") (0 + 5) ≠ 32))) :=
  ⟨by decide, by decide,
    C26_raw_range_end plain_env {} [] (ascii "A: b\nC: d\n") true
      { name := ascii "A", value := ascii "b", raw_value := 0, raw_len := 5,
        separator := some [32], decoded := ascii "b" } (by decide)⟩

/-! ## Runs of the part reader of the `Received:` parser -/

theorem part_loop_done (data : Bytes) (type : rspamd_received_part_type) (n : Nat)
    (s : part_vars) (h : ¬ (s.p < data.length ∧ s.last = none)) :
    part_loop data type n s = s := by
  cases n with
  | zero => rfl
  | succ n => simp only [part_loop, if_neg h]

theorem part_loop_succ (data : Bytes) (type : rspamd_received_part_type) (n : Nat)
    (s : part_vars) (hp : s.p < data.length) (hl : s.last = none) :
    part_loop data type (n + 1) s = part_loop data type n (part_step data type s) := by
  simp only [part_loop, if_pos (And.intro hp hl)]

theorem part_loop_add (data : Bytes) (type : rspamd_received_part_type) (m n : Nat)
    (s : part_vars) :
    part_loop data type (m + n) s = part_loop data type n (part_loop data type m s) := by
  induction m generalizing s with
  | zero => simp [part_loop]
  | succ m ih =>
    by_cases hg : s.p < data.length ∧ s.last = none
    · rw [show m + 1 + n = (m + n) + 1 by omega, part_loop_succ _ _ _ _ hg.1 hg.2,
        part_loop_succ _ _ _ _ hg.1 hg.2, ih]
    · rw [part_loop_done _ _ _ _ hg, part_loop_done _ _ _ _ hg, part_loop_done _ _ _ _ hg]

theorem part_reach_refl (data : Bytes) (type : rspamd_received_part_type) (s : part_vars) :
    part_reach data type s s := ⟨0, rfl⟩

theorem part_reach_trans {data : Bytes} {type : rspamd_received_part_type} {s t u : part_vars}
    (h1 : part_reach data type s t) (h2 : part_reach data type t u) :
    part_reach data type s u := by
  obtain ⟨m, hm⟩ := h1
  obtain ⟨n, hn⟩ := h2
  exact ⟨m + n, by rw [part_loop_add, hm, hn]⟩

theorem part_reach_step (data : Bytes) (type : rspamd_received_part_type) (s : part_vars)
    (hp : s.p < data.length) (hl : s.last = none) :
    part_reach data type s (part_step data type s) :=
  ⟨1, by rw [part_loop_succ _ _ _ _ hp hl]; rfl⟩

/-- A state met by the loop in which the loop has left is the state in which the loop
ends, whatever the number of passes given beyond the measure. -/
theorem part_reach_final {data : Bytes} {type : rspamd_received_part_type} {s t : part_vars}
    (h : part_reach data type s t) (hd : ¬ (t.p < data.length ∧ t.last = none))
    (hn : s.next_state = part_state.read_data) (n : Nat) (hm : part_measure data s ≤ n) :
    part_loop data type n s = t := by
  obtain ⟨m, hm2⟩ := h
  have h1 : part_loop data type (m + n) s = t := by
    rw [part_loop_add, hm2, part_loop_done _ _ _ _ hd]
  have hex := part_loop_exits_of_measure data type n s hn hm
  have h2 : part_loop data type (n + m) s = part_loop data type n s := by
    rw [part_loop_add, part_loop_done]
    rintro ⟨c1, c2⟩
    rcases hex with hex | hex
    · omega
    · exact hex c2
  rw [← h2, Nat.add_comm, h1]

/-- The result of the function when its loop meets a state that has returned from state
`all_done`. -/
theorem process_part_of_reach (data : Bytes) (type : rspamd_received_part_type)
    (t : part_vars) (l : Nat)
    (h : part_reach data type { npart := { type := type } } t) (hl : t.last = some l) :
    rspamd_smtp_received_process_part data type = some (t.npart, l) := by
  have hf := part_reach_final h (by rw [hl]; simp) rfl (3 * data.length + 3) (by
    have := part_rank_le data { npart := { type := type } }
    simp only [part_measure]
    omega)
  unfold rspamd_smtp_received_process_part
  simp only [hf, hl]

/-- State `skip_spaces` walks over white space. -/
theorem part_run_skip (data : Bytes) (type : rspamd_received_part_type) (n : Nat)
    (s : part_vars) (hs : s.state = part_state.skip_spaces) (hl : s.last = none)
    (hlen : s.p + n ≤ data.length)
    (hb : ∀ j, j < n → g_ascii_isspace (peek data (s.p + j)) = true) :
    part_reach data type s { s with p := s.p + n } := by
  induction n generalizing s with
  | zero => exact part_reach_refl _ _ _
  | succ n ih =>
    have h0 := hb 0 (by omega)
    simp only [Nat.add_zero] at h0
    have hstep : part_step data type s = { s with p := s.p + 1 } := by
      obtain ⟨npart, p, c, ob, eb, seen, st, nx, last⟩ := s
      simp only at hs h0
      subst hs
      simp only [part_step, h0, Bool.not_true, Bool.false_eq_true, ↓reduceIte]
    have h1 := part_reach_step data type s (by omega) hl
    rw [hstep] at h1
    have h2 := ih { s with p := s.p + 1 } hs hl (by simp only []; omega) (by
      intro j hj
      have := hb (j + 1) (by omega)
      simpa [Nat.add_assoc, Nat.add_comm 1 j] using this)
    have e : ({ s with p := s.p + 1 + n } : part_vars) = { s with p := s.p + (n + 1) } := by
      simp [Nat.add_assoc, Nat.add_comm 1 n]
    simp only [] at h2
    rw [e] at h2
    exact part_reach_trans h1 h2

/-- State `read_data` walks over the bytes of a token while the part has no data yet. -/
theorem part_run_read (data : Bytes) (type : rspamd_received_part_type) (n : Nat)
    (s : part_vars) (hs : s.state = part_state.read_data) (hl : s.last = none)
    (hd : s.npart.data = none) (hlen : s.p + n ≤ data.length)
    (hb : ∀ j, j < n → peek data (s.p + j) ≠ 40
      ∧ g_ascii_isspace (peek data (s.p + j)) = false ∧ peek data (s.p + j) ≠ 59) :
    part_reach data type s { s with p := s.p + n } := by
  induction n generalizing s with
  | zero => exact part_reach_refl _ _ _
  | succ n ih =>
    have h0 := hb 0 (by omega)
    simp only [Nat.add_zero] at h0
    have hstep : part_step data type s = { s with p := s.p + 1 } := by
      obtain ⟨npart, p, c, ob, eb, seen, st, nx, last⟩ := s
      simp only at hs h0 hd
      subst hs
      simp only [part_step, h0.1, h0.2.1, h0.2.2, rspamd_received_part.dlen, hd,
        Option.getD_none, List.length_nil, Nat.lt_irrefl, gt_iff_lt, Bool.false_eq_true,
        ↓reduceIte]
    have h1 := part_reach_step data type s (by omega) hl
    rw [hstep] at h1
    have h2 := ih { s with p := s.p + 1 } hs hl hd (by simp only []; omega) (by
      intro j hj
      have := hb (j + 1) (by omega)
      simpa [Nat.add_assoc, Nat.add_comm 1 j] using this)
    have e : ({ s with p := s.p + 1 + n } : part_vars) = { s with p := s.p + (n + 1) } := by
      simp [Nat.add_assoc, Nat.add_comm 1 n]
    simp only [] at h2
    rw [e] at h2
    exact part_reach_trans h1 h2

/-- State `in_comment` walks over the bytes of a comment that are no parentheses. -/
theorem part_run_comment (data : Bytes) (type : rspamd_received_part_type) (n : Nat)
    (s : part_vars) (hs : s.state = part_state.in_comment) (hl : s.last = none)
    (hlen : s.p + n ≤ data.length)
    (hb : ∀ j, j < n → peek data (s.p + j) ≠ 40 ∧ peek data (s.p + j) ≠ 41) :
    part_reach data type s { s with p := s.p + n } := by
  induction n generalizing s with
  | zero => exact part_reach_refl _ _ _
  | succ n ih =>
    have h0 := hb 0 (by omega)
    simp only [Nat.add_zero] at h0
    have hstep : part_step data type s = { s with p := s.p + 1 } := by
      obtain ⟨npart, p, c, ob, eb, seen, st, nx, last⟩ := s
      simp only at hs h0
      subst hs
      simp only [part_step, h0.1, h0.2, ↓reduceIte]
    have h1 := part_reach_step data type s (by omega) hl
    rw [hstep] at h1
    have h2 := ih { s with p := s.p + 1 } hs hl (by simp only []; omega) (by
      intro j hj
      have := hb (j + 1) (by omega)
      simpa [Nat.add_assoc, Nat.add_comm 1 j] using this)
    have e : ({ s with p := s.p + 1 + n } : part_vars) = { s with p := s.p + (n + 1) } := by
      simp [Nat.add_assoc, Nat.add_comm 1 n]
    simp only [] at h2
    rw [e] at h2
    exact part_reach_trans h1 h2

/-- The part reader over a token that is followed by white space, started in state
`skip_spaces` on the first byte of the token while the part has no data: the token,
lower-cased and stripped, becomes the data of the part, and the reader stands in state
`skip_spaces` on the byte behind the token. -/
theorem part_token (data : Bytes) (type : rspamd_received_part_type) (a tok : Bytes) (z : Nat)
    (post : Bytes) (s : part_vars)
    (hdata : data = a ++ (tok ++ z :: post))
    (htype : type ≠ rspamd_received_part_type.RSPAMD_RECEIVED_PART_UNKNOWN)
    (htok : tok ≠ [])
    (hb : ∀ b ∈ tok, b ≠ 40 ∧ g_ascii_isspace b = false ∧ b ≠ 59)
    (hz : g_ascii_isspace z = true)
    (hs : s.state = part_state.skip_spaces) (hn : s.next_state = part_state.read_data)
    (hl : s.last = none) (hd : s.npart.data = none) (hp : s.p = a.length) :
    part_reach data type s
      { s with npart := { s.npart with
                 data := some (rspamd_string_len_strip (rspamd_str_lc tok) [32, 9]) },
               p := a.length + tok.length, c := a.length + tok.length,
               state := part_state.skip_spaces, next_state := part_state.read_data } := by
  obtain ⟨npart, p, c, ob, eb, seen, st, nx, last⟩ := s
  simp only at hs hn hl hd hp
  subst hs hn hl hp
  have hlen : data.length = a.length + tok.length + 1 + post.length := by
    rw [hdata]; simp; omega
  have htl : 0 < tok.length := List.length_pos.2 htok
  have hpk : ∀ j, j < tok.length → peek data (a.length + j) ∈ tok := by
    intro j hj
    have := peek_mid a tok (z :: post) j hj
    rw [← hdata] at this
    exact this
  -- the first byte of the token ends the skipping
  have h0 := hpk 0 htl
  rw [Nat.add_zero] at h0
  have hstep1 : part_step data type
      { npart := npart, p := a.length, c := c, obraces := ob, ebraces := eb,
        seen_tcpinfo := seen, state := part_state.skip_spaces,
        next_state := part_state.read_data, last := none }
      = { npart := npart, p := a.length, c := a.length, obraces := ob, ebraces := eb,
          seen_tcpinfo := seen, state := part_state.read_data,
          next_state := part_state.read_data, last := none } := by
    simp only [part_step, (hb _ h0).2.1, Bool.not_false, ↓reduceIte]
  have r1 := part_reach_step data type
    { npart := npart, p := a.length, c := c, obraces := ob, ebraces := eb,
      seen_tcpinfo := seen, state := part_state.skip_spaces,
      next_state := part_state.read_data, last := none } (by simp only []; omega) rfl
  rw [hstep1] at r1
  -- the bytes of the token
  have r2 := part_run_read data type tok.length
    { npart := npart, p := a.length, c := a.length, obraces := ob, ebraces := eb,
      seen_tcpinfo := seen, state := part_state.read_data,
      next_state := part_state.read_data, last := none } rfl rfl hd
    (by simp only []; omega) (fun j hj => hb _ (hpk j hj))
  simp only [] at r2
  -- the white space behind the token
  have hpz : peek data (a.length + tok.length) = z := by
    have := peek_mid_head (a ++ tok) post z
    rw [List.append_assoc, ← hdata, List.length_append] at this
    exact this
  have hz40 : z ≠ 40 := by
    intro h; rw [h] at hz; simp [g_ascii_isspace] at hz
  have hsl : slice data a.length (a.length + tok.length) = tok := by
    rw [hdata]; exact slice_mid a tok _
  have hstep3 : part_step data type
      { npart := npart, p := a.length + tok.length, c := a.length, obraces := ob,
        ebraces := eb, seen_tcpinfo := seen, state := part_state.read_data,
        next_state := part_state.read_data, last := none }
      = { npart := { npart with
            data := some (rspamd_string_len_strip (rspamd_str_lc tok) [32, 9]) },
          p := a.length + tok.length, c := a.length + tok.length, obraces := ob,
          ebraces := eb, seen_tcpinfo := seen, state := part_state.skip_spaces,
          next_state := part_state.read_data, last := none } := by
    have hadd : part_add_data data type
        { npart := npart, p := a.length + tok.length, c := a.length, obraces := ob,
          ebraces := eb, seen_tcpinfo := seen, state := part_state.read_data,
          next_state := part_state.read_data, last := none } (a.length + tok.length)
        = { npart with
            data := some (rspamd_string_len_strip (rspamd_str_lc tok) [32, 9]) } := by
      unfold part_add_data
      rw [if_pos ⟨by simp only []; omega, htype⟩]
      simp only [hsl, hd, rspamd_smtp_received_part_set_or_append]
      rw [if_neg (by omega)]
    simp only [part_step, hpz, hz40, hz, ↓reduceIte, hadd]
  have r3 := part_reach_step data type
    { npart := npart, p := a.length + tok.length, c := a.length, obraces := ob,
      ebraces := eb, seen_tcpinfo := seen, state := part_state.read_data,
      next_state := part_state.read_data, last := none } (by simp only []; omega) rfl
  rw [hstep3] at r3
  exact part_reach_trans r1 (part_reach_trans r2 r3)

/-- The part reader over a comment in parentheses that follows one space, started in state
`skip_spaces` on that space: the comment, lower-cased and stripped, is added to the comments
of the part, and the reader stands in state `skip_spaces` behind the closing parenthesis. -/
theorem part_comment (data : Bytes) (type : rspamd_received_part_type) (a cm : Bytes)
    (post : Bytes) (s : part_vars)
    (hdata : data = a ++ (32 :: 40 :: (cm ++ 41 :: post)))
    (htype : type ≠ rspamd_received_part_type.RSPAMD_RECEIVED_PART_UNKNOWN)
    (hcm : cm ≠ []) (hb : ∀ b ∈ cm, b ≠ 40 ∧ b ≠ 41)
    (hs : s.state = part_state.skip_spaces) (hn : s.next_state = part_state.read_data)
    (hl : s.last = none) (hp : s.p = a.length) :
    part_reach data type s
      { s with npart := { s.npart with
                 comments := s.npart.comments
                   ++ [rspamd_string_len_strip (rspamd_str_lc cm) [32, 9]] },
               obraces := 1, ebraces := 1,
               p := a.length + cm.length + 3, c := a.length + cm.length + 3,
               state := part_state.skip_spaces, next_state := part_state.read_data } := by
  obtain ⟨npart, p, c, ob, eb, seen, st, nx, last⟩ := s
  simp only at hs hn hl hp
  subst hs hn hl hp
  have hlen : data.length = a.length + cm.length + 3 + post.length := by
    rw [hdata]; simp; omega
  have hcl : 0 < cm.length := List.length_pos.2 hcm
  have hp0 : peek data a.length = 32 := by
    rw [hdata]; exact peek_mid_head a _ 32
  have hp1 : peek data (a.length + 1) = 40 := by
    have := peek_mid_head (a ++ [32]) (cm ++ 41 :: post) 40
    rw [List.append_assoc, List.length_append] at this
    rw [hdata]; exact this
  have hD : data = (a ++ [32, 40]) ++ (cm ++ 41 :: post) := by rw [hdata]; simp
  have hpc : ∀ j, j < cm.length → peek data (a.length + 2 + j) ∈ cm := by
    intro j hj
    have := peek_mid (a ++ [32, 40]) cm (41 :: post) j hj
    rw [← hD, List.length_append] at this
    exact this
  have hp2 : peek data (a.length + 2 + cm.length) = 41 := by
    have := peek_mid_head ((a ++ [32, 40]) ++ cm) post 41
    rw [List.append_assoc, ← hD, List.length_append, List.length_append] at this
    exact this
  have hsl : slice data (a.length + 2) (a.length + 2 + cm.length) = cm := by
    have := slice_mid (a ++ [32, 40]) cm (41 :: post)
    rw [← hD, List.length_append] at this
    exact this
  -- the space
  have hstep1 : part_step data type
      { npart := npart, p := a.length, c := c, obraces := ob, ebraces := eb,
        seen_tcpinfo := seen, state := part_state.skip_spaces,
        next_state := part_state.read_data, last := none }
      = { npart := npart, p := a.length + 1, c := c, obraces := ob, ebraces := eb,
          seen_tcpinfo := seen, state := part_state.skip_spaces,
          next_state := part_state.read_data, last := none } := by
    simp only [part_step, hp0]
    rfl
  have r1 := part_reach_step data type
    { npart := npart, p := a.length, c := c, obraces := ob, ebraces := eb,
      seen_tcpinfo := seen, state := part_state.skip_spaces,
      next_state := part_state.read_data, last := none } (by simp only []; omega) rfl
  rw [hstep1] at r1
  -- the opening parenthesis ends the skipping
  have hstep2 : part_step data type
      { npart := npart, p := a.length + 1, c := c, obraces := ob, ebraces := eb,
        seen_tcpinfo := seen, state := part_state.skip_spaces,
        next_state := part_state.read_data, last := none }
      = { npart := npart, p := a.length + 1, c := a.length + 1, obraces := ob, ebraces := eb,
          seen_tcpinfo := seen, state := part_state.read_data,
          next_state := part_state.read_data, last := none } := by
    simp only [part_step, hp1]
    rfl
  have r2 := part_reach_step data type
    { npart := npart, p := a.length + 1, c := c, obraces := ob, ebraces := eb,
      seen_tcpinfo := seen, state := part_state.skip_spaces,
      next_state := part_state.read_data, last := none } (by simp only []; omega) rfl
  rw [hstep2] at r2
  -- the opening parenthesis opens the comment
  have hstep3 : part_step data type
      { npart := npart, p := a.length + 1, c := a.length + 1, obraces := ob, ebraces := eb,
        seen_tcpinfo := seen, state := part_state.read_data,
        next_state := part_state.read_data, last := none }
      = { npart := npart, p := a.length + 2, c := a.length + 2, obraces := 1, ebraces := 0,
          seen_tcpinfo := seen, state := part_state.in_comment,
          next_state := part_state.read_data, last := none } := by
    simp only [part_step, hp1, ↓reduceIte, part_add_data, gt_iff_lt, Nat.lt_irrefl, false_and]
  have r3 := part_reach_step data type
    { npart := npart, p := a.length + 1, c := a.length + 1, obraces := ob, ebraces := eb,
      seen_tcpinfo := seen, state := part_state.read_data,
      next_state := part_state.read_data, last := none } (by simp only []; omega) rfl
  rw [hstep3] at r3
  -- the bytes of the comment
  have r4 := part_run_comment data type cm.length
    { npart := npart, p := a.length + 2, c := a.length + 2, obraces := 1, ebraces := 0,
      seen_tcpinfo := seen, state := part_state.in_comment,
      next_state := part_state.read_data, last := none } rfl rfl
    (by simp only []; omega) (fun j hj => hb _ (hpc j hj))
  simp only [] at r4
  -- the closing parenthesis
  have hstep5 : part_step data type
      { npart := npart, p := a.length + 2 + cm.length, c := a.length + 2, obraces := 1,
        ebraces := 0, seen_tcpinfo := seen, state := part_state.in_comment,
        next_state := part_state.read_data, last := none }
      = { npart := { npart with
            comments := npart.comments
              ++ [rspamd_string_len_strip (rspamd_str_lc cm) [32, 9]] },
          p := a.length + cm.length + 3, c := a.length + cm.length + 3, obraces := 1,
          ebraces := 1, seen_tcpinfo := seen, state := part_state.skip_spaces,
          next_state := part_state.read_data, last := none } := by
    have e : a.length + 2 + cm.length + 1 = a.length + cm.length + 3 := by omega
    simp only [part_step, hp2, hsl, rspamd_smtp_received_part_set_or_append, e]
    rw [if_neg (by decide), if_pos trivial, if_pos (by decide), if_pos ⟨htype, by omega⟩,
      if_neg (by omega)]
  have r5 := part_reach_step data type
    { npart := npart, p := a.length + 2 + cm.length, c := a.length + 2, obraces := 1,
      ebraces := 0, seen_tcpinfo := seen, state := part_state.in_comment,
      next_state := part_state.read_data, last := none } (by simp only []; omega) rfl
  rw [hstep5] at r5
  exact part_reach_trans r1 (part_reach_trans r2 (part_reach_trans r3
    (part_reach_trans r4 r5)))

/-- The part reader at the end of a part: in state `skip_spaces` on one space that is
followed by the first byte of the next keyword, with data read before, the reader returns
from state `all_done` with the offset of that byte. -/
theorem part_end (data : Bytes) (type : rspamd_received_part_type) (a : Bytes) (x : Nat)
    (post : Bytes) (s : part_vars)
    (hdata : data = a ++ (32 :: x :: post))
    (hx : x ≠ 40 ∧ g_ascii_isspace x = false ∧ x ≠ 59 ∧ x ≠ 91)
    (hs : s.state = part_state.skip_spaces) (hn : s.next_state = part_state.read_data)
    (hl : s.last = none) (hd : 0 < s.npart.dlen) (hp : s.p = a.length) :
    part_reach data type s
      { s with p := a.length + 1, c := a.length + 1, state := part_state.all_done,
               last := some (a.length + 1) } := by
  obtain ⟨npart, p, c, ob, eb, seen, st, nx, last⟩ := s
  simp only at hs hn hl hd hp
  subst hs hn hl hp
  have hlen : data.length = a.length + 2 + post.length := by
    rw [hdata]; simp; omega
  have hp0 : peek data a.length = 32 := by
    rw [hdata]; exact peek_mid_head a _ 32
  have hp1 : peek data (a.length + 1) = x := by
    have := peek_mid_head (a ++ [32]) post x
    rw [List.append_assoc, List.length_append] at this
    rw [hdata]; exact this
  have hstep1 : part_step data type
      { npart := npart, p := a.length, c := c, obraces := ob, ebraces := eb,
        seen_tcpinfo := seen, state := part_state.skip_spaces,
        next_state := part_state.read_data, last := none }
      = { npart := npart, p := a.length + 1, c := c, obraces := ob, ebraces := eb,
          seen_tcpinfo := seen, state := part_state.skip_spaces,
          next_state := part_state.read_data, last := none } := by
    simp only [part_step, hp0]
    rfl
  have r1 := part_reach_step data type
    { npart := npart, p := a.length, c := c, obraces := ob, ebraces := eb,
      seen_tcpinfo := seen, state := part_state.skip_spaces,
      next_state := part_state.read_data, last := none } (by simp only []; omega) rfl
  rw [hstep1] at r1
  have hstep2 : part_step data type
      { npart := npart, p := a.length + 1, c := c, obraces := ob, ebraces := eb,
        seen_tcpinfo := seen, state := part_state.skip_spaces,
        next_state := part_state.read_data, last := none }
      = { npart := npart, p := a.length + 1, c := a.length + 1, obraces := ob, ebraces := eb,
          seen_tcpinfo := seen, state := part_state.read_data,
          next_state := part_state.read_data, last := none } := by
    simp only [part_step, hp1, hx.2.1, Bool.not_false, ↓reduceIte]
  have r2 := part_reach_step data type
    { npart := npart, p := a.length + 1, c := c, obraces := ob, ebraces := eb,
      seen_tcpinfo := seen, state := part_state.skip_spaces,
      next_state := part_state.read_data, last := none } (by simp only []; omega) rfl
  rw [hstep2] at r2
  have hstep3 : part_step data type
      { npart := npart, p := a.length + 1, c := a.length + 1, obraces := ob, ebraces := eb,
        seen_tcpinfo := seen, state := part_state.read_data,
        next_state := part_state.read_data, last := none }
      = { npart := npart, p := a.length + 1, c := a.length + 1, obraces := ob, ebraces := eb,
          seen_tcpinfo := seen, state := part_state.all_done,
          next_state := part_state.read_data, last := none } := by
    simp only [part_step, hp1, hx.1, hx.2.1, hx.2.2.1, hx.2.2.2, ↓reduceIte,
      Bool.false_eq_true, gt_iff_lt, hd]
    split_ifs <;> rfl
  have r3 := part_reach_step data type
    { npart := npart, p := a.length + 1, c := a.length + 1, obraces := ob, ebraces := eb,
      seen_tcpinfo := seen, state := part_state.read_data,
      next_state := part_state.read_data, last := none } (by simp only []; omega) rfl
  rw [hstep3] at r3
  have r4 := part_reach_step data type
    { npart := npart, p := a.length + 1, c := a.length + 1, obraces := ob, ebraces := eb,
      seen_tcpinfo := seen, state := part_state.all_done,
      next_state := part_state.read_data, last := none } (by simp only []; omega) rfl
  have hstep4 : part_step data type
      { npart := npart, p := a.length + 1, c := a.length + 1, obraces := ob, ebraces := eb,
        seen_tcpinfo := seen, state := part_state.all_done,
        next_state := part_state.read_data, last := none }
      = { npart := npart, p := a.length + 1, c := a.length + 1, obraces := ob, ebraces := eb,
          seen_tcpinfo := seen, state := part_state.all_done,
          next_state := part_state.read_data, last := some (a.length + 1) } := rfl
  rw [hstep4] at r4
  exact part_reach_trans r1 (part_reach_trans r2 (part_reach_trans r3 r4))

theorem strip_ends (s : Bytes) (h1 : ∀ x, s.head? = some x → x ≠ 32 ∧ x ≠ 9)
    (h2 : ∀ x, s.getLast? = some x → x ≠ 32 ∧ x ≠ 9) :
    rspamd_string_len_strip s [32, 9] = s := by
  have hdrop : ∀ l : Bytes, (∀ x, l.head? = some x → x ≠ 32 ∧ x ≠ 9) →
      l.dropWhile (fun b => [32, 9].contains b) = l := by
    intro l hl
    cases l with
    | nil => rfl
    | cons x r =>
      have := hl x rfl
      simp [List.dropWhile, this.1, this.2]
  unfold rspamd_string_len_strip
  rw [hdrop s h1, hdrop s.reverse (by rw [List.head?_reverse]; exact h2), List.reverse_reverse]

theorem lc_map_eq_iff (b k : Nat) (hk : k < 65 ∨ 90 < k) (hk2 : k < 97 ∨ 122 < k) :
    lc_map b = k ↔ b = k := by
  unfold lc_map g_ascii_tolower
  split_ifs with h
  · simp only [Bool.and_eq_true, decide_eq_true_eq] at h
    constructor <;> intro e <;> omega
  · exact Iff.rfl

theorem lc_map_space (b : Nat) : g_ascii_isspace (lc_map b) = g_ascii_isspace b := by
  unfold lc_map g_ascii_tolower
  split_ifs with h
  · simp only [Bool.and_eq_true, decide_eq_true_eq] at h
    have e1 : g_ascii_isspace (b + 32) = false := by
      simp only [g_ascii_isspace, Bool.or_eq_false_iff, beq_eq_false_iff_ne, ne_eq,
        Bool.and_eq_false_imp, decide_eq_true_eq, decide_eq_false_iff_not]
      omega
    have e2 : g_ascii_isspace b = false := by
      simp only [g_ascii_isspace, Bool.or_eq_false_iff, beq_eq_false_iff_ne, ne_eq,
        Bool.and_eq_false_imp, decide_eq_true_eq, decide_eq_false_iff_not]
      omega
    rw [e1, e2]
  · rfl

/-- A token without white space is left as it is by the stripping of its lower-case
form. -/
theorem strip_lc_token (tok : Bytes) (hb : ∀ b ∈ tok, g_ascii_isspace b = false) :
    rspamd_string_len_strip (rspamd_str_lc tok) [32, 9] = rspamd_str_lc tok := by
  have hall : ∀ x ∈ rspamd_str_lc tok, x ≠ 32 ∧ x ≠ 9 := by
    intro x hx
    simp only [rspamd_str_lc, List.mem_map] at hx
    obtain ⟨b, hbm, rfl⟩ := hx
    have := hb b hbm
    rw [← lc_map_space] at this
    constructor <;> intro e <;> rw [e] at this <;> simp [g_ascii_isspace] at this
  apply strip_ends
  · intro x hx
    exact hall x (List.mem_of_mem_head? hx)
  · intro x hx
    exact hall x (List.mem_of_mem_getLast? hx)

/-- The part reader on what follows the keyword `from`: one space, a token, one space, a
comment in parentheses, one space and the first byte of the next keyword. -/
theorem from_part_run (h cm : Bytes) (x : Nat) (post : Bytes)
    (hh : h ≠ []) (hhb : ∀ b ∈ h, b ≠ 40 ∧ g_ascii_isspace b = false ∧ b ≠ 59)
    (hcm : cm ≠ []) (hcb : ∀ b ∈ cm, b ≠ 40 ∧ b ≠ 41)
    (hx : x ≠ 40 ∧ g_ascii_isspace x = false ∧ x ≠ 59 ∧ x ≠ 91) :
    rspamd_smtp_received_process_part (32 :: (h ++ 32 :: 40 :: (cm ++ 41 :: 32 :: x :: post)))
        rspamd_received_part_type.RSPAMD_RECEIVED_PART_FROM
      = some ({ type := rspamd_received_part_type.RSPAMD_RECEIVED_PART_FROM,
                data := some (rspamd_str_lc h),
                comments := [rspamd_string_len_strip (rspamd_str_lc cm) [32, 9]] },
              h.length + cm.length + 5) := by
  have hstrip := strip_lc_token h (fun b hb => (hhb b hb).2.1)
  have hlcne : 0 < (rspamd_str_lc h).length := by
    simp only [rspamd_str_lc, List.length_map]
    exact List.length_pos.2 hh
  -- the space behind the keyword
  have r1 := part_run_skip (32 :: (h ++ 32 :: 40 :: (cm ++ 41 :: 32 :: x :: post)))
    rspamd_received_part_type.RSPAMD_RECEIVED_PART_FROM 1
    { npart := { type := rspamd_received_part_type.RSPAMD_RECEIVED_PART_FROM } } rfl rfl
    (by simp) (by
      intro j hj
      have : j = 0 := by omega
      subst this
      rfl)
  -- the token
  have r2 := part_token (32 :: (h ++ 32 :: 40 :: (cm ++ 41 :: 32 :: x :: post)))
    rspamd_received_part_type.RSPAMD_RECEIVED_PART_FROM [32] h 32
    (40 :: (cm ++ 41 :: 32 :: x :: post))
    { npart := { type := rspamd_received_part_type.RSPAMD_RECEIVED_PART_FROM }, p := 0 + 1 }
    rfl (by decide) hh hhb (by decide) rfl rfl rfl rfl rfl
  rw [hstrip] at r2
  -- the comment
  have r3 := part_comment (32 :: (h ++ 32 :: 40 :: (cm ++ 41 :: 32 :: x :: post)))
    rspamd_received_part_type.RSPAMD_RECEIVED_PART_FROM (32 :: h) cm (32 :: x :: post)
    { npart := { type := rspamd_received_part_type.RSPAMD_RECEIVED_PART_FROM,
                 data := some (rspamd_str_lc h) },
      p := [32].length + h.length, c := [32].length + h.length }
    rfl (by decide) hcm hcb rfl rfl rfl (by simp; omega)
  -- the end of the part
  have r4 := part_end (32 :: (h ++ 32 :: 40 :: (cm ++ 41 :: 32 :: x :: post)))
    rspamd_received_part_type.RSPAMD_RECEIVED_PART_FROM
    (32 :: (h ++ 32 :: 40 :: (cm ++ [41]))) x post
    { npart := { type := rspamd_received_part_type.RSPAMD_RECEIVED_PART_FROM,
                 data := some (rspamd_str_lc h),
                 comments := [] ++ [rspamd_string_len_strip (rspamd_str_lc cm) [32, 9]] },
      obraces := 1, ebraces := 1,
      p := (32 :: h).length + cm.length + 3, c := (32 :: h).length + cm.length + 3 }
    (by simp) hx rfl rfl rfl hlcne (by simp; omega)
  have e : (32 :: (h ++ 32 :: 40 :: (cm ++ [41]))).length + 1 = h.length + cm.length + 5 := by
    simp; omega
  have hfin := process_part_of_reach _ _ _ (h.length + cm.length + 5)
    (part_reach_trans r1 (part_reach_trans r2 (part_reach_trans r3 r4)))
    (by simp only [e])
  rw [hfin]
  rfl

/-- The part reader on what follows the keyword `by`: one space, a token, one space and
the first byte of the next keyword. -/
theorem by_part_run (b : Bytes) (x : Nat) (post : Bytes)
    (hbn : b ≠ []) (hbb : ∀ y ∈ b, y ≠ 40 ∧ g_ascii_isspace y = false ∧ y ≠ 59)
    (hx : x ≠ 40 ∧ g_ascii_isspace x = false ∧ x ≠ 59 ∧ x ≠ 91) :
    rspamd_smtp_received_process_part (32 :: (b ++ 32 :: x :: post))
        rspamd_received_part_type.RSPAMD_RECEIVED_PART_BY
      = some ({ type := rspamd_received_part_type.RSPAMD_RECEIVED_PART_BY,
                data := some (rspamd_str_lc b) }, b.length + 2) := by
  have hstrip := strip_lc_token b (fun y hy => (hbb y hy).2.1)
  have hlcne : 0 < (rspamd_str_lc b).length := by
    simp only [rspamd_str_lc, List.length_map]
    exact List.length_pos.2 hbn
  have r1 := part_run_skip (32 :: (b ++ 32 :: x :: post))
    rspamd_received_part_type.RSPAMD_RECEIVED_PART_BY 1
    { npart := { type := rspamd_received_part_type.RSPAMD_RECEIVED_PART_BY } } rfl rfl
    (by simp) (by
      intro j hj
      have : j = 0 := by omega
      subst this
      rfl)
  have r2 := part_token (32 :: (b ++ 32 :: x :: post))
    rspamd_received_part_type.RSPAMD_RECEIVED_PART_BY [32] b 32 (x :: post)
    { npart := { type := rspamd_received_part_type.RSPAMD_RECEIVED_PART_BY }, p := 0 + 1 }
    rfl (by decide) hbn hbb (by decide) rfl rfl rfl rfl rfl
  rw [hstrip] at r2
  have r4 := part_end (32 :: (b ++ 32 :: x :: post))
    rspamd_received_part_type.RSPAMD_RECEIVED_PART_BY (32 :: b) x post
    { npart := { type := rspamd_received_part_type.RSPAMD_RECEIVED_PART_BY,
                 data := some (rspamd_str_lc b) },
      p := [32].length + b.length, c := [32].length + b.length }
    rfl hx rfl rfl rfl hlcne (by simp; omega)
  have e : (32 :: b).length + 1 = b.length + 2 := by simp
  have hfin := process_part_of_reach _ _ _ (b.length + 2)
    (part_reach_trans r1 (part_reach_trans r2 r4)) (by simp only [e])
  rw [hfin]

theorem part_add_data_type (data : Bytes) (type : rspamd_received_part_type) (s : part_vars)
    (e : Nat) : (part_add_data data type s e).type = s.npart.type := by
  unfold part_add_data
  split_ifs <;> rfl

theorem part_step_type (data : Bytes) (type : rspamd_received_part_type) (s : part_vars) :
    (part_step data type s).npart.type = s.npart.type := by
  unfold part_step
  cases hst : s.state <;> simp only []
  · split_ifs <;> rfl
  · split_ifs
    · rfl
    · simp only []
      split <;> rfl
    · rfl
    · rfl
    · rfl
  · split_ifs <;> first | rfl | exact part_add_data_type _ _ _ _
  · split_ifs <;> rfl

theorem part_loop_type (data : Bytes) (type : rspamd_received_part_type) (fuel : Nat)
    (s : part_vars) : (part_loop data type fuel s).npart.type = s.npart.type := by
  induction fuel generalizing s with
  | zero => rfl
  | succ n ih =>
    simp only [part_loop]
    split_ifs
    · rw [ih, part_step_type]
    · rfl

/-- A part that the part reader returns has the type it was asked for. -/
theorem process_part_type (data : Bytes) (type : rspamd_received_part_type)
    (part : rspamd_received_part) (pos : Nat)
    (h : rspamd_smtp_received_process_part data type = some (part, pos)) :
    part.type = type := by
  have hl := part_loop_type data type (3 * data.length + 3) { npart := { type := type } }
  unfold rspamd_smtp_received_process_part at h
  simp only [] at h
  split at h
  · simp only [Option.some.injEq, Prod.mk.injEq] at h
    rw [← h.1]; exact hl
  · split at h
    · split_ifs at h
      simp only [Option.some.injEq, Prod.mk.injEq] at h
      rw [← h.1, part_add_data_type]; exact hl
    · simp only [Option.some.injEq, Prod.mk.injEq] at h
      rw [← h.1]; exact hl
    · simp at h

/-- The loop of the splitter adds `with`, `for` and unknown parts only, behind the parts
it was started with. -/
theorem spill_loop_extends (data : Bytes) (fuel p len : Nat)
    (head parts : List rspamd_received_part) (dp : Option Nat)
    (h : spill_loop data fuel p len head = spill_outcome.head parts dp) :
    ∃ extra, parts = head ++ extra ∧ ∀ c ∈ extra, later_part c := by
  induction fuel generalizing p len head with
  | zero =>
    simp only [spill_loop, spill_outcome.head.injEq] at h
    exact ⟨[], by rw [← h.1]; simp, by simp⟩
  | succ n ih =>
    have hnxt : ∀ cur pos ty d p2 len2,
        rspamd_smtp_received_process_part d ty = some (cur, pos) →
        (ty = rspamd_received_part_type.RSPAMD_RECEIVED_PART_WITH
          ∨ ty = rspamd_received_part_type.RSPAMD_RECEIVED_PART_FOR
          ∨ ty = rspamd_received_part_type.RSPAMD_RECEIVED_PART_UNKNOWN) →
        spill_loop data n p2 len2 (head ++ [cur]) = spill_outcome.head parts dp →
        ∃ extra, parts = head ++ extra ∧ ∀ c ∈ extra, later_part c := by
      intro cur pos ty d p2 len2 hc hty hsp
      obtain ⟨extra, he, hx⟩ := ih _ _ _ hsp
      refine ⟨cur :: extra, by rw [he]; simp, ?_⟩
      intro c hcm
      rcases List.mem_cons.1 hcm with h1 | h1
      · rw [h1]
        unfold later_part
        rw [process_part_type _ _ _ _ hc]
        exact hty
      · exact hx c h1
    simp only [spill_loop] at h
    split_ifs at h with c1 c2 c3 c4 c5 c6
    · simp only [spill_outcome.head.injEq] at h
      exact ⟨[], by rw [← h.1]; simp, by simp⟩
    · split at h
      · simp at h
      · rename_i cur pos hc
        split_ifs at h
        exact hnxt cur pos _ _ _ _ hc (Or.inl rfl) h
    · split at h
      · simp at h
      · rename_i cur pos hc
        split_ifs at h
        exact hnxt cur pos _ _ _ _ hc (Or.inr (Or.inl rfl)) h
    · simp only [spill_outcome.head.injEq] at h
      exact ⟨[], by rw [← h.1]; simp, by simp⟩
    · split at h
      · simp at h
      · rename_i cur pos hc
        split_ifs at h
        exact hnxt cur pos _ _ _ _ hc (Or.inr (Or.inr rfl)) h
    · simp only [spill_outcome.head.injEq] at h
      exact ⟨[], by rw [← h.1]; simp, by simp⟩

/-- A `with`, `for` or unknown part writes at most the type and the flags. -/
theorem later_part_effect (renv : received_env) (rh : received_header)
    (c : rspamd_received_part) (hc : later_part c) :
    ∃ ty fl, received_part_effect renv rh c = { rh with type := ty, flags := fl } := by
  unfold received_part_effect
  rcases hc with h | h | h <;> rw [h] <;> simp only []
  · exact received_with_shape rh _
  · exact ⟨rh.type, rh.flags, rfl⟩
  · exact ⟨rh.type, rh.flags, rfl⟩

theorem later_parts_effect (renv : received_env) (extra : List rspamd_received_part)
    (rh : received_header) (hc : ∀ c ∈ extra, later_part c) :
    ∃ ty fl, extra.foldl (received_part_effect renv) rh = { rh with type := ty, flags := fl } := by
  induction extra generalizing rh with
  | nil => exact ⟨rh.type, rh.flags, rfl⟩
  | cons c rest ih =>
    obtain ⟨ty, fl, e⟩ := later_part_effect renv rh c (hc c (List.mem_cons_self _ _))
    obtain ⟨ty2, fl2, e2⟩ := ih { rh with type := ty, flags := fl }
      (fun x hx => hc x (List.mem_cons_of_mem _ hx))
    exact ⟨ty2, fl2, by rw [List.foldl_cons, e, e2]⟩

/-- The splitter on a value that starts with `from`, a token, a comment, `by` and a
token, each after one space, and goes on with a space and the letter `w`: the `from` part
and the `by` part are read, and the loop of the splitter goes on behind the `by` part. -/
theorem spill_from_by (h cm b post : Bytes)
    (hh : h ≠ []) (hhb : ∀ y ∈ h, y ≠ 40 ∧ g_ascii_isspace y = false ∧ y ≠ 59)
    (hcm : cm ≠ []) (hcb : ∀ y ∈ cm, y ≠ 40 ∧ y ≠ 41)
    (hbn : b ≠ []) (hbb : ∀ y ∈ b, y ≠ 40 ∧ g_ascii_isspace y = false ∧ y ≠ 59) :
    ∃ p len,
      rspamd_smtp_received_spill
          (102 :: 114 :: 111 :: 109 :: 32 :: (h ++ 32 :: 40 :: (cm ++ 41 :: 32 :: 98 :: 121
            :: 32 :: (b ++ 32 :: 119 :: post))))
        = spill_loop
            (102 :: 114 :: 111 :: 109 :: 32 :: (h ++ 32 :: 40 :: (cm ++ 41 :: 32 :: 98 :: 121
              :: 32 :: (b ++ 32 :: 119 :: post))))
            ((102 :: 114 :: 111 :: 109 :: 32 :: (h ++ 32 :: 40 :: (cm ++ 41 :: 32 :: 98 :: 121
              :: 32 :: (b ++ 32 :: 119 :: post)))).length + 1) p len
            [{ type := rspamd_received_part_type.RSPAMD_RECEIVED_PART_FROM,
               data := some (rspamd_str_lc h),
               comments := [rspamd_string_len_strip (rspamd_str_lc cm) [32, 9]] },
             { type := rspamd_received_part_type.RSPAMD_RECEIVED_PART_BY,
               data := some (rspamd_str_lc b) }] := by
  have hfrom := from_part_run h cm 98 (121 :: 32 :: (b ++ 32 :: 119 :: post)) hh hhb hcm hcb
    (by decide)
  have hby := by_part_run b 119 post hbn hbb (by decide)
  generalize hdata : (102 :: 114 :: 111 :: 109 :: 32 :: (h ++ 32 :: 40 :: (cm ++ 41 :: 32 :: 98
    :: 121 :: 32 :: (b ++ 32 :: 119 :: post)))) = data
  have hlen : data.length = h.length + cm.length + b.length + 14 + post.length := by
    rw [← hdata]; simp; omega
  have hp : (data.takeWhile g_ascii_isspace).length = 0 := by
    rw [← hdata]
    rfl
  have hpk0 : peek data 0 = 102 := by rw [← hdata]; rfl
  have hdrop4 : data.drop (0 + 4)
      = 32 :: (h ++ 32 :: 40 :: (cm ++ 41 :: 32 :: 98 :: 121 :: 32 :: (b ++ 32 :: 119 :: post))) := by
    rw [← hdata]; rfl
  have hD : data = (102 :: 114 :: 111 :: 109 :: 32 :: (h ++ 32 :: 40 :: (cm ++ [41, 32])))
      ++ (98 :: 121 :: 32 :: (b ++ 32 :: 119 :: post)) := by
    rw [← hdata]; simp
  have hpl : (102 :: 114 :: 111 :: 109 :: 32 :: (h ++ 32 :: 40 :: (cm ++ [41, 32]))).length
      = 0 + 4 + (h.length + cm.length + 5) := by
    simp; omega
  have hpk1 : peek data (0 + 4 + (h.length + cm.length + 5)) = 98 := by
    rw [← hpl, hD]; exact peek_mid_head _ _ 98
  have hpk2 : peek data (0 + 4 + (h.length + cm.length + 5) + 1) = 121 := by
    have := peek_mid_head ((102 :: 114 :: 111 :: 109 :: 32 :: (h ++ 32 :: 40 :: (cm ++ [41, 32]))) ++ [98])
      (32 :: (b ++ 32 :: 119 :: post)) 121
    rw [List.length_append, hpl] at this
    rw [hD]
    simpa using this
  have hdrop2 : data.drop (0 + 4 + (h.length + cm.length + 5) + 2)
      = 32 :: (b ++ 32 :: 119 :: post) := by
    have e : data = ((102 :: 114 :: 111 :: 109 :: 32 :: (h ++ 32 :: 40 :: (cm ++ [41, 32])))
        ++ [98, 121]) ++ (32 :: (b ++ 32 :: 119 :: post)) := by
      rw [hD]; simp
    have el : ((102 :: 114 :: 111 :: 109 :: 32 :: (h ++ 32 :: 40 :: (cm ++ [41, 32])))
        ++ [98, 121]).length = 0 + 4 + (h.length + cm.length + 5) + 2 := by
      rw [List.length_append, hpl]; rfl
    rw [← el]
    conv_lhs => rw [e]
    exact List.drop_left _ _
  refine ⟨0 + 4 + (h.length + cm.length + 5) + 2 + (b.length + 2),
    data.length - (0 + 4 + (h.length + cm.length + 5) + 2 + (b.length + 2)), ?_⟩
  unfold rspamd_smtp_received_spill
  simp only [hp]
  rw [if_neg (by
    rintro (c | c)
    · omega
    · rw [hpk0] at c
      exact c.1 (by decide))]
  rw [hdrop4, hfrom]
  simp only []
  rw [if_neg (by omega), if_pos ⟨by omega, by rw [hpk1]; decide, by rw [hpk2]; decide⟩]
  rw [hdrop2, hby]
  simp only []
  rw [if_neg (by omega)]

/-- A span made of host name characters only is its own host name. -/
theorem rdns_all (renv : received_env) (t : Bytes) (ht : t ≠ [])
    (hall : ∀ y ∈ t, g_ascii_isspace y = false ∧ renv.url_is_domain y = true ∧ y ≠ 0) :
    rspamd_smtp_received_process_rdns renv t = some t := by
  have h1 : t.takeWhile (fun b => !g_ascii_isspace b && renv.url_is_domain b) = t := by
    rw [List.takeWhile_eq_self_iff]
    intro y hy
    simp [(hall y hy).1, (hall y hy).2.1]
  have h2 : t.takeWhile (fun x => x != 0) = t := by
    rw [List.takeWhile_eq_self_iff]
    intro y hy
    simpa using (hall y hy).2.2
  unfold rspamd_smtp_received_process_rdns
  simp only [h1, h2]
  rw [if_pos (List.length_pos.2 ht), if_pos trivial]

/-- A run of host name characters that holds a dot and is followed by one space is the
host name of the span. -/
theorem rdns_space (renv : received_env) (t : Bytes) (ht : t ≠ [])
    (hall : ∀ y ∈ t, g_ascii_isspace y = false ∧ renv.url_is_domain y = true ∧ y ≠ 0)
    (hdot : 46 ∈ t) :
    rspamd_smtp_received_process_rdns renv (t ++ [32]) = some t := by
  have h1 : (t ++ [32]).takeWhile (fun b => !g_ascii_isspace b && renv.url_is_domain b) = t := by
    rw [List.takeWhile_append_of_pos (by
      intro y hy
      simp [(hall y hy).1, (hall y hy).2.1])]
    simp [List.takeWhile, g_ascii_isspace]
  have h2 : t.takeWhile (fun x => x != 0) = t := by
    rw [List.takeWhile_eq_self_iff]
    intro y hy
    simpa using (hall y hy).2.2
  have h3 : peek (t ++ [32]) t.length = 32 := peek_mid_head t [] 32
  unfold rspamd_smtp_received_process_rdns
  simp only [h1, h2, h3]
  rw [if_pos (List.length_pos.2 ht), if_neg (by simp),
    if_pos ⟨by simpa using hdot, Or.inl (by decide)⟩]

/-- The first occurrence of a byte that a prefix of the span does not hold. -/
theorem memchr_mid (u v : Bytes) (z : Nat) (hu : ∀ y ∈ u, y ≠ z) :
    memchr (u ++ z :: v) z = some u.length := by
  unfold memchr
  rw [if_pos (by simp)]
  rw [List.takeWhile_append_of_pos (by
    intro y hy
    simpa using hu y hy)]
  simp [List.takeWhile]

/-- The function `rspamd_smtp_received_process_host_tcpinfo` on a comment made of a host
name, one space and an address in square brackets: the address is parsed and the host name
is kept as `real_hostname`. -/
theorem host_tcpinfo_comment (renv : received_env) (rh : received_header) (r i a : Bytes)
    (hrn : r ≠ [])
    (hrall : ∀ y ∈ r, g_ascii_isspace y = false ∧ renv.url_is_domain y = true ∧ y ≠ 0 ∧ y ≠ 91)
    (hdot : 46 ∈ r) (hi93 : ∀ y ∈ i, y ≠ 93)
    (hparse : renv.parse_inet_address i = some a)
    (hcomm : g_ascii_isxdigit (peek r 0) = true →
      renv.parse_inet_address (r ++ 32 :: 91 :: (i ++ [93])) = none) :
    rspamd_smtp_received_process_host_tcpinfo renv rh (r ++ 32 :: 91 :: (i ++ [93]))
      = ({ received_set_addr renv rh a with real_hostname := some r }, true) := by
  obtain ⟨r0, rr, hr⟩ : ∃ r0 rr, r = r0 :: rr := by
    cases r with
    | nil => exact absurd rfl hrn
    | cons r0 rr => exact ⟨r0, rr, rfl⟩
  have hpk : peek (r ++ 32 :: 91 :: (i ++ [93])) 0 = peek r 0 := by rw [hr]; rfl
  have hne : peek r 0 ≠ 91 := by
    rw [hr]
    exact (hrall r0 (by rw [hr]; exact List.mem_cons_self _ _)).2.2.2
  have hfirst : (if g_ascii_isxdigit (peek (r ++ 32 :: 91 :: (i ++ [93])) 0) = true then
      renv.parse_inet_address (r ++ 32 :: 91 :: (i ++ [93])) else none) = none := by
    rw [hpk]
    split_ifs with c
    · exact hcomm c
    · rfl
  have hA : r ++ 32 :: 91 :: (i ++ [93]) = (r ++ [32]) ++ 91 :: (i ++ [93]) := by simp
  have hm1 : memchr (r ++ 32 :: 91 :: (i ++ [93])) 91 = some (r.length + 1) := by
    rw [hA, memchr_mid (r ++ [32]) (i ++ [93]) 91 (by
      intro y hy
      rcases List.mem_append.1 hy with h1 | h1
      · exact (hrall y h1).2.2.2
      · rw [List.mem_singleton.1 h1]; decide)]
    simp
  have hdrop : (r ++ 32 :: 91 :: (i ++ [93])).drop (r.length + 1) = 91 :: (i ++ [93]) := by
    rw [hA]
    have := List.drop_left (r ++ [32]) (91 :: (i ++ [93]))
    rw [List.length_append] at this
    exact this
  have hm2 : memchr (91 :: (i ++ [93])) 93 = some (i.length + 1) := by
    have := memchr_mid (91 :: i) [] 93 (by
      intro y hy
      rcases List.mem_cons.1 hy with h1 | h1
      · rw [h1]; decide
      · exact hi93 y h1)
    rw [List.length_cons] at this
    exact this
  have hsl : slice (r ++ 32 :: 91 :: (i ++ [93])) (r.length + 1 + 1) (r.length + 1 + (i.length + 1))
      = i := by
    have := slice_mid (r ++ [32, 91]) i [93]
    rw [List.length_append] at this
    have e : r ++ 32 :: 91 :: (i ++ [93]) = (r ++ [32, 91]) ++ (i ++ [93]) := by simp
    rw [e]
    have e2 : r.length + 1 + (i.length + 1) = r.length + [32, 91].length + i.length := by
      simp; omega
    rw [e2]
    exact this
  have htake : (r ++ 32 :: 91 :: (i ++ [93])).take (r.length + 1) = r ++ [32] := by
    rw [hA]
    have := List.take_left (r ++ [32]) (91 :: (i ++ [93]))
    rw [List.length_append] at this
    exact this
  have hrd := rdns_space renv r hrn
    (fun y hy => ⟨(hrall y hy).1, (hrall y hy).2.1, (hrall y hy).2.2.1⟩) hdot
  unfold rspamd_smtp_received_process_host_tcpinfo
  rw [if_neg (by rw [hpk]; exact hne)]
  simp only [hfirst, hm1, hdrop, hm2, hsl, hparse, htake, hrd]

/-- The function `rspamd_smtp_received_process_from` on a part whose data is a host name
and whose comment is a host name, one space and an address in square brackets. -/
theorem process_from_comment (renv : received_env) (rh : received_header) (hh r i a : Bytes)
    (hhn : hh ≠ [])
    (hhall : ∀ y ∈ hh, g_ascii_isspace y = false ∧ renv.url_is_domain y = true ∧ y ≠ 0)
    (hrn : r ≠ [])
    (hrall : ∀ y ∈ r, g_ascii_isspace y = false ∧ renv.url_is_domain y = true ∧ y ≠ 0 ∧ y ≠ 91)
    (hdot : 46 ∈ r) (hi93 : ∀ y ∈ i, y ≠ 93)
    (hparse : renv.parse_inet_address i = some a)
    (hcomm : g_ascii_isxdigit (peek r 0) = true →
      renv.parse_inet_address (r ++ 32 :: 91 :: (i ++ [93])) = none) :
    rspamd_smtp_received_process_from renv
        { type := rspamd_received_part_type.RSPAMD_RECEIVED_PART_FROM, data := some hh,
          comments := [r ++ 32 :: 91 :: (i ++ [93])] } rh
      = { rh with addr := some a, real_ip := some (renv.inet_address_to_string a),
                  from_ip := some (renv.inet_address_to_string a),
                  real_hostname := some r, from_hostname := some hh } := by
  have htc := host_tcpinfo_comment renv rh r i a hrn hrall hdot hi93 hparse hcomm
  have hrd := rdns_all renv hh hhn hhall
  have hdl : 0 < (hh.length) := List.length_pos.2 hhn
  unfold rspamd_smtp_received_process_from
  simp only [List.head?_cons, Option.getD_some, rspamd_received_part.dlen, gt_iff_lt, hdl,
    ↓reduceIte, List.length_append, List.length_cons, Nat.zero_lt_succ, Nat.add_pos_iff_pos_or_pos,
    or_true, htc, received_set_addr, hrd, reduceCtorEq, Bool.not_false, ne_eq, not_false_eq_true]

theorem host_byte_facts (b : Nat)
    (hb : (g_ascii_isalpha b || (48 ≤ b && b ≤ 57) || b == 45 || b == 46) = true) :
    b ≠ 40 ∧ b ≠ 41 ∧ b ≠ 59 ∧ g_ascii_isspace b = false
      ∧ g_ascii_isspace (lc_map b) = false ∧ lc_map b ≠ 0 ∧ lc_map b ≠ 91
      ∧ lc_map b ≠ 32 ∧ lc_map b ≠ 9 := by
  have hsp : g_ascii_isspace b = false := by
    simp only [g_ascii_isalpha, Bool.or_eq_true, Bool.and_eq_true, decide_eq_true_eq,
      beq_iff_eq] at hb
    simp only [g_ascii_isspace, Bool.or_eq_false_iff, beq_eq_false_iff_ne, ne_eq,
      Bool.and_eq_false_imp, decide_eq_true_eq, decide_eq_false_iff_not]
    omega
  have hlc : lc_map b = b ∨ (65 ≤ b ∧ b ≤ 90 ∧ lc_map b = b + 32) := by
    unfold lc_map g_ascii_tolower
    split_ifs with h
    · simp only [Bool.and_eq_true, decide_eq_true_eq] at h
      exact Or.inr ⟨h.1, h.2, rfl⟩
    · exact Or.inl rfl
  simp only [g_ascii_isalpha, Bool.or_eq_true, Bool.and_eq_true, decide_eq_true_eq,
    beq_iff_eq] at hb
  refine ⟨by omega, by omega, by omega, hsp, by rw [lc_map_space]; exact hsp, by omega,
    by omega, by omega, by omega⟩

theorem addr_byte_facts (b : Nat)
    (hb : (g_ascii_isxdigit b || b == 46 || b == 58) = true) :
    b ≠ 40 ∧ b ≠ 41 ∧ lc_map b ≠ 93 := by
  have hlc : lc_map b = b ∨ (65 ≤ b ∧ b ≤ 90 ∧ lc_map b = b + 32) := by
    unfold lc_map g_ascii_tolower
    split_ifs with h
    · simp only [Bool.and_eq_true, decide_eq_true_eq] at h
      exact Or.inr ⟨h.1, h.2, rfl⟩
    · exact Or.inl rfl
  simp only [g_ascii_isxdigit, Bool.or_eq_true, Bool.and_eq_true, decide_eq_true_eq,
    beq_iff_eq] at hb
  refine ⟨by omega, by omega, by omega⟩

theorem xdigit_lc_map (b : Nat) : g_ascii_isxdigit (lc_map b) = g_ascii_isxdigit b := by
  unfold lc_map g_ascii_tolower
  split_ifs with h
  · simp only [Bool.and_eq_true, decide_eq_true_eq] at h
    simp only [g_ascii_isxdigit]
    rw [Bool.eq_iff_iff]
    simp only [Bool.or_eq_true, Bool.and_eq_true, decide_eq_true_eq]
    omega
  · rfl

theorem hostname_bytes_parts {h : Bytes} (hh : hostname_bytes h = true) :
    h ≠ [] ∧ ∀ b ∈ h,
      (g_ascii_isalpha b || (48 ≤ b && b ≤ 57) || b == 45 || b == 46) = true := by
  simp only [hostname_bytes, Bool.and_eq_true, List.all_eq_true] at hh
  exact ⟨by simpa using hh.1, hh.2⟩

theorem address_bytes_parts {i : Bytes} (hi : address_bytes i = true) :
    i ≠ [] ∧ ∀ b ∈ i, (g_ascii_isxdigit b || b == 46 || b == 58) = true := by
  simp only [address_bytes, Bool.and_eq_true, List.all_eq_true] at hi
  exact ⟨by simpa using hi.1, hi.2⟩

/-- The lower-case form of a host name is made of host name characters of an environment
whose domain-character predicate accepts small letters, digits, `-` and `.`. -/
theorem hostname_lc_facts (renv : received_env) (h : Bytes) (hh : hostname_bytes h = true)
    (henv : ∀ b, (g_ascii_isalpha b || (48 ≤ b && b ≤ 57) || b == 45 || b == 46) = true →
      renv.url_is_domain (lc_map b) = true) :
    rspamd_str_lc h ≠ []
      ∧ ∀ y ∈ rspamd_str_lc h,
          g_ascii_isspace y = false ∧ renv.url_is_domain y = true ∧ y ≠ 0 ∧ y ≠ 91 := by
  obtain ⟨hne, hall⟩ := hostname_bytes_parts hh
  constructor
  · simpa [rspamd_str_lc] using hne
  · intro y hy
    simp only [rspamd_str_lc, List.mem_map] at hy
    obtain ⟨b, hb, rfl⟩ := hy
    have f := host_byte_facts b (hall b hb)
    exact ⟨f.2.2.2.2.1, henv b (hall b hb), f.2.2.2.2.2.1, f.2.2.2.2.2.2.1⟩

/-- The parser on a value whose parts are a `from` part with a host name as data and a
comment made of a host name and an address in square brackets, a `by` part with a host
name, and `with`, `for` or unknown parts behind them. -/
theorem parse_from_by (renv : received_env) (data : Bytes) (hh r i a bb : Bytes)
    (extra : List rspamd_received_part) (dp : Option Nat) (res : received_header)
    (hsp : rspamd_smtp_received_spill data = spill_outcome.head
      ({ type := rspamd_received_part_type.RSPAMD_RECEIVED_PART_FROM, data := some hh,
         comments := [r ++ 32 :: 91 :: (i ++ [93])] }
        :: { type := rspamd_received_part_type.RSPAMD_RECEIVED_PART_BY, data := some bb }
        :: extra) dp)
    (hextra : ∀ c ∈ extra, later_part c)
    (hhn : hh ≠ [])
    (hhall : ∀ y ∈ hh, g_ascii_isspace y = false ∧ renv.url_is_domain y = true ∧ y ≠ 0)
    (hrn : r ≠ [])
    (hrall : ∀ y ∈ r, g_ascii_isspace y = false ∧ renv.url_is_domain y = true ∧ y ≠ 0 ∧ y ≠ 91)
    (hdot : 46 ∈ r) (hi93 : ∀ y ∈ i, y ≠ 93)
    (hparse : renv.parse_inet_address i = some a)
    (hcomm : g_ascii_isxdigit (peek r 0) = true →
      renv.parse_inet_address (r ++ 32 :: 91 :: (i ++ [93])) = none)
    (hbn : bb ≠ [])
    (hball : ∀ y ∈ bb, g_ascii_isspace y = false ∧ renv.url_is_domain y = true ∧ y ≠ 0)
    (hret : rspamd_smtp_received_parse renv data {} = some (0, res)) :
    res.from_hostname = some hh ∧ res.real_hostname = some r
      ∧ res.real_ip = some (renv.inet_address_to_string a)
      ∧ res.from_ip = some (renv.inet_address_to_string a)
      ∧ res.addr = some a ∧ res.by_hostname = some bb := by
  have hfrom := process_from_comment renv { type := RSPAMD_RECEIVED_UNKNOWN } hh r i a hhn hhall
    hrn hrall hdot hi93 hparse hcomm
  have hby := rdns_all renv bb hbn hball
  obtain ⟨ty, fl, hfold⟩ := later_parts_effect renv extra
    { type := RSPAMD_RECEIVED_UNKNOWN, addr := some a,
      real_ip := some (renv.inet_address_to_string a),
      from_ip := some (renv.inet_address_to_string a),
      real_hostname := some r, from_hostname := some hh, by_hostname := some bb } hextra
  unfold rspamd_smtp_received_parse at hret
  rw [hsp] at hret
  simp only [List.foldl_cons, received_part_effect, hfrom, Option.getD_some, hby, hfold,
    Option.some.injEq, Prod.mk.injEq, true_and, ne_eq, reduceCtorEq, not_false_eq_true,
    and_false, and_true, ↓reduceIte, not_true_eq_false] at hret
  subst hret
  cases dp with
  | none => exact ⟨rfl, rfl, rfl, rfl, rfl, rfl⟩
  | some d =>
    simp only []
    split_ifs <;> exact ⟨rfl, rfl, rfl, rfl, rfl, rfl⟩

/-- Claim C22, counterexample.  The value `from Mail.Example.COM (Mail.Example.com
[192.0.2.1]) by Relay.example.org with ESMTPS` has host names with capital letters; the
parser stores them lower-cased, so `from_hostname`, `real_hostname` and `by_hostname` are
not the host names as they were written. -/
theorem C22_counterexample :
    (rspamd_smtp_received_parse sample_received_env
        (ascii "from Mail.Example.COM (Mail.Example.com [192.0.2.1]) by Relay.example.org with ESMTPS")
        {}).map (fun x => (x.1, x.2.from_hostname, x.2.real_hostname, x.2.by_hostname))
      = some (0, some (ascii "mail.example.com"), some (ascii "mail.example.com"),
          some (ascii "relay.example.org"))
    ∧ ascii "mail.example.com" ≠ ascii "Mail.Example.COM"
    ∧ ascii "mail.example.com" ≠ ascii "Mail.Example.com"
    ∧ ascii "relay.example.org" ≠ ascii "Relay.example.org" := by
  decide

/-- Claim C22, amended.  Let a value be written as `from H (R [I]) by B with` and any
further bytes, with single spaces as shown, where `H`, `R` and `B` are host names made of
letters, digits, `-` and `.`, `R` holds a dot, and `I` is made of hexadecimal digits, `.`
and `:`; let the domain-character predicate accept small letters, digits, `-` and `.`, let
the address parser accept the lower-cased `I`, and let it refuse the comment as a whole
when `R` starts with a hexadecimal digit.  Then, whenever the parser started on a zeroed
structure returns 0, `from_hostname`, `real_hostname` and `by_hostname` are the lower-cased
`H`, `R` and `B`, `addr` is the address parsed, and `real_ip` and `from_ip` are its textual
form. -/
theorem C22_lower_cased_hosts (renv : received_env) (H R I B rest a : Bytes)
    (res : received_header)
    (hH : hostname_bytes H = true) (hR : hostname_bytes R = true) (hRdot : 46 ∈ R)
    (hB : hostname_bytes B = true) (hI : address_bytes I = true)
    (henv : ∀ b, (g_ascii_isalpha b || (48 ≤ b && b ≤ 57) || b == 45 || b == 46) = true →
      renv.url_is_domain (lc_map b) = true)
    (hparse : renv.parse_inet_address (rspamd_str_lc I) = some a)
    (hcomm : g_ascii_isxdigit (peek R 0) = true →
      renv.parse_inet_address (rspamd_str_lc (R ++ ascii " [" ++ I ++ ascii "]")) = none)
    (hret : rspamd_smtp_received_parse renv
      (ascii "from " ++ H ++ ascii " (" ++ R ++ ascii " [" ++ I ++ ascii "]) by " ++ B
        ++ ascii " with" ++ rest) {} = some (0, res)) :
    res.from_hostname = some (rspamd_str_lc H)
      ∧ res.real_hostname = some (rspamd_str_lc R)
      ∧ res.real_ip = some (renv.inet_address_to_string a)
      ∧ res.from_ip = some (renv.inet_address_to_string a)
      ∧ res.addr = some a
      ∧ res.by_hostname = some (rspamd_str_lc B) := by
  obtain ⟨hHn, hHall⟩ := hostname_bytes_parts hH
  obtain ⟨hRn, hRall⟩ := hostname_bytes_parts hR
  obtain ⟨hBn, hBall⟩ := hostname_bytes_parts hB
  obtain ⟨hIn, hIall⟩ := address_bytes_parts hI
  obtain ⟨r0, rr, hr⟩ : ∃ r0 rr, R = r0 :: rr := by
    cases R with
    | nil => exact absurd rfl hRn
    | cons r0 rr => exact ⟨r0, rr, rfl⟩
  -- the value and the comment, byte by byte
  have edata : ascii "from " ++ H ++ ascii " (" ++ R ++ ascii " [" ++ I ++ ascii "]) by " ++ B
        ++ ascii " with" ++ rest
      = 102 :: 114 :: 111 :: 109 :: 32 :: (H ++ 32 :: 40 :: ((R ++ 32 :: 91 :: (I ++ [93]))
          ++ 41 :: 32 :: 98 :: 121 :: 32 :: (B ++ 32 :: 119 :: (105 :: 116 :: 104 :: rest)))) := by
    rw [show ascii "from " = [102, 114, 111, 109, 32] by decide,
      show ascii " (" = [32, 40] by decide, show ascii " [" = [32, 91] by decide,
      show ascii "]) by " = [93, 41, 32, 98, 121, 32] by decide,
      show ascii " with" = [32, 119, 105, 116, 104] by decide]
    simp
  have ecm : rspamd_str_lc (R ++ 32 :: 91 :: (I ++ [93]))
      = rspamd_str_lc R ++ 32 :: 91 :: (rspamd_str_lc I ++ [93]) := by
    simp only [rspamd_str_lc, List.map_append, List.map_cons, List.map_nil]
    rfl
  have ecm2 : rspamd_str_lc (R ++ ascii " [" ++ I ++ ascii "]")
      = rspamd_str_lc R ++ 32 :: 91 :: (rspamd_str_lc I ++ [93]) := by
    rw [← ecm, show ascii " [" = [32, 91] by decide, show ascii "]" = [93] by decide]
    simp
  have hstrip : rspamd_string_len_strip (rspamd_str_lc (R ++ 32 :: 91 :: (I ++ [93]))) [32, 9]
      = rspamd_str_lc R ++ 32 :: 91 :: (rspamd_str_lc I ++ [93]) := by
    rw [ecm]
    apply strip_ends
    · intro x hx
      rw [hr] at hx
      simp only [rspamd_str_lc, List.map_cons, List.cons_append, List.head?_cons,
        Option.some.injEq] at hx
      subst hx
      have f := host_byte_facts r0 (hRall r0 (by rw [hr]; exact List.mem_cons_self _ _))
      exact ⟨f.2.2.2.2.2.2.2.1, f.2.2.2.2.2.2.2.2⟩
    · intro x hx
      have e : rspamd_str_lc R ++ 32 :: 91 :: (rspamd_str_lc I ++ [93])
          = (rspamd_str_lc R ++ 32 :: 91 :: rspamd_str_lc I) ++ [93] := by simp
      rw [e, List.getLast?_concat] at hx
      simp only [Option.some.injEq] at hx
      subst hx
      decide
  -- the tokens as the part reader needs them
  have tokH : ∀ y ∈ H, y ≠ 40 ∧ g_ascii_isspace y = false ∧ y ≠ 59 := by
    intro y hy
    have f := host_byte_facts y (hHall y hy)
    exact ⟨f.1, f.2.2.2.1, f.2.2.1⟩
  have tokB : ∀ y ∈ B, y ≠ 40 ∧ g_ascii_isspace y = false ∧ y ≠ 59 := by
    intro y hy
    have f := host_byte_facts y (hBall y hy)
    exact ⟨f.1, f.2.2.2.1, f.2.2.1⟩
  have tokC : ∀ y ∈ R ++ 32 :: 91 :: (I ++ [93]), y ≠ 40 ∧ y ≠ 41 := by
    intro y hy
    simp only [List.mem_append, List.mem_cons, List.mem_singleton, List.not_mem_nil,
      or_false] at hy
    rcases hy with h1 | h1 | h1 | h1 | h1
    · have f := host_byte_facts y (hRall y h1)
      exact ⟨f.1, f.2.1⟩
    · rw [h1]; decide
    · rw [h1]; decide
    · have f := addr_byte_facts y (hIall y h1)
      exact ⟨f.1, f.2.1⟩
    · rw [h1]; decide
  -- the parts of the value
  obtain ⟨p, len, hspill⟩ := spill_from_by H (R ++ 32 :: 91 :: (I ++ [93])) B
    (105 :: 116 :: 104 :: rest) hHn tokH (by simp) tokC hBn tokB
  rw [hstrip] at hspill
  rw [edata] at hret
  have hhead : ∃ parts dp, rspamd_smtp_received_spill
      (102 :: 114 :: 111 :: 109 :: 32 :: (H ++ 32 :: 40 :: ((R ++ 32 :: 91 :: (I ++ [93]))
        ++ 41 :: 32 :: 98 :: 121 :: 32 :: (B ++ 32 :: 119 :: (105 :: 116 :: 104 :: rest)))))
      = spill_outcome.head parts dp := by
    unfold rspamd_smtp_received_parse at hret
    split at hret
    · simp at hret
    · simp at hret
    · rename_i parts dp hsp
      exact ⟨parts, dp, hsp⟩
  obtain ⟨parts, dp, hsp⟩ := hhead
  obtain ⟨extra, hparts, hextra⟩ := spill_loop_extends _ _ _ _ _ parts dp (hspill ▸ hsp)
  rw [hparts] at hsp
  obtain ⟨_, fH⟩ := hostname_lc_facts renv H hH henv
  obtain ⟨_, fR⟩ := hostname_lc_facts renv R hR henv
  obtain ⟨_, fB⟩ := hostname_lc_facts renv B hB henv
  exact parse_from_by renv _ (rspamd_str_lc H) (rspamd_str_lc R) (rspamd_str_lc I) a
    (rspamd_str_lc B) extra dp res hsp hextra
    (by simpa [rspamd_str_lc] using hHn)
    (fun y hy => ⟨(fH y hy).1, (fH y hy).2.1, (fH y hy).2.2.1⟩)
    (by simpa [rspamd_str_lc] using hRn) fR
    (by
      simp only [rspamd_str_lc, List.mem_map]
      exact ⟨46, hRdot, by decide⟩)
    (by
      intro y hy
      simp only [rspamd_str_lc, List.mem_map] at hy
      obtain ⟨b, hb, rfl⟩ := hy
      exact (addr_byte_facts b (hIall b hb)).2.2)
    hparse
    (by
      intro hx
      rw [← ecm2]
      apply hcomm
      rw [hr] at hx ⊢
      simp only [rspamd_str_lc, List.map_cons, peek, List.getD_cons_zero] at hx ⊢
      rw [xdigit_lc_map] at hx
      exact hx)
    (by simpa [rspamd_str_lc] using hBn)
    (fun y hy => ⟨(fB y hy).1, (fB y hy).2.1, (fB y hy).2.2.1⟩)
    hret

/-- The sample predicate accepts the lower-case form of every letter, digit, `-` and
`.`. -/
theorem sample_date_env_domain (b : Nat)
    (hb : (g_ascii_isalpha b || (48 ≤ b && b ≤ 57) || b == 45 || b == 46) = true) :
    sample_date_env.url_is_domain (lc_map b) = true := by
  have hlc : lc_map b = b ∨ (65 ≤ b ∧ b ≤ 90 ∧ lc_map b = b + 32) := by
    unfold lc_map g_ascii_tolower
    split_ifs with h
    · simp only [Bool.and_eq_true, decide_eq_true_eq] at h
      exact Or.inr ⟨h.1, h.2, rfl⟩
    · exact Or.inl rfl
  simp only [g_ascii_isalpha, Bool.or_eq_true, Bool.and_eq_true, decide_eq_true_eq,
    beq_iff_eq] at hb
  simp only [sample_date_env, sample_received_env, g_ascii_isalpha, Bool.or_eq_true,
    Bool.and_eq_true, decide_eq_true_eq, beq_iff_eq]
  omega

set_option maxRecDepth 8000 in
/-- Claim C22, witness: the example value of the specification.  The parser returns 0
with the type ESMTPS, the flag SSL and the time that the date parser gives for the text
behind the semicolon, and the host names and the address are those of the amended claim
(the value is written in small letters, so the lower-case forms are the forms written). -/
theorem C22_lower_cased_hosts_witness :
    rspamd_smtp_received_parse sample_date_env
        (ascii "from " ++ ascii "mail.example.com" ++ ascii " (" ++ ascii "mail.example.com"
          ++ ascii " [" ++ ascii "192.0.2.1" ++ ascii "]) by " ++ ascii "relay.example.org"
          ++ ascii " with" ++ ascii " ESMTPS id ABC; Tue, 1 Jan 2020 00:00:00 +0000") {}
      = some (0, { type := RSPAMD_RECEIVED_ESMTPS, flags := RSPAMD_RECEIVED_FLAG_SSL,
                   real_ip := some (ascii "192.0.2.1"), from_ip := some (ascii "192.0.2.1"),
                   addr := some (ascii "192.0.2.1"),
                   real_hostname := some (ascii "mail.example.com"),
                   from_hostname := some (ascii "mail.example.com"),
                   by_hostname := some (ascii "relay.example.org"),
                   timestamp := sample_date_env.parse_smtp_date
                     (ascii " Tue, 1 Jan 2020 00:00:00 +0000") })
    ∧ (some (ascii "mail.example.com") = some (rspamd_str_lc (ascii "mail.example.com"))
      ∧ some (ascii "mail.example.com") = some (rspamd_str_lc (ascii "mail.example.com"))
      ∧ some (ascii "192.0.2.1")
          = some (sample_date_env.inet_address_to_string (ascii "192.0.2.1"))
      ∧ some (ascii "192.0.2.1")
          = some (sample_date_env.inet_address_to_string (ascii "192.0.2.1"))
      ∧ some (ascii "192.0.2.1") = some (ascii "192.0.2.1")
      ∧ some (ascii "relay.example.org") = some (rspamd_str_lc (ascii "relay.example.org"))) :=
  ⟨by decide,
    C22_lower_cased_hosts sample_date_env (ascii "mail.example.com")
      (ascii "mail.example.com") (ascii "192.0.2.1") (ascii "relay.example.org")
      (ascii " ESMTPS id ABC; Tue, 1 Jan 2020 00:00:00 +0000") (ascii "192.0.2.1")
      { type := RSPAMD_RECEIVED_ESMTPS, flags := RSPAMD_RECEIVED_FLAG_SSL,
        real_ip := some (ascii "192.0.2.1"), from_ip := some (ascii "192.0.2.1"),
        addr := some (ascii "192.0.2.1"),
        real_hostname := some (ascii "mail.example.com"),
        from_hostname := some (ascii "mail.example.com"),
        by_hostname := some (ascii "relay.example.org"),
        timestamp := sample_date_env.parse_smtp_date
          (ascii " Tue, 1 Jan 2020 00:00:00 +0000") }
      (by decide) (by decide) (by decide) (by decide) (by decide)
      sample_date_env_domain (by decide) (by decide) (by decide)⟩

/-! ## Matching a host name against a certificate name (`ssl_util.c`) -/

theorem c_string_id (s : Bytes) (h : ∀ b ∈ s, b ≠ 0) : c_string s = s := by
  unfold c_string
  rw [List.takeWhile_eq_self_iff]
  intro b hb
  simpa using h b hb

/-- Claim C37.  Let `cert_name` and `name` be C strings (no NUL byte in them) that are not
equal without regard to case.  When `rspamd_tls_match_name` returns `TRUE`, the certificate
name is `*` followed by `D`, where `D` starts with a dot and holds at least two dots, and
the name is `L` followed by `D'`, where `L` is not empty and holds no dot and `D'` equals `D`
without regard to case: the wildcard stands for exactly one leftmost label. -/
theorem C37_wildcard_one_label (cert_name name : Bytes)
    (hc : ∀ b ∈ cert_name, b ≠ 0) (hn : ∀ b ∈ name, b ≠ 0)
    (hne : g_ascii_strcasecmp_eq cert_name name = false)
    (hm : rspamd_tls_match_name cert_name name = true) :
    ∃ D L D', cert_name = 42 :: D ∧ D.head? = some 46 ∧ 2 ≤ D.count 46
      ∧ name = L ++ D' ∧ L ≠ [] ∧ 46 ∉ L ∧ lc_name D' = lc_name D := by
  unfold rspamd_tls_match_name at hm
  rw [hne] at hm
  simp only [Bool.false_eq_true, ↓reduceIte] at hm
  by_cases h42 : peek cert_name 0 = 42
  swap
  · rw [if_neg h42] at hm
    exact absurd hm (by decide)
  rw [if_pos h42] at hm
  -- the certificate name is `*` and the rest
  obtain ⟨D, hD⟩ : ∃ D, cert_name = 42 :: D := by
    cases cert_name with
    | nil => simp [peek] at h42
    | cons x D =>
      simp only [peek, List.getD_cons_zero] at h42
      exact ⟨D, by rw [h42]⟩
  subst hD
  simp only [List.drop_succ_cons, List.drop_zero] at hm
  have hDn : ∀ b ∈ D, b ≠ 0 := fun b hb => hc b (List.mem_cons_of_mem _ hb)
  by_cases h0 : peek D 0 = 0
  · rw [if_pos h0] at hm
    exact absurd hm (by decide)
  rw [if_neg h0] at hm
  by_cases h46 : peek D 0 ≠ 46
  · rw [if_pos h46] at hm
    exact absurd hm (by decide)
  rw [if_neg h46] at hm
  by_cases h1 : peek D 1 = 46
  · rw [if_pos h1] at hm
    exact absurd hm (by decide)
  rw [if_neg h1] at hm
  obtain ⟨D1, hD1⟩ : ∃ D1, D = 46 :: D1 := by
    cases D with
    | nil => simp [peek] at h0
    | cons x D1 =>
      simp only [peek, List.getD_cons_zero, ne_eq, Decidable.not_not] at h46
      exact ⟨D1, by rw [h46]⟩
  subst hD1
  simp only [List.drop_succ_cons, List.drop_zero] at hm
  have hD1n : ∀ b ∈ D1, b ≠ 0 := fun b hb => hDn b (List.mem_cons_of_mem _ hb)
  cases hnd : strchr D1 46 with
  | none =>
    rw [hnd] at hm
    simp only [] at hm
    exact absurd hm (by decide)
  | some next_dot =>
    rw [hnd] at hm
    simp only [] at hm
    by_cases h2 : peek next_dot 1 = 46
    · rw [if_pos h2] at hm
      exact absurd hm (by decide)
    rw [if_neg h2] at hm
    by_cases h3 : peek name 0 = 46
    · rw [if_pos h3] at hm
      exact absurd hm (by decide)
    rw [if_neg h3] at hm
    cases hdom : strchr name 46 with
    | none =>
      rw [hdom] at hm
      simp only [] at hm
      exact absurd hm (by decide)
    | some domain =>
      rw [hdom] at hm
      simp only [] at hm
      by_cases h4 : strlen domain = 1
      · rw [if_pos h4] at hm
        exact absurd hm (by decide)
      rw [if_neg h4] at hm
      by_cases h5 : g_ascii_strcasecmp_eq (46 :: D1) domain = true
      swap
      · rw [if_neg h5] at hm
        exact absurd hm (by decide)
      -- the second dot of the certificate name
      have hdot2 : 46 ∈ D1 := by
        unfold strchr at hnd
        rw [c_string_id D1 hD1n] at hnd
        by_cases hcnt : D1.contains 46 = true
        · simpa using hcnt
        · rw [if_neg hcnt] at hnd
          exact absurd hnd (by simp)
      -- the name and its first dot
      unfold strchr at hdom
      rw [c_string_id name hn] at hdom
      by_cases hcnt : name.contains 46 = true
      swap
      · rw [if_neg hcnt] at hdom
        exact absurd hdom (by simp)
      rw [if_pos hcnt] at hdom
      simp only [Option.some.injEq] at hdom
      have hsplit : name = name.takeWhile (fun b => b != 46) ++ domain := by
        rw [← hdom]
        exact (List.takeWhile_append_dropWhile _ _).symm
      have hdn : ∀ b ∈ domain, b ≠ 0 := by
        intro b hb
        rw [← hdom] at hb
        exact hn b ((List.dropWhile_sublist _).mem hb)
      refine ⟨46 :: D1, name.takeWhile (fun b => b != 46), domain, rfl, rfl, ?_, hsplit, ?_, ?_, ?_⟩
      · have : 0 < D1.count 46 := List.count_pos_iff.2 hdot2
        simp only [List.count_cons_self]
        omega
      · intro he
        cases name with
        | nil => simp at hcnt
        | cons x r =>
          simp only [peek, List.getD_cons_zero] at h3
          rw [List.takeWhile_cons_of_pos (by simpa using h3)] at he
          exact List.cons_ne_nil _ _ he
      · intro hmem
        have := List.mem_takeWhile_imp hmem
        simp at this
      · unfold g_ascii_strcasecmp_eq at h5
        rw [c_string_id _ hDn, c_string_id _ hdn] at h5
        exact (beq_iff_eq.1 h5).symm

/-- Claim C37, witness: `*.example.com` matches `Mail.Example.COM`, with the label `Mail`
for the wildcard; it matches neither `example.com` nor `a.b.example.com`, and the
certificate names `*`, `*foo`, `*.tld` and `*..x` match none of the sample names. -/
theorem C37_wildcard_one_label_witness :
    (∃ D L D', ascii "*.example.com" = 42 :: D ∧ D.head? = some 46 ∧ 2 ≤ D.count 46
      ∧ ascii "Mail.Example.COM" = L ++ D' ∧ L ≠ [] ∧ 46 ∉ L ∧ lc_name D' = lc_name D)
    ∧ rspamd_tls_match_name (ascii "*.example.com") (ascii "example.com") = false
    ∧ rspamd_tls_match_name (ascii "*.example.com") (ascii "a.b.example.com") = false
    ∧ rspamd_tls_match_name (ascii "*") (ascii "example.com") = false
    ∧ rspamd_tls_match_name (ascii "*foo") (ascii "xfoo") = false
    ∧ rspamd_tls_match_name (ascii "*.tld") (ascii "a.tld") = false
    ∧ rspamd_tls_match_name (ascii "*..x") (ascii "a..x") = false :=
  ⟨C37_wildcard_one_label (ascii "*.example.com") (ascii "Mail.Example.COM")
      (by decide) (by decide) (by decide) (by decide),
    by decide, by decide, by decide, by decide, by decide, by decide⟩

/-! ## The sanity pass of the decoder -/

theorem sanity_check_eq_map (str : Bytes) :
    rspamd_mime_header_sanity_check str = str.map sanity_byte := by
  unfold rspamd_mime_header_sanity_check
  apply List.map_congr_left
  intro t _
  unfold sanity_byte
  by_cases h1 : t = 9 ∨ t = 10 ∨ t = 12 ∨ t = 13
  · rw [if_pos h1]
    have e1 : (!(decide (t ≥ 128) || g_ascii_isgraph t)) = true := by
      simp only [g_ascii_isgraph, Bool.not_eq_true', Bool.or_eq_false_iff, decide_eq_false_iff_not,
        Bool.and_eq_false_imp, decide_eq_true_eq]
      omega
    have e2 : g_ascii_isspace t = true := by
      simp only [g_ascii_isspace, Bool.or_eq_true, beq_iff_eq]
      omega
    rw [if_pos e1, if_pos e2]
  · rw [if_neg h1]
    by_cases h2 : t < 32 ∨ t = 127
    · rw [if_pos h2]
      have e1 : (!(decide (t ≥ 128) || g_ascii_isgraph t)) = true := by
        simp only [g_ascii_isgraph, Bool.not_eq_true', Bool.or_eq_false_iff,
          decide_eq_false_iff_not, Bool.and_eq_false_imp, decide_eq_true_eq]
        omega
      have e2 : ¬ g_ascii_isspace t = true := by
        simp only [g_ascii_isspace, Bool.or_eq_true, beq_iff_eq]
        omega
      rw [if_pos e1, if_neg e2]
    · rw [if_neg h2]
      by_cases h3 : t = 32
      · subst h3
        rfl
      · have e1 : ¬ (!(decide (t ≥ 128) || g_ascii_isgraph t)) = true := by
          simp only [g_ascii_isgraph, Bool.not_eq_true', Bool.or_eq_false_iff,
            decide_eq_false_iff_not, Bool.and_eq_false_imp, decide_eq_true_eq]
          omega
        rw [if_neg e1]

theorem sanity_byte_range (t : Nat) :
    128 ≤ sanity_byte t ∨ g_ascii_isgraph (sanity_byte t) = true ∨ sanity_byte t = 32 := by
  unfold sanity_byte
  split_ifs with h1 h2
  · exact Or.inr (Or.inr rfl)
  · exact Or.inr (Or.inl (by decide))
  · by_cases h3 : 128 ≤ t
    · exact Or.inl h3
    · by_cases h4 : t = 32
      · exact Or.inr (Or.inr h4)
      · refine Or.inr (Or.inl ?_)
        simp only [g_ascii_isgraph, Bool.and_eq_true, decide_eq_true_eq]
        omega

theorem sanity_byte_idem (t : Nat) : sanity_byte (sanity_byte t) = sanity_byte t := by
  unfold sanity_byte
  split_ifs <;> first | rfl | omega

theorem sanity_byte_eq_spec (t : Nat) (h : t ≠ 11) : sanity_byte t = sanity_byte_spec t := by
  unfold sanity_byte sanity_byte_spec
  by_cases h1 : t = 9 ∨ t = 10 ∨ t = 12 ∨ t = 13
  · have h2 : t = 9 ∨ t = 10 ∨ t = 11 ∨ t = 12 ∨ t = 13 := by omega
    rw [if_pos h1, if_pos h2]
  · have h2 : ¬ (t = 9 ∨ t = 10 ∨ t = 11 ∨ t = 12 ∨ t = 13) := by omega
    rw [if_neg h1, if_neg h2]

/-- The string that the decoder returns is the sanity pass of the string it built. -/
theorem decode_is_sanity (env : Env) (inp out : Bytes) (fl : Bool)
    (h : rspamd_mime_header_decode env inp = some (out, fl)) :
    ∃ str, out = rspamd_mime_header_sanity_check str := by
  unfold rspamd_mime_header_decode at h
  simp only [] at h
  split_ifs at h
  simp only [Option.some.injEq, Prod.mk.injEq] at h
  exact ⟨_, h.1.symm⟩

/-- Claim C35, counterexample.  The sanity pass sends the vertical tab (byte 11) to `?`,
where the map of the claim sends it to a space: `g_ascii_isspace` of glib does not hold of
the vertical tab.  The decoder returns `a?b` for the text `a`, VT, `b`. -/
theorem C35_counterexample :
    rspamd_mime_header_sanity_check [11] = [63]
    ∧ [11].map sanity_byte_spec = [32]
    ∧ g_ascii_isspace 11 = false
    ∧ rspamd_mime_header_decode plain_env [97, 11, 98] = some (ascii "a?b", false) := by
  refine ⟨by decide, by decide, by decide, by decide⟩

/-- Claim C35, amended.  Every byte of the string that `rspamd_mime_header_decode` returns
is a byte above 0x7F, a graphic ASCII byte or the space; and
`rspamd_mime_header_sanity_check` is the bytewise map that sends TAB, LF, FF and CR to a
space, every other ASCII byte that is neither graphic nor the space (NUL, DEL and the
vertical tab among them) to `?`, and keeps every other byte; it keeps the length and is
idempotent.  The map is the one of the claim at every byte but the vertical tab. -/
theorem C35_sanity_pass (env : Env) (inp out str : Bytes) (fl : Bool)
    (h : rspamd_mime_header_decode env inp = some (out, fl)) :
    (∀ b ∈ out, 128 ≤ b ∨ g_ascii_isgraph b = true ∨ b = 32)
    ∧ rspamd_mime_header_sanity_check str = str.map sanity_byte
    ∧ (rspamd_mime_header_sanity_check str).length = str.length
    ∧ rspamd_mime_header_sanity_check (rspamd_mime_header_sanity_check str)
        = rspamd_mime_header_sanity_check str
    ∧ (∀ t, t ≠ 11 → sanity_byte t = sanity_byte_spec t)
    ∧ sanity_byte 11 = 63 ∧ sanity_byte 0 = 63 ∧ sanity_byte 127 = 63 ∧ sanity_byte 32 = 32 := by
  refine ⟨?_, sanity_check_eq_map str, ?_, ?_, sanity_byte_eq_spec, rfl, rfl, rfl, rfl⟩
  · obtain ⟨s0, hs⟩ := decode_is_sanity env inp out fl h
    intro b hb
    rw [hs, sanity_check_eq_map, List.mem_map] at hb
    obtain ⟨t, _, rfl⟩ := hb
    exact sanity_byte_range t
  · rw [sanity_check_eq_map, List.length_map]
  · rw [sanity_check_eq_map, sanity_check_eq_map, List.map_map]
    apply List.map_congr_left
    intro t _
    exact sanity_byte_idem t

/-- Claim C35, witness: the text `a`, TAB, VT, `b`, NUL, DEL is returned as `a ?b??`. -/
theorem C35_sanity_pass_witness :
    rspamd_mime_header_decode plain_env [97, 9, 11, 98, 0, 127] = some (ascii "a ?b??", false)
    ∧ ((∀ b ∈ ascii "a ?b??", 128 ≤ b ∨ g_ascii_isgraph b = true ∨ b = 32)
      ∧ rspamd_mime_header_sanity_check [97, 9, 11, 98, 0, 127]
          = [97, 9, 11, 98, 0, 127].map sanity_byte
      ∧ (rspamd_mime_header_sanity_check [97, 9, 11, 98, 0, 127]).length
          = [97, 9, 11, 98, 0, 127].length
      ∧ rspamd_mime_header_sanity_check
          (rspamd_mime_header_sanity_check [97, 9, 11, 98, 0, 127])
          = rspamd_mime_header_sanity_check [97, 9, 11, 98, 0, 127]
      ∧ (∀ t, t ≠ 11 → sanity_byte t = sanity_byte_spec t)
      ∧ sanity_byte 11 = 63 ∧ sanity_byte 0 = 63 ∧ sanity_byte 127 = 63
      ∧ sanity_byte 32 = 32) :=
  ⟨by decide,
    C35_sanity_pass plain_env [97, 9, 11, 98, 0, 127] (ascii "a ?b??") [97, 9, 11, 98, 0, 127]
      false (by decide)⟩

/-! ## The last header of an input without a final line break -/

/-- Claim C31, the code at the failing inputs.  On `A: bc` without a final line break the
value and the decoded value are `b`: state 3 leaves for state 4 on the last byte (`p + 1 ==
end`) without walking over it, and state 4 copies the bytes before `p` only, while it does
count the last byte into `raw_len`.  The same input ended by LF yields `bc`.  In the same
way `A: b`, LF, space, `c` yields `b`, not `b c`, and `A: b` yields the empty value. -/
theorem C31_last_byte_lost :
    (rspamd_mime_headers_process plain_env {} [] [] (ascii "A: bc") true).order.map
        (fun h => (h.name, h.value, h.decoded, h.raw_len))
      = [(ascii "A", ascii "b", ascii "b", 5)]
    ∧ (rspamd_mime_headers_process plain_env {} [] [] (ascii "A: bc\n") true).order.map
        (fun h => (h.name, h.value, h.decoded, h.raw_len))
      = [(ascii "A", ascii "bc", ascii "bc", 6)]
    ∧ (rspamd_mime_headers_process plain_env {} [] [] (ascii "A: b\n c") true).order.map
        (fun h => (h.name, h.value, h.decoded))
      = [(ascii "A", ascii "b", ascii "b")]
    ∧ (rspamd_mime_headers_process plain_env {} [] [] (ascii "A: b\n c\n") true).order.map
        (fun h => (h.name, h.value, h.decoded))
      = [(ascii "A", ascii "b c", ascii "b c")]
    ∧ (rspamd_mime_headers_process plain_env {} [] [] (ascii "A: b") true).order.map
        (fun h => (h.name, h.value, h.decoded))
      = [(ascii "A", [], [])] := by
  refine ⟨by decide, by decide, by decide, by decide, by decide⟩

/-! ## An encoded word followed by text that looks like the start of another one -/

/-- Claim C34, the code at the failing input.  The word `=?utf-8?Q?a?=` decodes to `a`,
and `=?a?x?c?=` is no encoded word (the encoding `x` is unknown) and decodes to itself.
For the two written with one space between them the decoder returns `a=?a?x?c?=`: on the
bytes `=?` state `skip_spaces` moves `c` to `p` before it is known whether an encoded word
follows, so the space is given up although what follows is not an encoded word.  Text
that does not start with `=?` keeps the space: `=?utf-8?Q?a?= b` gives `a b`. -/
theorem C34_space_lost_before_malformed_word :
    rspamd_mime_header_decode sample_env (ascii "=?utf-8?Q?a?=") = some (ascii "a", false)
    ∧ rspamd_mime_header_decode sample_env (ascii "=?a?x?c?=") = some (ascii "=?a?x?c?=", false)
    ∧ sample_env.rfc2047_parse (ascii "=?a?x?c?=") = none
    ∧ rspamd_mime_header_decode sample_env (ascii "=?utf-8?Q?a?= =?a?x?c?=")
        = some (ascii "a=?a?x?c?=", false)
    ∧ rspamd_mime_header_decode sample_env (ascii "=?utf-8?Q?a?= b")
        = some (ascii "a b", false) := by
  decide

/-- Claim C36, the code at the failing input.  The word `=?utf-8?Q?a?=` decodes to `a`.
Followed by a space and the unterminated start `=?x`, the decoder returns `=?x` alone: the
loop ends in state `got_encoded_start`, and the leftover switch flushes the pending token
in state `skip_spaces` only, so the decoded byte `a` is dropped.  The same happens without
the space. -/
theorem C36_decoded_word_dropped :
    rspamd_mime_header_decode sample_env (ascii "=?utf-8?Q?a?=") = some (ascii "a", false)
    ∧ rspamd_mime_header_decode sample_env (ascii "=?utf-8?Q?a?= =?x")
        = some (ascii "=?x", false)
    ∧ rspamd_mime_header_decode sample_env (ascii "=?utf-8?Q?a?==?x")
        = some (ascii "=?x", false)
    ∧ ¬ (ascii "a").isPrefixOf (ascii "=?x") = true := by
  decide

/-! ## White space around the value -/

/-- The emission of a header leaves the queue as it is, when the process aborts, or adds
the header that is stored for it. -/
theorem hdr_emit_value (env : Env) (inp : Bytes) (cn : Bool) (s : hdr_state)
    (nh : rspamd_mime_header) (hv : value_ok inp nh) :
    (hdr_emit env cn s nh).order = s.order
    ∨ ∃ nh2, value_ok inp nh2
        ∧ (hdr_emit env cn s nh).order = s.order ++ [stored_header env s.task nh2 cn] := by
  rcases hdr_emit_effect env cn s nh with he | ⟨r, hr, he⟩
  · left; rw [he]
  · right
    refine ⟨{ nh with order := s.norder }, hv, ?_⟩
    rw [he]
    exact header_add_order _ _ _ _ _ _ r hr

theorem hdr_step_value (env : Env) (inp : Bytes) (cn : Bool) (s : hdr_state) :
    (hdr_step env inp cn s).order = s.order
    ∨ ∃ fl nh, value_ok inp nh
        ∧ (hdr_step env inp cn s).order
            = s.order ++ [stored_header env { s.task with flags := fl } nh cn] := by
  unfold hdr_step
  split_ifs
  · left; unfold hdr_case_0; split_ifs <;> rfl
  · left; unfold hdr_case_1; simp only []; split_ifs <;> rfl
  · left; unfold hdr_case_2; simp only []; split_ifs <;> rfl
  · left; unfold hdr_case_3; simp only []; split_ifs <;> rfl
  · unfold hdr_case_4
    simp only []
    split
    · left; rfl
    · rename_i decoded broken _
      cases broken
      · refine (hdr_emit_value env inp cn _ _ (Or.inr ⟨s.c, s.p, rfl⟩)).imp id ?_
        rintro ⟨nh2, hv, h⟩
        exact ⟨s.task.flags, nh2, hv, h⟩
      · refine (hdr_emit_value env inp cn _ _ (Or.inr ⟨s.c, s.p, rfl⟩)).imp id ?_
        rintro ⟨nh2, hv, h⟩
        exact ⟨_, nh2, hv, h⟩
  · unfold hdr_case_5
    refine (hdr_emit_value env inp cn _ _ (Or.inl rfl)).imp id ?_
    rintro ⟨nh2, hv, h⟩
    exact ⟨s.task.flags, nh2, hv, h⟩
  · left; unfold hdr_case_99; simp only []; split_ifs <;> rfl
  · left; unfold hdr_case_100; simp only []; split_ifs <;> rfl
  · left; rfl

theorem value_inv_step (env : Env) (inp : Bytes) (cn : Bool) (s : hdr_state)
    (h : ∀ x ∈ s.order, value_ok inp x) :
    ∀ x ∈ (hdr_step env inp cn s).order, value_ok inp x := by
  rcases hdr_step_value env inp cn s with ho | ⟨fl, nh, hv, ho⟩
  · rw [ho]; exact h
  · rw [ho]
    intro x hx
    rcases List.mem_append.mp hx with hx | hx
    · exact h x hx
    · rw [List.mem_singleton] at hx
      rw [hx, stored_header_eq]
      exact hv

theorem process_value (env : Env) (task : rspamd_task) (inp : Bytes) (cn : Bool) :
    ∀ x ∈ (rspamd_mime_headers_process env task [] [] inp cn).order, value_ok inp x := by
  rw [(process_order env task [] [] inp cn).1]
  exact hdr_loop_induct env inp cn (fun s => ∀ x ∈ s.order, value_ok inp x)
    (value_inv_step env inp cn) _ _ (by intro x hx; cases hx)

theorem strip_initial_head (t : Bytes) (b : Nat)
    (h : (strip_initial_spaces t).head? = some b) : g_ascii_isspace b = false := by
  unfold strip_initial_spaces at h
  induction t with
  | nil => cases h
  | cons a t ih =>
    rw [List.dropWhile_cons] at h
    by_cases ha : g_ascii_isspace a = true
    · rw [if_pos ha] at h; exact ih h
    · rw [if_neg ha] at h
      simp only [List.head?_cons, Option.some.injEq] at h
      rw [← h]
      simpa using ha

theorem strip_last_length (t : Bytes) :
    (strip_last_space t).length + 1 ≥ t.length ∧ (strip_last_space t) <+: t := by
  unfold strip_last_space
  split_ifs
  · refine ⟨?_, List.dropLast_prefix t⟩
    rw [List.length_dropLast]; omega
  · exact ⟨Nat.le_succ _, List.prefix_refl t⟩

/-- Claim C33, counterexample.  For the input `A: b `, LF, `C: d`, LF the value of the
first header is `b ` and ends with the space of the input: the line break is copied as
one more space, and one final space is given up. -/
theorem C33_counterexample :
    (rspamd_mime_headers_process plain_env {} [] [] (ascii "A: b \nC: d\n") true).order.map
        (fun h => (h.name, h.value))
      = [(ascii "A", ascii "b "), (ascii "C", ascii "d")]
    ∧ (ascii "b ").getLast? = some 32
    ∧ header_value (ascii "b \n") = ascii "b " := by
  refine ⟨by decide, by decide, by decide⟩

/-- Claim C33, amended.  For every input, the value of a stored header is empty or made
from a range of the input in three steps: the copy loop writes the range with every
folding as one space, then at most one final space is given up, then all white space at
the begin is skipped.  Hence a value never begins with a byte that `g_ascii_isspace` takes
for white space (space, TAB, LF, FF, CR; a vertical tab is none and may lead), while of the
spaces at its end one only is removed. -/
theorem C33_value_stripping (env : Env) (task : rspamd_task) (inp : Bytes) (cn : Bool) :
    ∀ h ∈ (rspamd_mime_headers_process env task [] [] inp cn).order,
      (∀ b, h.value.head? = some b → g_ascii_isspace b = false)
      ∧ (h.value = [] ∨ ∃ c p t,
          h.value = t.dropWhile g_ascii_isspace
          ∧ t <+: value_copy 0 (slice inp c p)
          ∧ (value_copy 0 (slice inp c p)).length ≤ t.length + 1
          ∧ (t = value_copy 0 (slice inp c p)
              ↔ (value_copy 0 (slice inp c p)).getLast? ≠ some 32)) := by
  intro h hh
  rcases process_value env task inp cn h hh with hv | ⟨c, p, hv⟩
  · refine ⟨?_, Or.inl hv⟩
    intro b hb; rw [hv] at hb; cases hb
  · refine ⟨?_, Or.inr ⟨c, p, strip_last_space (value_copy 0 (slice inp c p)), hv,
      (strip_last_length _).2, (strip_last_length _).1, ?_⟩⟩
    · intro b hb
      rw [hv] at hb
      exact strip_initial_head _ b hb
    · unfold strip_last_space
      split_ifs with hl
      · constructor
        · intro he
          exfalso
          have := congrArg List.length he
          rw [List.length_dropLast] at this
          cases hc : value_copy 0 (slice inp c p) with
          | nil => rw [hc] at hl; cases hl
          | cons a t => rw [hc] at this; simp at this
        · intro hne; exact absurd hl hne
      · exact ⟨fun _ => hl, fun _ => rfl⟩

/-- Claim C33, witness: of `A:  b `, LF, `C: d`, LF the first value is `b `, both leading
spaces skipped and the space before the line break kept; of `A: `, a vertical tab, `b`, LF
the value keeps the vertical tab. -/
theorem C33_value_stripping_witness :
    (rspamd_mime_headers_process plain_env {} [] [] (ascii "A:  b \nC: d\n") true).order.map
        (fun h => h.value) = [ascii "b ", ascii "d"]
    ∧ (rspamd_mime_headers_process plain_env {} [] [] [65, 58, 32, 11, 98, 10] true).order.map
        (fun h => h.value) = [[11, 98]]
    ∧ ((∀ b, (ascii "b ").head? = some b → g_ascii_isspace b = false)
      ∧ (ascii "b " = [] ∨ ∃ c p t,
          ascii "b " = t.dropWhile g_ascii_isspace
          ∧ t <+: value_copy 0 (slice (ascii "A:  b \nC: d\n") c p)
          ∧ (value_copy 0 (slice (ascii "A:  b \nC: d\n") c p)).length ≤ t.length + 1
          ∧ (t = value_copy 0 (slice (ascii "A:  b \nC: d\n") c p)
              ↔ (value_copy 0 (slice (ascii "A:  b \nC: d\n") c p)).getLast? ≠ some 32))) :=
  ⟨by decide, by decide,
   C33_value_stripping plain_env {} (ascii "A:  b \nC: d\n") true
     { name := ascii "A", value := ascii "b ", decoded := ascii "b ", separator := some (ascii "  "),
       raw_value := 0, raw_len := 7, order := 0 } (by decide)⟩

/-! ## A skipped line before a header block -/

theorem peek_shift (pre inp : Bytes) (j : Nat) :
    peek (pre ++ inp) (j + pre.length) = peek inp j := by
  rw [Nat.add_comm]; exact peek_append_right pre inp j

theorem peek_shift1 (pre inp : Bytes) (j : Nat) :
    peek (pre ++ inp) (j + pre.length + 1) = peek inp (j + 1) := by
  rw [show j + pre.length + 1 = pre.length + (j + 1) by omega]
  exact peek_append_right pre inp (j + 1)

theorem len_shift (pre inp : Bytes) (j : Nat) :
    (j + pre.length + 1 = (pre ++ inp).length) = (j + 1 = inp.length) := by
  rw [List.length_append]
  exact propext ⟨fun h => by omega, fun h => by omega⟩

theorem len_sub_shift (pre inp : Bytes) (j : Nat) :
    (pre ++ inp).length - (j + pre.length) = inp.length - j := by
  rw [List.length_append]; omega

theorem slice_shift (pre inp : Bytes) (c j : Nat) :
    slice (pre ++ inp) (c + pre.length) (j + pre.length) = slice inp c j := by
  unfold slice
  rw [Nat.add_sub_add_right, Nat.add_comm c, ← List.drop_drop, List.drop_left]

theorem shift_raw_value (k : Nat) (h : rspamd_mime_header) :
    (shift_hdr k h).raw_value = h.raw_value + k := rfl

theorem check_special_shift (env : Env) (task : rspamd_task) (rh : rspamd_mime_header)
    (k : Nat) :
    rspamd_mime_header_check_special env task (shift_hdr k rh)
      = (rspamd_mime_header_check_special env task rh).map
          (fun r => (r.1, shift_hdr k r.2)) := by
  unfold rspamd_mime_header_check_special
  rw [show (shift_hdr k rh).name = rh.name from rfl]
  generalize rspamd_icase_hash rh.name = h
  dsimp only
  by_cases h1 : h = 0x88705DC4D9D61AB
  · simp only [if_pos h1]
    rw [show (shift_hdr k rh).decoded = rh.decoded from rfl,
      show (shift_hdr k rh).order = rh.order from rfl]
    generalize rspamd_smtp_received_parse env.received rh.decoded { hdr := rh.order } = pr
    cases pr with
    | none => rfl
    | some x => simp only [Option.map_some']; dsimp only [shift_hdr]
  simp only [if_neg h1]
  by_cases h2 : h = 0x76F31A09F4352521
  · simp only [if_pos h2, Option.map_some']; dsimp only [shift_hdr]
  simp only [if_neg h2]
  by_cases h3 : h = 0x7EB117C1480B76
  · simp only [if_pos h3, Option.map_some']; dsimp only [shift_hdr]
  simp only [if_neg h3]
  by_cases h4 : h = 0xE4923E11C4989C8D
  · simp only [if_pos h4, Option.map_some']; dsimp only [shift_hdr]
  simp only [if_neg h4]
  by_cases h5 : h = 0x41E1985EDC1CBDE4
  · simp only [if_pos h5, Option.map_some']; dsimp only [shift_hdr]
  simp only [if_neg h5]
  by_cases h6 : h = 0x43A558FC7C240226
  · simp only [if_pos h6, Option.map_some']; dsimp only [shift_hdr]
  simp only [if_neg h6]
  by_cases h7 : h = 0xB91D3910358E8212
  · simp only [if_pos h7, Option.map_some']; dsimp only [shift_hdr]
  simp only [if_neg h7]
  by_cases h8 : h = 0xEE4AA2EAAC61D6F4
  · simp only [if_pos h8, Option.map_some']; dsimp only [shift_hdr]
  simp only [if_neg h8]
  by_cases h9 : h = 0xB9EEFAD2E93C2161
  · simp only [if_pos h9, Option.map_some']; dsimp only [shift_hdr]
  simp only [if_neg h9]
  split <;> simp only [Option.map_some']
  dsimp only [shift_hdr]

theorem header_add_shift (env : Env) (task : rspamd_task) (target target1 : HeaderTable)
    (order : List rspamd_mime_header) (rh : rspamd_mime_header) (cn : Bool) (k : Nat) :
    (rspamd_mime_header_add env task target1 (order.map (shift_hdr k)) (shift_hdr k rh) cn).map
        (fun r => (r.1, r.2.2))
      = (rspamd_mime_header_add env task target order rh cn).map
        (fun r => (r.1, r.2.2.map (shift_hdr k))) := by
  unfold rspamd_mime_header_add
  cases cn
  · simp
  · simp only [if_true, check_special_shift]
    cases rspamd_mime_header_check_special env task rh with
    | none => rfl
    | some r => simp

theorem emit_rel (env : Env) (cn : Bool) (k : Nat) (s t : hdr_state)
    (nh nh2 : rspamd_mime_header) (hnh2 : nh2 = shift_hdr k nh) (hrel : line_rel k s t) :
    line_rel k (hdr_emit env cn s nh) (hdr_emit env cn t nh2) := by
  subst hnh2
  obtain ⟨hp, hst, htask, hno, hab, hvf, hes, hord, hc, hnh0, hnh1⟩ := hrel
  have hsh : ({ shift_hdr k nh with order := t.norder } : rspamd_mime_header)
      = shift_hdr k { nh with order := s.norder } := by rw [hno]; rfl
  have ha : (rspamd_mime_header_add env t.task t.target t.order
        { shift_hdr k nh with order := t.norder } cn).map (fun r => (r.1, r.2.2))
      = (rspamd_mime_header_add env s.task s.target s.order { nh with order := s.norder }
          cn).map (fun r => (r.1, r.2.2.map (shift_hdr k))) := by
    rw [htask, hord, hsh]
    exact header_add_shift env s.task s.target t.target s.order { nh with order := s.norder }
      cn k
  cases h1 : rspamd_mime_header_add env s.task s.target s.order { nh with order := s.norder }
      cn with
  | none =>
    rw [h1] at ha
    have h2 := Option.map_eq_none'.1 ha
    rw [hdr_emit_none env cn s nh h1, hdr_emit_none env cn t _ h2]
    exact ⟨hp, hst, htask, hno, rfl, hvf, hes, hord, hc, hnh0, hnh1⟩
  | some r1 =>
    rw [h1] at ha
    cases h2 : rspamd_mime_header_add env t.task t.target t.order
        { shift_hdr k nh with order := t.norder } cn with
    | none => rw [h2] at ha; cases ha
    | some r2 =>
      rw [h2] at ha
      simp only [Option.map_some', Option.some.injEq, Prod.mk.injEq] at ha
      rw [hdr_emit_some env cn s nh r1 h1, hdr_emit_some env cn t _ r2 h2]
      refine ⟨hp, rfl, ha.1, ?_, hab, hvf, hes, ha.2, ?_, ?_, ?_⟩
      · show t.norder + 1 = s.norder + 1
        rw [hno]
      · intro h; exact absurd rfl h.1
      · intro _; rfl
      · intro h; exact absurd rfl h.1

theorem line_sim_step (env : Env) (pre inp : Bytes) (cn : Bool) (s t : hdr_state)
    (h : line_sim pre.length s t) :
    line_sim pre.length (hdr_step env inp cn s) (hdr_step env (pre ++ inp) cn t) := by
  obtain ⟨hi, hj, hp, hst, htask, hno, hab, hvf, hes, hord, hc, hnh0, hnh1⟩ := h
  refine ⟨hdr_step_inv env inp cn s hi, hdr_step_inv env (pre ++ inp) cn t hj, ?_⟩
  obtain ⟨hs, h99, h100⟩ := hi
  obtain ⟨-, j99, j100⟩ := hj
  obtain ⟨task, target, order, nh, p, c, state, ns, es, vf, nl, no, ab⟩ := s
  obtain ⟨task1, target1, order1, nh1, p1, c1, state1, ns1, es1, vf1, nl1, no1, ab1⟩ := t
  simp only at hp hst htask hno hab hvf hes hord hc hnh0 hnh1 hs h99 h100 j99 j100
  subst hp hst htask hno hab hvf hes hord
  unfold line_rel
  rcases hs with h | h | h | h | h | h | h | h
  · subst h
    rw [hdr_step_0 _ _ _ _ rfl, hdr_step_0 _ _ _ _ rfl]
    have hn := hnh0 (Or.inl rfl)
    subst hn
    simp only [hdr_case_0, peek_shift]
    split_ifs <;> simp
  · subst h
    rw [hdr_step_1 _ _ _ _ rfl, hdr_step_1 _ _ _ _ rfl]
    have hn := hnh0 (Or.inr (Or.inl rfl))
    have hcc := hc ⟨by decide, by decide⟩
    subst hn hcc
    simp only [hdr_case_1, peek_shift, slice_shift]
    split_ifs
    · simp [shift_hdr, Nat.add_right_comm, Nat.add_sub_add_right]
    · simp
    · simp [Nat.add_right_comm]
  · subst h
    rw [hdr_step_2 _ _ _ _ rfl, hdr_step_2 _ _ _ _ rfl]
    have hn := hnh1 ⟨by decide, by decide, by decide⟩
    have hcc := hc ⟨by decide, by decide⟩
    subst hn hcc
    simp only [hdr_case_2, peek_shift, slice_shift, Nat.add_sub_add_right]
    split_ifs <;> simp [shift_hdr, Nat.add_right_comm]
  · subst h
    rw [hdr_step_3 _ _ _ _ rfl, hdr_step_3 _ _ _ _ rfl]
    have hn := hnh1 ⟨by decide, by decide, by decide⟩
    have hcc := hc ⟨by decide, by decide⟩
    subst hn hcc
    simp only [hdr_case_3, peek_shift, len_shift]
    split_ifs <;> simp [shift_hdr, Nat.add_right_comm]
  · subst h
    rw [hdr_step_4 _ _ _ _ rfl, hdr_step_4 _ _ _ _ rfl]
    have hn := hnh1 ⟨by decide, by decide, by decide⟩
    have hcc := hc ⟨by decide, by decide⟩
    subst hn hcc
    simp only [hdr_case_4, slice_shift, len_shift, shift_raw_value, len_sub_shift,
      Nat.add_sub_add_right]
    cases hd : rspamd_mime_header_decode env (header_value (slice inp c p)) with
    | none =>
      simp only []
      simp [shift_hdr]
      omega
    | some r =>
      obtain ⟨decoded, broken⟩ := r
      simp only []
      refine emit_rel env cn pre.length _ _ _ _ rfl ?_
      refine ⟨rfl, rfl, rfl, rfl, rfl, rfl, rfl, rfl, ?_, ?_, ?_⟩
      · intro _
        show c + pre.length + (p - c) = c + (p - c) + pre.length
        omega
      · intro h
        rcases h with h | h | h <;> cases h
      · intro _; rfl
  · subst h
    rw [hdr_step_5 _ _ _ _ rfl, hdr_step_5 _ _ _ _ rfl]
    have hn := hnh1 ⟨by decide, by decide, by decide⟩
    subst hn
    simp only [hdr_case_5, shift_raw_value, Nat.add_sub_add_right]
    refine emit_rel env cn pre.length _ _ _ _ rfl ?_
    refine ⟨rfl, rfl, rfl, rfl, rfl, rfl, rfl, rfl, ?_, ?_, ?_⟩
    · intro _
      exact hc ⟨by decide, by decide⟩
    · intro h
      rcases h with h | h | h <;> cases h
    · intro _; rfl
  · subst h
    rw [hdr_step_99 _ _ _ _ rfl, hdr_step_99 _ _ _ _ rfl]
    have hn := hnh1 ⟨by decide, by decide, by decide⟩
    have hcc := hc ⟨by decide, by decide⟩
    obtain ⟨hns, hes⟩ := h99 rfl
    have hns1 := (j99 rfl).1
    subst hn hcc hns hns1
    simp only [hdr_case_99, peek_shift, len_shift]
    rcases hes with hes | hes <;> subst hes <;> split_ifs <;> simp [Nat.add_right_comm]
  · subst h
    rw [hdr_step_100 _ _ _ _ rfl, hdr_step_100 _ _ _ _ rfl]
    have hn := hnh0 (Or.inr (Or.inr rfl))
    have hns := h100 rfl
    have hns1 := j100 rfl
    subst hn hns hns1
    simp only [hdr_case_100, peek_shift, peek_shift1, len_shift]
    split_ifs <;> simp [Nat.add_right_comm]

theorem line_sim_loop (env : Env) (pre inp : Bytes) (cn : Bool) (n : Nat) (s t : hdr_state)
    (h : line_sim pre.length s t) :
    line_sim pre.length (hdr_loop env inp cn n s) (hdr_loop env (pre ++ inp) cn n t) := by
  induction n generalizing s t with
  | zero => exact h
  | succ n ih =>
    have hp := h.2.2.1
    have hab := h.2.2.2.2.2.2.1
    have hlen : (pre ++ inp).length = inp.length + pre.length := by
      rw [List.length_append]; omega
    by_cases hg : s.p < inp.length ∧ s.aborted = false
    · rw [hdr_loop_succ _ _ _ _ _ hg.1 hg.2,
        hdr_loop_succ _ _ _ _ _ (by rw [hp, hlen]; omega) (by rw [hab]; exact hg.2)]
      exact ih _ _ (line_sim_step env pre inp cn s t h)
    · have hd : hdr_done inp s := by
        unfold hdr_done
        by_cases hq : s.p < inp.length
        · right
          cases ha : s.aborted with
          | true => rfl
          | false => exact absurd ⟨hq, ha⟩ hg
        · left; omega
      have hd1 : hdr_done (pre ++ inp) t := by
        unfold hdr_done at hd ⊢
        rw [hp, hlen, hab]
        rcases hd with hd | hd
        · left; omega
        · right; exact hd
      rw [hdr_loop_done _ _ _ _ _ hd, hdr_loop_done _ _ _ _ _ hd1]
      exact h

/-- A line of garbage ended by CRLF at the begin of the input is walked over: the loop is
back in state 0 right behind the line break, and nothing but the position, the saved next
state and the newline counters has changed. -/
theorem skip_line (env : Env) (cn : Bool) (task : rspamd_task) (target : HeaderTable)
    (order : List rspamd_mime_header) (g rest : Bytes) (hg : garbage_line g = true) :
    hdr_reach env (g ++ (13 :: 10 :: rest)) cn (hdr_init task target order)
      { task := task, target := target, order := order, state := 0, next_state := 0,
        p := g.length + 2,
        nlines_count := nlines_incr [0, 0, 0] RSPAMD_TASK_NEWLINES_CRLF } := by
  obtain ⟨x, r, hgx, hxa, hgb⟩ : ∃ x r, g = x :: r ∧ g_ascii_isalpha x = false
      ∧ ∀ b ∈ g, b ≠ 13 ∧ b ≠ 10 := by
    cases g with
    | nil => simp [garbage_line] at hg
    | cons x r =>
      simp only [garbage_line, Bool.and_eq_true, Bool.not_eq_true', List.all_eq_true] at hg
      refine ⟨x, r, rfl, hg.1, ?_⟩
      intro b hb
      have := hg.2 b hb
      simpa using this
  have hlen : (g ++ (13 :: 10 :: rest)).length = g.length + 2 + rest.length := by
    simp; omega
  -- state 0 on the first byte
  have hpeek0 : peek (g ++ (13 :: 10 :: rest)) 0 = x := by
    rw [hgx]; rfl
  have hstep0 : hdr_step env (g ++ (13 :: 10 :: rest)) cn (hdr_init task target order)
      = { task := task, target := target, order := order, state := 100, next_state := 0 } := by
    rw [hdr_step_0 _ _ _ _ rfl]
    simp [hdr_case_0, hdr_init, hpeek0, hxa]
  have h0 := hdr_reach_step env (g ++ (13 :: 10 :: rest)) cn (hdr_init task target order)
    (by rw [hlen]; show 0 < _; omega) rfl
  rw [hstep0] at h0
  -- state 100 over the line
  have h1 := run_skip env (g ++ (13 :: 10 :: rest)) cn g.length
    { task := task, target := target, order := order, state := 100, next_state := 0 } rfl rfl
    (by rw [hlen]; show 0 + g.length < _; omega) (by
      intro j hj
      have hm := peek_mid [] g (13 :: 10 :: rest) j hj
      simp only [List.nil_append, List.length_nil, Nat.zero_add] at hm
      show peek _ (0 + j) ≠ 13 ∧ peek _ (0 + j) ≠ 10
      rw [Nat.zero_add]
      exact hgb _ hm)
  -- state 100 on the line break
  have h2 := hdr_reach_step env (g ++ (13 :: 10 :: rest)) cn
    { task := task, target := target, order := order, state := 100, next_state := 0,
      p := 0 + g.length }
    (by rw [hlen]; show 0 + g.length < _; omega) rfl
  have hcr : peek (g ++ (13 :: 10 :: rest)) g.length = 13 := peek_mid_head g _ 13
  have hlf : peek (g ++ (13 :: 10 :: rest)) (g.length + 1) = 10 := by
    have := peek_append_right g (13 :: 10 :: rest) 1
    rw [this]; rfl
  have hstep2 : hdr_step env (g ++ (13 :: 10 :: rest)) cn
      { task := task, target := target, order := order, state := 100, next_state := 0,
        p := 0 + g.length }
      = { task := task, target := target, order := order, state := 0, next_state := 0,
          p := g.length + 2,
          nlines_count := nlines_incr [0, 0, 0] RSPAMD_TASK_NEWLINES_CRLF } := by
    rw [hdr_step_100 _ _ _ _ rfl]
    simp only [hdr_case_100, Nat.zero_add, hcr, hlf, if_true]
  rw [hstep2] at h2
  exact hdr_reach_trans h0 (hdr_reach_trans h1 h2)

theorem skip_line_sim (task : rspamd_task) (target : HeaderTable) (k : Nat) :
    line_sim k (hdr_init task target [])
      { task := task, target := target, order := [], state := 0, next_state := 0, p := k,
        nlines_count := nlines_incr [0, 0, 0] RSPAMD_TASK_NEWLINES_CRLF } := by
  refine ⟨hdr_init_inv task target [], ?_, ?_⟩
  · simp [hdr_inv]
  · simp [line_rel, hdr_init]

/-- A line of garbage ended by CRLF before a header block moves the raw ranges of the
headers of the block by its length, and changes nothing else in the queue. -/
theorem skipped_line_order (env : Env) (task : rspamd_task) (cn : Bool) (g rest : Bytes)
    (hg : garbage_line g = true) :
    (rspamd_mime_headers_process env task [] [] (g ++ [13, 10] ++ rest) cn).order
      = (rspamd_mime_headers_process env task [] [] rest cn).order.map
          (shift_hdr (g.length + 2)) := by
  have hinp : g ++ [13, 10] ++ rest = g ++ (13 :: 10 :: rest) := by simp
  have hpre : (g ++ [13, 10]).length = g.length + 2 := by simp
  rw [(process_order env task [] [] _ cn).1, (process_order env task [] [] rest cn).1]
  have hskip := skip_line env cn task [] [] g rest hg
  rw [← hinp] at hskip
  rw [hdr_reach_loop hskip (hdr_init_inv task [] []) _ (hdr_init_measure task [] [] _)]
  have hsim := line_sim_loop env (g ++ [13, 10]) rest cn (hdr_fuel (g ++ [13, 10] ++ rest))
    _ _ (skip_line_sim task [] (g ++ [13, 10]).length)
  rw [hpre] at hsim
  have hfin : hdr_loop env rest cn (hdr_fuel (g ++ [13, 10] ++ rest)) (hdr_init task [] [])
      = hdr_loop env rest cn (hdr_fuel rest) (hdr_init task [] []) :=
    hdr_reach_final ⟨hdr_fuel rest, rfl⟩ (hdr_loop_exits env task [] [] rest cn)
      (hdr_init_inv task [] []) _ (by
        have := hdr_init_measure task [] [] rest
        unfold hdr_fuel at this ⊢
        simp only [List.length_append]
        omega)
  rw [hfin] at hsim
  exact hsim.2.2.2.2.2.2.2.2.2.1

/-- Claim C32.  Let `G` be a line of garbage: it is not empty, its first byte is no
letter and it holds no CR and no LF.  For every header block `R`, processing `G`, CRLF,
`R` emits the same sequence of headers as processing `R` alone: the same names, values,
decoded values, order indices and type-masks, every other field but the start of the raw
range being the same as well; the raw ranges are moved by the length of the skipped line
and its line break.  The skipped line contributes no header. -/
theorem C32_line_skip_recovery (env : Env) (task : rspamd_task) (cn : Bool) (G R : Bytes)
    (hG : garbage_line G = true) :
    (rspamd_mime_headers_process env task [] [] (G ++ [13, 10] ++ R) cn).order.map
        (fun h => (h.name, h.value, h.decoded, h.order, h.type))
      = (rspamd_mime_headers_process env task [] [] R cn).order.map
        (fun h => (h.name, h.value, h.decoded, h.order, h.type))
    ∧ (rspamd_mime_headers_process env task [] [] (G ++ [13, 10] ++ R) cn).order
      = (rspamd_mime_headers_process env task [] [] R cn).order.map
        (fun h => { h with raw_value := h.raw_value + (G.length + 2) }) := by
  have h := skipped_line_order env task cn G R hG
  refine ⟨?_, h⟩
  rw [h, List.map_map]
  rfl

theorem C32_line_skip_recovery_witness :
    garbage_line (ascii "!x") = true
    ∧ (rspamd_mime_headers_process plain_env {} [] [] (ascii "A: b\nC: d\n") true).order.map
        (fun h => (h.name, h.value, h.decoded, h.order, h.type))
      = [(ascii "A", ascii "b", ascii "b", 0, 0), (ascii "C", ascii "d", ascii "d", 1, 0)]
    ∧ ((rspamd_mime_headers_process plain_env {} [] [] (ascii "!x" ++ [13, 10] ++ ascii "A: b\nC: d\n")
          true).order.map (fun h => (h.name, h.value, h.decoded, h.order, h.type))
        = (rspamd_mime_headers_process plain_env {} [] [] (ascii "A: b\nC: d\n") true).order.map
          (fun h => (h.name, h.value, h.decoded, h.order, h.type))
      ∧ (rspamd_mime_headers_process plain_env {} [] [] (ascii "!x" ++ [13, 10] ++ ascii "A: b\nC: d\n")
          true).order
        = (rspamd_mime_headers_process plain_env {} [] [] (ascii "A: b\nC: d\n") true).order.map
          (fun h => { h with raw_value := h.raw_value + ((ascii "!x").length + 2) })) :=
  ⟨by decide, by decide,
   C32_line_skip_recovery plain_env {} true (ascii "!x") (ascii "A: b\nC: d\n") (by decide)⟩

end Rspamd
